import Mathlib

/-! # Differentiable-physics gradient snapshot: embedding and verified properties

Shallow embedding of `dart/neural/BackpropSnapshot.cpp` and its neighbours.

* Scalars (`double`) are exact rationals: every statement is about exact arithmetic.
* `Eigen::MatrixXd` / `Eigen::VectorXd` are dynamically sized: the shape is data, and an
  operation whose Eigen precondition fails (mismatched shapes, block out of range) aborts.
* Storage obtained from `Eigen::VectorXd(n)` holds no value until a coefficient is assigned.
* A `WorldPtr` argument becomes explicit state passing: a routine that touches the world returns
  the world it leaves behind.
-/

set_option autoImplicit false

/-! ## Dense linear algebra with run-time shapes -/

/-- The ways in which a routine stops without returning. -/
inductive Abort where
  /-- A precondition of an Eigen operation does not hold (shape mismatch, index out of range). -/
  | eigenAssertion
  /-- A null skeleton pointer is dereferenced. -/
  | nullPointer
  /-- An `assert` of the source fails. -/
  | assertion
  /-- A coefficient that was never assigned is read. -/
  | uninitializedRead
  deriving DecidableEq

/-- The outcome of a routine: a value, or an abort. -/
abbrev Result (α : Type) : Type := Except Abort α

/-- Dynamically sized dense matrix, the counterpart of `Eigen::MatrixXd`. -/
structure MatrixXd where
  rows : Nat
  cols : Nat
  coeff : Matrix (Fin rows) (Fin cols) ℚ

/-- Dynamically sized dense column vector, the counterpart of `Eigen::VectorXd`. -/
structure VectorXd where
  size : Nat
  coeff : Fin size → ℚ

/-- Storage of a vector created by `Eigen::VectorXd(n)`: a coefficient is `none` until assigned. -/
structure UninitVectorXd where
  size : Nat
  coeff : Fin size → Option ℚ

namespace MatrixXd

/-- Number of coefficients, `rows() * cols()`. -/
def size (A : MatrixXd) : Nat := A.rows * A.cols

/-- The matrix `Eigen::MatrixXd::Zero(r, c)`. -/
def Zero (r c : Nat) : MatrixXd := ⟨r, c, 0⟩

/-- The matrix `Eigen::MatrixXd::Identity(r, c)`. -/
def Identity (r c : Nat) : MatrixXd := ⟨r, c, fun i j => if i.val = j.val then 1 else 0⟩

/-- The matrix `A.transpose()`. -/
def transpose (A : MatrixXd) : MatrixXd := ⟨A.cols, A.rows, A.coeff.transpose⟩

/-- Scalar multiple `a * A`. -/
def smul (a : ℚ) (A : MatrixXd) : MatrixXd := ⟨A.rows, A.cols, a • A.coeff⟩

/-- Unary minus `-A`. -/
def neg (A : MatrixXd) : MatrixXd := ⟨A.rows, A.cols, -A.coeff⟩

/-- Sum `A + B`; the shapes must agree. -/
def add (A B : MatrixXd) : Result MatrixXd :=
  if h : A.rows = B.rows ∧ A.cols = B.cols then
    .ok ⟨A.rows, A.cols, A.coeff + B.coeff.submatrix (Fin.cast h.1) (Fin.cast h.2)⟩
  else .error .eigenAssertion

/-- Difference `A - B`; the shapes must agree. -/
def sub (A B : MatrixXd) : Result MatrixXd :=
  if h : A.rows = B.rows ∧ A.cols = B.cols then
    .ok ⟨A.rows, A.cols, A.coeff - B.coeff.submatrix (Fin.cast h.1) (Fin.cast h.2)⟩
  else .error .eigenAssertion

/-- Product `A * B`; the inner dimensions must agree. -/
def mul (A B : MatrixXd) : Result MatrixXd :=
  if h : A.cols = B.rows then
    .ok ⟨A.rows, B.cols, A.coeff * B.coeff.submatrix (Fin.cast h) id⟩
  else .error .eigenAssertion

/-- Matrix-vector product `A * v`. -/
def mulVec (A : MatrixXd) (v : VectorXd) : Result VectorXd :=
  if h : A.cols = v.size then
    .ok ⟨A.rows, A.coeff.mulVec (fun k => v.coeff (Fin.cast h k))⟩
  else .error .eigenAssertion

/-- Read access to `A.block(r, c, h, w)`. -/
def block (A : MatrixXd) (r c h w : Nat) : Result MatrixXd :=
  if hb : r + h ≤ A.rows ∧ c + w ≤ A.cols then
    .ok ⟨h, w, fun i j => A.coeff ⟨r + i.val, by omega⟩ ⟨c + j.val, by omega⟩⟩
  else .error .eigenAssertion

/-- The assignment `J.block(r, c, h, w) = B`: the block must lie inside `J` and `B` must be
`h × w`. -/
def setBlock (J : MatrixXd) (r c h w : Nat) (B : MatrixXd) : Result MatrixXd :=
  if hb : B.rows = h ∧ B.cols = w ∧ r + h ≤ J.rows ∧ c + w ≤ J.cols then
    .ok ⟨J.rows, J.cols, fun i j =>
      if hij : (r ≤ i.val ∧ i.val < r + h) ∧ (c ≤ j.val ∧ j.val < c + w) then
        B.coeff ⟨i.val - r, by omega⟩ ⟨j.val - c, by omega⟩
      else J.coeff i j⟩
  else .error .eigenAssertion

/-- The assignment `J.col(i) = v`. -/
def setCol (J : MatrixXd) (i : Nat) (v : VectorXd) : Result MatrixXd :=
  if hb : v.size = J.rows ∧ i < J.cols then
    .ok ⟨J.rows, J.cols, fun r c =>
      if c.val = i then v.coeff (Fin.cast hb.1.symm r) else J.coeff r c⟩
  else .error .eigenAssertion

/-- Read access to the column `A.col(i)`. -/
def col (A : MatrixXd) (i : Nat) : Result VectorXd :=
  if h : i < A.cols then .ok ⟨A.rows, fun r => A.coeff r ⟨i, h⟩⟩
  else .error .eigenAssertion

end MatrixXd

namespace VectorXd

/-- The vector `Eigen::VectorXd::Zero(n)`. -/
def Zero (n : Nat) : VectorXd := ⟨n, fun _ => 0⟩

/-- Scalar multiple `a * v`. -/
def smul (a : ℚ) (v : VectorXd) : VectorXd := ⟨v.size, a • v.coeff⟩

/-- Coefficient-wise quotient `v / c`. -/
def div (v : VectorXd) (c : ℚ) : VectorXd := ⟨v.size, fun i => v.coeff i / c⟩

/-- Sum `u + v`; the sizes must agree. -/
def add (u v : VectorXd) : Result VectorXd :=
  if h : u.size = v.size then .ok ⟨u.size, fun i => u.coeff i + v.coeff (Fin.cast h i)⟩
  else .error .eigenAssertion

/-- Difference `u - v`; the sizes must agree. -/
def sub (u v : VectorXd) : Result VectorXd :=
  if h : u.size = v.size then .ok ⟨u.size, fun i => u.coeff i - v.coeff (Fin.cast h i)⟩
  else .error .eigenAssertion

/-- Read access to `v.segment(start, n)`. -/
def segment (v : VectorXd) (start n : Nat) : Result VectorXd :=
  if h : start + n ≤ v.size then .ok ⟨n, fun i => v.coeff ⟨start + i.val, by omega⟩⟩
  else .error .eigenAssertion

/-- The assignment `v.segment(start, n) = x`. -/
def setSegment (v : VectorXd) (start n : Nat) (x : VectorXd) : Result VectorXd :=
  if h : x.size = n ∧ start + n ≤ v.size then
    .ok ⟨v.size, fun i =>
      if hi : start ≤ i.val ∧ i.val < start + n then x.coeff ⟨i.val - start, by omega⟩
      else v.coeff i⟩
  else .error .eigenAssertion

/-- The assignment `v(i) += eps`. -/
def addAt (v : VectorXd) (i : Nat) (eps : ℚ) : Result VectorXd :=
  if i < v.size then .ok ⟨v.size, fun k => if k.val = i then v.coeff k + eps else v.coeff k⟩
  else .error .eigenAssertion

/-- Read access to the coefficient `v(i)`. -/
def coeffAt (v : VectorXd) (i : Nat) : Result ℚ :=
  if h : i < v.size then .ok (v.coeff ⟨i, h⟩) else .error .eigenAssertion

/-- The assignment `v(i) = x`. -/
def setAt (v : VectorXd) (i : Nat) (x : ℚ) : Result VectorXd :=
  if i < v.size then .ok ⟨v.size, fun k => if k.val = i then x else v.coeff k⟩
  else .error .eigenAssertion

/-- A column vector seen as a matrix with one column. -/
def asMatrix (v : VectorXd) : MatrixXd := ⟨v.size, 1, fun i _ => v.coeff i⟩

/-- The diagonal matrix `v.asDiagonal()`. -/
def asDiagonal (v : VectorXd) : MatrixXd := ⟨v.size, v.size, Matrix.diagonal v.coeff⟩

end VectorXd

namespace UninitVectorXd

/-- Fresh storage `Eigen::VectorXd(n)`: no coefficient has a value yet. -/
def alloc (n : Nat) : UninitVectorXd := ⟨n, fun _ => none⟩

/-- A fully initialised vector seen as storage. -/
def ofVector (v : VectorXd) : UninitVectorXd := ⟨v.size, fun i => some (v.coeff i)⟩

/-- Whether every coefficient of the range `[start, start + n)` has been assigned. -/
def assignedOn (v : UninitVectorXd) (start n : Nat) : Bool :=
  decide (∀ i : Fin v.size, start ≤ i.val → i.val < start + n → (v.coeff i).isSome = true)

/-- Read access to `v.segment(start, n)`; a coefficient that was never assigned has no value to
read. -/
def segment (v : UninitVectorXd) (start n : Nat) : Result VectorXd :=
  if h : start + n ≤ v.size then
    if v.assignedOn start n then
      .ok ⟨n, fun i => (v.coeff ⟨start + i.val, by omega⟩).getD 0⟩
    else .error .uninitializedRead
  else .error .eigenAssertion

/-- The whole vector, when all of it has been assigned. -/
def read (v : UninitVectorXd) : Result VectorXd := v.segment 0 v.size

/-- The assignment `v.segment(start, n) = x`. -/
def setSegment (v : UninitVectorXd) (start n : Nat) (x : VectorXd) : Result UninitVectorXd :=
  if h : x.size = n ∧ start + n ≤ v.size then
    .ok ⟨v.size, fun i =>
      if hi : start ≤ i.val ∧ i.val < start + n then some (x.coeff ⟨i.val - start, by omega⟩)
      else v.coeff i⟩
  else .error .eigenAssertion

end UninitVectorXd

/-! ### Eigen expressions

An expression such as `A_c + A_ub * E` is evaluated on operands that may have aborted: it aborts
as soon as one of its operations does. -/

instance : Coe MatrixXd (Result MatrixXd) := ⟨Except.ok⟩
instance : Coe VectorXd (Result VectorXd) := ⟨Except.ok⟩
instance : Add (Result MatrixXd) := ⟨fun A B => A.bind fun a => B.bind fun b => a.add b⟩
instance : Sub (Result MatrixXd) := ⟨fun A B => A.bind fun a => B.bind fun b => a.sub b⟩
instance : Mul (Result MatrixXd) := ⟨fun A B => A.bind fun a => B.bind fun b => a.mul b⟩
instance : Neg (Result MatrixXd) := ⟨fun A => A.map MatrixXd.neg⟩
instance : SMul ℚ (Result MatrixXd) := ⟨fun c A => A.map (MatrixXd.smul c)⟩
instance : Add (Result VectorXd) := ⟨fun u v => u.bind fun a => v.bind fun b => a.add b⟩
instance : Sub (Result VectorXd) := ⟨fun u v => u.bind fun a => v.bind fun b => a.sub b⟩
instance : SMul ℚ (Result VectorXd) := ⟨fun c v => v.map (VectorXd.smul c)⟩

/-- Matrix-vector product of two expressions. -/
def MatrixXd.mulVecExpr (A : Result MatrixXd) (v : Result VectorXd) : Result VectorXd :=
  A.bind fun a => v.bind fun b => a.mulVec b

/-- The value behind a pointer that must not be null. -/
def deref {α : Type} : Option α → Result α
  | some a => .ok a
  | none => .error .nullPointer

/-! ## The simulation world, as seen through the interface the snapshot consumes -/

/-- The mutable part of the world: what `setPositions`, `setVelocities`, `setForces`,
`setTimeStep`, the solver flags and the with-respect-to setters act on. -/
structure WorldState where
  positions : VectorXd
  velocities : VectorXd
  forces : VectorXd
  timeStep : ℚ
  gradientEnabled : Bool
  penetrationCorrectionEnabled : Bool
  linkMasses : VectorXd
  linkCOMs : VectorXd
  linkMOIs : VectorXd

/-- The triple `{lossWrtPosition, lossWrtVelocity, lossWrtTorque}`. -/
structure LossGradient where
  lossWrtPosition : UninitVectorXd
  lossWrtVelocity : UninitVectorXd
  lossWrtTorque : UninitVectorXd

/-- Modelled from the spec: the class `ConstrainedGroupGradientMatrices` (its implementation file
is not among the sources). One finalized constrained group: its member skeletons by name, its
sizes, the derived matrices and diagonals, and its own implicit backprop, which maps the world
state, the pre-allocated group loss of this timestep and the group loss of the next timestep to
the group loss of this timestep. -/
structure ConstrainedGroupGradientMatrices where
  mSkeletons : List String
  mNumDOFs : Nat
  mNumConstraintDim : Nat
  mClampingConstraintMatrix : MatrixXd
  mMassedClampingConstraintMatrix : MatrixXd
  mUpperBoundConstraintMatrix : MatrixXd
  mMassedUpperBoundConstraintMatrix : MatrixXd
  mUpperBoundMappingMatrix : MatrixXd
  mBouncingConstraintMatrix : MatrixXd
  mBounceDiagonals : VectorXd
  mRestitutionDiagonals : VectorXd
  mContactConstraintImpulses : VectorXd
  mPenetrationCorrectionVelocities : VectorXd
  mContactConstraintMappings : List Int
  backprop : WorldState → LossGradient → LossGradient → LossGradient

/-- A `std::shared_ptr`: the address decides pointer equality. -/
structure SharedPtr (α : Type) where
  addr : Nat
  obj : α

/-- One skeleton of the world. The dynamics engine is an external collaborator: its per-skeleton
matrices are functions of the world state, of the shape the engine guarantees. -/
structure Skeleton where
  name : String
  numDofs : Nat
  mobile : Bool
  gradientConstraintMatrices : Option (SharedPtr ConstrainedGroupGradientMatrices)
  massMatrix : WorldState → Matrix (Fin numDofs) (Fin numDofs) ℚ
  invMassMatrix : WorldState → Matrix (Fin numDofs) (Fin numDofs) ℚ
  posCJacobian : WorldState → Matrix (Fin numDofs) (Fin numDofs) ℚ
  velCJacobian : WorldState → Matrix (Fin numDofs) (Fin numDofs) ℚ

namespace Skeleton

/-- The call `skel->getMassMatrix()` in world state `st`. -/
def getMassMatrix (skel : Skeleton) (st : WorldState) : MatrixXd :=
  ⟨skel.numDofs, skel.numDofs, skel.massMatrix st⟩

/-- The call `skel->getInvMassMatrix()` in world state `st`. -/
def getInvMassMatrix (skel : Skeleton) (st : WorldState) : MatrixXd :=
  ⟨skel.numDofs, skel.numDofs, skel.invMassMatrix st⟩

/-- The call `skel->getPosCJacobian()` in world state `st`. -/
def getPosCJacobian (skel : Skeleton) (st : WorldState) : MatrixXd :=
  ⟨skel.numDofs, skel.numDofs, skel.posCJacobian st⟩

/-- The call `skel->getVelCJacobian()` in world state `st`. -/
def getVelCJacobian (skel : Skeleton) (st : WorldState) : MatrixXd :=
  ⟨skel.numDofs, skel.numDofs, skel.velCJacobian st⟩

/-- Modelled from the spec: `Skeleton::multiplyByImplicitMassMatrix` (the skeleton class is not
among the sources), which returns `M * x` without explicitly forming `M`. -/
def multiplyByImplicitMassMatrix (skel : Skeleton) (st : WorldState) (x : VectorXd) :
    Result VectorXd :=
  (skel.getMassMatrix st).mulVec x

/-- Modelled from the spec: `Skeleton::multiplyByImplicitInvMassMatrix` (the skeleton class is not
among the sources), which returns `Minv * x` without explicitly forming `Minv`. -/
def multiplyByImplicitInvMassMatrix (skel : Skeleton) (st : WorldState) (x : VectorXd) :
    Result VectorXd :=
  (skel.getInvMassMatrix st).mulVec x

end Skeleton

/-- The world: its ordered skeletons, its mutable state and the whole-world force vector that the
dynamics engine supplies. -/
structure World where
  skeletons : List Skeleton
  state : WorldState
  coriolisAndGravityAndExternalForces : WorldState → VectorXd

namespace World

/-- Total number of degrees of freedom, `world->getNumDofs()`. -/
def getNumDofs (w : World) : Nat := (w.skeletons.map Skeleton.numDofs).sum

/-- Number of skeletons, `world->getNumSkeletons()`. -/
def getNumSkeletons (w : World) : Nat := w.skeletons.length

/-- Lookup by name, `world->getSkeleton(name)`; `none` is the null pointer. -/
def getSkeleton (w : World) (name : String) : Option Skeleton :=
  w.skeletons.find? (fun sk => sk.name == name)

def getPositions (w : World) : VectorXd := w.state.positions
def getVelocities (w : World) : VectorXd := w.state.velocities
def getForces (w : World) : VectorXd := w.state.forces
def getTimeStep (w : World) : ℚ := w.state.timeStep
def getLinkMasses (w : World) : VectorXd := w.state.linkMasses
def getLinkCOMs (w : World) : VectorXd := w.state.linkCOMs
def getLinkMOIs (w : World) : VectorXd := w.state.linkMOIs
def getLinkMassesDims (w : World) : Nat := w.state.linkMasses.size
def getLinkCOMDims (w : World) : Nat := w.state.linkCOMs.size
def getLinkMOIDims (w : World) : Nat := w.state.linkMOIs.size

def setPositions (w : World) (v : VectorXd) : World :=
  { w with state := { w.state with positions := v } }

def setVelocities (w : World) (v : VectorXd) : World :=
  { w with state := { w.state with velocities := v } }

def setForces (w : World) (v : VectorXd) : World :=
  { w with state := { w.state with forces := v } }

def setTimeStep (w : World) (dt : ℚ) : World :=
  { w with state := { w.state with timeStep := dt } }

def setLinkMasses (w : World) (v : VectorXd) : World :=
  { w with state := { w.state with linkMasses := v } }

def setLinkCOMs (w : World) (v : VectorXd) : World :=
  { w with state := { w.state with linkCOMs := v } }

def setLinkMOIs (w : World) (v : VectorXd) : World :=
  { w with state := { w.state with linkMOIs := v } }

/-- The call `world->getCoriolisAndGravityAndExternalForces()`. -/
def getCoriolisAndGravityAndExternalForces (w : World) : VectorXd :=
  w.coriolisAndGravityAndExternalForces w.state

/-- Diagonal blocks of the world inverse mass matrix, one per skeleton, written at a running
cursor into `J`. -/
def invMassBlocks (st : WorldState) : List Skeleton → Nat → MatrixXd → Result MatrixXd
  | [], _, J => .ok J
  | skel :: rest, cursor, J => do
    let J ← J.setBlock cursor cursor skel.numDofs skel.numDofs (skel.getInvMassMatrix st)
    invMassBlocks st rest (cursor + skel.numDofs) J

/-- Modelled from the spec: `World::getInvMassMatrix` (the world class is not among the sources):
the inverse mass matrix for the whole world, a block diagonal concatenation of the skeleton
inverse mass matrices. -/
def getInvMassMatrix (w : World) : Result MatrixXd :=
  invMassBlocks w.state w.skeletons 0 (MatrixXd.Zero w.getNumDofs w.getNumDofs)

end World

/-- The external Eigen decomposition `completeOrthogonalDecomposition()`: its pseudo-inverse, of
the transposed shape. -/
structure CompleteOrthogonalDecomposition where
  pseudoInverse : (m n : Nat) → Matrix (Fin m) (Fin n) ℚ → Matrix (Fin n) (Fin m) ℚ

namespace CompleteOrthogonalDecomposition

/-- The matrix `A.completeOrthogonalDecomposition().pseudoInverse()`. -/
def pinv (cod : CompleteOrthogonalDecomposition) (A : MatrixXd) : MatrixXd :=
  ⟨A.cols, A.rows, cod.pseudoInverse A.rows A.cols A.coeff⟩

/-- The minimum-norm least-squares solution `A.completeOrthogonalDecomposition().solve(B)`, that
is `pinv(A) * B`; `B` must have as many rows as `A`. -/
def solve (cod : CompleteOrthogonalDecomposition) (A B : MatrixXd) : Result MatrixXd :=
  (cod.pinv A).mul B

/-- The same solve with a vector right-hand side. -/
def solveVec (cod : CompleteOrthogonalDecomposition) (A : MatrixXd) (b : VectorXd) :
    Result VectorXd :=
  (cod.pinv A).mulVec b

end CompleteOrthogonalDecomposition

/-! ## The gradient snapshot -/

/-- The differentiation variable selector. -/
inductive WithRespectTo where
  | POSITION
  | LINK_MASSES
  | LINK_COMS
  | LINK_MOIS
  deriving DecidableEq

/-- Selector of `assembleMatrix`. -/
inductive MatrixToAssemble where
  | CLAMPING
  | MASSED_CLAMPING
  | UPPER_BOUND
  | MASSED_UPPER_BOUND
  | BOUNCING
  deriving DecidableEq

/-- Selector of `assembleBlockDiagonalMatrix`. -/
inductive BlockDiagonalMatrixToAssemble where
  | MASS
  | INV_MASS
  | POS_C
  | VEL_C
  deriving DecidableEq

/-- Selector of `assembleVector`. -/
inductive VectorToAssemble where
  | CONTACT_CONSTRAINT_IMPULSES
  | CONTACT_CONSTRAINT_MAPPINGS
  | BOUNCE_DIAGONALS
  | RESTITUTION_DIAGONALS
  | PENETRATION_VELOCITY_HACK
  deriving DecidableEq

/-- The fields of `BackpropSnapshot`. The offset table `mSkeletonOffset` is an association list
whose first binding of a name is the current one. -/
structure BackpropSnapshot where
  mTimeStep : ℚ
  mPreStepPosition : VectorXd
  mPreStepVelocity : VectorXd
  mPreStepTorques : VectorXd
  mPostStepPosition : VectorXd
  mPostStepVelocity : VectorXd
  mPostStepTorques : VectorXd
  mNumDOFs : Nat
  mNumConstraintDim : Nat
  mNumClamping : Nat
  mNumUpperBound : Nat
  mNumBouncing : Nat
  mSkeletonOffset : List (String × Nat)
  mGradientMatrices : List (SharedPtr ConstrainedGroupGradientMatrices)

namespace BackpropSnapshot

/-- The read `mSkeletonOffset[name]`; a name that is absent reads as the default `0` (the entry
that `operator[]` would insert is never observable through another read). -/
def skeletonOffset (s : BackpropSnapshot) (name : String) : Nat :=
  (s.mSkeletonOffset.lookup name).getD 0

/-- One iteration of the constructor's loop over the skeletons of the world. -/
def constructorStep (s : BackpropSnapshot) (skel : Skeleton) : BackpropSnapshot :=
  let s1 : BackpropSnapshot :=
    { s with
      mSkeletonOffset := (skel.name, s.mNumDOFs) :: s.mSkeletonOffset
      mNumDOFs := s.mNumDOFs + skel.numDofs }
  match skel.gradientConstraintMatrices with
  | none => s1
  | some gradientMatrix =>
    if s1.mGradientMatrices.all (fun g => g.addr != gradientMatrix.addr) then
      { s1 with
        mGradientMatrices := s1.mGradientMatrices ++ [gradientMatrix]
        mNumConstraintDim := s1.mNumConstraintDim + gradientMatrix.obj.mNumConstraintDim
        mNumClamping := s1.mNumClamping + gradientMatrix.obj.mClampingConstraintMatrix.cols
        mNumUpperBound := s1.mNumUpperBound + gradientMatrix.obj.mUpperBoundConstraintMatrix.cols
        mNumBouncing := s1.mNumBouncing + gradientMatrix.obj.mBouncingConstraintMatrix.cols }
    else s1

/-- The constructor `BackpropSnapshot(world, preStepPosition, preStepVelocity, preStepTorques)`. -/
def create (world : World) (preStepPosition preStepVelocity preStepTorques : VectorXd) :
    BackpropSnapshot :=
  world.skeletons.foldl constructorStep
    { mTimeStep := world.getTimeStep
      mPreStepPosition := preStepPosition
      mPreStepVelocity := preStepVelocity
      mPreStepTorques := preStepTorques
      mPostStepPosition := world.getPositions
      mPostStepVelocity := world.getVelocities
      mPostStepTorques := world.getForces
      mNumDOFs := 0
      mNumConstraintDim := 0
      mNumClamping := 0
      mNumUpperBound := 0
      mNumBouncing := 0
      mSkeletonOffset := []
      mGradientMatrices := [] }

/-- The group matrix that `assembleMatrix` reads for the selector. -/
def groupMatrixToAssemble (g : ConstrainedGroupGradientMatrices) : MatrixToAssemble → MatrixXd
  | .CLAMPING => g.mClampingConstraintMatrix
  | .MASSED_CLAMPING => g.mMassedClampingConstraintMatrix
  | .UPPER_BOUND => g.mUpperBoundConstraintMatrix
  | .MASSED_UPPER_BOUND => g.mMassedUpperBoundConstraintMatrix
  | .BOUNCING => g.mBouncingConstraintMatrix

/-- The number of columns `assembleMatrix` allocates for the selector. -/
def numColsToAssemble (s : BackpropSnapshot) : MatrixToAssemble → Nat
  | .CLAMPING => s.mNumClamping
  | .MASSED_CLAMPING => s.mNumClamping
  | .UPPER_BOUND => s.mNumUpperBound
  | .MASSED_UPPER_BOUND => s.mNumUpperBound
  | .BOUNCING => s.mNumBouncing

/-- Inner loop of `assembleMatrix`: the rows of one group matrix are copied, skeleton by
skeleton, to the skeleton's world offset. -/
def assembleGroupRows (s : BackpropSnapshot) (world : World) (groupMatrix : MatrixXd)
    (constraintCursor : Nat) : List String → Nat → MatrixXd → Result MatrixXd
  | [], _, matrix => .ok matrix
  | name :: rest, dofCursorGroup, matrix => do
    let skel ← deref (world.getSkeleton name)
    let dofCursorWorld := s.skeletonOffset skel.name
    let src ← groupMatrix.block dofCursorGroup 0 skel.numDofs groupMatrix.cols
    let matrix ← matrix.setBlock dofCursorWorld constraintCursor skel.numDofs groupMatrix.cols src
    assembleGroupRows s world groupMatrix constraintCursor rest (dofCursorGroup + skel.numDofs)
      matrix

/-- Outer loop of `assembleMatrix` over the constraint groups. -/
def assembleGroups (s : BackpropSnapshot) (world : World) (whichMatrix : MatrixToAssemble) :
    List (SharedPtr ConstrainedGroupGradientMatrices) → Nat → MatrixXd → Result MatrixXd
  | [], _, matrix => .ok matrix
  | g :: rest, constraintCursor, matrix => do
    let groupMatrix := groupMatrixToAssemble g.obj whichMatrix
    let matrix ← assembleGroupRows s world groupMatrix constraintCursor g.obj.mSkeletons 0 matrix
    assembleGroups s world whichMatrix rest (constraintCursor + groupMatrix.cols) matrix

/-- The routine `assembleMatrix(world, whichMatrix)`. -/
def assembleMatrix (s : BackpropSnapshot) (world : World) (whichMatrix : MatrixToAssemble) :
    Result MatrixXd :=
  assembleGroups s world whichMatrix s.mGradientMatrices 0
    (MatrixXd.Zero s.mNumDOFs (s.numColsToAssemble whichMatrix))

def getClampingConstraintMatrix (s : BackpropSnapshot) (world : World) : Result MatrixXd :=
  s.assembleMatrix world .CLAMPING

def getMassedClampingConstraintMatrix (s : BackpropSnapshot) (world : World) : Result MatrixXd :=
  s.assembleMatrix world .MASSED_CLAMPING

def getUpperBoundConstraintMatrix (s : BackpropSnapshot) (world : World) : Result MatrixXd :=
  s.assembleMatrix world .UPPER_BOUND

def getMassedUpperBoundConstraintMatrix (s : BackpropSnapshot) (world : World) :
    Result MatrixXd :=
  s.assembleMatrix world .MASSED_UPPER_BOUND

def getBouncingConstraintMatrix (s : BackpropSnapshot) (world : World) : Result MatrixXd :=
  s.assembleMatrix world .BOUNCING

/-- Second loop of `getUpperBoundMappingMatrix`: each group mapping matrix is written at the
running pair of cursors. -/
def mappingBlocks : List (SharedPtr ConstrainedGroupGradientMatrices) → Nat → Nat → MatrixXd →
    Result MatrixXd
  | [], _, _, mappingMatrix => .ok mappingMatrix
  | g :: rest, cursorUpperBound, cursorClamping, mappingMatrix => do
    let groupMappingMatrix := g.obj.mUpperBoundMappingMatrix
    let mappingMatrix ← mappingMatrix.setBlock cursorUpperBound cursorClamping
      groupMappingMatrix.rows groupMappingMatrix.cols groupMappingMatrix
    mappingBlocks rest (cursorUpperBound + groupMappingMatrix.rows)
      (cursorClamping + groupMappingMatrix.cols) mappingMatrix

/-- The routine `getUpperBoundMappingMatrix()`. -/
def getUpperBoundMappingMatrix (s : BackpropSnapshot) : Result MatrixXd :=
  let numUpperBound :=
    (s.mGradientMatrices.map fun g => g.obj.mUpperBoundConstraintMatrix.cols).sum
  let numClamping :=
    (s.mGradientMatrices.map fun g => g.obj.mClampingConstraintMatrix.cols).sum
  mappingBlocks s.mGradientMatrices 0 0 (MatrixXd.Zero numUpperBound numClamping)

/-- The skeleton matrix that `assembleBlockDiagonalMatrix` reads for the selector. -/
def skeletonMatrixToAssemble (skel : Skeleton) (st : WorldState) :
    BlockDiagonalMatrixToAssemble → MatrixXd
  | .MASS => skel.getMassMatrix st
  | .INV_MASS => skel.getInvMassMatrix st
  | .POS_C => skel.getPosCJacobian st
  | .VEL_C => skel.getVelCJacobian st

/-- The loop of `assembleBlockDiagonalMatrix` over the skeletons of the world. -/
def assembleDiagonalBlocks (world : World) (whichMatrix : BlockDiagonalMatrixToAssemble) :
    List Skeleton → Nat → MatrixXd → Result MatrixXd
  | [], _, J => .ok J
  | skel :: rest, cursor, J => do
    let skelDOF := skel.numDofs
    let J ← J.setBlock cursor cursor skelDOF skelDOF
      (skeletonMatrixToAssemble skel world.state whichMatrix)
    assembleDiagonalBlocks world whichMatrix rest (cursor + skelDOF) J

/-- The routine `assembleBlockDiagonalMatrix(world, whichMatrix, forFiniteDifferencing)`; the
second component is the world it leaves behind. -/
def assembleBlockDiagonalMatrix (s : BackpropSnapshot) (world : World)
    (whichMatrix : BlockDiagonalMatrixToAssemble) (forFiniteDifferencing : Bool) :
    Result (MatrixXd × World) := do
  let J := MatrixXd.Zero s.mNumDOFs s.mNumDOFs
  let oldPositions := world.getPositions
  let oldVelocities := world.getVelocities
  let world :=
    if !forFiniteDifferencing then
      (world.setPositions s.mPreStepPosition).setVelocities s.mPreStepVelocity
    else world
  let J ← assembleDiagonalBlocks world whichMatrix world.skeletons 0 J
  let world :=
    if !forFiniteDifferencing then
      (world.setPositions oldPositions).setVelocities oldVelocities
    else world
  return (J, world)

def getMassMatrix (s : BackpropSnapshot) (world : World) (forFiniteDifferencing : Bool) :
    Result (MatrixXd × World) :=
  s.assembleBlockDiagonalMatrix world .MASS forFiniteDifferencing

def getInvMassMatrix (s : BackpropSnapshot) (world : World) (forFiniteDifferencing : Bool) :
    Result (MatrixXd × World) :=
  s.assembleBlockDiagonalMatrix world .INV_MASS forFiniteDifferencing

def getPosCJacobian (s : BackpropSnapshot) (world : World) : Result (MatrixXd × World) :=
  s.assembleBlockDiagonalMatrix world .POS_C false

def getVelCJacobian (s : BackpropSnapshot) (world : World) : Result (MatrixXd × World) :=
  s.assembleBlockDiagonalMatrix world .VEL_C false

/-- The group vector that `assembleVector<Eigen::VectorXd>` reads for the selector; the integer
mappings are not a `VectorXd` (the source asserts). -/
def getVectorToAssemble (g : ConstrainedGroupGradientMatrices) : VectorToAssemble → Result VectorXd
  | .BOUNCE_DIAGONALS => .ok g.mBounceDiagonals
  | .RESTITUTION_DIAGONALS => .ok g.mRestitutionDiagonals
  | .CONTACT_CONSTRAINT_IMPULSES => .ok g.mContactConstraintImpulses
  | .PENETRATION_VELOCITY_HACK => .ok g.mPenetrationCorrectionVelocities
  | .CONTACT_CONSTRAINT_MAPPINGS => .error .assertion

/-- First loop of `assembleVector`: the total size. -/
def assembledVectorSize (whichVector : VectorToAssemble) :
    List (SharedPtr ConstrainedGroupGradientMatrices) → Nat → Result Nat
  | [], size => .ok size
  | g :: rest, size => do
    let vec ← getVectorToAssemble g.obj whichVector
    assembledVectorSize whichVector rest (size + vec.size)

/-- Second loop of `assembleVector`: each group vector is copied at the running cursor. -/
def collectVectors (whichVector : VectorToAssemble) :
    List (SharedPtr ConstrainedGroupGradientMatrices) → Nat → UninitVectorXd →
      Result UninitVectorXd
  | [], _, collected => .ok collected
  | g :: rest, cursor, collected => do
    let vec ← getVectorToAssemble g.obj whichVector
    let collected ← collected.setSegment cursor vec.size vec
    collectVectors whichVector rest (cursor + vec.size) collected

/-- The routine `assembleVector<Eigen::VectorXd>(whichVector)`. -/
def assembleVector (s : BackpropSnapshot) (whichVector : VectorToAssemble) : Result VectorXd :=
  match s.mGradientMatrices with
  | [g] => getVectorToAssemble g.obj whichVector
  | groups => do
    let size ← assembledVectorSize whichVector groups 0
    let collected ← collectVectors whichVector groups 0 (UninitVectorXd.alloc size)
    collected.read

def getContactConstraintImpluses (s : BackpropSnapshot) : Result VectorXd :=
  s.assembleVector .CONTACT_CONSTRAINT_IMPULSES

def getBounceDiagonals (s : BackpropSnapshot) : Result VectorXd :=
  s.assembleVector .BOUNCE_DIAGONALS

def getRestitutionDiagonals (s : BackpropSnapshot) : Result VectorXd :=
  s.assembleVector .RESTITUTION_DIAGONALS

def getPenetrationCorrectionVelocities (s : BackpropSnapshot) : Result VectorXd :=
  s.assembleVector .PENETRATION_VELOCITY_HACK

def hasBounces (s : BackpropSnapshot) : Bool := decide (s.mNumBouncing > 0)

def getNumClamping (s : BackpropSnapshot) : Nat := s.mNumClamping

/-- The routine `getProjectionIntoClampsMatrix(world, forFiniteDifferencing)`. -/
def getProjectionIntoClampsMatrix (cod : CompleteOrthogonalDecomposition) (s : BackpropSnapshot)
    (world : World) (forFiniteDifferencing : Bool) : Result (MatrixXd × World) := do
  let A_c ← s.getClampingConstraintMatrix world
  if A_c.size = 0 then
    return (MatrixXd.Zero 0 world.getNumDofs, world)
  else
    let E ← s.getUpperBoundMappingMatrix
    let (constraintForceToImpliedTorques, world) ←
      (if forFiniteDifferencing then do
        let A_ub ← s.getUpperBoundConstraintMatrix world
        let (Minv, world) ← s.getInvMassMatrix world true
        let r ← (Minv * (A_c + (A_ub * E)) : Result MatrixXd)
        pure (r, world)
      else do
        let V_c ← s.getMassedClampingConstraintMatrix world
        let V_ub ← s.getMassedUpperBoundConstraintMatrix world
        let r ← (V_c + (V_ub * E) : Result MatrixXd)
        pure (r, world) : Result (MatrixXd × World))
    let forceToVel ← (A_c.transpose * constraintForceToImpliedTorques : Result MatrixXd)
    let bounceDiagonals ← s.getBounceDiagonals
    let bounce := bounceDiagonals.asDiagonal
    let rightHandSize ← (bounce * A_c.transpose : Result MatrixXd)
    let solution ← cod.solve forceToVel rightHandSize
    return (MatrixXd.smul (1 / s.mTimeStep) solution, world)

/-- The routine `getForceVelJacobian(world)`. -/
def getForceVelJacobian (cod : CompleteOrthogonalDecomposition) (s : BackpropSnapshot)
    (world : World) : Result (MatrixXd × World) := do
  let A_c ← s.getClampingConstraintMatrix world
  let (Minv, world) ← s.getInvMassMatrix world false
  if A_c.size = 0 then
    return (MatrixXd.smul s.mTimeStep Minv, world)
  else
    let A_ub ← s.getUpperBoundConstraintMatrix world
    let E ← s.getUpperBoundMappingMatrix
    let (P_c, world) ← s.getProjectionIntoClampsMatrix cod world false
    if A_ub.size > 0 ∧ E.size > 0 then
      let r ← (s.mTimeStep • Minv
        * (MatrixXd.Identity s.mNumDOFs s.mNumDOFs
          - s.mTimeStep • (A_c + A_ub * E) * P_c * Minv) : Result MatrixXd)
      return (r, world)
    else
      let r ← (s.mTimeStep • Minv
        * (MatrixXd.Identity s.mNumDOFs s.mNumDOFs
          - s.mTimeStep • A_c * P_c * Minv) : Result MatrixXd)
      return (r, world)

/-- The routine `getVelVelJacobian(world)`. -/
def getVelVelJacobian (cod : CompleteOrthogonalDecomposition) (s : BackpropSnapshot)
    (world : World) : Result (MatrixXd × World) := do
  let A_c ← s.getClampingConstraintMatrix world
  if A_c.size = 0 then
    let (forceVel, world) ← s.getForceVelJacobian cod world
    let (velC, world) ← s.getVelCJacobian world
    let r ← (MatrixXd.Identity s.mNumDOFs s.mNumDOFs - forceVel * velC : Result MatrixXd)
    return (r, world)
  else
    let A_ub ← s.getUpperBoundConstraintMatrix world
    let E ← s.getUpperBoundMappingMatrix
    let (P_c, world) ← s.getProjectionIntoClampsMatrix cod world false
    let (Minv, world) ← s.getInvMassMatrix world false
    let parts1 ← (A_c + A_ub * E : Result MatrixXd)
    let parts2 ← (s.mTimeStep • Minv * parts1 * P_c : Result MatrixXd)
    let (forceVel, world) ← s.getForceVelJacobian cod world
    let (velC, world) ← s.getVelCJacobian world
    let r ← ((MatrixXd.Identity s.mNumDOFs s.mNumDOFs - parts2) - forceVel * velC :
      Result MatrixXd)
    return (r, world)

/-- The routine `getAnalyticalNextV(world)`. -/
def getAnalyticalNextV (cod : CompleteOrthogonalDecomposition) (s : BackpropSnapshot)
    (world : World) : Result (VectorXd × World) := do
  let A_c ← s.getClampingConstraintMatrix world
  let A_ub ← s.getUpperBoundConstraintMatrix world
  let E ← s.getUpperBoundMappingMatrix
  let A_c_ub_E ← (A_c + A_ub * E : Result MatrixXd)
  let (P_c, world) ← s.getProjectionIntoClampsMatrix cod world true
  let Minv ← world.getInvMassMatrix
  let tau := world.getForces
  let C := world.getCoriolisAndGravityAndExternalForces
  let dt := world.getTimeStep
  let innerV ← (world.getVelocities + MatrixXd.mulVecExpr (dt • Minv) (tau - C) :
    Result VectorXd)
  let r ← (world.getVelocities
    + MatrixXd.mulVecExpr (dt • Minv)
        (tau - C - MatrixXd.mulVecExpr (A_c_ub_E * P_c) innerV) : Result VectorXd)
  return (r, world)

end BackpropSnapshot

/-- Modelled from the spec: `RestorableSnapshot` (its class is not among the sources), the
restorable capture of the world position, velocity and torque taken before a probe. -/
structure RestorableSnapshot where
  mPositions : VectorXd
  mVelocities : VectorXd
  mForces : VectorXd

namespace RestorableSnapshot

/-- The constructor `RestorableSnapshot(world)`. -/
def create (world : World) : RestorableSnapshot :=
  ⟨world.getPositions, world.getVelocities, world.getForces⟩

/-- The call `snapshot.restore()`. -/
def restore (snapshot : RestorableSnapshot) (world : World) : World :=
  ((world.setPositions snapshot.mPositions).setVelocities snapshot.mVelocities).setForces
    snapshot.mForces

end RestorableSnapshot

namespace BackpropSnapshot

/-- The routine `getWrtDim(world, wrt)`. -/
def getWrtDim (world : World) : WithRespectTo → Nat
  | .POSITION => world.getNumDofs
  | .LINK_MASSES => world.getLinkMassesDims
  | .LINK_COMS => world.getLinkCOMDims
  | .LINK_MOIS => world.getLinkMOIDims

/-- The routine `getWrt(world, wrt)`. -/
def getWrt (world : World) : WithRespectTo → VectorXd
  | .POSITION => world.getPositions
  | .LINK_MASSES => world.getLinkMasses
  | .LINK_COMS => world.getLinkCOMs
  | .LINK_MOIS => world.getLinkMOIs

/-- The routine `setWrt(world, wrt, v)`. -/
def setWrt (world : World) (wrt : WithRespectTo) (v : VectorXd) : World :=
  match wrt with
  | .POSITION => world.setPositions v
  | .LINK_MASSES => world.setLinkMasses v
  | .LINK_COMS => world.setLinkCOMs v
  | .LINK_MOIS => world.setLinkMOIs v

/-- The loop of `implicitMultiplyByInvMassMatrix` over the skeletons of the world. -/
def implicitInvMassSegments (world : World) (x : VectorXd) :
    List Skeleton → Nat → VectorXd → Result VectorXd
  | [], _, result => .ok result
  | skel :: rest, cursor, result => do
    let dofs := skel.numDofs
    let seg ← x.segment cursor dofs
    let prod ← skel.multiplyByImplicitInvMassMatrix world.state seg
    let result ← result.setSegment cursor dofs prod
    implicitInvMassSegments world x rest (cursor + dofs) result

/-- The routine `implicitMultiplyByInvMassMatrix(world, x)`. -/
def implicitMultiplyByInvMassMatrix (world : World) (x : VectorXd) : Result VectorXd :=
  implicitInvMassSegments world x world.skeletons 0 x

/-- The loop of `implicitMultiplyByMassMatrix` over the skeletons of the world. -/
def implicitMassSegments (world : World) (x : VectorXd) :
    List Skeleton → Nat → VectorXd → Result VectorXd
  | [], _, result => .ok result
  | skel :: rest, cursor, result => do
    let dofs := skel.numDofs
    let seg ← x.segment cursor dofs
    let prod ← skel.multiplyByImplicitMassMatrix world.state seg
    let result ← result.setSegment cursor dofs prod
    implicitMassSegments world x rest (cursor + dofs) result

/-- The routine `implicitMultiplyByMassMatrix(world, x)`. -/
def implicitMultiplyByMassMatrix (world : World) (x : VectorXd) : Result VectorXd :=
  implicitMassSegments world x world.skeletons 0 x

/-- One iteration of the loop of `finiteDifferenceJacobianOfMinv`, with `EPS = 1e-6`. -/
def finiteDifferenceJacobianOfMinvStep (tau : VectorXd) (wrt : WithRespectTo) (before : VectorXd)
    (acc : MatrixXd × World) (i : Nat) : Result (MatrixXd × World) := do
  let EPS : ℚ := 1 / 1000000
  let perturbed ← before.addAt i EPS
  let world := setWrt acc.2 wrt perturbed
  let newVPlus ← implicitMultiplyByInvMassMatrix world tau
  let perturbed ← before.addAt i (-EPS)
  let world := setWrt world wrt perturbed
  let newVMinus ← implicitMultiplyByInvMassMatrix world tau
  let diff ← newVPlus.sub newVMinus
  let result ← acc.1.setCol i (diff.div (2 * EPS))
  return (result, world)

/-- The routine `finiteDifferenceJacobianOfMinv(world, tau, wrt)`. -/
def finiteDifferenceJacobianOfMinv (world : World) (tau : VectorXd) (wrt : WithRespectTo) :
    Result (MatrixXd × World) := do
  let innerDim := getWrtDim world wrt
  let original ← implicitMultiplyByInvMassMatrix world tau
  let result := MatrixXd.Zero original.size innerDim
  let before := getWrt world wrt
  let (result, world) ←
    (List.range innerDim).foldlM (finiteDifferenceJacobianOfMinvStep tau wrt before)
      (result, world)
  let world := setWrt world wrt before
  return (result, world)

/-- One iteration of the loop of `finiteDifferenceJacobianOfC`, with `EPS = 1e-6`. -/
def finiteDifferenceJacobianOfCStep (wrt : WithRespectTo) (before original : VectorXd)
    (acc : MatrixXd × World) (i : Nat) : Result (MatrixXd × World) := do
  let EPS : ℚ := 1 / 1000000
  let perturbed ← before.addAt i EPS
  let world := setWrt acc.2 wrt perturbed
  let newTau := world.getCoriolisAndGravityAndExternalForces
  let diff ← newTau.sub original
  let result ← acc.1.setCol i (diff.div EPS)
  return (result, world)

/-- The routine `finiteDifferenceJacobianOfC(world, wrt)`. -/
def finiteDifferenceJacobianOfC (world : World) (wrt : WithRespectTo) :
    Result (MatrixXd × World) := do
  let innerDim := getWrtDim world wrt
  let original := world.getCoriolisAndGravityAndExternalForces
  let result := MatrixXd.Zero original.size innerDim
  let before := getWrt world wrt
  let (result, world) ←
    (List.range innerDim).foldlM (finiteDifferenceJacobianOfCStep wrt before original)
      (result, world)
  let world := setWrt world wrt before
  return (result, world)

/-- The routine `getJacobianOfMinv(world, tau, wrt)`. -/
def getJacobianOfMinv (world : World) (tau : VectorXd) (wrt : WithRespectTo) :
    Result (MatrixXd × World) :=
  finiteDifferenceJacobianOfMinv world tau wrt

/-- The routine `getJacobianOfC(world, wrt)`. -/
def getJacobianOfC (world : World) (wrt : WithRespectTo) : Result (MatrixXd × World) :=
  finiteDifferenceJacobianOfC world wrt

/-- The routine `getJacobianOfProjectionIntoClampsMatrix(world, v, wrt)`. -/
def getJacobianOfProjectionIntoClampsMatrix (cod : CompleteOrthogonalDecomposition)
    (s : BackpropSnapshot) (world : World) (v : VectorXd) (wrt : WithRespectTo) :
    Result (MatrixXd × World) := do
  let A_c ← s.getClampingConstraintMatrix world
  if A_c.size = 0 then
    return (MatrixXd.Zero 0 world.getNumDofs, world)
  else
    let A_ub ← s.getUpperBoundConstraintMatrix world
    let E ← s.getUpperBoundMappingMatrix
    let V_c ← s.getMassedClampingConstraintMatrix world
    let V_ub ← s.getMassedUpperBoundConstraintMatrix world
    let constraintForceToImpliedTorques ← (V_c + (V_ub * E) : Result MatrixXd)
    let A_c_ub_E ← (A_c + (A_ub * E) : Result MatrixXd)
    let Q ← (A_c.transpose * constraintForceToImpliedTorques : Result MatrixXd)
    let bounceDiagonals ← s.getBounceDiagonals
    let bounce := bounceDiagonals.asDiagonal
    let tau ← MatrixXd.mulVecExpr A_c_ub_E
      (cod.solveVec Q =<< MatrixXd.mulVecExpr (bounce * A_c.transpose) v)
    let (MinvJac, world) ← getJacobianOfMinv world tau wrt
    let rhs ← (A_c.transpose * MinvJac : Result MatrixXd)
    let solution ← cod.solve Q rhs
    return (MatrixXd.smul (-(1 / world.getTimeStep)) solution, world)

/-- The routine `getVelJacobianWrt(world, wrt)`. -/
def getVelJacobianWrt (cod : CompleteOrthogonalDecomposition) (s : BackpropSnapshot)
    (world : World) (wrt : WithRespectTo) : Result (MatrixXd × World) := do
  let snapshot := RestorableSnapshot.create world
  let world := world.setPositions s.mPreStepPosition
  let world := world.setVelocities s.mPreStepVelocity
  let world := world.setForces s.mPreStepTorques
  let tau := world.getForces
  let C := world.getCoriolisAndGravityAndExternalForces
  let tau_C ← (tau - C : Result VectorXd)
  let (dM, world) ← getJacobianOfMinv world tau_C wrt
  let Minv ← world.getInvMassMatrix
  let (dC, world) ← getJacobianOfC world wrt
  let dt := world.getTimeStep
  let innerV ← (world.getVelocities + MatrixXd.mulVecExpr (dt • Minv) (tau - C) :
    Result VectorXd)
  let (dP_c, world) ← s.getJacobianOfProjectionIntoClampsMatrix cod world innerV wrt
  let (P_c, world) ← s.getProjectionIntoClampsMatrix cod world false
  let A_c ← s.getClampingConstraintMatrix world
  let A_ub ← s.getUpperBoundConstraintMatrix world
  let E ← s.getUpperBoundMappingMatrix
  let A_c_ub_E ← (A_c + A_ub * E : Result MatrixXd)
  let outerTau ← (tau - C - MatrixXd.mulVecExpr (A_c_ub_E * P_c) innerV : Result VectorXd)
  let (dOuterM, world) ← getJacobianOfMinv world outerTau wrt
  let world := snapshot.restore world
  let r ← (dt • (dOuterM + Minv * (-dC - A_c_ub_E * (dP_c + dt • P_c * (dM - Minv * dC)))) :
    Result MatrixXd)
  return (r, world)

/-- The routine `getPosVelJacobian(world)`. -/
def getPosVelJacobian (cod : CompleteOrthogonalDecomposition) (s : BackpropSnapshot)
    (world : World) : Result (MatrixXd × World) :=
  s.getVelJacobianWrt cod world .POSITION

/-- Inner loop of the construction of `W` in `getPosPosJacobian`, for the bouncing column `i`
with `a_i = A_b.col(i)`: the assignment `W.block(j * rows, i, rows, 1) = a_i(j) * a_i` for each
`j` of the list. -/
def outerProductBlocks (rows : Nat) (a_i : VectorXd) (i : Nat) :
    List Nat → MatrixXd → Result MatrixXd
  | [], W => .ok W
  | j :: rest, W => do
    let a_ij ← a_i.coeffAt j
    let W ← W.setBlock (j * rows) i rows 1 (VectorXd.smul a_ij a_i).asMatrix
    outerProductBlocks rows a_i i rest W

/-- Outer loop of the construction of `W` in `getPosPosJacobian`, over the bouncing columns. -/
def outerProductColumns (A_b : MatrixXd) : List Nat → MatrixXd → Result MatrixXd
  | [], W => .ok W
  | i :: rest, W => do
    let a_i ← A_b.col i
    let W ← outerProductBlocks A_b.rows a_i i (List.range A_b.rows) W
    outerProductColumns A_b rest W

/-- The loop `center((i * mNumDOFs) + i) = 1` of `getPosPosJacobian`. -/
def centerDiagonal (numDOFs : Nat) : List Nat → VectorXd → Result VectorXd
  | [], center => .ok center
  | i :: rest, center => do
    let center ← center.setAt (i * numDOFs + i) 1
    centerDiagonal numDOFs rest center

/-- The loop `X.col(i) = q.segment(i * mNumDOFs, mNumDOFs)` of `getPosPosJacobian`. -/
def recoverColumns (numDOFs : Nat) (q : VectorXd) : List Nat → MatrixXd → Result MatrixXd
  | [], X => .ok X
  | i :: rest, X => do
    let seg ← q.segment (i * numDOFs) numDOFs
    let X ← X.setCol i seg
    recoverColumns numDOFs q rest X

/-- The routine `getPosPosJacobian(world)`. The matrices `W` and `X` are allocated without a value
and every coefficient of them is assigned by the loops before it is read; their storage starts
here from zeros. -/
def getPosPosJacobian (cod : CompleteOrthogonalDecomposition) (s : BackpropSnapshot)
    (world : World) : Result MatrixXd := do
  let A_b ← s.getBouncingConstraintMatrix world
  if A_b.size = 0 then
    return MatrixXd.Identity s.mNumDOFs s.mNumDOFs
  else
    let W ← outerProductColumns A_b (List.range A_b.cols)
      (MatrixXd.Zero (A_b.rows * A_b.rows) A_b.cols)
    let center ← centerDiagonal s.mNumDOFs (List.range s.mNumDOFs)
      (VectorXd.Zero (s.mNumDOFs * s.mNumDOFs))
    let restitution ← s.getRestitutionDiagonals
    let wCenter ← W.transpose.mulVec center
    let rhs ← restitution.add wCenter
    let solution ← cod.solveVec W.transpose rhs
    let q ← center.sub solution
    recoverColumns s.mNumDOFs q (List.range s.mNumDOFs)
      (MatrixXd.Zero s.mNumDOFs s.mNumDOFs)

/-- The routine `getVelPosJacobian(world)`. -/
def getVelPosJacobian (cod : CompleteOrthogonalDecomposition) (s : BackpropSnapshot)
    (world : World) : Result MatrixXd := do
  let posPos ← s.getPosPosJacobian cod world
  return MatrixXd.smul s.mTimeStep posPos

end BackpropSnapshot

namespace BackpropSnapshot

/-- First inner loop of `backprop` for one group: the member skeletons are marked visited and
their segments of the next-timestep loss are gathered into the group vectors. -/
def backpropGather (s : BackpropSnapshot) (world : World) (nextTimestepLoss : LossGradient) :
    List String → Nat → LossGradient → List String → Result (LossGradient × List String)
  | [], _, groupNextTimestepLoss, skeletonsVisited => .ok (groupNextTimestepLoss, skeletonsVisited)
  | name :: rest, cursor, groupNextTimestepLoss, skeletonsVisited => do
    let skel ← deref (world.getSkeleton name)
    let dofCursorWorld := s.skeletonOffset skel.name
    let dofs := skel.numDofs
    let skelAlreadyVisited := skeletonsVisited.contains skel.name
    if skelAlreadyVisited then throw Abort.assertion
    let skeletonsVisited := skel.name :: skeletonsVisited
    let nextPos ← nextTimestepLoss.lossWrtPosition.segment dofCursorWorld dofs
    let groupPos ← groupNextTimestepLoss.lossWrtPosition.setSegment cursor dofs nextPos
    let nextVel ← nextTimestepLoss.lossWrtVelocity.segment dofCursorWorld dofs
    let groupVel ← groupNextTimestepLoss.lossWrtVelocity.setSegment cursor dofs nextVel
    backpropGather s world nextTimestepLoss rest (cursor + dofs)
      { groupNextTimestepLoss with lossWrtPosition := groupPos, lossWrtVelocity := groupVel }
      skeletonsVisited

/-- Second inner loop of `backprop` for one group: the group result is copied back, skeleton by
skeleton, to the skeleton's world offset. -/
def backpropScatter (s : BackpropSnapshot) (world : World) (groupThisTimestepLoss : LossGradient) :
    List String → Nat → LossGradient → Result LossGradient
  | [], _, thisTimestepLoss => .ok thisTimestepLoss
  | name :: rest, cursor, thisTimestepLoss => do
    let skel ← deref (world.getSkeleton name)
    let dofCursorWorld := s.skeletonOffset skel.name
    let dofs := skel.numDofs
    let groupPos ← groupThisTimestepLoss.lossWrtPosition.segment cursor dofs
    let thisPos ← thisTimestepLoss.lossWrtPosition.setSegment dofCursorWorld dofs groupPos
    let groupVel ← groupThisTimestepLoss.lossWrtVelocity.segment cursor dofs
    let thisVel ← thisTimestepLoss.lossWrtVelocity.setSegment dofCursorWorld dofs groupVel
    let groupTorque ← groupThisTimestepLoss.lossWrtTorque.segment cursor dofs
    let thisTorque ← thisTimestepLoss.lossWrtTorque.setSegment dofCursorWorld dofs groupTorque
    backpropScatter s world groupThisTimestepLoss rest (cursor + dofs)
      { lossWrtPosition := thisPos, lossWrtVelocity := thisVel, lossWrtTorque := thisTorque }

/-- The loop of `backprop` over the constraint groups. The group loss of the next timestep keeps
the torque vector it was default-constructed with. -/
def backpropGroups (s : BackpropSnapshot) (world : World) (nextTimestepLoss : LossGradient) :
    List (SharedPtr ConstrainedGroupGradientMatrices) → LossGradient → List String →
      Result (LossGradient × List String)
  | [], thisTimestepLoss, skeletonsVisited => .ok (thisTimestepLoss, skeletonsVisited)
  | group :: rest, thisTimestepLoss, skeletonsVisited => do
    let groupDofs := group.obj.mNumDOFs
    let groupNextTimestepLoss : LossGradient :=
      { lossWrtPosition := UninitVectorXd.alloc groupDofs
        lossWrtVelocity := UninitVectorXd.alloc groupDofs
        lossWrtTorque := UninitVectorXd.alloc 0 }
    let groupThisTimestepLoss : LossGradient :=
      { lossWrtPosition := UninitVectorXd.alloc groupDofs
        lossWrtVelocity := UninitVectorXd.alloc groupDofs
        lossWrtTorque := UninitVectorXd.alloc groupDofs }
    let (groupNextTimestepLoss, skeletonsVisited) ←
      backpropGather s world nextTimestepLoss group.obj.mSkeletons 0 groupNextTimestepLoss
        skeletonsVisited
    let groupThisTimestepLoss :=
      group.obj.backprop world.state groupThisTimestepLoss groupNextTimestepLoss
    let thisTimestepLoss ←
      backpropScatter s world groupThisTimestepLoss group.obj.mSkeletons 0 thisTimestepLoss
    backpropGroups s world nextTimestepLoss rest thisTimestepLoss skeletonsVisited

/-- The body of the last loop of `backprop` for a skeleton that no group covers and that is
mobile. -/
def backpropFreeSkeleton (s : BackpropSnapshot) (world : World) (nextTimestepLoss : LossGradient)
    (skel : Skeleton) (thisTimestepLoss : LossGradient) : Result LossGradient := do
  let dofCursorWorld := s.skeletonOffset skel.name
  let dofs := skel.numDofs
  let nextVel ← nextTimestepLoss.lossWrtVelocity.segment dofCursorWorld dofs
  let torque ← (s.mTimeStep • skel.multiplyByImplicitInvMassMatrix world.state nextVel :
    Result VectorXd)
  let thisTorque ← thisTimestepLoss.lossWrtTorque.setSegment dofCursorWorld dofs torque
  let nextPos ← nextTimestepLoss.lossWrtPosition.segment dofCursorWorld dofs
  let pos ← (nextPos
    - MatrixXd.mulVecExpr (skel.getPosCJacobian world.state).transpose
        (thisTorque.segment dofCursorWorld dofs) : Result VectorXd)
  let thisPos ← thisTimestepLoss.lossWrtPosition.setSegment dofCursorWorld dofs pos
  let vel ← (nextVel
    - MatrixXd.mulVecExpr (skel.getVelCJacobian world.state).transpose
        (thisTorque.segment dofCursorWorld dofs)
    + s.mTimeStep • thisPos.segment dofCursorWorld dofs : Result VectorXd)
  let thisVel ← thisTimestepLoss.lossWrtVelocity.setSegment dofCursorWorld dofs vel
  return { lossWrtPosition := thisPos, lossWrtVelocity := thisVel, lossWrtTorque := thisTorque }

/-- The last loop of `backprop`, over all the skeletons of the world. -/
def backpropFreeSkeletons (s : BackpropSnapshot) (world : World) (nextTimestepLoss : LossGradient)
    (skeletonsVisited : List String) : List Skeleton → LossGradient → Result LossGradient
  | [], thisTimestepLoss => .ok thisTimestepLoss
  | skel :: rest, thisTimestepLoss => do
    let skelAlreadyVisited := skeletonsVisited.contains skel.name
    let thisTimestepLoss ←
      (if !skelAlreadyVisited && skel.mobile then
        backpropFreeSkeleton s world nextTimestepLoss skel thisTimestepLoss
      else pure thisTimestepLoss : Result LossGradient)
    backpropFreeSkeletons s world nextTimestepLoss skeletonsVisited rest thisTimestepLoss

/-- The routine `backprop(world, thisTimestepLoss, nextTimestepLoss)`: the result is the value it
leaves in `thisTimestepLoss`, with the world it leaves behind. -/
def backprop (s : BackpropSnapshot) (world : World) (thisTimestepLoss : LossGradient)
    (nextTimestepLoss : LossGradient) : Result (LossGradient × World) := do
  let oldPositions := world.getPositions
  let oldVelocities := world.getVelocities
  let world := world.setPositions s.mPreStepPosition
  let world := world.setVelocities s.mPreStepVelocity
  let thisTimestepLoss : LossGradient :=
    { thisTimestepLoss with
      lossWrtPosition := UninitVectorXd.alloc s.mNumDOFs
      lossWrtVelocity := UninitVectorXd.alloc s.mNumDOFs
      lossWrtTorque := UninitVectorXd.alloc s.mNumDOFs }
  let (thisTimestepLoss, skeletonsVisited) ←
    backpropGroups s world nextTimestepLoss s.mGradientMatrices thisTimestepLoss []
  let thisTimestepLoss ←
    backpropFreeSkeletons s world nextTimestepLoss skeletonsVisited world.skeletons
      thisTimestepLoss
  let world := world.setPositions oldPositions
  let world := world.setVelocities oldVelocities
  return (thisTimestepLoss, world)

end BackpropSnapshot

/-! ## The finite-difference Jacobians of a forward step -/

/-- Storage of a matrix created by `Eigen::MatrixXd(r, c)`: a coefficient is `none` until
assigned. -/
structure UninitMatrixXd where
  rows : Nat
  cols : Nat
  coeff : Fin rows → Fin cols → Option ℚ

namespace UninitMatrixXd

/-- Fresh storage `Eigen::MatrixXd(r, c)`: no coefficient has a value yet. -/
def alloc (r c : Nat) : UninitMatrixXd := ⟨r, c, fun _ _ => none⟩

/-- The assignment `J.col(i).noalias() = v`. -/
def setCol (J : UninitMatrixXd) (i : Nat) (v : VectorXd) : Result UninitMatrixXd :=
  if hb : v.size = J.rows ∧ i < J.cols then
    .ok ⟨J.rows, J.cols, fun r c =>
      if c.val = i then some (v.coeff (Fin.cast hb.1.symm r)) else J.coeff r c⟩
  else .error .eigenAssertion

end UninitMatrixXd

namespace World

/-- The call `world->getConstraintSolver()->getGradientEnabled()`. -/
def getGradientEnabled (w : World) : Bool := w.state.gradientEnabled

/-- The call `world->getConstraintSolver()->setGradientEnabled(b)`. -/
def setGradientEnabled (w : World) (b : Bool) : World :=
  { w with state := { w.state with gradientEnabled := b } }

/-- The call `world->getConstraintSolver()->getPenetrationCorrectionEnabled()`. -/
def getPenetrationCorrectionEnabled (w : World) : Bool := w.state.penetrationCorrectionEnabled

/-- The call `world->getConstraintSolver()->setPenetrationCorrectionEnabled(b)`. -/
def setPenetrationCorrectionEnabled (w : World) (b : Bool) : World :=
  { w with state := { w.state with penetrationCorrectionEnabled := b } }

/-- Modelled from the spec: the forward step `world->step(false, true)` (the simulation class is
not among the sources). The engine is a parameter `forward` that computes the state after the step
from the world before it; a step adds or removes no skeleton. -/
def step (forward : World → WorldState) (w : World) : World :=
  { w with state := forward w }

/-- The loop `for (j = 0; j < subdivisions; j++) world->step(false, true);`. -/
def steps (forward : World → WorldState) : Nat → World → World
  | 0, w => w
  | n + 1, w => steps forward n (w.step forward)

end World

namespace BackpropSnapshot

/-- The expression `(a - b) / EPSILON` on vectors. -/
def differenceQuotient (a b : VectorXd) (EPSILON : ℚ) : Result VectorXd :=
  (a.sub b).map (fun d => d.div EPSILON)

/-- One iteration of the loop of `finiteDifferenceVelVelJacobian`. -/
def finiteDifferenceVelVelJacobianStep (forward : World → WorldState) (s : BackpropSnapshot)
    (snapshot : RestorableSnapshot) (originalVel : VectorXd) (EPSILON : ℚ)
    (acc : UninitMatrixXd × World) (i : Nat) : Result (UninitMatrixXd × World) := do
  let world := snapshot.restore acc.2
  let world := world.setPositions s.mPreStepPosition
  let world := world.setForces s.mPreStepTorques
  let tweakedVel ← s.mPreStepVelocity.addAt i EPSILON
  let world := world.setVelocities tweakedVel
  let world := world.step forward
  let velChange ← differenceQuotient world.getVelocities originalVel EPSILON
  let J ← acc.1.setCol i velChange
  return (J, world)

/-- The routine `finiteDifferenceVelVelJacobian(world)`, with `EPSILON = 1e-7`. -/
def finiteDifferenceVelVelJacobian (forward : World → WorldState) (s : BackpropSnapshot)
    (world : World) : Result (UninitMatrixXd × World) := do
  let snapshot := RestorableSnapshot.create world
  let J := UninitMatrixXd.alloc s.mNumDOFs s.mNumDOFs
  let oldGradientEnabled := world.getGradientEnabled
  let world := world.setGradientEnabled false
  let world := world.setPositions s.mPreStepPosition
  let world := world.setVelocities s.mPreStepVelocity
  let world := world.setForces s.mPreStepTorques
  let world := world.step forward
  let originalVel := world.getVelocities
  let EPSILON : ℚ := 1 / 10000000
  let (J, world) ←
    (List.range world.getNumDofs).foldlM
      (finiteDifferenceVelVelJacobianStep forward s snapshot originalVel EPSILON) (J, world)
  let world := snapshot.restore world
  let world := world.setGradientEnabled oldGradientEnabled
  return (J, world)

/-- One iteration of the loop of `finiteDifferencePosVelJacobian`. The analytical prediction is
computed and compared with the measured acceleration for a diagnostic printout only. -/
def finiteDifferencePosVelJacobianStep (forward : World → WorldState)
    (cod : CompleteOrthogonalDecomposition) (s : BackpropSnapshot)
    (snapshot : RestorableSnapshot) (originalVel : VectorXd) (dt EPSILON : ℚ)
    (acc : UninitMatrixXd × World) (i : Nat) : Result (UninitMatrixXd × World) := do
  let world := snapshot.restore acc.2
  let world := world.setForces s.mPreStepTorques
  let world := world.setVelocities s.mPreStepVelocity
  let tweakedPos ← s.mPreStepPosition.addAt i EPSILON
  let world := world.setPositions tweakedPos
  let (expectedNextVel, world) ← s.getAnalyticalNextV cod world
  let expectedAccel ← differenceQuotient expectedNextVel s.mPreStepVelocity dt
  let world := world.step forward
  let realNextVel := world.getVelocities
  let realAccel ← differenceQuotient realNextVel s.mPreStepVelocity dt
  let velChange ← differenceQuotient realNextVel originalVel EPSILON
  let _ ← expectedAccel.sub realAccel
  let J ← acc.1.setCol i velChange
  return (J, world)

/-- The routine `finiteDifferencePosVelJacobian(world)`, with `EPSILON = 1e-9`. The comparison of
the predicted with the measured acceleration only prints. -/
def finiteDifferencePosVelJacobian (forward : World → WorldState)
    (cod : CompleteOrthogonalDecomposition) (s : BackpropSnapshot) (world : World) :
    Result (UninitMatrixXd × World) := do
  let snapshot := RestorableSnapshot.create world
  let J := UninitMatrixXd.alloc s.mNumDOFs s.mNumDOFs
  let oldGradientEnabled := world.getGradientEnabled
  let world := world.setGradientEnabled false
  let oldPenetrationCorrectionEnabled := world.getPenetrationCorrectionEnabled
  let world := world.setPenetrationCorrectionEnabled false
  let dt := world.getTimeStep
  let world := world.setPositions s.mPreStepPosition
  let world := world.setVelocities s.mPreStepVelocity
  let world := world.setForces s.mPreStepTorques
  let (originalExpectedNextVel, world) ← s.getAnalyticalNextV cod world
  let originalExpectedAccel ← differenceQuotient originalExpectedNextVel s.mPreStepVelocity dt
  let world := world.step forward
  let originalVel := world.getVelocities
  let originalRealAccel ← differenceQuotient originalVel s.mPreStepVelocity dt
  let _ ← originalExpectedAccel.sub originalRealAccel
  let EPSILON : ℚ := 1 / 1000000000
  let (J, world) ←
    (List.range world.getNumDofs).foldlM
      (finiteDifferencePosVelJacobianStep forward cod s snapshot originalVel dt EPSILON)
      (J, world)
  let world := snapshot.restore world
  let world := world.setGradientEnabled oldGradientEnabled
  let world := world.setPenetrationCorrectionEnabled oldPenetrationCorrectionEnabled
  return (J, world)

/-- One iteration of the loop of `finiteDifferenceForceVelJacobian`. -/
def finiteDifferenceForceVelJacobianStep (forward : World → WorldState) (s : BackpropSnapshot)
    (snapshot : RestorableSnapshot) (originalForces originalVel : VectorXd) (EPSILON : ℚ)
    (acc : UninitMatrixXd × World) (i : Nat) : Result (UninitMatrixXd × World) := do
  let world := snapshot.restore acc.2
  let world := world.setPositions s.mPreStepPosition
  let world := world.setVelocities s.mPreStepVelocity
  let tweakedForces ← originalForces.addAt i EPSILON
  let world := world.setForces tweakedForces
  let world := world.step forward
  let velChange ← differenceQuotient world.getVelocities originalVel EPSILON
  let J ← acc.1.setCol i velChange
  return (J, world)

/-- The routine `finiteDifferenceForceVelJacobian(world)`, with `EPSILON = 1e-7`. -/
def finiteDifferenceForceVelJacobian (forward : World → WorldState) (s : BackpropSnapshot)
    (world : World) : Result (UninitMatrixXd × World) := do
  let snapshot := RestorableSnapshot.create world
  let J := UninitMatrixXd.alloc s.mNumDOFs s.mNumDOFs
  let oldGradientEnabled := world.getGradientEnabled
  let world := world.setGradientEnabled false
  let world := world.setPositions s.mPreStepPosition
  let world := world.setVelocities s.mPreStepVelocity
  let world := world.setForces s.mPreStepTorques
  let world := world.step forward
  let originalForces := world.getForces
  let originalVel := world.getVelocities
  let EPSILON : ℚ := 1 / 10000000
  let (J, world) ←
    (List.range world.getNumDofs).foldlM
      (finiteDifferenceForceVelJacobianStep forward s snapshot originalForces originalVel
        EPSILON) (J, world)
  let world := snapshot.restore world
  let world := world.setGradientEnabled oldGradientEnabled
  return (J, world)

/-- One iteration of the outer loop of `finiteDifferencePosPosJacobian`. -/
def finiteDifferencePosPosJacobianStep (forward : World → WorldState) (s : BackpropSnapshot)
    (subdivisions : Nat) (snapshot : RestorableSnapshot) (originalPosition : VectorXd)
    (EPSILON : ℚ) (acc : UninitMatrixXd × World) (i : Nat) :
    Result (UninitMatrixXd × World) := do
  let world := snapshot.restore acc.2
  let world := world.setVelocities s.mPreStepVelocity
  let world := world.setForces s.mPreStepTorques
  let tweakedPositions ← s.mPreStepPosition.addAt i EPSILON
  let world := world.setPositions tweakedPositions
  let world := world.steps forward subdivisions
  let posChange ← differenceQuotient world.getPositions originalPosition EPSILON
  let J ← acc.1.setCol i posChange
  return (J, world)

/-- The routine `finiteDifferencePosPosJacobian(world, subdivisions)`, with
`EPSILON = 1e-1 / subdivisions`. -/
def finiteDifferencePosPosJacobian (forward : World → WorldState) (s : BackpropSnapshot)
    (world : World) (subdivisions : Nat) : Result (UninitMatrixXd × World) := do
  let snapshot := RestorableSnapshot.create world
  let oldTimestep := world.getTimeStep
  let world := world.setTimeStep (oldTimestep / subdivisions)
  let oldGradientEnabled := world.getGradientEnabled
  let world := world.setGradientEnabled false
  let J := UninitMatrixXd.alloc s.mNumDOFs s.mNumDOFs
  let world := world.setPositions s.mPreStepPosition
  let world := world.setVelocities s.mPreStepVelocity
  let world := world.setForces s.mPreStepTorques
  let world := world.steps forward subdivisions
  let originalPosition := world.getPositions
  let EPSILON : ℚ := (1 / 10) / subdivisions
  let (J, world) ←
    (List.range world.getNumDofs).foldlM
      (finiteDifferencePosPosJacobianStep forward s subdivisions snapshot originalPosition
        EPSILON) (J, world)
  let world := world.setTimeStep oldTimestep
  let world := world.setGradientEnabled oldGradientEnabled
  let world := snapshot.restore world
  return (J, world)

/-- One iteration of the outer loop of `finiteDifferenceVelPosJacobian`. -/
def finiteDifferenceVelPosJacobianStep (forward : World → WorldState) (s : BackpropSnapshot)
    (subdivisions : Nat) (snapshot : RestorableSnapshot) (originalPosition : VectorXd)
    (EPSILON : ℚ) (acc : UninitMatrixXd × World) (i : Nat) :
    Result (UninitMatrixXd × World) := do
  let world := snapshot.restore acc.2
  let world := world.setPositions s.mPreStepPosition
  let world := world.setForces s.mPreStepTorques
  let tweakedVelocity ← s.mPreStepVelocity.addAt i EPSILON
  let world := world.setVelocities tweakedVelocity
  let world := world.steps forward subdivisions
  let posChange ← differenceQuotient world.getPositions originalPosition EPSILON
  let J ← acc.1.setCol i posChange
  return (J, world)

/-- The routine `finiteDifferenceVelPosJacobian(world, subdivisions)`, with
`EPSILON = 1e-3 / subdivisions`. -/
def finiteDifferenceVelPosJacobian (forward : World → WorldState) (s : BackpropSnapshot)
    (world : World) (subdivisions : Nat) : Result (UninitMatrixXd × World) := do
  let snapshot := RestorableSnapshot.create world
  let oldTimestep := world.getTimeStep
  let world := world.setTimeStep (oldTimestep / subdivisions)
  let oldGradientEnabled := world.getGradientEnabled
  let world := world.setGradientEnabled false
  let J := UninitMatrixXd.alloc s.mNumDOFs s.mNumDOFs
  let world := world.setPositions s.mPreStepPosition
  let world := world.setVelocities s.mPreStepVelocity
  let world := world.setForces s.mPreStepTorques
  let world := world.steps forward subdivisions
  let originalPosition := world.getPositions
  let EPSILON : ℚ := (1 / 1000) / subdivisions
  let (J, world) ←
    (List.range world.getNumDofs).foldlM
      (finiteDifferenceVelPosJacobianStep forward s subdivisions snapshot originalPosition
        EPSILON) (J, world)
  let world := world.setTimeStep oldTimestep
  let world := world.setGradientEnabled oldGradientEnabled
  let world := snapshot.restore world
  return (J, world)

end BackpropSnapshot

/-! ## The differentiable contact constraint

Embedding of `dart/neural/DifferentiableContactConstraint.cpp`. The collision, constraint,
kinematics and geometry classes it calls are external collaborators, seen through the members the
file uses. -/

/-- The fixed-size vector `Eigen::Vector3d`. -/
abbrev Vector3d : Type := Fin 3 → ℚ

/-- The fixed-size vector `Eigen::Vector6d`. -/
abbrev Vector6d : Type := Fin 6 → ℚ

/-- The rigid transform `Eigen::Isometry3d`. -/
structure Isometry3d where
  linear : Matrix (Fin 3) (Fin 3) ℚ
  translation : Vector3d

/-- The product `a.cross(b)`. -/
def Vector3d.cross (a b : Vector3d) : Vector3d :=
  ![a 1 * b 2 - a 2 * b 1, a 2 * b 0 - a 0 * b 2, a 0 * b 1 - a 1 * b 0]

/-- The value `a.dot(b)` of two twists. -/
def Vector6d.dot (a b : Vector6d) : ℚ := ∑ i, a i * b i

/-- The block `v.head<3>()`. -/
def Vector6d.head3 (v : Vector6d) : Vector3d := fun i => v ⟨i.val, by omega⟩

/-- The block `v.tail<3>()`. -/
def Vector6d.tail3 (v : Vector6d) : Vector3d := fun i => v ⟨i.val + 3, by omega⟩

/-- The assignment `v.head<3>() = x`. -/
def Vector6d.setHead3 (v : Vector6d) (x : Vector3d) : Vector6d :=
  fun i => if h : i.val < 3 then x ⟨i.val, h⟩ else v i

/-- The assignment `v.tail<3>() = x`. -/
def Vector6d.setTail3 (v : Vector6d) (x : Vector3d) : Vector6d :=
  fun i => if h : 3 ≤ i.val then x ⟨i.val - 3, by omega⟩ else v i

/-- Read access to `T.col(j)` of a `3 × 2` matrix, with the signed index of the source; the index
must name a column. -/
def tangentColumn (T : Matrix (Fin 3) (Fin 2) ℚ) (j : Int) : Result Vector3d :=
  if h : 0 ≤ j ∧ j < 2 then .ok (fun i => T i ⟨j.toNat, by omega⟩)
  else .error .eigenAssertion

/-- The assignment `taus(i) = x` into storage obtained from `Eigen::VectorXd(n)`. -/
def UninitVectorXd.setCoeff (taus : UninitVectorXd) (i : Nat) (x : ℚ) : Result UninitVectorXd :=
  if i < taus.size then
    .ok ⟨taus.size, fun k => if k.val = i then some x else taus.coeff k⟩
  else .error .eigenAssertion

/-- Modelled from the spec: `collision::ContactType` (its header is not among the sources), the
geometric classification of a contact. -/
inductive ContactType where
  | UNSUPPORTED
  | VERTEX_FACE
  | FACE_VERTEX
  | EDGE_EDGE
  deriving DecidableEq

/-- Modelled from the spec: `SkeletonContactType` (declared in a header that is not among the
sources), the role a skeleton plays in a contact. -/
inductive SkeletonContactType where
  | NONE
  | UNSUPPORTED
  | VERTEX
  | FACE
  | EDGE
  deriving DecidableEq

/-- Modelled from the spec: `collision::Contact`, the contact geometry that the constraint copies:
world point, world normal and contact type. -/
structure Contact where
  point : Vector3d
  normal : Vector3d
  type : ContactType

namespace dynamics

/-- Modelled from the spec: `dynamics::BodyNode`, through the members the constraint reads: the
name of its skeleton, its tree, its index in the tree and its world transform. -/
structure BodyNode where
  skeletonName : String
  treeIndex : Nat
  indexInTree : Nat
  worldTransform : Isometry3d

/-- Modelled from the spec: `dynamics::Joint`, through its relative Jacobian, one column per
degree of freedom of the joint. -/
structure Joint where
  numDofs : Nat
  relativeJacobian : Matrix (Fin 6) (Fin numDofs) ℚ

/-- Modelled from the spec: `dynamics::DegreeOfFreedom`, through the members the constraint reads:
the name of its skeleton, its tree, its child body, its joint and its index in the joint, which
names a column of the joint Jacobian. -/
structure DegreeOfFreedom where
  skeletonName : String
  treeIndex : Nat
  childBodyNode : BodyNode
  joint : Joint
  indexInJoint : Fin joint.numDofs

/-- Modelled from the spec: `dynamics::Skeleton` as the constraint sees it: a name and the degrees
of freedom in order, so that `getNumDofs()` is their number and `getDof(i)` the `i`-th of them. -/
structure Skeleton where
  name : String
  dofs : List DegreeOfFreedom

end dynamics

/-- Modelled from the spec: the helpers of `dart::math` that the constraint calls (their file is
not among the sources). Nothing is assumed about their values. -/
structure MathGeometry where
  AdT : Isometry3d → Vector6d → Vector6d
  gradientWrtTheta : Vector6d → Vector3d → ℚ → Vector3d
  gradientWrtThetaPureRotation : Vector3d → Vector3d → ℚ → Vector3d
  ad : Vector6d → Vector6d → Vector6d

/-- Modelled from the spec: `constraint::ContactConstraint`, through the members the file uses: the
contact, the two bodies, and the tangent basis derived from a normal together with its
gradient. -/
structure ContactConstraint where
  contact : Contact
  bodyNodeA : dynamics.BodyNode
  bodyNodeB : dynamics.BodyNode
  getTangentBasisMatrixODE : Vector3d → Matrix (Fin 3) (Fin 2) ℚ
  getTangentBasisMatrixODEGradient : Vector3d → Vector3d → Matrix (Fin 3) (Fin 2) ℚ

/-- Modelled from the spec: `constraint::ConstraintBase`: the names of the skeletons it touches
and, when it is a contact constraint, the contact constraint it is. -/
structure ConstraintBase where
  skeletons : List String
  contactConstraint : Option ContactConstraint

/-- The call `constraint->isContactConstraint()`. -/
def ConstraintBase.isContactConstraint (c : ConstraintBase) : Bool := c.contactConstraint.isSome

/-- The members of `DifferentiableContactConstraint` that the embedded routines use. The two
shared pointers are `none` when null. -/
structure DifferentiableContactConstraint where
  mConstraint : ConstraintBase
  mIndex : Int
  mContactConstraint : Option ContactConstraint
  mContact : Option Contact
  mSkeletons : List String

namespace DifferentiableContactConstraint

/-- The constructor `DifferentiableContactConstraint(constraint, index)`: the contact constraint
and the copy of its contact are set for a contact constraint only. -/
def create (constraint : ConstraintBase) (index : Int) : DifferentiableContactConstraint :=
  { mConstraint := constraint
    mIndex := index
    mContactConstraint :=
      if constraint.isContactConstraint then constraint.contactConstraint else none
    mContact :=
      if constraint.isContactConstraint then constraint.contactConstraint.map (fun cc => cc.contact)
      else none
    mSkeletons := constraint.skeletons }

/-- The routine `getContactWorldPosition()`. -/
def getContactWorldPosition (c : DifferentiableContactConstraint) : Result Vector3d :=
  if !c.mConstraint.isContactConstraint then .ok 0
  else (deref c.mContact).map (fun contact => contact.point)

/-- The routine `getContactWorldNormal()`. -/
def getContactWorldNormal (c : DifferentiableContactConstraint) : Result Vector3d :=
  if !c.mConstraint.isContactConstraint then .ok 0
  else (deref c.mContact).map (fun contact => contact.normal)

/-- The routine `getContactWorldForceDirection()`. -/
def getContactWorldForceDirection (c : DifferentiableContactConstraint) : Result Vector3d :=
  if !c.mConstraint.isContactConstraint then .ok 0
  else if c.mIndex = 0 then (deref c.mContact).map (fun contact => contact.normal)
  else do
    let contactConstraint ← deref c.mContactConstraint
    let contact ← deref c.mContact
    tangentColumn (contactConstraint.getTangentBasisMatrixODE contact.normal) (c.mIndex - 1)

/-- The routine `getWorldForce()`: the torque goes to the head and the force to the tail of a
vector whose six coefficients are all assigned this way. -/
def getWorldForce (c : DifferentiableContactConstraint) : Result Vector6d := do
  let worldForce : Vector6d := 0
  let position ← c.getContactWorldPosition
  let direction ← c.getContactWorldForceDirection
  let worldForce := worldForce.setHead3 (position.cross direction)
  let direction ← c.getContactWorldForceDirection
  let worldForce := worldForce.setTail3 direction
  return worldForce

/-- The routine `getContactType()`. -/
def getContactType (c : DifferentiableContactConstraint) : Result ContactType :=
  if !c.mConstraint.isContactConstraint then .ok .UNSUPPORTED
  else (deref c.mContact).map (fun contact => contact.type)

/-- The routine `getSkeletonContactType(skel)`; of the skeleton only the name is read. The contact
constraint is dereferenced without a test of `isContactConstraint()`. -/
def getSkeletonContactType (c : DifferentiableContactConstraint) (skelName : String) :
    Result SkeletonContactType := do
  let contactConstraint ← deref c.mContactConstraint
  if skelName = contactConstraint.bodyNodeA.skeletonName then
    match ← c.getContactType with
    | .FACE_VERTEX => return .FACE
    | .VERTEX_FACE => return .VERTEX
    | .EDGE_EDGE => return .EDGE
    | _ => return .UNSUPPORTED
  else if skelName = contactConstraint.bodyNodeB.skeletonName then
    match ← c.getContactType with
    | .FACE_VERTEX => return .VERTEX
    | .VERTEX_FACE => return .FACE
    | .EDGE_EDGE => return .EDGE
    | _ => return .UNSUPPORTED
  else
    return .NONE

/-- The routine `getForceMultiple(dof)`. -/
def getForceMultiple (c : DifferentiableContactConstraint) (dof : dynamics.DegreeOfFreedom) :
    Result ℚ :=
  if !c.mConstraint.isContactConstraint then .ok 1
  else do
    let contactConstraint ← deref c.mContactConstraint
    if dof.skeletonName = contactConstraint.bodyNodeA.skeletonName then
      if contactConstraint.bodyNodeA.treeIndex = dof.treeIndex
          ∧ contactConstraint.bodyNodeA.indexInTree ≥ dof.childBodyNode.indexInTree then
        return 1
      else return 0
    else if dof.skeletonName = contactConstraint.bodyNodeB.skeletonName then
      if contactConstraint.bodyNodeB.treeIndex = dof.treeIndex
          ∧ contactConstraint.bodyNodeB.indexInTree ≥ dof.childBodyNode.indexInTree then
        return -1
      else return 0
    else return 0

/-- The routine `getWorldScrewAxis(dof)`. -/
def getWorldScrewAxis (m : MathGeometry) (dof : dynamics.DegreeOfFreedom) : Vector6d :=
  let jointIndex := dof.indexInJoint
  let relativeJac := dof.joint.relativeJacobian
  let childNode := dof.childBodyNode
  let transform := childNode.worldTransform
  let localTwist : Vector6d := fun i => relativeJac i jointIndex
  let worldTwist := m.AdT transform localTwist
  worldTwist

/-- The loop of `getConstraintForces(skel)` over the degrees of freedom, from index `i` on. -/
def constraintForcesLoop (c : DifferentiableContactConstraint) (m : MathGeometry)
    (worldForce : Vector6d) :
    List dynamics.DegreeOfFreedom → Nat → UninitVectorXd → Result UninitVectorXd
  | [], _, taus => .ok taus
  | dof :: rest, i, taus => do
    let multiple ← c.getForceMultiple dof
    let taus ←
      (if multiple = 0 then taus.setCoeff i 0
      else
        let worldTwist := getWorldScrewAxis m dof
        taus.setCoeff i (worldTwist.dot worldForce * multiple) : Result UninitVectorXd)
    constraintForcesLoop c m worldForce rest (i + 1) taus

/-- The routine `getConstraintForces(skel)`. -/
def getConstraintForces (c : DifferentiableContactConstraint) (m : MathGeometry)
    (skel : dynamics.Skeleton) : Result UninitVectorXd :=
  if ¬ skel.name ∈ c.mSkeletons then
    .ok (UninitVectorXd.ofVector (VectorXd.Zero skel.dofs.length))
  else do
    let worldForce ← c.getWorldForce
    let taus := UninitVectorXd.alloc skel.dofs.length
    constraintForcesLoop c m worldForce skel.dofs 0 taus

/-- The routine `getContactPositionGradient(dof)`. -/
def getContactPositionGradient (c : DifferentiableContactConstraint) (m : MathGeometry)
    (dof : dynamics.DegreeOfFreedom) : Result Vector3d := do
  let contactPos ← c.getContactWorldPosition
  let type ← c.getSkeletonContactType dof.skeletonName
  if type = .VERTEX then
    let jointIndex := dof.indexInJoint
    let childNode := dof.childBodyNode
    let worldTwist := m.AdT childNode.worldTransform
      (fun i => dof.joint.relativeJacobian i jointIndex)
    return m.gradientWrtTheta worldTwist contactPos 0
  else if type = .FACE then
    return 0
  else if type = .EDGE then
    return 0
  else
    return 0

/-- The routine `getContactNormalGradient(dof)`. -/
def getContactNormalGradient (c : DifferentiableContactConstraint) (m : MathGeometry)
    (dof : dynamics.DegreeOfFreedom) : Result Vector3d := do
  let normal ← c.getContactWorldNormal
  let type ← c.getSkeletonContactType dof.skeletonName
  if type = .VERTEX then
    return 0
  else if type = .FACE then
    let jointIndex := dof.indexInJoint
    let relativeJac := dof.joint.relativeJacobian
    let childNode := dof.childBodyNode
    let transform := childNode.worldTransform
    let localTwist : Vector6d := fun i => relativeJac i jointIndex
    let worldTwist := m.AdT transform localTwist
    return m.gradientWrtThetaPureRotation worldTwist.head3 normal 0
  else if type = .EDGE then
    return 0
  else
    return 0

/-- The value `v.squaredNorm()`. -/
def squaredNorm (v : Vector3d) : ℚ := ∑ i, v i * v i

/-- The routine `getContactForceGradient(dof)`. -/
def getContactForceGradient (c : DifferentiableContactConstraint) (m : MathGeometry)
    (dof : dynamics.DegreeOfFreedom) : Result Vector3d := do
  let type ← c.getSkeletonContactType dof.skeletonName
  if type = .VERTEX then
    return 0
  else if type = .FACE then
    let contactNormal ← c.getContactWorldNormal
    let normalGradient ← c.getContactNormalGradient m dof
    if c.mIndex = 0 ∨ squaredNorm normalGradient ≤ 1 / 1000000000000 then
      return normalGradient
    else
      let contactConstraint ← deref c.mContactConstraint
      tangentColumn
        (contactConstraint.getTangentBasisMatrixODEGradient contactNormal normalGradient)
        (c.mIndex - 1)
  else if type = .EDGE then
    return 0
  else
    return 0

end DifferentiableContactConstraint

/-! ## The massed snapshot -/

/-- Modelled from the spec: the data behind the zero-argument accessors of
`MassedBackpropSnapshot` (its header is not among the sources). The clamping and upper-bound
accessors return the assembled mass-weighted matrices, which the routines name `V_c` and
`V_ub`. -/
structure MassedBackpropSnapshot where
  mTimeStep : ℚ
  mNumDOFs : Nat
  clampingConstraintMatrix : MatrixXd
  upperBoundConstraintMatrix : MatrixXd
  upperBoundMappingMatrix : MatrixXd
  massMatrix : MatrixXd
  invMassMatrix : MatrixXd

namespace MassedBackpropSnapshot

def getClampingConstraintMatrix (s : MassedBackpropSnapshot) : MatrixXd :=
  s.clampingConstraintMatrix

def getUpperBoundConstraintMatrix (s : MassedBackpropSnapshot) : MatrixXd :=
  s.upperBoundConstraintMatrix

def getUpperBoundMappingMatrix (s : MassedBackpropSnapshot) : MatrixXd :=
  s.upperBoundMappingMatrix

def getMassMatrix (s : MassedBackpropSnapshot) : MatrixXd := s.massMatrix

def getInvMassMatrix (s : MassedBackpropSnapshot) : MatrixXd := s.invMassMatrix

/-- The routine `MassedBackpropSnapshot::getProjectionIntoClampsMatrix()`. -/
def getProjectionIntoClampsMatrix (cod : CompleteOrthogonalDecomposition)
    (s : MassedBackpropSnapshot) : Result MatrixXd :=
  let V_c := s.getClampingConstraintMatrix
  let V_ub := s.getUpperBoundConstraintMatrix
  let E := s.getUpperBoundMappingMatrix
  let V_cInv := cod.pinv V_c
  if V_ub.size > 0 ∧ E.size > 0 then
    ((V_c + V_ub * E) * V_cInv * s.getInvMassMatrix * V_cInv.transpose * V_c.transpose
      : Result MatrixXd)
  else
    (V_c * V_cInv * s.getInvMassMatrix * V_cInv.transpose * V_c.transpose : Result MatrixXd)

/-- The routine `MassedBackpropSnapshot::getForceVelJacobian()`. -/
def getForceVelJacobian (cod : CompleteOrthogonalDecomposition) (s : MassedBackpropSnapshot) :
    Result MatrixXd := do
  let X_c ← s.getProjectionIntoClampsMatrix cod
  (s.mTimeStep • (s.getInvMassMatrix - X_c) : Result MatrixXd)

/-- The routine `MassedBackpropSnapshot::getVelVelJacobian()`. -/
def getVelVelJacobian (cod : CompleteOrthogonalDecomposition) (s : MassedBackpropSnapshot) :
    Result MatrixXd := do
  let X_c ← s.getProjectionIntoClampsMatrix cod
  let B := MatrixXd.Identity s.mNumDOFs s.mNumDOFs
  ((MatrixXd.Identity s.mNumDOFs s.mNumDOFs - X_c * s.getMassMatrix) * B : Result MatrixXd)

end MassedBackpropSnapshot

/-! ## The Jacobian of the constraint forces -/

namespace math

/-- The type `math::LinearJacobian`, that is `Eigen::Matrix<double, 3, Eigen::Dynamic>`: three
rows and a run-time number of columns. -/
structure LinearJacobian where
  cols : Nat
  coeff : Matrix (Fin 3) (Fin cols) ℚ

/-- The type `math::Jacobian`, that is `Eigen::Matrix<double, 6, Eigen::Dynamic>`: six rows and a
run-time number of columns. -/
structure Jacobian where
  cols : Nat
  coeff : Matrix (Fin 6) (Fin cols) ℚ

namespace LinearJacobian

/-- The matrix `math::LinearJacobian::Zero(3, n)`. -/
def Zero (n : Nat) : LinearJacobian := ⟨n, 0⟩

/-- Read access to the column `J.col(i)`. -/
def col (J : LinearJacobian) (i : Nat) : Result Vector3d :=
  if h : i < J.cols then .ok (fun r => J.coeff r ⟨i, h⟩) else .error .eigenAssertion

/-- The assignment `J.col(i) = v`. -/
def setCol (J : LinearJacobian) (i : Nat) (v : Vector3d) : Result LinearJacobian :=
  if i < J.cols then .ok ⟨J.cols, fun r c => if c.val = i then v r else J.coeff r c⟩
  else .error .eigenAssertion

end LinearJacobian

namespace Jacobian

/-- The matrix `math::Jacobian::Zero(6, n)`. -/
def Zero (n : Nat) : Jacobian := ⟨n, 0⟩

/-- Read access to the column `J.col(i)`. -/
def col (J : Jacobian) (i : Nat) : Result Vector6d :=
  if h : i < J.cols then .ok (fun r => J.coeff r ⟨i, h⟩) else .error .eigenAssertion

/-- The assignment `J.block<3, 1>(0, i) = v`. -/
def setTopBlock (J : Jacobian) (i : Nat) (v : Vector3d) : Result Jacobian :=
  if i < J.cols then
    .ok ⟨J.cols, fun r c => if h : c.val = i ∧ r.val < 3 then v ⟨r.val, h.2⟩ else J.coeff r c⟩
  else .error .eigenAssertion

/-- The assignment `J.block(3, 0, 3, n) = B`: the block must lie inside `J` and `B` must have `n`
columns. -/
def setBottomRows (J : Jacobian) (n : Nat) (B : LinearJacobian) : Result Jacobian :=
  if hb : B.cols = n ∧ n ≤ J.cols then
    .ok ⟨J.cols, fun r c =>
      if h : 3 ≤ r.val ∧ c.val < n then B.coeff ⟨r.val - 3, by omega⟩ ⟨c.val, by omega⟩
      else J.coeff r c⟩
  else .error .eigenAssertion

end Jacobian

end math

namespace simulation

/-- Modelled from the spec: `simulation::World` as the contact constraint sees it: the degrees of
freedom of all its skeletons in order, so that `getNumDofs()` is their number. -/
structure World where
  dofs : List dynamics.DegreeOfFreedom

/-- The call `world->getNumDofs()`. -/
def World.getNumDofs (w : World) : Nat := w.dofs.length

/-- The call `world->getDofs()`. -/
def World.getDofs (w : World) : List dynamics.DegreeOfFreedom := w.dofs

end simulation

/-- The assignment `A(r, c) = x`. -/
def MatrixXd.setCoeff (A : MatrixXd) (r c : Nat) (x : ℚ) : Result MatrixXd :=
  if r < A.rows ∧ c < A.cols then
    .ok ⟨A.rows, A.cols, fun i j => if i.val = r ∧ j.val = c then x else A.coeff i j⟩
  else .error .eigenAssertion

namespace DifferentiableContactConstraint

/-- The routine `getContactWorldForceGradient(dof)`. -/
def getContactWorldForceGradient (c : DifferentiableContactConstraint) (m : MathGeometry)
    (dof : dynamics.DegreeOfFreedom) : Result Vector6d := do
  let position ← c.getContactWorldPosition
  let force ← c.getContactWorldForceDirection
  let forceGradient ← c.getContactForceGradient m dof
  let positionGradient ← c.getContactPositionGradient m dof
  let result : Vector6d := 0
  let result := result.setHead3 (position.cross forceGradient + positionGradient.cross force)
  let result := result.setTail3 forceGradient
  return result

/-- The routine `getScrewAxisGradient(screwDof, rotateDof)`. -/
def getScrewAxisGradient (m : MathGeometry) (screwDof rotateDof : dynamics.DegreeOfFreedom) :
    Vector6d :=
  if screwDof.skeletonName ≠ rotateDof.skeletonName then 0
  else
    let axisWorldTwist := getWorldScrewAxis m screwDof
    let rotateWorldTwist := getWorldScrewAxis m rotateDof
    m.ad rotateWorldTwist axisWorldTwist

/-- The loop `for (auto dof : world->getDofs()) { jac.col(i) = gradient(dof); i++; }` that
`getContactPositionJacobian` and `getContactForceDirectionJacobian` run with their gradient. -/
def gradientColumnsLoop (gradient : dynamics.DegreeOfFreedom → Result Vector3d) :
    List dynamics.DegreeOfFreedom → Nat → math.LinearJacobian → Result math.LinearJacobian
  | [], _, jac => .ok jac
  | dof :: rest, i, jac => do
    let column ← gradient dof
    let jac ← jac.setCol i column
    gradientColumnsLoop gradient rest (i + 1) jac

/-- The routine `getContactPositionJacobian(world)`. -/
def getContactPositionJacobian (c : DifferentiableContactConstraint) (m : MathGeometry)
    (world : simulation.World) : Result math.LinearJacobian :=
  let jac := math.LinearJacobian.Zero world.getNumDofs
  gradientColumnsLoop (c.getContactPositionGradient m) world.getDofs 0 jac

/-- The routine `getContactForceDirectionJacobian(world)`. -/
def getContactForceDirectionJacobian (c : DifferentiableContactConstraint) (m : MathGeometry)
    (world : simulation.World) : Result math.LinearJacobian :=
  let jac := math.LinearJacobian.Zero world.getNumDofs
  gradientColumnsLoop (c.getContactForceGradient m) world.getDofs 0 jac

/-- The routine `getContactForceJacobian(world)`. -/
def getContactForceJacobian (c : DifferentiableContactConstraint) (m : MathGeometry)
    (world : simulation.World) : Result math.Jacobian := do
  let pos ← c.getContactWorldPosition
  let dir ← c.getContactWorldForceDirection
  let posJac ← c.getContactPositionJacobian m world
  let dirJac ← c.getContactForceDirectionJacobian m world
  let jac := math.Jacobian.Zero world.getNumDofs
  let jac ← (List.range world.getNumDofs).foldlM
    (fun (jac : math.Jacobian) (i : Nat) => do
      let dirCol ← dirJac.col i
      let posCol ← posJac.col i
      jac.setTopBlock i (pos.cross dirCol + posCol.cross dir)) jac
  jac.setBottomRows world.getNumDofs dirJac

/-- The routine `getConstraintForce(dof)`. -/
def getConstraintForce (c : DifferentiableContactConstraint) (m : MathGeometry)
    (dof : dynamics.DegreeOfFreedom) : Result ℚ := do
  let multiple ← c.getForceMultiple dof
  let worldForce ← c.getWorldForce
  let worldTwist := getWorldScrewAxis m dof
  return worldTwist.dot worldForce * multiple

/-- The routine `getConstraintForceDerivative(dof, wrt)`. -/
def getConstraintForceDerivative (c : DifferentiableContactConstraint) (m : MathGeometry)
    (dof wrt : dynamics.DegreeOfFreedom) : Result ℚ := do
  let multiple ← c.getForceMultiple dof
  let worldForce ← c.getWorldForce
  let gradientOfWorldForce ← c.getContactWorldForceGradient m wrt
  let gradientOfWorldTwist := getScrewAxisGradient m dof wrt
  let worldTwist := getWorldScrewAxis m dof
  return (worldTwist.dot gradientOfWorldForce + gradientOfWorldTwist.dot worldForce) * multiple

/-- The inner loop of `getConstraintForcesJacobian` for one row. -/
def constraintForcesJacobianRow (c : DifferentiableContactConstraint) (m : MathGeometry)
    (dofs : List dynamics.DegreeOfFreedom) (dim : Nat) (forceJac : math.Jacobian)
    (force : Vector6d) (result : MatrixXd) (row : Nat) : Result MatrixXd := do
  let rowDof ← deref dofs[row]?
  let axis := getWorldScrewAxis m rowDof
  (List.range dim).foldlM
    (fun (result : MatrixXd) (wrt : Nat) => do
      let wrtDof ← deref dofs[wrt]?
      let screwAxisGradient := getScrewAxisGradient m rowDof wrtDof
      let forceGradient ← forceJac.col wrt
      let multiple ← c.getForceMultiple rowDof
      result.setCoeff row wrt
        (multiple * (screwAxisGradient.dot force + axis.dot forceGradient))) result

/-- The routine `getConstraintForcesJacobian(world)`. -/
def getConstraintForcesJacobian (c : DifferentiableContactConstraint) (m : MathGeometry)
    (world : simulation.World) : Result MatrixXd := do
  let dim := world.getNumDofs
  let forceJac ← c.getContactForceJacobian m world
  let force ← c.getWorldForce
  let result := MatrixXd.Zero dim dim
  let dofs := world.getDofs
  (List.range dim).foldlM (constraintForcesJacobianRow c m dofs dim forceJac force) result

end DifferentiableContactConstraint

/-! ## Inverse kinematics

The file `InverseKinematics.cpp`. The entity whose Jacobian is taken and its skeleton are external
collaborators, seen through the members the file uses. The cache of the error method compares
configurations coefficient by coefficient, so its doubles keep the value NaN. -/

/-- A `double` of a cached configuration or error: a number or NaN. -/
inductive Double where
  | val (x : ℚ)
  | nan
  deriving DecidableEq

/-- The comparison `a != b` of two doubles: it holds as soon as one of them is NaN. -/
def Double.ne : Double → Double → Bool
  | .val x, .val y => decide (x ≠ y)
  | _, _ => true

namespace math

/-- Storage of a `math::Jacobian` after `resize`: a coefficient is `none` until assigned. -/
structure UninitJacobian where
  cols : Nat
  coeff : Fin 6 → Fin cols → Option ℚ

namespace UninitJacobian

/-- The call `J.resize(6, n)`: the storage is kept when the size does not change and is fresh
otherwise. -/
def resize (J : UninitJacobian) (n : Nat) : UninitJacobian :=
  if J.cols = n then J else ⟨n, fun _ _ => none⟩

/-- The assignment `J.block<6, 1>(0, i) = v`. -/
def setCol (J : UninitJacobian) (i : Nat) (v : Vector6d) : Result UninitJacobian :=
  if i < J.cols then .ok ⟨J.cols, fun r c => if c.val = i then some (v r) else J.coeff r c⟩
  else .error .eigenAssertion

/-- The whole matrix, when all of it has been assigned. -/
def read (J : UninitJacobian) : Result Jacobian :=
  if h : ∀ r c, (J.coeff r c).isSome then .ok ⟨J.cols, fun r c => (J.coeff r c).get (h r c)⟩
  else .error .uninitializedRead

end UninitJacobian

end math

/-- The matrix `A.inverse()` of a square matrix, by Cramer's rule: the inverse when `A` is
nonsingular. -/
def eigenInverse {n : Nat} (A : Matrix (Fin n) (Fin n) ℚ) : Matrix (Fin n) (Fin n) ℚ :=
  A.det⁻¹ • A.adjugate

namespace dynamics

/-- Modelled from the spec: `dynamics::JacobianEntity` (a body node or end effector; its class is
not among the sources), through the members the file uses: the indices of the generalized
coordinates it depends on and its world Jacobian, which has one column for each of them, with
and without an offset. -/
structure JacobianEntity where
  dependentGenCoordIndices : List Nat
  worldJacobian : math.Jacobian
  worldJacobianAt : Vector3d → math.Jacobian

/-- The members of `InverseKinematics` that the embedded routines use, with the positions of the
skeleton of the entity by generalized coordinate index and the dimension of the optimization
problem. -/
structure InverseKinematics where
  mEntity : JacobianEntity
  mDofs : List Nat
  mDofMap : List Int
  mHasOffset : Bool
  mOffset : Vector3d
  mJacobian : math.UninitJacobian
  problemDimension : Nat
  skeletonPositions : Nat → Double

namespace InverseKinematics

def getDofs (ik : InverseKinematics) : List Nat := ik.mDofs

def getDofMap (ik : InverseKinematics) : List Int := ik.mDofMap

def getEntity (ik : InverseKinematics) : JacobianEntity := ik.mEntity

def hasOffset (ik : InverseKinematics) : Bool := ik.mHasOffset

/-- The inner loop of `useDofs` for one dependency of the entity: the entry is `-1` unless some
`mDofs[j]` is the dependency, and then the last such `j`. -/
def dofMapEntry (mDofs : List Nat) (dependency : Nat) : Int :=
  (List.range mDofs.length).foldl
    (fun (entry : Int) (j : Nat) => if mDofs[j]? = some dependency then (j : Int) else entry)
    (-1)

/-- The routine `useDofs(_dofs)`. -/
def useDofs (ik : InverseKinematics) (dofs : List Nat) : InverseKinematics :=
  let entityDependencies := ik.mEntity.dependentGenCoordIndices
  { ik with
    mDofs := dofs
    mDofMap := entityDependencies.map (dofMapEntry dofs)
    problemDimension := dofs.length }

/-- The loop of `computeJacobian` over the entries of the DOF map, from index `i` on. -/
def computeJacobianLoop (fullJacobian : math.Jacobian) :
    List Int → Nat → math.UninitJacobian → Result math.UninitJacobian
  | [], _, J => .ok J
  | j :: rest, i, J => do
    let J ←
      (if j ≥ 0 then do
        let column ← fullJacobian.col j.toNat
        J.setCol i column
      else J.setCol i 0 : Result math.UninitJacobian)
    computeJacobianLoop fullJacobian rest (i + 1) J

/-- The routine `computeJacobian()`; the member `mJacobian` is mutable. -/
def computeJacobian (ik : InverseKinematics) :
    Result (math.UninitJacobian × InverseKinematics) := do
  let fullJacobian :=
    if ik.hasOffset then ik.getEntity.worldJacobianAt ik.mOffset
    else ik.getEntity.worldJacobian
  let J := ik.mJacobian.resize ik.getDofs.length
  let J ← computeJacobianLoop fullJacobian ik.getDofMap 0 J
  return (J, { ik with mJacobian := J })

/-- Modelled from the spec: `Skeleton::setPositions(indices, values)` (the skeleton class is
not among the sources): the coordinate `indices[k]` takes the value `values[k]`. -/
def setPositions (positions : Nat → Double) (indices : List Nat) (values : List Double) :
    Nat → Double :=
  (indices.zip values).foldl (fun pos kv => Function.update pos kv.1 kv.2) positions

/-- The routine `setConfiguration(_q)`. -/
def setConfiguration (ik : InverseKinematics) (q : List Double) : InverseKinematics :=
  if q.length ≠ ik.mDofs.length then ik
  else { ik with skeletonPositions := setPositions ik.skeletonPositions ik.mDofs q }

/-- The members of `InverseKinematics::ErrorMethod` that the cache uses. -/
structure ErrorMethod where
  mLastConfig : List Double
  mLastError : Fin 6 → Double

namespace ErrorMethod

/-- The constructor of `ErrorMethod`: the last error is NaN in every coefficient and the last
configuration is empty. -/
def create : ErrorMethod := ⟨[], fun _ => .nan⟩

/-- The loop of `computeError(_q)` that compares the configuration with the cached one, for
vectors of the same size. -/
def isRepeat (q lastConfig : List Double) : Bool :=
  (q.zip lastConfig).all fun p => !(p.1.ne p.2)

/-- The routine `computeError(_q)`; the pure virtual `computeError()` of the method is the
parameter `evaluate`, which reads the configuration of the skeleton. It returns the error with
the new state of the method and of the solver. -/
def computeError (evaluate : InverseKinematics → Fin 6 → Double) (em : ErrorMethod)
    (ik : InverseKinematics) (q : List Double) :
    (Fin 6 → Double) × ErrorMethod × InverseKinematics :=
  if q.length ≠ ik.getDofs.length then
    let em := { em with mLastError := fun _ => .val 0 }
    (em.mLastError, em, ik)
  else if q.length = em.mLastConfig.length ∧ isRepeat q em.mLastConfig = true then
    (em.mLastError, em, ik)
  else
    let ik := ik.setConfiguration q
    let em := { em with mLastConfig := q }
    let em := { em with mLastError := evaluate ik }
    (em.mLastError, em, ik)

/-- The routine `clearCache()`. -/
def clearCache (em : ErrorMethod) : ErrorMethod :=
  if em.mLastConfig.length > 0 then { em with mLastConfig := em.mLastConfig.set 0 .nan }
  else em

end ErrorMethod

/-- The routine `GradientMethod::clampGradient(_grad)`. -/
def clampGradient (mComponentWiseClamp : ℚ) (grad : VectorXd) : VectorXd :=
  ⟨grad.size, fun i =>
    if |grad.coeff i| > mComponentWiseClamp then
      (if grad.coeff i > 0 then mComponentWiseClamp else -mComponentWiseClamp)
    else grad.coeff i⟩

/-- The members of `InverseKinematics::JacobianDLS`. -/
structure JacobianDLS where
  mComponentWiseClamp : ℚ
  mDamping : ℚ

namespace JacobianDLS

/-- The branch `rows <= cols` of `computeGradient`:
`J^T * (damping^2 * I + J * J^T).inverse() * error`. -/
def wideGradient {n : Nat} (damping : ℚ) (J : Matrix (Fin 6) (Fin n) ℚ) (error : Vector6d) :
    Fin n → ℚ :=
  (J.transpose * eigenInverse (damping ^ 2 • (1 : Matrix (Fin 6) (Fin 6) ℚ) + J * J.transpose)).mulVec
    error

/-- The other branch of `computeGradient`:
`(damping^2 * I + J^T * J).inverse() * J^T * error`. -/
def tallGradient {n : Nat} (damping : ℚ) (J : Matrix (Fin 6) (Fin n) ℚ) (error : Vector6d) :
    Fin n → ℚ :=
  (eigenInverse (damping ^ 2 • (1 : Matrix (Fin n) (Fin n) ℚ) + J.transpose * J) * J.transpose).mulVec
    error

/-- The gradient of `computeGradient` before it is clamped. -/
def unclampedGradient (damping : ℚ) (J : math.Jacobian) (error : Vector6d) : VectorXd :=
  let rows := 6
  let cols := J.cols
  if rows ≤ cols then ⟨cols, wideGradient damping J.coeff error⟩
  else ⟨cols, tallGradient damping J.coeff error⟩

/-- The routine `JacobianDLS::computeGradient(_error, _grad)`. -/
def computeGradient (g : JacobianDLS) (ik : InverseKinematics) (error : Vector6d) :
    Result (VectorXd × InverseKinematics) := do
  let (J, ik) ← ik.computeJacobian
  let J ← J.read
  let grad := unclampedGradient g.mDamping J error
  return (clampGradient g.mComponentWiseClamp grad, ik)

end JacobianDLS

end InverseKinematics

end dynamics

/-! ## Specification-level notions -/

/-- The Moore-Penrose conditions: `X` is the pseudo-inverse of `A`. -/
def IsPseudoInverse {m n : Nat} (A : Matrix (Fin m) (Fin n) ℚ) (X : Matrix (Fin n) (Fin m) ℚ) :
    Prop :=
  A * X * A = A ∧ X * A * X = X ∧ (A * X).transpose = A * X ∧ (X * A).transpose = X * A

/-- The coefficient of index `i` of a storage vector, `none` when it is unassigned or out of
range. -/
def UninitVectorXd.get (v : UninitVectorXd) (i : Nat) : Option ℚ :=
  if h : i < v.size then v.coeff ⟨i, h⟩ else none

/-- The coefficient `A(i, j)` of a matrix, `none` when the index is out of range. -/
def MatrixXd.get (A : MatrixXd) (i j : Nat) : Option ℚ :=
  if h : i < A.rows ∧ j < A.cols then some (A.coeff ⟨i, h.1⟩ ⟨j, h.2⟩) else none

/-- The DOF count of the skeleton that the world knows under `name` (0 when there is none): the
height of the row section a member skeleton occupies in its group's matrices. -/
def World.memberDofs (w : World) (name : String) : Nat :=
  match w.getSkeleton name with
  | some skel => skel.numDofs
  | none => 0

/-- Modelled from the spec: the invariants of a finalized constrained group in a world (the
implementation file of `ConstrainedGroupGradientMatrices` is not among the sources). Its member
skeletons are distinct skeletons of the world, each of its constraint matrices has a row for every
DOF of every member, and a massed matrix has the columns of its unmassed counterpart. -/
structure GroupWellFormed (world : World) (g : ConstrainedGroupGradientMatrices) : Prop where
  nodup : g.mSkeletons.Nodup
  known : ∀ name ∈ g.mSkeletons, ∃ skel, world.getSkeleton name = some skel
  rows : ∀ whichMatrix, (g.mSkeletons.map world.memberDofs).sum
    ≤ (BackpropSnapshot.groupMatrixToAssemble g whichMatrix).rows
  massedClampingCols : g.mMassedClampingConstraintMatrix.cols = g.mClampingConstraintMatrix.cols
  massedUpperBoundCols :
    g.mMassedUpperBoundConstraintMatrix.cols = g.mUpperBoundConstraintMatrix.cols

/-- The coefficient `v(i)` of a vector, `none` when the index is out of range. -/
def VectorXd.get (v : VectorXd) (i : Nat) : Option ℚ :=
  if h : i < v.size then some (v.coeff ⟨i, h⟩) else none

/-- The matrix whose `i`-th column is the vectorised outer product `vec(a_i * a_i^T)` of the
`i`-th column `a_i` of `A`: the coefficient of index `j * n + k` is `a_i(j) * a_i(k)`. -/
def outerProductMatrix {n m : Nat} (A : Matrix (Fin n) (Fin m) ℚ) :
    Matrix (Fin (n * n)) (Fin m) ℚ :=
  fun p i => A p.divNat i * A p.modNat i

/-- The vectorised identity matrix: the coefficient of index `j * n + k` is 1 when `j = k` and 0
otherwise. -/
def vecIdentity (n : Nat) : Fin (n * n) → ℚ :=
  fun p => if p.divNat = p.modNat then 1 else 0

/-- The matrix whose column `i` is the segment `[i * n, i * n + n)` of the vector `q`. -/
def unvec {n : Nat} (q : Fin (n * n) → ℚ) : Matrix (Fin n) (Fin n) ℚ :=
  fun k i => q (finProdFinEquiv (i, k))

/-- A forward step that alters neither the timestep nor the two flags of the constraint solver. -/
def StepKeepsSolverSettings (forward : World → WorldState) : Prop :=
  ∀ w : World, (forward w).timeStep = w.state.timeStep
    ∧ (forward w).gradientEnabled = w.state.gradientEnabled
    ∧ (forward w).penetrationCorrectionEnabled = w.state.penetrationCorrectionEnabled

/-- The world `after` has the position, velocity, torque, timestep, gradient flag and
penetration-correction flag of the world `before`. -/
def RestoredTo (before after : World) : Prop :=
  after.state.positions = before.state.positions
    ∧ after.state.velocities = before.state.velocities
    ∧ after.state.forces = before.state.forces
    ∧ after.state.timeStep = before.state.timeStep
    ∧ after.state.gradientEnabled = before.state.gradientEnabled
    ∧ after.state.penetrationCorrectionEnabled = before.state.penetrationCorrectionEnabled

/-- The coefficient `J(i, j)` of matrix storage, `none` when it was never assigned or the index is
out of range. -/
def UninitMatrixXd.get (J : UninitMatrixXd) (i j : Nat) : Option ℚ :=
  if h : i < J.rows ∧ j < J.cols then J.coeff ⟨i, h.1⟩ ⟨j, h.2⟩ else none

/-- The distinct pointers of a list, each one kept where it first appears; two pointers are the
same when their addresses are. -/
def firstAppearances {α : Type} : List (SharedPtr α) → List (SharedPtr α)
  | [] => []
  | p :: rest => p :: (firstAppearances rest).filter (fun q => q.addr != p.addr)

/-- The constraint groups attached to the skeletons of a world, in skeleton order, a group once
for every skeleton it is attached to. -/
def World.attachedGroups (w : World) : List (SharedPtr ConstrainedGroupGradientMatrices) :=
  w.skeletons.filterMap Skeleton.gradientConstraintMatrices

/-- The column `k` of the Jacobian that `computeJacobian` returns, read back. -/
def dynamics.InverseKinematics.computedColumn (ik : dynamics.InverseKinematics) (k : Nat) :
    Result Vector6d := do
  let (J, _) ← ik.computeJacobian
  let J ← J.read
  J.col k

/-- The position of the block that holds index `j`, when blocks of the given widths follow each
other. -/
def blockIndex : List Nat → Nat → Nat
  | [], _ => 0
  | width :: rest, j => if j < width then 0 else blockIndex rest (j - width) + 1

/-- The world row of the group-local row `r` of a constrained group with the given member
skeletons: the rows of the members follow each other in the group, and each member has its
offset in the world. -/
def BackpropSnapshot.memberRow (s : BackpropSnapshot) (world : World) : List String → Nat → Nat
  | [], _ => 0
  | name :: rest, r =>
    if r < world.memberDofs name then s.skeletonOffset name + r
    else memberRow s world rest (r - world.memberDofs name)

/-- The world with its position and velocity forced to the pre-step values stored in the
snapshot. -/
def BackpropSnapshot.atPreStep (s : BackpropSnapshot) (world : World) : World :=
  (world.setPositions s.mPreStepPosition).setVelocities s.mPreStepVelocity

/-- The two passes of `backprop` (constraint groups, then free skeletons) run in a given world,
from freshly allocated output vectors. -/
def BackpropSnapshot.backpropPasses (s : BackpropSnapshot) (world : World)
    (nextTimestepLoss : LossGradient) : Result LossGradient := do
  let (thisTimestepLoss, skeletonsVisited) ←
    s.backpropGroups world nextTimestepLoss s.mGradientMatrices
      { lossWrtPosition := UninitVectorXd.alloc s.mNumDOFs
        lossWrtVelocity := UninitVectorXd.alloc s.mNumDOFs
        lossWrtTorque := UninitVectorXd.alloc s.mNumDOFs } []
  s.backpropFreeSkeletons world nextTimestepLoss skeletonsVisited world.skeletons thisTimestepLoss

/-! ## Concrete scenarios -/

namespace Scenario

/-- The pseudo-inverse of a nonsingular square matrix, by Cramer's rule (and zero on any other
shape); it stands in for the Eigen decomposition where the decomposed matrix is nonsingular. -/
def cramer : CompleteOrthogonalDecomposition :=
  ⟨fun m n A =>
    if h : m = n then
      (((A.submatrix id (Fin.cast h)).det)⁻¹ • (A.submatrix id (Fin.cast h)).adjugate).submatrix
        (Fin.cast h.symm) id
    else 0⟩

/-- A world state at rest with `n` DOFs, timestep `dt` and the given link masses. -/
def restState (n : Nat) (dt : ℚ) (masses : VectorXd) : WorldState :=
  { positions := VectorXd.Zero n
    velocities := VectorXd.Zero n
    forces := VectorXd.Zero n
    timeStep := dt
    gradientEnabled := true
    penetrationCorrectionEnabled := true
    linkMasses := masses
    linkCOMs := VectorXd.Zero 3
    linkMOIs := VectorXd.Zero 3 }

/-- One free body of mass `m` with three translational DOFs: its inverse mass matrix is
`(1/m)·I3` and its Coriolis Jacobians vanish. -/
def bodySkeleton (m : ℚ) (mobile : Bool) : Skeleton :=
  { name := "body"
    numDofs := 3
    mobile := mobile
    gradientConstraintMatrices := none
    massMatrix := fun _ => m • (1 : Matrix (Fin 3) (Fin 3) ℚ)
    invMassMatrix := fun _ => (1 / m) • (1 : Matrix (Fin 3) (Fin 3) ℚ)
    posCJacobian := fun _ => 0
    velCJacobian := fun _ => 0 }

/-- The world of one unconstrained body of mass `m` under gravity `g` with timestep `dt`. -/
def freeBodyWorld (m g dt : ℚ) : World :=
  { skeletons := [bodySkeleton m true]
    state := restState 3 dt ⟨1, fun _ => m⟩
    coriolisAndGravityAndExternalForces := fun _ => ⟨3, ![0, m * g, 0]⟩ }

/-- The snapshot taken of the free-body world at rest. -/
def freeBodySnapshot (m g dt : ℚ) : BackpropSnapshot :=
  BackpropSnapshot.create (freeBodyWorld m g dt) (VectorXd.Zero 3) (VectorXd.Zero 3)
    (VectorXd.Zero 3)

/-- The world of one body that is not mobile and belongs to no constraint group. -/
def immobileBodyWorld : World :=
  { skeletons := [bodySkeleton 1 false]
    state := restState 3 1 ⟨1, fun _ => 1⟩
    coriolisAndGravityAndExternalForces := fun _ => VectorXd.Zero 3 }

/-- The snapshot taken of the world of one immobile body. -/
def immobileBodySnapshot : BackpropSnapshot :=
  BackpropSnapshot.create immobileBodyWorld (VectorXd.Zero 3) (VectorXd.Zero 3) (VectorXd.Zero 3)

/-- A next-timestep loss on three DOFs with all positions and velocities filled in. -/
def unitLoss : LossGradient :=
  { lossWrtPosition := UninitVectorXd.ofVector ⟨3, ![1, 2, 3]⟩
    lossWrtVelocity := UninitVectorXd.ofVector ⟨3, ![4, 5, 6]⟩
    lossWrtTorque := UninitVectorXd.alloc 0 }

/-- The constrained group of a unit-mass box on the ground: one clamping normal direction, one
friction direction at its upper bound with coefficient `mu`, bounce diagonal `b`. Its own backprop
returns the zero loss. -/
def contactGroup (mu b : ℚ) : ConstrainedGroupGradientMatrices :=
  { mSkeletons := ["box"]
    mNumDOFs := 2
    mNumConstraintDim := 2
    mClampingConstraintMatrix := ⟨2, 1, !![0; 1]⟩
    mMassedClampingConstraintMatrix := ⟨2, 1, !![0; 1]⟩
    mUpperBoundConstraintMatrix := ⟨2, 1, !![1; 0]⟩
    mMassedUpperBoundConstraintMatrix := ⟨2, 1, !![1; 0]⟩
    mUpperBoundMappingMatrix := ⟨1, 1, !![mu]⟩
    mBouncingConstraintMatrix := ⟨2, 0, 0⟩
    mBounceDiagonals := ⟨1, ![b]⟩
    mRestitutionDiagonals := ⟨0, ![]⟩
    mContactConstraintImpulses := ⟨2, ![1, mu]⟩
    mPenetrationCorrectionVelocities := ⟨1, ![0]⟩
    mContactConstraintMappings := [-1, 0]
    backprop := fun _ _ _ =>
      { lossWrtPosition := UninitVectorXd.ofVector (VectorXd.Zero 2)
        lossWrtVelocity := UninitVectorXd.ofVector (VectorXd.Zero 2)
        lossWrtTorque := UninitVectorXd.ofVector (VectorXd.Zero 2) } }

/-- A unit-mass box with two translational DOFs in contact with the ground. -/
def boxSkeleton (mu b : ℚ) : Skeleton :=
  { name := "box"
    numDofs := 2
    mobile := true
    gradientConstraintMatrices := some ⟨0, contactGroup mu b⟩
    massMatrix := fun _ => 1
    invMassMatrix := fun _ => 1
    posCJacobian := fun _ => 0
    velCJacobian := fun _ => !![0, 1; -1, 0] }

/-- The world of the box in contact, with timestep `dt`, velocity `v` and Coriolis/gravity
force `c`. -/
def contactWorld (mu b dt : ℚ) (v c : Fin 2 → ℚ) : World :=
  { skeletons := [boxSkeleton mu b]
    state := { restState 2 dt ⟨1, fun _ => 1⟩ with velocities := ⟨2, v⟩ }
    coriolisAndGravityAndExternalForces := fun _ => ⟨2, c⟩ }

/-- The snapshot taken of the contact world. -/
def contactSnapshot (mu b dt : ℚ) (v c : Fin 2 → ℚ) : BackpropSnapshot :=
  BackpropSnapshot.create (contactWorld mu b dt v c) (VectorXd.Zero 2) ⟨2, v⟩ (VectorXd.Zero 2)

/-- The world of the box in contact next to a free body. -/
def mixedWorld (m dt : ℚ) : World :=
  { skeletons := [boxSkeleton 0 1, bodySkeleton m true]
    state := restState 5 dt ⟨2, fun _ => 1⟩
    coriolisAndGravityAndExternalForces := fun _ => VectorXd.Zero 5 }

/-- The snapshot taken of the mixed world. -/
def mixedSnapshot (m dt : ℚ) : BackpropSnapshot :=
  BackpropSnapshot.create (mixedWorld m dt) (VectorXd.Zero 5) (VectorXd.Zero 5) (VectorXd.Zero 5)

/-- A next-timestep loss on five DOFs with all positions and velocities filled in. -/
def mixedLoss : LossGradient :=
  { lossWrtPosition := UninitVectorXd.ofVector ⟨5, ![1, 2, 3, 4, 5]⟩
    lossWrtVelocity := UninitVectorXd.ofVector ⟨5, ![6, 7, 8, 9, 10]⟩
    lossWrtTorque := UninitVectorXd.alloc 0 }

/-- The world of the box in contact next to a body that is in no constraint group and is not
mobile. -/
def anchoredWorld : World :=
  { skeletons := [boxSkeleton 0 1, bodySkeleton 1 false]
    state := restState 5 1 ⟨2, fun _ => 1⟩
    coriolisAndGravityAndExternalForces := fun _ => VectorXd.Zero 5 }

/-- The snapshot taken of the world of the box next to the immobile body. -/
def anchoredSnapshot : BackpropSnapshot :=
  BackpropSnapshot.create anchoredWorld (VectorXd.Zero 5) (VectorXd.Zero 5) (VectorXd.Zero 5)

/-- The constrained group of a sled on two runners: two clamping normal directions and one
friction direction at its upper bound, tied to the first normal with coefficient `mu`. Its own
backprop returns the zero loss. -/
def sledGroup (mu : ℚ) : ConstrainedGroupGradientMatrices :=
  { mSkeletons := ["sled"]
    mNumDOFs := 3
    mNumConstraintDim := 3
    mClampingConstraintMatrix := ⟨3, 2, !![0, 0; 1, 0; 0, 1]⟩
    mMassedClampingConstraintMatrix := ⟨3, 2, !![0, 0; 1, 0; 0, 1]⟩
    mUpperBoundConstraintMatrix := ⟨3, 1, !![1; 0; 0]⟩
    mMassedUpperBoundConstraintMatrix := ⟨3, 1, !![1; 0; 0]⟩
    mUpperBoundMappingMatrix := ⟨1, 2, !![mu, 0]⟩
    mBouncingConstraintMatrix := ⟨3, 0, 0⟩
    mBounceDiagonals := ⟨2, ![1, 1]⟩
    mRestitutionDiagonals := ⟨0, ![]⟩
    mContactConstraintImpulses := ⟨3, ![1, 1, mu]⟩
    mPenetrationCorrectionVelocities := ⟨2, ![0, 0]⟩
    mContactConstraintMappings := [-1, -1, 0]
    backprop := fun _ _ _ =>
      { lossWrtPosition := UninitVectorXd.ofVector (VectorXd.Zero 3)
        lossWrtVelocity := UninitVectorXd.ofVector (VectorXd.Zero 3)
        lossWrtTorque := UninitVectorXd.ofVector (VectorXd.Zero 3) } }

/-- A unit-mass sled with three DOFs resting on its two runners. -/
def sledSkeleton (mu : ℚ) : Skeleton :=
  { name := "sled"
    numDofs := 3
    mobile := true
    gradientConstraintMatrices := some ⟨1, sledGroup mu⟩
    massMatrix := fun _ => 1
    invMassMatrix := fun _ => 1
    posCJacobian := fun _ => 0
    velCJacobian := fun _ => 0 }

/-- The world of the sled alone. -/
def sledWorld (mu : ℚ) : World :=
  { skeletons := [sledSkeleton mu]
    state := restState 3 1 ⟨1, fun _ => 1⟩
    coriolisAndGravityAndExternalForces := fun _ => VectorXd.Zero 3 }

/-- The snapshot taken of the world of the sled. -/
def sledSnapshot (mu : ℚ) : BackpropSnapshot :=
  BackpropSnapshot.create (sledWorld mu) (VectorXd.Zero 3) (VectorXd.Zero 3) (VectorXd.Zero 3)

/-- The world of the box in contact followed by the sled, each with its own constraint group. -/
def yardWorld (mu1 mu2 : ℚ) : World :=
  { skeletons := [boxSkeleton mu1 1, sledSkeleton mu2]
    state := restState 5 1 ⟨2, fun _ => 1⟩
    coriolisAndGravityAndExternalForces := fun _ => VectorXd.Zero 5 }

/-- The snapshot taken of the world of the box and the sled. -/
def yardSnapshot (mu1 mu2 : ℚ) : BackpropSnapshot :=
  BackpropSnapshot.create (yardWorld mu1 mu2) (VectorXd.Zero 5) (VectorXd.Zero 5)
    (VectorXd.Zero 5)

/-- The pseudo-inverse `A^T * (A * A^T)^(-1)` of a matrix with linearly independent rows, the
inverse taken by Cramer's rule; it stands in for the Eigen decomposition where the decomposed
matrix has full row rank. -/
def rightInverse : CompleteOrthogonalDecomposition :=
  ⟨fun _ _ A => A.transpose * ((A * A.transpose).det⁻¹ • (A * A.transpose).adjugate)⟩

/-- The constrained group of a ball bouncing on the ground: one clamping direction, the normal,
which is also bouncing with restitution coefficient `e`. Its own backprop returns the zero
loss. -/
def ballGroup (e : ℚ) : ConstrainedGroupGradientMatrices :=
  { mSkeletons := ["ball"]
    mNumDOFs := 2
    mNumConstraintDim := 1
    mClampingConstraintMatrix := ⟨2, 1, !![0; 1]⟩
    mMassedClampingConstraintMatrix := ⟨2, 1, !![0; 1]⟩
    mUpperBoundConstraintMatrix := ⟨2, 0, 0⟩
    mMassedUpperBoundConstraintMatrix := ⟨2, 0, 0⟩
    mUpperBoundMappingMatrix := ⟨0, 1, 0⟩
    mBouncingConstraintMatrix := ⟨2, 1, !![0; 1]⟩
    mBounceDiagonals := ⟨1, ![1 + e]⟩
    mRestitutionDiagonals := ⟨1, ![e]⟩
    mContactConstraintImpulses := ⟨1, ![1]⟩
    mPenetrationCorrectionVelocities := ⟨1, ![0]⟩
    mContactConstraintMappings := [-1]
    backprop := fun _ _ _ =>
      { lossWrtPosition := UninitVectorXd.ofVector (VectorXd.Zero 2)
        lossWrtVelocity := UninitVectorXd.ofVector (VectorXd.Zero 2)
        lossWrtTorque := UninitVectorXd.ofVector (VectorXd.Zero 2) } }

/-- A unit-mass ball with two translational DOFs. -/
def ballSkeleton (e : ℚ) : Skeleton :=
  { name := "ball"
    numDofs := 2
    mobile := true
    gradientConstraintMatrices := some ⟨0, ballGroup e⟩
    massMatrix := fun _ => 1
    invMassMatrix := fun _ => 1
    posCJacobian := fun _ => 0
    velCJacobian := fun _ => 0 }

/-- The world of the bouncing ball. -/
def ballWorld (e : ℚ) : World :=
  { skeletons := [ballSkeleton e]
    state := restState 2 1 ⟨1, fun _ => 1⟩
    coriolisAndGravityAndExternalForces := fun _ => VectorXd.Zero 2 }

/-- The snapshot taken of the world of the bouncing ball. -/
def ballSnapshot (e : ℚ) : BackpropSnapshot :=
  BackpropSnapshot.create (ballWorld e) (VectorXd.Zero 2) (VectorXd.Zero 2) (VectorXd.Zero 2)

/-- The geometry helpers at angle zero: the adjoint action of a transform on a twist, the
velocity of a point and of a direction under a twist, and the Lie bracket of two twists. -/
def geometry : MathGeometry :=
  { AdT := fun T V =>
      let w : Vector3d := T.linear.mulVec V.head3
      ((0 : Vector6d).setHead3 w).setTail3 (T.linear.mulVec V.tail3 + T.translation.cross w)
    gradientWrtTheta := fun screw point _ => screw.head3.cross point + screw.tail3
    gradientWrtThetaPureRotation := fun axis direction _ => axis.cross direction
    ad := fun s1 s2 =>
      ((0 : Vector6d).setHead3 (s1.head3.cross s2.head3)).setTail3
        (s1.head3.cross s2.tail3 + s1.tail3.cross s2.head3) }

/-- A body at the origin of the world frame. -/
def bodyNode (skeletonName : String) (treeIndex indexInTree : Nat) : dynamics.BodyNode :=
  ⟨skeletonName, treeIndex, indexInTree, ⟨1, 0⟩⟩

/-- A hinge about the `z` axis through the origin, as the only degree of freedom of its joint. -/
def hingeDof (skeletonName : String) (treeIndex childIndexInTree : Nat) :
    dynamics.DegreeOfFreedom :=
  { skeletonName := skeletonName
    treeIndex := treeIndex
    childBodyNode := bodyNode skeletonName treeIndex childIndexInTree
    joint := ⟨1, fun i _ => if i.val = 2 then 1 else 0⟩
    indexInJoint := ⟨0, by decide⟩ }

/-- Two tangent directions `(n_y, -n_x, 0)` and `(0, n_z, -n_y)` of a normal `n`. -/
def tangentBasis (n : Vector3d) : Matrix (Fin 3) (Fin 2) ℚ :=
  Matrix.of ![![n 1, 0], ![-(n 0), n 2], ![0, -(n 1)]]

/-- A contact at the point `(1, 2, 3)` with normal `(0, 1, 0)` between body 2 of tree 0 of the
skeleton `"arm"` (body A) and body 0 of tree 0 of the skeleton `"ground"` (body B). -/
def groundContact (type : ContactType) : ContactConstraint :=
  { contact := ⟨![1, 2, 3], ![0, 1, 0], type⟩
    bodyNodeA := bodyNode "arm" 0 2
    bodyNodeB := bodyNode "ground" 0 0
    getTangentBasisMatrixODE := tangentBasis
    getTangentBasisMatrixODEGradient := fun _ dn => tangentBasis dn }

/-- The contact of the arm with the ground, as a constraint. -/
def groundConstraint (type : ContactType) : ConstraintBase :=
  ⟨["arm", "ground"], some (groundContact type)⟩

/-- A contact of the skeleton `"arm"` with itself: body A is body 1 and body B is body 3 of the same
tree 0. -/
def selfContact : ContactConstraint :=
  { contact := ⟨![1, 2, 3], ![0, 1, 0], .VERTEX_FACE⟩
    bodyNodeA := bodyNode "arm" 0 1
    bodyNodeB := bodyNode "arm" 0 3
    getTangentBasisMatrixODE := tangentBasis
    getTangentBasisMatrixODEGradient := fun _ dn => tangentBasis dn }

/-- The self-contact of the arm, as a constraint. -/
def selfConstraint : ConstraintBase := ⟨["arm"], some selfContact⟩

/-- A joint limit of the skeleton `"arm"`: a constraint that is not a contact constraint. -/
def jointLimit : ConstraintBase := ⟨["arm"], none⟩

/-- The skeleton `"arm"` with three hinges in one chain. -/
def armSkeleton : dynamics.Skeleton :=
  ⟨"arm", [hingeDof "arm" 0 1, hingeDof "arm" 0 2, hingeDof "arm" 0 3]⟩

/-- A skeleton that the contact of the arm with the ground does not touch. -/
def bystanderSkeleton : dynamics.Skeleton :=
  ⟨"bystander", [hingeDof "bystander" 0 1, hingeDof "bystander" 0 2]⟩

/-- A pendulum with one degree of freedom and unit inertia whose Coriolis-and-gravity force has
slope 4 in the position and none in the velocity. -/
def pendulumSkeleton : Skeleton :=
  { name := "pendulum"
    numDofs := 1
    mobile := true
    gradientConstraintMatrices := none
    massMatrix := fun _ => 1
    invMassMatrix := fun _ => 1
    posCJacobian := fun _ => !![4]
    velCJacobian := fun _ => 0 }

/-- The world of the pendulum at rest, with timestep `1/2` and both solver flags set. -/
def pendulumWorld : World :=
  { skeletons := [pendulumSkeleton]
    state := restState 1 (1 / 2) ⟨1, fun _ => 1⟩
    coriolisAndGravityAndExternalForces := fun _ => VectorXd.Zero 1 }

/-- The snapshot taken of the pendulum world. -/
def pendulumSnapshot : BackpropSnapshot :=
  BackpropSnapshot.create pendulumWorld (VectorXd.Zero 1) (VectorXd.Zero 1) (VectorXd.Zero 1)

/-- A next-timestep loss on the pendulum: slope 1 in the velocity, none in the position. -/
def velocityLoss : LossGradient :=
  { lossWrtPosition := UninitVectorXd.ofVector ⟨1, ![0]⟩
    lossWrtVelocity := UninitVectorXd.ofVector ⟨1, ![1]⟩
    lossWrtTorque := UninitVectorXd.alloc 0 }

/-- A forward step of free motion: the position advances by the timestep times the velocity (and
stays when the two vectors differ in size); nothing else changes. -/
def drift (w : World) : WorldState :=
  { w.state with
    positions :=
      match w.state.positions.add (VectorXd.smul w.state.timeStep w.state.velocities) with
      | .ok p => p
      | .error _ => w.state.positions }

/-- A forward step that is free motion when penetration correction is disabled, and that doubles
the velocity first when it is enabled. -/
def driftWithCorrection (w : World) : WorldState :=
  if w.state.penetrationCorrectionEnabled then
    drift (w.setVelocities (VectorXd.smul 2 w.state.velocities))
  else drift w

/-- A forward step that is free motion when the gradient flag is disabled, and that doubles the
velocity first when it is enabled. -/
def driftWithGradients (w : World) : WorldState :=
  if w.state.gradientEnabled then
    drift (w.setVelocities (VectorXd.smul 2 w.state.velocities))
  else drift w

/-- The world of the pendulum next to a free body of mass 2: two skeletons, four DOFs, no
constraint group. -/
def duoWorld : World :=
  { skeletons := [pendulumSkeleton, bodySkeleton 2 true]
    state := restState 4 (1 / 2) ⟨2, fun _ => 1⟩
    coriolisAndGravityAndExternalForces := fun _ => VectorXd.Zero 4 }

/-- The snapshot taken of the world of the pendulum and the free body. -/
def duoSnapshot : BackpropSnapshot :=
  BackpropSnapshot.create duoWorld (VectorXd.Zero 4) (VectorXd.Zero 4) (VectorXd.Zero 4)

/-- A next-timestep loss on four DOFs. -/
def duoLoss : LossGradient :=
  { lossWrtPosition := UninitVectorXd.ofVector ⟨4, ![1, 2, 3, 4]⟩
    lossWrtVelocity := UninitVectorXd.ofVector ⟨4, ![5, 6, 7, 8]⟩
    lossWrtTorque := UninitVectorXd.alloc 0 }

/-- A next-timestep loss with the velocity part of `duoLoss`, another position part and a torque
part. -/
def duoLossShifted : LossGradient :=
  { lossWrtPosition := UninitVectorXd.ofVector ⟨4, ![0, 0, 0, 9]⟩
    lossWrtVelocity := UninitVectorXd.ofVector ⟨4, ![5, 6, 7, 8]⟩
    lossWrtTorque := UninitVectorXd.ofVector ⟨4, ![1, 1, 1, 1]⟩ }

/-- The pseudo-inverse `(A^T * A)^(-1) * A^T` of a matrix with linearly independent columns, the
inverse taken by Cramer's rule; it stands in for the Eigen decomposition where the decomposed
matrix has full column rank, and on a nonsingular square matrix it is the inverse. -/
def leftInverse : CompleteOrthogonalDecomposition :=
  ⟨fun _ _ A => ((A.transpose * A).det⁻¹ • (A.transpose * A).adjugate) * A.transpose⟩

/-- The constrained group of a wedge on a slope: one clamping direction that couples the two
DOFs, nothing at its upper bound, no bounce (bounce diagonal 1). The massed clamping matrix is
the inverse mass matrix `diag(1, 1/2)` times the clamping matrix. Its own backprop returns the
zero loss. -/
def wedgeGroup : ConstrainedGroupGradientMatrices :=
  { mSkeletons := ["wedge"]
    mNumDOFs := 2
    mNumConstraintDim := 1
    mClampingConstraintMatrix := ⟨2, 1, !![1; 1]⟩
    mMassedClampingConstraintMatrix := ⟨2, 1, !![1; 1 / 2]⟩
    mUpperBoundConstraintMatrix := ⟨2, 0, 0⟩
    mMassedUpperBoundConstraintMatrix := ⟨2, 0, 0⟩
    mUpperBoundMappingMatrix := ⟨0, 1, 0⟩
    mBouncingConstraintMatrix := ⟨2, 0, 0⟩
    mBounceDiagonals := ⟨1, ![1]⟩
    mRestitutionDiagonals := ⟨0, ![]⟩
    mContactConstraintImpulses := ⟨1, ![1]⟩
    mPenetrationCorrectionVelocities := ⟨1, ![0]⟩
    mContactConstraintMappings := [-1]
    backprop := fun _ _ _ =>
      { lossWrtPosition := UninitVectorXd.ofVector (VectorXd.Zero 2)
        lossWrtVelocity := UninitVectorXd.ofVector (VectorXd.Zero 2)
        lossWrtTorque := UninitVectorXd.ofVector (VectorXd.Zero 2) } }

/-- A wedge with two translational DOFs of masses 1 and 2, in contact with a slope. -/
def wedgeSkeleton : Skeleton :=
  { name := "wedge"
    numDofs := 2
    mobile := true
    gradientConstraintMatrices := some ⟨0, wedgeGroup⟩
    massMatrix := fun _ => !![1, 0; 0, 2]
    invMassMatrix := fun _ => !![1, 0; 0, 1 / 2]
    posCJacobian := fun _ => 0
    velCJacobian := fun _ => 0 }

/-- The world of the wedge, with timestep 1. -/
def wedgeWorld : World :=
  { skeletons := [wedgeSkeleton]
    state := restState 2 1 ⟨2, fun _ => 1⟩
    coriolisAndGravityAndExternalForces := fun _ => VectorXd.Zero 2 }

/-- The snapshot taken of the world of the wedge. -/
def wedgeSnapshot : BackpropSnapshot :=
  BackpropSnapshot.create wedgeWorld (VectorXd.Zero 2) (VectorXd.Zero 2) (VectorXd.Zero 2)

/-- The massed snapshot of the world of the wedge: its clamping accessor returns the
mass-weighted matrix `V_c = Minv A_c`. -/
def wedgeMassed : MassedBackpropSnapshot :=
  { mTimeStep := 1
    mNumDOFs := 2
    clampingConstraintMatrix := ⟨2, 1, !![1; 1 / 2]⟩
    upperBoundConstraintMatrix := ⟨2, 0, 0⟩
    upperBoundMappingMatrix := ⟨0, 1, 0⟩
    massMatrix := ⟨2, 2, !![1, 0; 0, 2]⟩
    invMassMatrix := ⟨2, 2, !![1, 0; 0, 1 / 2]⟩ }

/-- The constrained group of a tandem: its two members, with one and two DOFs, share one
clamping direction. Its own backprop returns the zero loss. -/
def tandemGroup : ConstrainedGroupGradientMatrices :=
  { mSkeletons := ["front", "rear"]
    mNumDOFs := 3
    mNumConstraintDim := 1
    mClampingConstraintMatrix := ⟨3, 1, !![1; 0; 1]⟩
    mMassedClampingConstraintMatrix := ⟨3, 1, !![1; 0; 1]⟩
    mUpperBoundConstraintMatrix := ⟨3, 0, 0⟩
    mMassedUpperBoundConstraintMatrix := ⟨3, 0, 0⟩
    mUpperBoundMappingMatrix := ⟨0, 1, 0⟩
    mBouncingConstraintMatrix := ⟨3, 0, 0⟩
    mBounceDiagonals := ⟨1, ![1]⟩
    mRestitutionDiagonals := ⟨0, ![]⟩
    mContactConstraintImpulses := ⟨1, ![1]⟩
    mPenetrationCorrectionVelocities := ⟨1, ![0]⟩
    mContactConstraintMappings := [-1]
    backprop := fun _ _ _ =>
      { lossWrtPosition := UninitVectorXd.ofVector (VectorXd.Zero 3)
        lossWrtVelocity := UninitVectorXd.ofVector (VectorXd.Zero 3)
        lossWrtTorque := UninitVectorXd.ofVector (VectorXd.Zero 3) } }

/-- A unit-mass member of the tandem with `n` DOFs, attached to the shared group at address 7. -/
def tandemSkeleton (name : String) (n : Nat) : Skeleton :=
  { name := name
    numDofs := n
    mobile := true
    gradientConstraintMatrices := some ⟨7, tandemGroup⟩
    massMatrix := fun _ => 1
    invMassMatrix := fun _ => 1
    posCJacobian := fun _ => 0
    velCJacobian := fun _ => 0 }

/-- The world of the tandem with the sled between its two members: the first and the third
skeleton are attached to the same group. -/
def tandemWorld : World :=
  { skeletons := [tandemSkeleton "front" 1, sledSkeleton (1 / 3), tandemSkeleton "rear" 2]
    state := restState 6 1 ⟨3, fun _ => 1⟩
    coriolisAndGravityAndExternalForces := fun _ => VectorXd.Zero 6 }

/-- The snapshot taken of the world of the tandem. -/
def tandemSnapshot : BackpropSnapshot :=
  BackpropSnapshot.create tandemWorld (VectorXd.Zero 6) (VectorXd.Zero 6) (VectorXd.Zero 6)

/-- The degrees of freedom of a world with the arm and the ground: two hinges of the arm, then
the hinge of the ground. -/
def armGroundWorld : simulation.World :=
  ⟨[hingeDof "arm" 0 1, hingeDof "arm" 0 2, hingeDof "ground" 0 0]⟩

/-- An entity that depends on the generalized coordinates 4, 7 and 9 of its skeleton; column `c`
of its world Jacobian is the unit twist `e_c`, so the columns tell the coordinates apart. -/
def limbEntity : dynamics.JacobianEntity :=
  { dependentGenCoordIndices := [4, 7, 9]
    worldJacobian := ⟨3, fun r c => if r.val = c.val then 1 else 0⟩
    worldJacobianAt := fun _ => ⟨3, fun r c => if r.val = c.val then 1 else 0⟩ }

/-- A solver for the limb entity that uses no coordinate yet. -/
def limbIK : dynamics.InverseKinematics :=
  { mEntity := limbEntity
    mDofs := []
    mDofMap := []
    mHasOffset := false
    mOffset := 0
    mJacobian := ⟨0, fun _ _ => none⟩
    problemDimension := 0
    skeletonPositions := fun _ => .val 0 }

/-- An entity without a dependent coordinate, and its solver. -/
def fixedIK : dynamics.InverseKinematics :=
  { limbIK with mEntity := ⟨[], ⟨0, 0⟩, fun _ => ⟨0, 0⟩⟩ }

/-- An error evaluation that reads coordinate 4 of the skeleton into the first coefficient and
is zero elsewhere. -/
def readCoordinate (ik : dynamics.InverseKinematics) : Fin 6 → Double :=
  fun i => if i.val = 0 then ik.skeletonPositions 4 else .val 0

/-- A forward step that is free motion when penetration correction is disabled; when it is
enabled, the position is doubled and the velocity becomes twice the velocity plus the force
(kept when the sizes differ) before the free motion. -/
def driftWithPush (w : World) : WorldState :=
  if w.state.penetrationCorrectionEnabled then
    drift ((w.setPositions (VectorXd.smul 2 w.state.positions)).setVelocities
      (match (VectorXd.smul 2 w.state.velocities).add w.state.forces with
        | .ok v => v
        | .error _ => w.state.velocities))
  else drift w

end Scenario

/-! # Verified properties -/

/-! ## Evaluation lemmas for the linear-algebra layer -/

section ResultLemmas

variable {α β : Type}

@[simp] theorem Result.ok_bind (a : α) (f : α → Result β) :
    (Except.ok a : Result α) >>= f = f a := rfl

@[simp] theorem Result.error_bind (e : Abort) (f : α → Result β) :
    (Except.error e : Result α) >>= f = Except.error e := rfl

@[simp] theorem Result.pure_eq (a : α) : (pure a : Result α) = Except.ok a := rfl

@[simp] theorem Result.bind_ok (a : α) (f : α → Result β) :
    Except.bind (Except.ok a : Result α) f = f a := rfl

@[simp] theorem Result.bind_error (e : Abort) (f : α → Result β) :
    Except.bind (Except.error e : Result α) f = Except.error e := rfl

@[simp] theorem Result.map_ok (a : α) (f : α → β) :
    Except.map f (Except.ok a : Result α) = Except.ok (f a) := rfl

@[simp] theorem Result.map_error (e : Abort) (f : α → β) :
    Except.map f (Except.error e : Result α) = Except.error e := rfl

end ResultLemmas

namespace MatrixXd

variable {m n p : Nat}

@[simp] theorem size_mk (A : Matrix (Fin m) (Fin n) ℚ) : (MatrixXd.mk m n A).size = m * n := rfl

@[simp] theorem transpose_mk (A : Matrix (Fin m) (Fin n) ℚ) :
    (MatrixXd.mk m n A).transpose = ⟨n, m, A.transpose⟩ := rfl

@[simp] theorem smul_mk (a : ℚ) (A : Matrix (Fin m) (Fin n) ℚ) :
    MatrixXd.smul a ⟨m, n, A⟩ = ⟨m, n, a • A⟩ := rfl

@[simp] theorem neg_mk (A : Matrix (Fin m) (Fin n) ℚ) :
    MatrixXd.neg ⟨m, n, A⟩ = ⟨m, n, -A⟩ := rfl

@[simp] theorem Zero_eq (r c : Nat) : MatrixXd.Zero r c = ⟨r, c, 0⟩ := rfl

@[simp] theorem Identity_eq (k : Nat) : MatrixXd.Identity k k = ⟨k, k, 1⟩ := by
  simp only [Identity, mk.injEq, heq_eq_eq, true_and]
  ext i j
  simp [Matrix.one_apply, Fin.ext_iff]

@[simp] theorem add_mk (A B : Matrix (Fin m) (Fin n) ℚ) :
    MatrixXd.add ⟨m, n, A⟩ ⟨m, n, B⟩ = .ok ⟨m, n, A + B⟩ := by
  simp [add]

@[simp] theorem sub_mk (A B : Matrix (Fin m) (Fin n) ℚ) :
    MatrixXd.sub ⟨m, n, A⟩ ⟨m, n, B⟩ = .ok ⟨m, n, A - B⟩ := by
  simp [sub]

@[simp] theorem mul_mk (A : Matrix (Fin m) (Fin n) ℚ) (B : Matrix (Fin n) (Fin p) ℚ) :
    MatrixXd.mul ⟨m, n, A⟩ ⟨n, p, B⟩ = .ok ⟨m, p, A * B⟩ := by
  simp [mul]

@[simp] theorem mulVec_mk (A : Matrix (Fin m) (Fin n) ℚ) (v : Fin n → ℚ) :
    MatrixXd.mulVec ⟨m, n, A⟩ ⟨n, v⟩ = .ok ⟨m, A.mulVec v⟩ := by
  simp [mulVec]

@[simp] theorem ok_add_ok (A B : MatrixXd) :
    (Except.ok A + Except.ok B : Result MatrixXd) = A.add B := rfl

@[simp] theorem ok_sub_ok (A B : MatrixXd) :
    (Except.ok A - Except.ok B : Result MatrixXd) = A.sub B := rfl

@[simp] theorem ok_mul_ok (A B : MatrixXd) :
    (Except.ok A * Except.ok B : Result MatrixXd) = A.mul B := rfl

@[simp] theorem neg_ok (A : MatrixXd) : (-(Except.ok A) : Result MatrixXd) = .ok A.neg := rfl

@[simp] theorem smul_ok (a : ℚ) (A : MatrixXd) :
    (a • (Except.ok A) : Result MatrixXd) = .ok (MatrixXd.smul a A) := rfl

@[simp] theorem mulVecExpr_ok (A : MatrixXd) (v : VectorXd) :
    MatrixXd.mulVecExpr (.ok A) (.ok v) = A.mulVec v := rfl

end MatrixXd

namespace VectorXd

variable {n : Nat}

@[simp] theorem vsmul_mk (a : ℚ) (v : Fin n → ℚ) : VectorXd.smul a ⟨n, v⟩ = ⟨n, a • v⟩ := rfl

@[simp] theorem vadd_mk (u v : Fin n → ℚ) : VectorXd.add ⟨n, u⟩ ⟨n, v⟩ = .ok ⟨n, u + v⟩ := by
  simp [add]; rfl

@[simp] theorem vsub_mk (u v : Fin n → ℚ) : VectorXd.sub ⟨n, u⟩ ⟨n, v⟩ = .ok ⟨n, u - v⟩ := by
  simp [sub]; rfl

@[simp] theorem asDiagonal_mk (v : Fin n → ℚ) :
    VectorXd.asDiagonal ⟨n, v⟩ = ⟨n, n, Matrix.diagonal v⟩ := rfl

@[simp] theorem ok_vadd_ok (u v : VectorXd) :
    (Except.ok u + Except.ok v : Result VectorXd) = u.add v := rfl

@[simp] theorem ok_vsub_ok (u v : VectorXd) :
    (Except.ok u - Except.ok v : Result VectorXd) = u.sub v := rfl

@[simp] theorem vsmul_ok (a : ℚ) (v : VectorXd) :
    (a • (Except.ok v) : Result VectorXd) = .ok (VectorXd.smul a v) := rfl

end VectorXd

namespace World

@[simp] theorem setVelocities_setPositions_self (w : World) (p v : VectorXd) :
    ((((w.setPositions p).setVelocities v).setPositions w.getPositions).setVelocities
      w.getVelocities) = w := rfl

end World

/-! ## The block-diagonal accessors restore the world -/

namespace BackpropSnapshot

theorem assembleBlockDiagonalMatrix_false (s : BackpropSnapshot) (world : World)
    (whichMatrix : BlockDiagonalMatrixToAssemble) :
    s.assembleBlockDiagonalMatrix world whichMatrix false
      = (assembleDiagonalBlocks (s.atPreStep world) whichMatrix world.skeletons 0
          (MatrixXd.Zero s.mNumDOFs s.mNumDOFs)).map (fun J => (J, world)) := by
  unfold assembleBlockDiagonalMatrix atPreStep
  cases h : assembleDiagonalBlocks ((world.setPositions s.mPreStepPosition).setVelocities
      s.mPreStepVelocity) whichMatrix world.skeletons 0 (MatrixXd.Zero s.mNumDOFs s.mNumDOFs) with
  | error e =>
    simp only [Bool.not_false, if_true]
    rw [show ((world.setPositions s.mPreStepPosition).setVelocities s.mPreStepVelocity).skeletons
      = world.skeletons from rfl, h]
    rfl
  | ok J =>
    simp only [Bool.not_false, if_true]
    rw [show ((world.setPositions s.mPreStepPosition).setVelocities s.mPreStepVelocity).skeletons
      = world.skeletons from rfl, h]
    rfl

theorem assembleBlockDiagonalMatrix_true (s : BackpropSnapshot) (world : World)
    (whichMatrix : BlockDiagonalMatrixToAssemble) :
    s.assembleBlockDiagonalMatrix world whichMatrix true
      = (assembleDiagonalBlocks world whichMatrix world.skeletons 0
          (MatrixXd.Zero s.mNumDOFs s.mNumDOFs)).map (fun J => (J, world)) := by
  unfold assembleBlockDiagonalMatrix
  cases h : assembleDiagonalBlocks world whichMatrix world.skeletons 0
      (MatrixXd.Zero s.mNumDOFs s.mNumDOFs) with
  | error e => simp only [Bool.not_true, Bool.false_eq_true, if_false, h]; rfl
  | ok J => simp only [Bool.not_true, Bool.false_eq_true, if_false, h]; rfl

end BackpropSnapshot

/-! ## Small facts about matrices with an empty dimension -/

theorem matrix_eq_of_rows_eq_zero {n k : Nat} (h : n = 0) (A B : Matrix (Fin n) (Fin k) ℚ) :
    A = B := by
  subst h
  ext i
  exact i.elim0

theorem matrix_mul_eq_zero_of_inner_eq_zero {n u c : Nat} (h : u = 0)
    (A : Matrix (Fin n) (Fin u) ℚ) (B : Matrix (Fin u) (Fin c) ℚ) : A * B = 0 := by
  subst h
  ext i j
  simp [Matrix.mul_apply]

namespace MatrixXd

variable {m n : Nat}

@[simp] theorem block_full (A : Matrix (Fin m) (Fin n) ℚ) :
    MatrixXd.block ⟨m, n, A⟩ 0 0 m n = .ok ⟨m, n, A⟩ := by
  simp [block]

@[simp] theorem setBlock_full (J B : Matrix (Fin m) (Fin n) ℚ) :
    MatrixXd.setBlock ⟨m, n, J⟩ 0 0 m n ⟨m, n, B⟩ = .ok ⟨m, n, B⟩ := by
  simp only [setBlock, and_self, Nat.zero_add, Nat.le_refl, true_and, dite_true, Nat.zero_le,
    Fin.is_lt, Nat.sub_zero, Fin.eta]

end MatrixXd

namespace Scenario

variable (mu b dt : ℚ) (v c : Fin 2 → ℚ)

theorem contact_assembleMatrix (whichMatrix : MatrixToAssemble) :
    (contactSnapshot mu b dt v c).assembleMatrix (contactWorld mu b dt v c) whichMatrix
      = .ok (BackpropSnapshot.groupMatrixToAssemble (contactGroup mu b) whichMatrix) := by
  cases whichMatrix <;>
  simp [BackpropSnapshot.assembleMatrix,
    contactSnapshot, BackpropSnapshot.create, contactWorld, boxSkeleton,
    BackpropSnapshot.constructorStep, contactGroup, BackpropSnapshot.assembleGroups,
    BackpropSnapshot.assembleGroupRows, BackpropSnapshot.groupMatrixToAssemble,
    World.getSkeleton, deref, BackpropSnapshot.skeletonOffset,
    BackpropSnapshot.numColsToAssemble]

theorem contact_E : (contactSnapshot mu b dt v c).getUpperBoundMappingMatrix
    = .ok ⟨1, 1, !![mu]⟩ := by
  simp [BackpropSnapshot.getUpperBoundMappingMatrix, BackpropSnapshot.mappingBlocks,
    contactSnapshot, BackpropSnapshot.create, contactWorld, boxSkeleton,
    BackpropSnapshot.constructorStep, contactGroup]

theorem contact_bounce : (contactSnapshot mu b dt v c).getBounceDiagonals = .ok ⟨1, ![b]⟩ := rfl

theorem contact_mTimeStep : (contactSnapshot mu b dt v c).mTimeStep = dt := rfl

theorem contact_diagonalBlocks (whichMatrix : BlockDiagonalMatrixToAssemble) (world : World) :
    BackpropSnapshot.assembleDiagonalBlocks world whichMatrix [boxSkeleton mu b] 0
        (MatrixXd.Zero 2 2)
      = .ok (BackpropSnapshot.skeletonMatrixToAssemble (boxSkeleton mu b) world.state
          whichMatrix) := by
  cases whichMatrix <;>
  simp [BackpropSnapshot.assembleDiagonalBlocks, boxSkeleton,
    BackpropSnapshot.skeletonMatrixToAssemble,
    Skeleton.getMassMatrix, Skeleton.getInvMassMatrix, Skeleton.getPosCJacobian,
    Skeleton.getVelCJacobian]

theorem contact_blockDiagonal (whichMatrix : BlockDiagonalMatrixToAssemble) (ffd : Bool) :
    (contactSnapshot mu b dt v c).assembleBlockDiagonalMatrix (contactWorld mu b dt v c)
        whichMatrix ffd
      = .ok (BackpropSnapshot.skeletonMatrixToAssemble (boxSkeleton mu b)
          (contactWorld mu b dt v c).state whichMatrix, contactWorld mu b dt v c) := by
  cases ffd
  · rw [BackpropSnapshot.assembleBlockDiagonalMatrix_false]
    have h := contact_diagonalBlocks mu b whichMatrix
      ((contactSnapshot mu b dt v c).atPreStep (contactWorld mu b dt v c))
    rw [show (contactSnapshot mu b dt v c).mNumDOFs = 2 from rfl,
      show (contactWorld mu b dt v c).skeletons = [boxSkeleton mu b] from rfl, h]
    cases whichMatrix <;> rfl
  · rw [BackpropSnapshot.assembleBlockDiagonalMatrix_true]
    have h := contact_diagonalBlocks mu b whichMatrix (contactWorld mu b dt v c)
    rw [show (contactSnapshot mu b dt v c).mNumDOFs = 2 from rfl,
      show (contactWorld mu b dt v c).skeletons = [boxSkeleton mu b] from rfl, h]
    rfl

theorem contact_Pc (ffd : Bool) :
    (contactSnapshot mu b dt v c).getProjectionIntoClampsMatrix cramer
      (contactWorld mu b dt v c) ffd
      = .ok (⟨1, 2, (1 / dt) • !![0, b]⟩, contactWorld mu b dt v c) := by
  unfold BackpropSnapshot.getProjectionIntoClampsMatrix
    BackpropSnapshot.getClampingConstraintMatrix
    BackpropSnapshot.getUpperBoundConstraintMatrix
    BackpropSnapshot.getMassedClampingConstraintMatrix
    BackpropSnapshot.getMassedUpperBoundConstraintMatrix
    BackpropSnapshot.getInvMassMatrix
  rw [contact_assembleMatrix, contact_E, contact_bounce]
  cases ffd
  · simp [contact_assembleMatrix, BackpropSnapshot.groupMatrixToAssemble, contactGroup,
      CompleteOrthogonalDecomposition.solve, CompleteOrthogonalDecomposition.pinv, cramer,
      contact_mTimeStep]
    ext i j
    fin_cases i; fin_cases j <;>
      simp [Matrix.mul_apply, Matrix.diagonal, Matrix.vecHead, Matrix.transpose]
  · simp [contact_assembleMatrix, contact_blockDiagonal,
      BackpropSnapshot.skeletonMatrixToAssemble, Skeleton.getInvMassMatrix, boxSkeleton,
      BackpropSnapshot.groupMatrixToAssemble, contactGroup,
      CompleteOrthogonalDecomposition.solve, CompleteOrthogonalDecomposition.pinv, cramer,
      contact_mTimeStep]
    ext i j
    fin_cases i; fin_cases j <;>
      simp [Matrix.mul_apply, Matrix.diagonal, Matrix.vecHead, Matrix.transpose]

end Scenario

/-! ## The force-velocity Jacobian -/

namespace BackpropSnapshot

/-- Without a clamping column `getForceVelJacobian` is `dt·Minv` at the pre-step state. -/
theorem getForceVelJacobian_no_clamping_aux (cod : CompleteOrthogonalDecomposition)
    (s : BackpropSnapshot) (world : World) (A_c : MatrixXd)
    (hA : s.getClampingConstraintMatrix world = .ok A_c) (h0 : A_c.cols = 0) :
    s.getForceVelJacobian cod world
      = (assembleDiagonalBlocks (s.atPreStep world) .INV_MASS world.skeletons 0
          (MatrixXd.Zero s.mNumDOFs s.mNumDOFs)).map
          (fun Minv => (MatrixXd.smul s.mTimeStep Minv, world)) := by
  have hsize : A_c.size = 0 := by simp [MatrixXd.size, h0]
  unfold getForceVelJacobian getInvMassMatrix
  rw [hA, assembleBlockDiagonalMatrix_false]
  cases assembleDiagonalBlocks (s.atPreStep world) .INV_MASS world.skeletons 0
      (MatrixXd.Zero s.mNumDOFs s.mNumDOFs) with
  | error e => rfl
  | ok J => simp [hsize]

/-- Both branches of `getForceVelJacobian` taken with a non-empty clamping matrix compute the
one formula, with the facts that make the branches agree. -/
theorem getForceVelJacobian_clamping_aux (cod : CompleteOrthogonalDecomposition)
    (s : BackpropSnapshot) (world : World)
    (Ac : Matrix (Fin s.mNumDOFs) (Fin s.mNumClamping) ℚ)
    (Aub : Matrix (Fin s.mNumDOFs) (Fin s.mNumUpperBound) ℚ)
    (E : Matrix (Fin s.mNumUpperBound) (Fin s.mNumClamping) ℚ)
    (Minv : Matrix (Fin s.mNumDOFs) (Fin s.mNumDOFs) ℚ)
    (P : Matrix (Fin s.mNumClamping) (Fin s.mNumDOFs) ℚ)
    (hc : 0 < s.mNumClamping)
    (hAc : s.getClampingConstraintMatrix world = .ok ⟨_, _, Ac⟩)
    (hAub : s.getUpperBoundConstraintMatrix world = .ok ⟨_, _, Aub⟩)
    (hE : s.getUpperBoundMappingMatrix = .ok ⟨_, _, E⟩)
    (hMinv : s.getInvMassMatrix world false = .ok (⟨_, _, Minv⟩, world))
    (hP : s.getProjectionIntoClampsMatrix cod world false = .ok (⟨_, _, P⟩, world)) :
    s.getForceVelJacobian cod world
        = .ok (⟨_, _, s.mTimeStep • Minv * (1 - s.mTimeStep • (Ac + Aub * E) * P * Minv)⟩, world)
      ∧ (s.mNumUpperBound = 0 → Aub * E = 0)
      ∧ (0 < s.mNumDOFs →
          ((0 < (MatrixXd.mk _ _ Aub).size ∧ 0 < (MatrixXd.mk _ _ E).size)
            ↔ 0 < (MatrixXd.mk _ _ Aub).size)) := by
  refine ⟨?_, fun hu => matrix_mul_eq_zero_of_inner_eq_zero hu Aub E, fun hn => ?_⟩
  · unfold getForceVelJacobian
    rw [hAc, hMinv]
    by_cases h0 : s.mNumDOFs * s.mNumClamping = 0
    · have hn : s.mNumDOFs = 0 := by
        rcases Nat.mul_eq_zero.mp h0 with h | h
        · exact h
        · omega
      simp only [Result.ok_bind, MatrixXd.size_mk, h0, if_true, Result.pure_eq,
        MatrixXd.smul_mk]
      congr 3
      exact matrix_eq_of_rows_eq_zero hn _ _
    · simp only [Result.ok_bind, MatrixXd.size_mk, h0, if_false, hAub, hE, hP]
      by_cases hu : s.mNumUpperBound = 0
      · have hcond : ¬ (s.mNumDOFs * s.mNumUpperBound > 0 ∧
            s.mNumUpperBound * s.mNumClamping > 0) := by
          simp [hu]
        simp only [hcond, if_false, MatrixXd.smul_ok, MatrixXd.smul_mk, MatrixXd.ok_mul_ok,
          MatrixXd.mul_mk, MatrixXd.Identity_eq, MatrixXd.ok_sub_ok, MatrixXd.sub_mk,
          Result.ok_bind, Result.pure_eq]
        rw [matrix_mul_eq_zero_of_inner_eq_zero hu Aub E, add_zero]
      · have hcond : s.mNumDOFs * s.mNumUpperBound > 0 ∧
            s.mNumUpperBound * s.mNumClamping > 0 := by
          have h1 : 0 < s.mNumDOFs := Nat.pos_of_ne_zero fun h => h0 (by simp [h])
          have h2 : 0 < s.mNumUpperBound := Nat.pos_of_ne_zero hu
          exact ⟨Nat.mul_pos h1 h2, Nat.mul_pos h2 hc⟩
        simp only [hcond, and_self, if_true, MatrixXd.smul_ok, MatrixXd.smul_mk,
          MatrixXd.ok_mul_ok, MatrixXd.ok_add_ok, MatrixXd.add_mk,
          MatrixXd.mul_mk, MatrixXd.Identity_eq, MatrixXd.ok_sub_ok, MatrixXd.sub_mk,
          Result.ok_bind, Result.pure_eq]
  · simp only [MatrixXd.size_mk]
    constructor
    · exact fun h => h.1
    · intro h
      refine ⟨h, ?_⟩
      have h2 : 0 < s.mNumUpperBound := Nat.pos_of_ne_zero fun h0 => by simp [h0] at h
      exact Nat.mul_pos h2 hc

/-- C2: with at least one clamping column, `getForceVelJacobian` returns
`dt·Minv·(I − dt·(A_c + A_ub·E)·P_c·Minv)` whichever branch it takes: without an upper-bound column
`A_ub·E` is the zero matrix, and once `A_c` is non-empty the test `E.size() > 0` holds exactly when
`A_ub.size() > 0` does. -/
theorem getForceVelJacobian_clamping (cod : CompleteOrthogonalDecomposition)
    (s : BackpropSnapshot) (world : World)
    (Ac : Matrix (Fin s.mNumDOFs) (Fin s.mNumClamping) ℚ)
    (Aub : Matrix (Fin s.mNumDOFs) (Fin s.mNumUpperBound) ℚ)
    (E : Matrix (Fin s.mNumUpperBound) (Fin s.mNumClamping) ℚ)
    (Minv : Matrix (Fin s.mNumDOFs) (Fin s.mNumDOFs) ℚ)
    (P : Matrix (Fin s.mNumClamping) (Fin s.mNumDOFs) ℚ)
    (hc : 0 < s.mNumClamping)
    (hAc : s.getClampingConstraintMatrix world = .ok ⟨_, _, Ac⟩)
    (hAub : s.getUpperBoundConstraintMatrix world = .ok ⟨_, _, Aub⟩)
    (hE : s.getUpperBoundMappingMatrix = .ok ⟨_, _, E⟩)
    (hMinv : s.getInvMassMatrix world false = .ok (⟨_, _, Minv⟩, world))
    (hP : s.getProjectionIntoClampsMatrix cod world false = .ok (⟨_, _, P⟩, world)) :
    s.getForceVelJacobian cod world
        = .ok (⟨_, _, s.mTimeStep • Minv * (1 - s.mTimeStep • (Ac + Aub * E) * P * Minv)⟩, world)
      ∧ (s.mNumUpperBound = 0 → Aub * E = 0)
      ∧ (0 < s.mNumDOFs →
          ((0 < (MatrixXd.mk _ _ Aub).size ∧ 0 < (MatrixXd.mk _ _ E).size)
            ↔ 0 < (MatrixXd.mk _ _ Aub).size)) :=
  getForceVelJacobian_clamping_aux cod s world Ac Aub E Minv P hc hAc hAub hE hMinv hP

/-- C2 witness: the box in contact with one clamping and one upper-bound direction. -/
theorem getForceVelJacobian_clamping_witness :
    (Scenario.contactSnapshot (1 / 2) 1 (1 / 100) ![0, 0] ![0, 10]).getForceVelJacobian
        Scenario.cramer (Scenario.contactWorld (1 / 2) 1 (1 / 100) ![0, 0] ![0, 10])
      = .ok (⟨2, 2, ((1 / 100 : ℚ) • (1 : Matrix (Fin 2) (Fin 2) ℚ)
          * (1 - (1 / 100 : ℚ) • ((!![0; 1] : Matrix (Fin 2) (Fin 1) ℚ)
              + (!![1; 0] : Matrix (Fin 2) (Fin 1) ℚ) * (!![1 / 2] : Matrix (Fin 1) (Fin 1) ℚ))
            * ((1 / (1 / 100) : ℚ) • (!![0, 1] : Matrix (Fin 1) (Fin 2) ℚ))
            * (1 : Matrix (Fin 2) (Fin 2) ℚ)))⟩,
          Scenario.contactWorld (1 / 2) 1 (1 / 100) ![0, 0] ![0, 10]) :=
  (getForceVelJacobian_clamping Scenario.cramer
    (Scenario.contactSnapshot (1 / 2) 1 (1 / 100) ![0, 0] ![0, 10])
    (Scenario.contactWorld (1 / 2) 1 (1 / 100) ![0, 0] ![0, 10])
    (!![0; 1] : Matrix (Fin 2) (Fin 1) ℚ) (!![1; 0] : Matrix (Fin 2) (Fin 1) ℚ)
    (!![1 / 2] : Matrix (Fin 1) (Fin 1) ℚ) (1 : Matrix (Fin 2) (Fin 2) ℚ)
    ((1 / (1 / 100) : ℚ) • (!![0, 1] : Matrix (Fin 1) (Fin 2) ℚ))
    (by decide)
    (Scenario.contact_assembleMatrix _ _ _ _ _ .CLAMPING)
    (Scenario.contact_assembleMatrix _ _ _ _ _ .UPPER_BOUND)
    (Scenario.contact_E _ _ _ _ _)
    (Scenario.contact_blockDiagonal _ _ _ _ _ .INV_MASS false)
    (Scenario.contact_Pc _ _ _ _ _ false)).1

end BackpropSnapshot

/-! ## The velocity-velocity Jacobian -/

theorem MatrixXd.exists_mk (A : MatrixXd) {m n : Nat} (hr : A.rows = m) (hc : A.cols = n) :
    ∃ M : Matrix (Fin m) (Fin n) ℚ, A = ⟨m, n, M⟩ := by
  cases A with
  | mk r c M =>
    simp only at hr hc
    subst hr
    subst hc
    exact ⟨M, rfl⟩

theorem MatrixXd.setBlock_shape {J B J' : MatrixXd} {r c h w : Nat}
    (hJ : J.setBlock r c h w B = .ok J') : J'.rows = J.rows ∧ J'.cols = J.cols := by
  unfold MatrixXd.setBlock at hJ
  split at hJ
  · cases hJ
    exact ⟨rfl, rfl⟩
  · cases hJ

namespace BackpropSnapshot

theorem skeletonMatrixToAssemble_shape (skel : Skeleton) (st : WorldState)
    (whichMatrix : BlockDiagonalMatrixToAssemble) :
    (skeletonMatrixToAssemble skel st whichMatrix).rows = skel.numDofs
      ∧ (skeletonMatrixToAssemble skel st whichMatrix).cols = skel.numDofs := by
  cases whichMatrix <;> exact ⟨rfl, rfl⟩

/-- Whether the block-diagonal assembly succeeds depends on the shapes only: if it succeeds for
one selector and world state, it succeeds for every other one, with a result of the same shape. -/
theorem assembleDiagonalBlocks_ok_of_ok (world world' : World)
    (whichMatrix whichMatrix' : BlockDiagonalMatrixToAssemble) :
    ∀ (l : List Skeleton) (cursor : Nat) (J J' K : MatrixXd),
      J'.rows = J.rows → J'.cols = J.cols →
      assembleDiagonalBlocks world whichMatrix l cursor J = .ok K →
      ∃ K', assembleDiagonalBlocks world' whichMatrix' l cursor J' = .ok K'
        ∧ K'.rows = J.rows ∧ K'.cols = J.cols := by
  intro l
  induction l with
  | nil =>
    intro cursor J J' K hr hc _
    exact ⟨J', rfl, hr, hc⟩
  | cons skel rest ih =>
    intro cursor J J' K hr hc hK
    simp only [assembleDiagonalBlocks] at hK ⊢
    cases h1 : J.setBlock cursor cursor skel.numDofs skel.numDofs
        (skeletonMatrixToAssemble skel world.state whichMatrix) with
    | error e => rw [h1] at hK; cases hK
    | ok J1 =>
      rw [h1] at hK
      simp only [Result.ok_bind] at hK
      have hshape := MatrixXd.setBlock_shape h1
      have hcond : cursor + skel.numDofs ≤ J.rows ∧ cursor + skel.numDofs ≤ J.cols := by
        unfold MatrixXd.setBlock at h1
        split at h1
        · rename_i hb
          exact ⟨hb.2.2.1, hb.2.2.2⟩
        · cases h1
      have hs' := skeletonMatrixToAssemble_shape skel world'.state whichMatrix'
      have h2 : ∃ J1', J'.setBlock cursor cursor skel.numDofs skel.numDofs
          (skeletonMatrixToAssemble skel world'.state whichMatrix') = .ok J1'
          ∧ J1'.rows = J'.rows ∧ J1'.cols = J'.cols := by
        unfold MatrixXd.setBlock
        rw [dif_pos ⟨hs'.1, hs'.2, by omega, by omega⟩]
        exact ⟨_, rfl, rfl, rfl⟩
      obtain ⟨J1', hJ1', hr1, hc1⟩ := h2
      rw [hJ1']
      simp only [Result.ok_bind]
      obtain ⟨K', hK', hKr, hKc⟩ := ih (cursor + skel.numDofs) J1 J1' K
        (by rw [hr1, hr, hshape.1]) (by rw [hc1, hc, hshape.2]) hK
      exact ⟨K', hK', by rw [hKr, hshape.1], by rw [hKc, hshape.2]⟩

/-- When one block-diagonal accessor returns, so does every other one, with a square matrix of
`mNumDOFs` rows. -/
theorem assembleBlockDiagonalMatrix_ok_of_ok (s : BackpropSnapshot) (world : World)
    (whichMatrix whichMatrix' : BlockDiagonalMatrixToAssemble) (K : MatrixXd) (world' : World)
    (h : s.assembleBlockDiagonalMatrix world whichMatrix false = .ok (K, world')) :
    ∃ M : Matrix (Fin s.mNumDOFs) (Fin s.mNumDOFs) ℚ,
      s.assembleBlockDiagonalMatrix world whichMatrix' false = .ok (⟨_, _, M⟩, world) := by
  rw [assembleBlockDiagonalMatrix_false] at h
  cases h1 : assembleDiagonalBlocks (s.atPreStep world) whichMatrix world.skeletons 0
      (MatrixXd.Zero s.mNumDOFs s.mNumDOFs) with
  | error e => rw [h1] at h; cases h
  | ok K1 =>
    obtain ⟨K', hK', hr, hc⟩ := assembleDiagonalBlocks_ok_of_ok (s.atPreStep world)
      (s.atPreStep world) whichMatrix whichMatrix' world.skeletons 0 _
      (MatrixXd.Zero s.mNumDOFs s.mNumDOFs) K1 rfl rfl h1
    obtain ⟨M, hM⟩ := MatrixXd.exists_mk K' hr hc
    refine ⟨M, ?_⟩
    rw [assembleBlockDiagonalMatrix_false, hK', hM]
    rfl

/-- The two branches of `getVelVelJacobian`, in terms of the matrices its callees return. -/
theorem getVelVelJacobian_eq_aux (cod : CompleteOrthogonalDecomposition)
    (s : BackpropSnapshot) (world : World)
    (Ac : Matrix (Fin s.mNumDOFs) (Fin s.mNumClamping) ℚ)
    (FV VC : Matrix (Fin s.mNumDOFs) (Fin s.mNumDOFs) ℚ)
    (hAc : s.getClampingConstraintMatrix world = .ok ⟨_, _, Ac⟩)
    (hFV : s.getForceVelJacobian cod world = .ok (⟨_, _, FV⟩, world))
    (hVC : s.getVelCJacobian world = .ok (⟨_, _, VC⟩, world)) :
    (s.mNumDOFs * s.mNumClamping = 0 →
        s.getVelVelJacobian cod world = .ok (⟨_, _, 1 - FV * VC⟩, world))
      ∧ (s.mNumDOFs * s.mNumClamping ≠ 0 →
          ∀ (Aub : Matrix (Fin s.mNumDOFs) (Fin s.mNumUpperBound) ℚ)
            (E : Matrix (Fin s.mNumUpperBound) (Fin s.mNumClamping) ℚ)
            (Minv : Matrix (Fin s.mNumDOFs) (Fin s.mNumDOFs) ℚ)
            (P : Matrix (Fin s.mNumClamping) (Fin s.mNumDOFs) ℚ),
            s.getUpperBoundConstraintMatrix world = .ok ⟨_, _, Aub⟩ →
            s.getUpperBoundMappingMatrix = .ok ⟨_, _, E⟩ →
            s.getInvMassMatrix world false = .ok (⟨_, _, Minv⟩, world) →
            s.getProjectionIntoClampsMatrix cod world false = .ok (⟨_, _, P⟩, world) →
            s.getVelVelJacobian cod world
              = .ok (⟨_, _, 1 - s.mTimeStep • Minv * (Ac + Aub * E) * P - FV * VC⟩, world)) := by
  constructor
  · intro h0
    unfold getVelVelJacobian
    rw [hAc]
    simp only [Result.ok_bind, MatrixXd.size_mk, h0, if_true, hFV, hVC, MatrixXd.Identity_eq,
      MatrixXd.ok_mul_ok, MatrixXd.mul_mk, MatrixXd.ok_sub_ok, MatrixXd.sub_mk, Result.pure_eq]
  · intro h0 Aub E Minv P hAub hE hMinv hP
    unfold getVelVelJacobian
    rw [hAc]
    simp only [Result.ok_bind, MatrixXd.size_mk, h0, if_false, hAub, hE, hP, hMinv, hFV, hVC,
      MatrixXd.Identity_eq, MatrixXd.ok_mul_ok, MatrixXd.mul_mk, MatrixXd.ok_sub_ok,
      MatrixXd.sub_mk, MatrixXd.ok_add_ok, MatrixXd.add_mk, MatrixXd.smul_ok, MatrixXd.smul_mk,
      Result.pure_eq]

/-- C3: `getVelVelJacobian` returns `I − forceVelJacobian·velCJacobian` when the clamping matrix
is empty and `I − dt·Minv·(A_c + A_ub·E)·P_c − forceVelJacobian·velCJacobian` when it is not,
where `forceVelJacobian` and `velCJacobian` are what `getForceVelJacobian` and `getVelCJacobian`
return on the same snapshot. -/
theorem getVelVelJacobian_eq (cod : CompleteOrthogonalDecomposition)
    (s : BackpropSnapshot) (world : World)
    (Ac : Matrix (Fin s.mNumDOFs) (Fin s.mNumClamping) ℚ)
    (FV VC : Matrix (Fin s.mNumDOFs) (Fin s.mNumDOFs) ℚ)
    (hAc : s.getClampingConstraintMatrix world = .ok ⟨_, _, Ac⟩)
    (hFV : s.getForceVelJacobian cod world = .ok (⟨_, _, FV⟩, world))
    (hVC : s.getVelCJacobian world = .ok (⟨_, _, VC⟩, world)) :
    (s.mNumDOFs * s.mNumClamping = 0 →
        s.getVelVelJacobian cod world = .ok (⟨_, _, 1 - FV * VC⟩, world))
      ∧ (s.mNumDOFs * s.mNumClamping ≠ 0 →
          ∀ (Aub : Matrix (Fin s.mNumDOFs) (Fin s.mNumUpperBound) ℚ)
            (E : Matrix (Fin s.mNumUpperBound) (Fin s.mNumClamping) ℚ)
            (Minv : Matrix (Fin s.mNumDOFs) (Fin s.mNumDOFs) ℚ)
            (P : Matrix (Fin s.mNumClamping) (Fin s.mNumDOFs) ℚ),
            s.getUpperBoundConstraintMatrix world = .ok ⟨_, _, Aub⟩ →
            s.getUpperBoundMappingMatrix = .ok ⟨_, _, E⟩ →
            s.getInvMassMatrix world false = .ok (⟨_, _, Minv⟩, world) →
            s.getProjectionIntoClampsMatrix cod world false = .ok (⟨_, _, P⟩, world) →
            s.getVelVelJacobian cod world
              = .ok (⟨_, _, 1 - s.mTimeStep • Minv * (Ac + Aub * E) * P - FV * VC⟩, world)) :=
  getVelVelJacobian_eq_aux cod s world Ac FV VC hAc hFV hVC

end BackpropSnapshot

namespace BackpropSnapshot

/-- Without clamping column and with the inverse mass matrix at hand, `getForceVelJacobian` is
`dt·Minv`. -/
theorem getForceVelJacobian_of_size_eq_zero (cod : CompleteOrthogonalDecomposition)
    (s : BackpropSnapshot) (world : World) (A_c : MatrixXd)
    (Minv : Matrix (Fin s.mNumDOFs) (Fin s.mNumDOFs) ℚ)
    (hA : s.getClampingConstraintMatrix world = .ok A_c) (h0 : A_c.size = 0)
    (hMinv : s.getInvMassMatrix world false = .ok (⟨_, _, Minv⟩, world)) :
    s.getForceVelJacobian cod world = .ok (⟨_, _, s.mTimeStep • Minv⟩, world) := by
  unfold getForceVelJacobian
  rw [hA, hMinv]
  simp only [Result.ok_bind, h0, if_true, Result.pure_eq, MatrixXd.smul_mk]

/-- With no constraint group the assembled matrices are the zero matrices of the stored
shape. -/
theorem assembleMatrix_of_no_group (s : BackpropSnapshot) (world : World)
    (whichMatrix : MatrixToAssemble) (hg : s.mGradientMatrices = []) :
    s.assembleMatrix world whichMatrix
      = .ok ⟨s.mNumDOFs, s.numColsToAssemble whichMatrix, 0⟩ := by
  unfold assembleMatrix
  rw [hg]
  rfl

/-- Zero active constraints and a vanishing velocity-Coriolis Jacobian give the identity. -/
theorem getVelVelJacobian_unconstrained_aux (cod : CompleteOrthogonalDecomposition)
    (s : BackpropSnapshot) (world : World) (hg : s.mGradientMatrices = [])
    (hc : s.mNumClamping = 0)
    (hVC : s.getVelCJacobian world = .ok (⟨s.mNumDOFs, s.mNumDOFs, 0⟩, world)) :
    s.getVelVelJacobian cod world = .ok (⟨s.mNumDOFs, s.mNumDOFs, 1⟩, world) := by
  have hA : s.getClampingConstraintMatrix world = .ok ⟨s.mNumDOFs, s.mNumClamping, 0⟩ :=
    assembleMatrix_of_no_group s world .CLAMPING hg
  have h0 : s.mNumDOFs * s.mNumClamping = 0 := by simp [hc]
  obtain ⟨Minv, hMinv⟩ := assembleBlockDiagonalMatrix_ok_of_ok s world .VEL_C .INV_MASS _ _ hVC
  have hFV := getForceVelJacobian_of_size_eq_zero cod s world _ Minv hA h0 hMinv
  have h := (getVelVelJacobian_eq_aux cod s world 0 (s.mTimeStep • Minv) 0 hA hFV hVC).1 h0
  rw [h]
  simp

end BackpropSnapshot

namespace Scenario

variable (m g dt : ℚ)

theorem free_assembleMatrix (whichMatrix : MatrixToAssemble) :
    (freeBodySnapshot m g dt).assembleMatrix (freeBodyWorld m g dt) whichMatrix
      = .ok ⟨3, 0, 0⟩ := by
  cases whichMatrix <;> rfl

theorem free_diagonalBlocks (whichMatrix : BlockDiagonalMatrixToAssemble) (world : World)
    (mobile : Bool) :
    BackpropSnapshot.assembleDiagonalBlocks world whichMatrix [bodySkeleton m mobile] 0
        (MatrixXd.Zero 3 3)
      = .ok (BackpropSnapshot.skeletonMatrixToAssemble (bodySkeleton m mobile) world.state
          whichMatrix) := by
  cases whichMatrix <;>
  simp [BackpropSnapshot.assembleDiagonalBlocks, bodySkeleton,
    BackpropSnapshot.skeletonMatrixToAssemble,
    Skeleton.getMassMatrix, Skeleton.getInvMassMatrix, Skeleton.getPosCJacobian,
    Skeleton.getVelCJacobian]

theorem free_blockDiagonal (whichMatrix : BlockDiagonalMatrixToAssemble) (ffd : Bool) :
    (freeBodySnapshot m g dt).assembleBlockDiagonalMatrix (freeBodyWorld m g dt)
        whichMatrix ffd
      = .ok (BackpropSnapshot.skeletonMatrixToAssemble (bodySkeleton m true)
          (freeBodyWorld m g dt).state whichMatrix, freeBodyWorld m g dt) := by
  cases ffd
  · rw [BackpropSnapshot.assembleBlockDiagonalMatrix_false]
    have h := free_diagonalBlocks m whichMatrix
      ((freeBodySnapshot m g dt).atPreStep (freeBodyWorld m g dt)) true
    rw [show (freeBodySnapshot m g dt).mNumDOFs = 3 from rfl,
      show (freeBodyWorld m g dt).skeletons = [bodySkeleton m true] from rfl, h]
    cases whichMatrix <;> rfl
  · rw [BackpropSnapshot.assembleBlockDiagonalMatrix_true]
    have h := free_diagonalBlocks m whichMatrix (freeBodyWorld m g dt) true
    rw [show (freeBodySnapshot m g dt).mNumDOFs = 3 from rfl,
      show (freeBodyWorld m g dt).skeletons = [bodySkeleton m true] from rfl, h]
    rfl

theorem free_velC :
    (freeBodySnapshot m g dt).getVelCJacobian (freeBodyWorld m g dt)
      = .ok (⟨3, 3, 0⟩, freeBodyWorld m g dt) :=
  free_blockDiagonal m g dt .VEL_C false

theorem free_Minv :
    (freeBodySnapshot m g dt).getInvMassMatrix (freeBodyWorld m g dt) false
      = .ok (⟨3, 3, (1 / m) • (1 : Matrix (Fin 3) (Fin 3) ℚ)⟩, freeBodyWorld m g dt) :=
  free_blockDiagonal m g dt .INV_MASS false

theorem free_forceVel (cod : CompleteOrthogonalDecomposition) :
    (freeBodySnapshot m g dt).getForceVelJacobian cod (freeBodyWorld m g dt)
      = .ok (⟨3, 3, (dt / m) • (1 : Matrix (Fin 3) (Fin 3) ℚ)⟩, freeBodyWorld m g dt) := by
  have h := BackpropSnapshot.getForceVelJacobian_of_size_eq_zero cod (freeBodySnapshot m g dt)
    (freeBodyWorld m g dt) ⟨3, 0, 0⟩ ((1 / m) • (1 : Matrix (Fin 3) (Fin 3) ℚ))
    (free_assembleMatrix m g dt .CLAMPING) rfl (free_Minv m g dt)
  rw [h, show (freeBodySnapshot m g dt).mTimeStep = dt from rfl, smul_smul, mul_one_div]
  rfl

theorem contact_forceVel (mu b dt : ℚ) (v c : Fin 2 → ℚ) :
    (contactSnapshot mu b dt v c).getForceVelJacobian cramer (contactWorld mu b dt v c)
      = .ok (⟨2, 2, dt • (1 : Matrix (Fin 2) (Fin 2) ℚ)
          * (1 - dt • ((!![0; 1] : Matrix (Fin 2) (Fin 1) ℚ)
              + (!![1; 0] : Matrix (Fin 2) (Fin 1) ℚ) * (!![mu] : Matrix (Fin 1) (Fin 1) ℚ))
            * ((1 / dt) • (!![0, b] : Matrix (Fin 1) (Fin 2) ℚ))
            * (1 : Matrix (Fin 2) (Fin 2) ℚ))⟩, contactWorld mu b dt v c) :=
  (BackpropSnapshot.getForceVelJacobian_clamping_aux cramer (contactSnapshot mu b dt v c)
    (contactWorld mu b dt v c)
    (!![0; 1] : Matrix (Fin 2) (Fin 1) ℚ) (!![1; 0] : Matrix (Fin 2) (Fin 1) ℚ)
    (!![mu] : Matrix (Fin 1) (Fin 1) ℚ) (1 : Matrix (Fin 2) (Fin 2) ℚ)
    ((1 / dt) • (!![0, b] : Matrix (Fin 1) (Fin 2) ℚ))
    (show 0 < 1 from Nat.one_pos)
    (contact_assembleMatrix _ _ _ _ _ .CLAMPING)
    (contact_assembleMatrix _ _ _ _ _ .UPPER_BOUND)
    (contact_E _ _ _ _ _)
    (contact_blockDiagonal _ _ _ _ _ .INV_MASS false)
    (contact_Pc _ _ _ _ _ false)).1

end Scenario

namespace BackpropSnapshot

/-- C3 witness: the free body for the empty branch, the box in contact for the other one. -/
theorem getVelVelJacobian_eq_witness :
    (Scenario.freeBodySnapshot 2 10 (1 / 100)).getVelVelJacobian Scenario.cramer
        (Scenario.freeBodyWorld 2 10 (1 / 100))
      = .ok (⟨3, 3, 1 - ((1 / 100 : ℚ) / 2) • (1 : Matrix (Fin 3) (Fin 3) ℚ) * 0⟩,
          Scenario.freeBodyWorld 2 10 (1 / 100))
    ∧ (Scenario.contactSnapshot (1 / 2) 1 (1 / 100) ![0, 0] ![0, 10]).getVelVelJacobian
        Scenario.cramer (Scenario.contactWorld (1 / 2) 1 (1 / 100) ![0, 0] ![0, 10])
      = .ok (⟨2, 2, 1 - (1 / 100 : ℚ) • (1 : Matrix (Fin 2) (Fin 2) ℚ)
            * ((!![0; 1] : Matrix (Fin 2) (Fin 1) ℚ)
              + (!![1; 0] : Matrix (Fin 2) (Fin 1) ℚ) * (!![1 / 2] : Matrix (Fin 1) (Fin 1) ℚ))
            * ((1 / (1 / 100) : ℚ) • (!![0, 1] : Matrix (Fin 1) (Fin 2) ℚ))
          - ((1 / 100 : ℚ) • (1 : Matrix (Fin 2) (Fin 2) ℚ)
            * (1 - (1 / 100 : ℚ) • ((!![0; 1] : Matrix (Fin 2) (Fin 1) ℚ)
                + (!![1; 0] : Matrix (Fin 2) (Fin 1) ℚ) * (!![1 / 2] : Matrix (Fin 1) (Fin 1) ℚ))
              * ((1 / (1 / 100) : ℚ) • (!![0, 1] : Matrix (Fin 1) (Fin 2) ℚ))
              * (1 : Matrix (Fin 2) (Fin 2) ℚ)))
            * (!![0, 1; -1, 0] : Matrix (Fin 2) (Fin 2) ℚ)⟩,
          Scenario.contactWorld (1 / 2) 1 (1 / 100) ![0, 0] ![0, 10]) :=
  ⟨(getVelVelJacobian_eq Scenario.cramer (Scenario.freeBodySnapshot 2 10 (1 / 100))
      (Scenario.freeBodyWorld 2 10 (1 / 100)) (0 : Matrix (Fin 3) (Fin 0) ℚ)
      (((1 / 100 : ℚ) / 2) • (1 : Matrix (Fin 3) (Fin 3) ℚ)) (0 : Matrix (Fin 3) (Fin 3) ℚ)
      (Scenario.free_assembleMatrix _ _ _ .CLAMPING) (Scenario.free_forceVel _ _ _ _)
      (Scenario.free_velC _ _ _)).1 rfl,
    (getVelVelJacobian_eq Scenario.cramer
      (Scenario.contactSnapshot (1 / 2) 1 (1 / 100) ![0, 0] ![0, 10])
      (Scenario.contactWorld (1 / 2) 1 (1 / 100) ![0, 0] ![0, 10])
      (!![0; 1] : Matrix (Fin 2) (Fin 1) ℚ) _ (!![0, 1; -1, 0] : Matrix (Fin 2) (Fin 2) ℚ)
      (Scenario.contact_assembleMatrix _ _ _ _ _ .CLAMPING)
      (Scenario.contact_forceVel _ _ _ _ _)
      (Scenario.contact_blockDiagonal _ _ _ _ _ .VEL_C false)).2 (by decide)
      (!![1; 0] : Matrix (Fin 2) (Fin 1) ℚ) (!![1 / 2] : Matrix (Fin 1) (Fin 1) ℚ)
      (1 : Matrix (Fin 2) (Fin 2) ℚ) ((1 / (1 / 100) : ℚ) • (!![0, 1] : Matrix (Fin 1) (Fin 2) ℚ))
      (Scenario.contact_assembleMatrix _ _ _ _ _ .UPPER_BOUND)
      (Scenario.contact_E _ _ _ _ _)
      (Scenario.contact_blockDiagonal _ _ _ _ _ .INV_MASS false)
      (Scenario.contact_Pc _ _ _ _ _ false)⟩

/-- C4: with zero active constraints and a vanishing velocity-Coriolis Jacobian,
`getVelVelJacobian` is the identity; for the single free body of mass `m`, whose inverse mass
matrix is `(1/m)·I3`, `forceVelJacobian = (dt/m)·I3` and `velVelJacobian = I3`. -/
theorem getVelVelJacobian_unconstrained :
    (∀ (cod : CompleteOrthogonalDecomposition) (s : BackpropSnapshot) (world : World),
        s.mGradientMatrices = [] → s.mNumClamping = 0 →
        s.getVelCJacobian world = .ok (⟨s.mNumDOFs, s.mNumDOFs, 0⟩, world) →
        s.getVelVelJacobian cod world = .ok (⟨s.mNumDOFs, s.mNumDOFs, 1⟩, world))
      ∧ (∀ (cod : CompleteOrthogonalDecomposition) (m g dt : ℚ),
          (Scenario.freeBodySnapshot m g dt).getForceVelJacobian cod
              (Scenario.freeBodyWorld m g dt)
            = .ok (⟨3, 3, (dt / m) • (1 : Matrix (Fin 3) (Fin 3) ℚ)⟩,
                Scenario.freeBodyWorld m g dt)
          ∧ (Scenario.freeBodySnapshot m g dt).getVelVelJacobian cod
              (Scenario.freeBodyWorld m g dt)
            = .ok (⟨3, 3, 1⟩, Scenario.freeBodyWorld m g dt)) :=
  ⟨getVelVelJacobian_unconstrained_aux,
    fun cod m g dt => ⟨Scenario.free_forceVel m g dt cod,
      getVelVelJacobian_unconstrained_aux cod (Scenario.freeBodySnapshot m g dt)
        (Scenario.freeBodyWorld m g dt) rfl rfl (Scenario.free_velC m g dt)⟩⟩

/-- C4 witness: the free body of mass 2 with timestep 1/100. -/
theorem getVelVelJacobian_unconstrained_witness :
    (Scenario.freeBodySnapshot 2 10 (1 / 100)).getVelVelJacobian Scenario.cramer
        (Scenario.freeBodyWorld 2 10 (1 / 100))
      = .ok (⟨3, 3, 1⟩, Scenario.freeBodyWorld 2 10 (1 / 100)) :=
  getVelVelJacobian_unconstrained.1 Scenario.cramer (Scenario.freeBodySnapshot 2 10 (1 / 100))
    (Scenario.freeBodyWorld 2 10 (1 / 100)) rfl rfl (Scenario.free_velC _ _ _)

end BackpropSnapshot

/-! ## The projection into the clamping constraints -/

/-- For an invertible square matrix the first Moore-Penrose condition already makes `X` the
two-sided inverse. -/
theorem inverse_of_isPseudoInverse {c : Nat} (Q X : Matrix (Fin c) (Fin c) ℚ)
    (hQ : IsUnit Q.det) (hX : IsPseudoInverse Q X) : Q * X = 1 ∧ X * Q = 1 := by
  have h1 : Q * X * Q = Q := hX.1
  have h2 : Q * X = 1 := by
    have h3 := congrArg (fun M => M * Q⁻¹) h1
    simp only [Matrix.mul_assoc, Matrix.mul_nonsing_inv Q hQ, Matrix.mul_one] at h3
    exact h3
  exact ⟨h2, Matrix.mul_eq_one_comm.mp h2⟩

/-- Cramer's rule computes the pseudo-inverse of an invertible square matrix. -/
theorem Scenario.cramer_isPseudoInverse {c : Nat} (Q : Matrix (Fin c) (Fin c) ℚ)
    (hQ : IsUnit Q.det) : IsPseudoInverse Q (Scenario.cramer.pseudoInverse c c Q) := by
  have hinv : Scenario.cramer.pseudoInverse c c Q = Q⁻¹ := by
    simp only [Scenario.cramer, dite_true]
    ext i j
    simp [Matrix.inv_def, Ring.inverse_eq_inv']
  rw [hinv]
  unfold IsPseudoInverse
  simp [Matrix.mul_nonsing_inv Q hQ, Matrix.nonsing_inv_mul Q hQ, Matrix.mul_assoc]

namespace BackpropSnapshot

/-- The exact-mode projection matrix, in terms of the matrices its callees return. -/
theorem getProjectionIntoClampsMatrix_exact_aux (cod : CompleteOrthogonalDecomposition)
    (s : BackpropSnapshot) (world : World)
    (Ac : Matrix (Fin s.mNumDOFs) (Fin s.mNumClamping) ℚ)
    (hAc : s.getClampingConstraintMatrix world = .ok ⟨_, _, Ac⟩) :
    (s.mNumClamping = 0 →
        s.getProjectionIntoClampsMatrix cod world false
          = .ok (⟨0, world.getNumDofs, 0⟩, world))
      ∧ (s.mNumDOFs * s.mNumClamping ≠ 0 →
          ∀ (Vc : Matrix (Fin s.mNumDOFs) (Fin s.mNumClamping) ℚ)
            (Vub : Matrix (Fin s.mNumDOFs) (Fin s.mNumUpperBound) ℚ)
            (E : Matrix (Fin s.mNumUpperBound) (Fin s.mNumClamping) ℚ)
            (bounce : Fin s.mNumClamping → ℚ),
            s.getMassedClampingConstraintMatrix world = .ok ⟨_, _, Vc⟩ →
            s.getMassedUpperBoundConstraintMatrix world = .ok ⟨_, _, Vub⟩ →
            s.getUpperBoundMappingMatrix = .ok ⟨_, _, E⟩ →
            s.getBounceDiagonals = .ok ⟨_, bounce⟩ →
            s.getProjectionIntoClampsMatrix cod world false
                = .ok (⟨s.mNumClamping, s.mNumDOFs,
                    (1 / s.mTimeStep) • (cod.pseudoInverse _ _ (Ac.transpose * (Vc + Vub * E))
                      * (Matrix.diagonal bounce * Ac.transpose))⟩, world)
              ∧ (s.mTimeStep ≠ 0 → IsUnit (Ac.transpose * (Vc + Vub * E)).det →
                  IsPseudoInverse (Ac.transpose * (Vc + Vub * E))
                    (cod.pseudoInverse _ _ (Ac.transpose * (Vc + Vub * E))) →
                  ∀ P : Matrix (Fin s.mNumClamping) (Fin s.mNumDOFs) ℚ,
                    s.mTimeStep • ((Ac.transpose * (Vc + Vub * E)) * P)
                        = Matrix.diagonal bounce * Ac.transpose
                      ↔ P = (1 / s.mTimeStep)
                          • (cod.pseudoInverse _ _ (Ac.transpose * (Vc + Vub * E))
                            * (Matrix.diagonal bounce * Ac.transpose)))) := by
  constructor
  · intro hc
    unfold getProjectionIntoClampsMatrix
    rw [hAc]
    simp only [Result.ok_bind, MatrixXd.size_mk, hc, Nat.mul_zero, if_true, Result.pure_eq,
      MatrixXd.Zero_eq]
  · intro h0 Vc Vub E bounce hVc hVub hE hb
    constructor
    · unfold getProjectionIntoClampsMatrix
      rw [hAc]
      simp only [Result.ok_bind, MatrixXd.size_mk, h0, if_false, hE, Bool.false_eq_true, hVc,
        hVub, hb, MatrixXd.ok_mul_ok, MatrixXd.mul_mk, MatrixXd.ok_add_ok, MatrixXd.add_mk,
        MatrixXd.transpose_mk, VectorXd.asDiagonal_mk, Result.pure_eq,
        CompleteOrthogonalDecomposition.solve, CompleteOrthogonalDecomposition.pinv,
        MatrixXd.smul_mk]
    · intro hdt hQ hX P
      obtain ⟨hQX, hXQ⟩ := inverse_of_isPseudoInverse _ _ hQ hX
      constructor
      · intro hP
        have h1 : (Ac.transpose * (Vc + Vub * E)) * P
            = (1 / s.mTimeStep) • (Matrix.diagonal bounce * Ac.transpose) := by
          rw [← hP, smul_smul, one_div, inv_mul_cancel₀ hdt, one_smul]
        have h2 := congrArg
          (fun M => cod.pseudoInverse _ _ (Ac.transpose * (Vc + Vub * E)) * M) h1
        simp only [← Matrix.mul_assoc, hXQ, Matrix.one_mul] at h2
        rw [h2, Matrix.mul_smul]
      · intro hP
        rw [hP, Matrix.mul_smul, smul_smul, mul_one_div, div_self hdt, one_smul,
          ← Matrix.mul_assoc, hQX, Matrix.one_mul]

/-- C5: in exact mode `getProjectionIntoClampsMatrix` returns
`P_c = (1/dt)·pinv(A_cᵀ·(V_c + V_ub·E))·diag(bounce)·A_cᵀ`, of `numClamping` rows and `numDOFs`
columns; when `Q = A_cᵀ·(V_c + V_ub·E)` is invertible (and `dt ≠ 0`, as `1/dt` presupposes) `P_c`
is the unique matrix with `dt·Q·P_c = diag(bounce)·A_cᵀ`; without a clamping column it returns
the matrix with 0 rows and `numDOFs` columns. -/
theorem getProjectionIntoClampsMatrix_exact (cod : CompleteOrthogonalDecomposition)
    (s : BackpropSnapshot) (world : World)
    (Ac : Matrix (Fin s.mNumDOFs) (Fin s.mNumClamping) ℚ)
    (hAc : s.getClampingConstraintMatrix world = .ok ⟨_, _, Ac⟩) :
    (s.mNumClamping = 0 →
        s.getProjectionIntoClampsMatrix cod world false
          = .ok (⟨0, world.getNumDofs, 0⟩, world))
      ∧ (s.mNumDOFs * s.mNumClamping ≠ 0 →
          ∀ (Vc : Matrix (Fin s.mNumDOFs) (Fin s.mNumClamping) ℚ)
            (Vub : Matrix (Fin s.mNumDOFs) (Fin s.mNumUpperBound) ℚ)
            (E : Matrix (Fin s.mNumUpperBound) (Fin s.mNumClamping) ℚ)
            (bounce : Fin s.mNumClamping → ℚ),
            s.getMassedClampingConstraintMatrix world = .ok ⟨_, _, Vc⟩ →
            s.getMassedUpperBoundConstraintMatrix world = .ok ⟨_, _, Vub⟩ →
            s.getUpperBoundMappingMatrix = .ok ⟨_, _, E⟩ →
            s.getBounceDiagonals = .ok ⟨_, bounce⟩ →
            s.getProjectionIntoClampsMatrix cod world false
                = .ok (⟨s.mNumClamping, s.mNumDOFs,
                    (1 / s.mTimeStep) • (cod.pseudoInverse _ _ (Ac.transpose * (Vc + Vub * E))
                      * (Matrix.diagonal bounce * Ac.transpose))⟩, world)
              ∧ (s.mTimeStep ≠ 0 → IsUnit (Ac.transpose * (Vc + Vub * E)).det →
                  IsPseudoInverse (Ac.transpose * (Vc + Vub * E))
                    (cod.pseudoInverse _ _ (Ac.transpose * (Vc + Vub * E))) →
                  ∀ P : Matrix (Fin s.mNumClamping) (Fin s.mNumDOFs) ℚ,
                    s.mTimeStep • ((Ac.transpose * (Vc + Vub * E)) * P)
                        = Matrix.diagonal bounce * Ac.transpose
                      ↔ P = (1 / s.mTimeStep)
                          • (cod.pseudoInverse _ _ (Ac.transpose * (Vc + Vub * E))
                            * (Matrix.diagonal bounce * Ac.transpose)))) :=
  getProjectionIntoClampsMatrix_exact_aux cod s world Ac hAc

end BackpropSnapshot

namespace Scenario

/-- The matrix `Q = A_cᵀ·(V_c + V_ub·E)` of the box in contact is the 1×1 identity. -/
theorem contact_Q (mu : ℚ) :
    (!![0; 1] : Matrix (Fin 2) (Fin 1) ℚ).transpose
        * ((!![0; 1] : Matrix (Fin 2) (Fin 1) ℚ)
          + (!![1; 0] : Matrix (Fin 2) (Fin 1) ℚ) * (!![mu] : Matrix (Fin 1) (Fin 1) ℚ))
      = 1 := by
  ext i j
  fin_cases i; fin_cases j
  simp [Matrix.mul_apply, Matrix.transpose]

end Scenario

namespace BackpropSnapshot

/-- C5 witness: the free body (no clamping column) and the box in contact (`Q` invertible). -/
theorem getProjectionIntoClampsMatrix_exact_witness :
    (Scenario.freeBodySnapshot 2 10 (1 / 100)).getProjectionIntoClampsMatrix Scenario.cramer
        (Scenario.freeBodyWorld 2 10 (1 / 100)) false
      = .ok (⟨0, (Scenario.freeBodyWorld 2 10 (1 / 100)).getNumDofs, 0⟩,
          Scenario.freeBodyWorld 2 10 (1 / 100))
    ∧ ∀ P : Matrix (Fin 1) (Fin 2) ℚ,
        (1 / 100 : ℚ) • (((!![0; 1] : Matrix (Fin 2) (Fin 1) ℚ).transpose
            * ((!![0; 1] : Matrix (Fin 2) (Fin 1) ℚ)
              + (!![1; 0] : Matrix (Fin 2) (Fin 1) ℚ) * (!![1 / 2] : Matrix (Fin 1) (Fin 1) ℚ)))
            * P)
          = Matrix.diagonal (![1] : Fin 1 → ℚ) * (!![0; 1] : Matrix (Fin 2) (Fin 1) ℚ).transpose
        ↔ P = (1 / (1 / 100 : ℚ))
            • (Scenario.cramer.pseudoInverse 1 1
                ((!![0; 1] : Matrix (Fin 2) (Fin 1) ℚ).transpose
                  * ((!![0; 1] : Matrix (Fin 2) (Fin 1) ℚ)
                    + (!![1; 0] : Matrix (Fin 2) (Fin 1) ℚ)
                      * (!![1 / 2] : Matrix (Fin 1) (Fin 1) ℚ)))
              * (Matrix.diagonal (![1] : Fin 1 → ℚ) * (!![0; 1] : Matrix (Fin 2) (Fin 1) ℚ).transpose)) :=
  ⟨(getProjectionIntoClampsMatrix_exact Scenario.cramer
      (Scenario.freeBodySnapshot 2 10 (1 / 100)) (Scenario.freeBodyWorld 2 10 (1 / 100))
      (0 : Matrix (Fin 3) (Fin 0) ℚ) (Scenario.free_assembleMatrix _ _ _ .CLAMPING)).1 rfl,
    ((getProjectionIntoClampsMatrix_exact Scenario.cramer
      (Scenario.contactSnapshot (1 / 2) 1 (1 / 100) ![0, 0] ![0, 10])
      (Scenario.contactWorld (1 / 2) 1 (1 / 100) ![0, 0] ![0, 10])
      (!![0; 1] : Matrix (Fin 2) (Fin 1) ℚ)
      (Scenario.contact_assembleMatrix _ _ _ _ _ .CLAMPING)).2 (by decide)
      (!![0; 1] : Matrix (Fin 2) (Fin 1) ℚ) (!![1; 0] : Matrix (Fin 2) (Fin 1) ℚ)
      (!![1 / 2] : Matrix (Fin 1) (Fin 1) ℚ) (![1] : Fin 1 → ℚ)
      (Scenario.contact_assembleMatrix _ _ _ _ _ .MASSED_CLAMPING)
      (Scenario.contact_assembleMatrix _ _ _ _ _ .MASSED_UPPER_BOUND)
      (Scenario.contact_E _ _ _ _ _)
      (Scenario.contact_bounce _ _ _ _ _)).2
      (show (1 / 100 : ℚ) ≠ 0 by norm_num)
      (by rw [Scenario.contact_Q]; simp)
      (Scenario.cramer_isPseudoInverse _ (by rw [Scenario.contact_Q]; simp))⟩

end BackpropSnapshot

/-! ## The analytical next velocity -/

/-- On square matrices Cramer's rule is the matrix inverse. -/
theorem Scenario.cramer_square {c : Nat} (Q : Matrix (Fin c) (Fin c) ℚ) :
    Scenario.cramer.pseudoInverse c c Q = Q⁻¹ := by
  simp only [Scenario.cramer, dite_true]
  ext i j
  simp [Matrix.inv_def, Ring.inverse_eq_inv']

namespace BackpropSnapshot

/-- The finite-differencing mode of the projection matrix, in terms of the matrices its callees
return. -/
theorem getProjectionIntoClampsMatrix_live_aux (cod : CompleteOrthogonalDecomposition)
    (s : BackpropSnapshot) (world : World)
    (Ac : Matrix (Fin s.mNumDOFs) (Fin s.mNumClamping) ℚ)
    (Aub : Matrix (Fin s.mNumDOFs) (Fin s.mNumUpperBound) ℚ)
    (E : Matrix (Fin s.mNumUpperBound) (Fin s.mNumClamping) ℚ)
    (Minv : Matrix (Fin s.mNumDOFs) (Fin s.mNumDOFs) ℚ)
    (bounce : Fin s.mNumClamping → ℚ)
    (h0 : s.mNumDOFs * s.mNumClamping ≠ 0)
    (hAc : s.getClampingConstraintMatrix world = .ok ⟨_, _, Ac⟩)
    (hAub : s.getUpperBoundConstraintMatrix world = .ok ⟨_, _, Aub⟩)
    (hE : s.getUpperBoundMappingMatrix = .ok ⟨_, _, E⟩)
    (hMinv : s.getInvMassMatrix world true = .ok (⟨_, _, Minv⟩, world))
    (hb : s.getBounceDiagonals = .ok ⟨_, bounce⟩) :
    s.getProjectionIntoClampsMatrix cod world true
      = .ok (⟨s.mNumClamping, s.mNumDOFs,
          (1 / s.mTimeStep) • (cod.pseudoInverse _ _ (Ac.transpose * (Minv * (Ac + Aub * E)))
            * (Matrix.diagonal bounce * Ac.transpose))⟩, world) := by
  unfold getProjectionIntoClampsMatrix
  rw [hAc]
  simp only [Result.ok_bind, MatrixXd.size_mk, h0, if_false, hE, if_true, hAub, hMinv,
    hb, MatrixXd.ok_mul_ok, MatrixXd.mul_mk, MatrixXd.ok_add_ok, MatrixXd.add_mk,
    MatrixXd.transpose_mk, VectorXd.asDiagonal_mk, Result.pure_eq,
    CompleteOrthogonalDecomposition.solve, CompleteOrthogonalDecomposition.pinv,
    MatrixXd.smul_mk]

/-- The value `getAnalyticalNextV` returns when the clamping matrix is non-empty. -/
theorem getAnalyticalNextV_eval (cod : CompleteOrthogonalDecomposition)
    (s : BackpropSnapshot) (world : World)
    (Ac : Matrix (Fin s.mNumDOFs) (Fin s.mNumClamping) ℚ)
    (Aub : Matrix (Fin s.mNumDOFs) (Fin s.mNumUpperBound) ℚ)
    (E : Matrix (Fin s.mNumUpperBound) (Fin s.mNumClamping) ℚ)
    (Minv : Matrix (Fin s.mNumDOFs) (Fin s.mNumDOFs) ℚ)
    (bounce : Fin s.mNumClamping → ℚ) (v tau C : Fin s.mNumDOFs → ℚ)
    (h0 : s.mNumDOFs * s.mNumClamping ≠ 0)
    (hAc : s.getClampingConstraintMatrix world = .ok ⟨_, _, Ac⟩)
    (hAub : s.getUpperBoundConstraintMatrix world = .ok ⟨_, _, Aub⟩)
    (hE : s.getUpperBoundMappingMatrix = .ok ⟨_, _, E⟩)
    (hMinv : s.getInvMassMatrix world true = .ok (⟨_, _, Minv⟩, world))
    (hb : s.getBounceDiagonals = .ok ⟨_, bounce⟩)
    (hMinvW : world.getInvMassMatrix = .ok ⟨_, _, Minv⟩)
    (hv : world.getVelocities = ⟨_, v⟩) (htau : world.getForces = ⟨_, tau⟩)
    (hC : world.getCoriolisAndGravityAndExternalForces = ⟨_, C⟩) :
    s.getAnalyticalNextV cod world
      = .ok (⟨_, v + (world.getTimeStep • Minv).mulVec (tau - C
          - ((Ac + Aub * E)
              * ((1 / s.mTimeStep)
                • (cod.pseudoInverse _ _ (Ac.transpose * (Minv * (Ac + Aub * E)))
                  * (Matrix.diagonal bounce * Ac.transpose)))).mulVec
              (v + (world.getTimeStep • Minv).mulVec (tau - C)))⟩, world) := by
  unfold getAnalyticalNextV
  rw [hAc, hAub, hE,
    getProjectionIntoClampsMatrix_live_aux cod s world Ac Aub E Minv bounce h0 hAc hAub hE hMinv hb]
  simp only [Result.ok_bind, MatrixXd.ok_mul_ok, MatrixXd.mul_mk, MatrixXd.ok_add_ok,
    MatrixXd.add_mk, hMinvW, hv, htau, hC, MatrixXd.smul_ok, MatrixXd.smul_mk,
    VectorXd.ok_vsub_ok, VectorXd.vsub_mk, MatrixXd.mulVecExpr_ok, MatrixXd.mulVec_mk,
    VectorXd.ok_vadd_ok, VectorXd.vadd_mk, Result.pure_eq]

/-- The algebra behind non-penetration: along the clamping directions the projected velocity
keeps the share `I − diag(bounce)` of the unconstrained prediction, when the two timesteps
agree. -/
theorem nonpenetration_algebra {n c : Nat} (dt : ℚ) (hdt : dt ≠ 0)
    (Ac A : Matrix (Fin n) (Fin c) ℚ) (Minv : Matrix (Fin n) (Fin n) ℚ)
    (X : Matrix (Fin c) (Fin c) ℚ) (bounce : Fin c → ℚ) (v f : Fin n → ℚ)
    (hQX : Ac.transpose * (Minv * A) * X = 1) :
    Ac.transpose.mulVec (v + (dt • Minv).mulVec (f
        - (A * ((1 / dt) • (X * (Matrix.diagonal bounce * Ac.transpose)))).mulVec
            (v + (dt • Minv).mulVec f)))
      = ((1 - Matrix.diagonal bounce) * Ac.transpose).mulVec (v + (dt • Minv).mulVec f) := by
  have h2 : Ac.transpose * (Minv * (A * (X * (Matrix.diagonal bounce * Ac.transpose))))
      = Matrix.diagonal bounce * Ac.transpose := by
    rw [← Matrix.mul_assoc Minv, ← Matrix.mul_assoc Ac.transpose,
      ← Matrix.mul_assoc (Ac.transpose * (Minv * A)), hQX, Matrix.one_mul]
  have key : Ac.transpose * (dt • Minv)
      * (A * ((1 / dt) • (X * (Matrix.diagonal bounce * Ac.transpose))))
      = Matrix.diagonal bounce * Ac.transpose := by
    simp only [Matrix.mul_smul, Matrix.smul_mul, smul_smul, Matrix.mul_assoc]
    rw [h2, one_div, inv_mul_cancel₀ hdt, one_smul]
  have hw : v + (dt • Minv).mulVec (f
        - (A * ((1 / dt) • (X * (Matrix.diagonal bounce * Ac.transpose)))).mulVec
            (v + (dt • Minv).mulVec f))
      = (v + (dt • Minv).mulVec f)
        - ((dt • Minv) * (A * ((1 / dt) • (X * (Matrix.diagonal bounce * Ac.transpose))))).mulVec
            (v + (dt • Minv).mulVec f) := by
    rw [Matrix.mulVec_sub, Matrix.mulVec_mulVec]
    abel
  rw [hw, Matrix.mulVec_sub, Matrix.mulVec_mulVec, ← Matrix.mul_assoc, key, Matrix.sub_mul,
    Matrix.one_mul, Matrix.sub_mulVec]

/-- The value `getAnalyticalNextV` returns, with the pseudo-inverse of `Q` named. -/
theorem getAnalyticalNextV_eval_of_pinv (cod : CompleteOrthogonalDecomposition)
    (s : BackpropSnapshot) (world : World)
    (Ac : Matrix (Fin s.mNumDOFs) (Fin s.mNumClamping) ℚ)
    (Aub : Matrix (Fin s.mNumDOFs) (Fin s.mNumUpperBound) ℚ)
    (E : Matrix (Fin s.mNumUpperBound) (Fin s.mNumClamping) ℚ)
    (Minv : Matrix (Fin s.mNumDOFs) (Fin s.mNumDOFs) ℚ)
    (bounce : Fin s.mNumClamping → ℚ) (v tau C : Fin s.mNumDOFs → ℚ)
    (X : Matrix (Fin s.mNumClamping) (Fin s.mNumClamping) ℚ)
    (h0 : s.mNumDOFs * s.mNumClamping ≠ 0)
    (hAc : s.getClampingConstraintMatrix world = .ok ⟨_, _, Ac⟩)
    (hAub : s.getUpperBoundConstraintMatrix world = .ok ⟨_, _, Aub⟩)
    (hE : s.getUpperBoundMappingMatrix = .ok ⟨_, _, E⟩)
    (hMinv : s.getInvMassMatrix world true = .ok (⟨_, _, Minv⟩, world))
    (hb : s.getBounceDiagonals = .ok ⟨_, bounce⟩)
    (hMinvW : world.getInvMassMatrix = .ok ⟨_, _, Minv⟩)
    (hv : world.getVelocities = ⟨_, v⟩) (htau : world.getForces = ⟨_, tau⟩)
    (hC : world.getCoriolisAndGravityAndExternalForces = ⟨_, C⟩)
    (hX : cod.pseudoInverse _ _ (Ac.transpose * (Minv * (Ac + Aub * E))) = X) :
    s.getAnalyticalNextV cod world
      = .ok (⟨_, v + (world.getTimeStep • Minv).mulVec (tau - C
          - ((Ac + Aub * E)
              * ((1 / s.mTimeStep) • (X * (Matrix.diagonal bounce * Ac.transpose)))).mulVec
              (v + (world.getTimeStep • Minv).mulVec (tau - C)))⟩, world) := by
  rw [← hX]
  exact getAnalyticalNextV_eval cod s world Ac Aub E Minv bounce v tau C h0 hAc hAub hE hMinv hb
    hMinvW hv htau hC

end BackpropSnapshot

namespace Scenario

variable {mu b dt : ℚ} {v c : Fin 2 → ℚ}

theorem contact_assembleMatrix_of_skeletons (world : World)
    (hw : world.skeletons = [boxSkeleton mu b]) (whichMatrix : MatrixToAssemble) :
    (contactSnapshot mu b dt v c).assembleMatrix world whichMatrix
      = .ok (BackpropSnapshot.groupMatrixToAssemble (contactGroup mu b) whichMatrix) := by
  cases whichMatrix <;>
  simp [BackpropSnapshot.assembleMatrix, hw,
    contactSnapshot, BackpropSnapshot.create, contactWorld, boxSkeleton,
    BackpropSnapshot.constructorStep, contactGroup, BackpropSnapshot.assembleGroups,
    BackpropSnapshot.assembleGroupRows, BackpropSnapshot.groupMatrixToAssemble,
    World.getSkeleton, deref, BackpropSnapshot.skeletonOffset,
    BackpropSnapshot.numColsToAssemble]

theorem contact_blockDiagonal_of_skeletons (world : World)
    (hw : world.skeletons = [boxSkeleton mu b]) (whichMatrix : BlockDiagonalMatrixToAssemble) :
    (contactSnapshot mu b dt v c).assembleBlockDiagonalMatrix world whichMatrix true
      = .ok (BackpropSnapshot.skeletonMatrixToAssemble (boxSkeleton mu b) world.state
          whichMatrix, world) := by
  rw [BackpropSnapshot.assembleBlockDiagonalMatrix_true]
  have h := contact_diagonalBlocks mu b whichMatrix world
  rw [show (contactSnapshot mu b dt v c).mNumDOFs = 2 from rfl, hw, h]
  rfl

theorem contact_worldMinv (world : World) (hw : world.skeletons = [boxSkeleton mu b]) :
    world.getInvMassMatrix = .ok ⟨2, 2, 1⟩ := by
  simp [World.getInvMassMatrix, World.getNumDofs, hw, World.invMassBlocks, boxSkeleton,
    Skeleton.getInvMassMatrix]

end Scenario

namespace BackpropSnapshot

/-- The non-penetration property of `getAnalyticalNextV` when the world timestep is the
snapshot's. -/
theorem getAnalyticalNextV_nonpenetration_aux (cod : CompleteOrthogonalDecomposition)
    (s : BackpropSnapshot) (world : World)
    (Ac : Matrix (Fin s.mNumDOFs) (Fin s.mNumClamping) ℚ)
    (Aub : Matrix (Fin s.mNumDOFs) (Fin s.mNumUpperBound) ℚ)
    (E : Matrix (Fin s.mNumUpperBound) (Fin s.mNumClamping) ℚ)
    (Minv : Matrix (Fin s.mNumDOFs) (Fin s.mNumDOFs) ℚ)
    (bounce : Fin s.mNumClamping → ℚ) (v tau C : Fin s.mNumDOFs → ℚ)
    (hAc : s.getClampingConstraintMatrix world = .ok ⟨_, _, Ac⟩)
    (hAub : s.getUpperBoundConstraintMatrix world = .ok ⟨_, _, Aub⟩)
    (hE : s.getUpperBoundMappingMatrix = .ok ⟨_, _, E⟩)
    (hMinv : s.getInvMassMatrix world true = .ok (⟨_, _, Minv⟩, world))
    (hb : s.getBounceDiagonals = .ok ⟨_, bounce⟩)
    (hMinvW : world.getInvMassMatrix = .ok ⟨_, _, Minv⟩)
    (hv : world.getVelocities = ⟨_, v⟩) (htau : world.getForces = ⟨_, tau⟩)
    (hC : world.getCoriolisAndGravityAndExternalForces = ⟨_, C⟩)
    (hdt : world.getTimeStep = s.mTimeStep) (hdt0 : s.mTimeStep ≠ 0)
    (hQ : IsUnit (Ac.transpose * Minv * (Ac + Aub * E)).det)
    (hX : IsPseudoInverse (Ac.transpose * Minv * (Ac + Aub * E))
      (cod.pseudoInverse _ _ (Ac.transpose * Minv * (Ac + Aub * E)))) :
    (∀ (v' : Fin s.mNumDOFs → ℚ) (world' : World),
        s.getAnalyticalNextV cod world = .ok (⟨_, v'⟩, world') →
        Ac.transpose.mulVec v'
            = ((1 - Matrix.diagonal bounce) * Ac.transpose).mulVec
                (v + (s.mTimeStep • Minv).mulVec (tau - C))
          ∧ ((∀ i, bounce i = 1) → Ac.transpose.mulVec v' = 0))
      ∧ (s.mNumDOFs * s.mNumClamping ≠ 0 →
          ∃ v' : Fin s.mNumDOFs → ℚ, s.getAnalyticalNextV cod world = .ok (⟨_, v'⟩, world)) := by
  have hone : (∀ i, bounce i = 1) → (1 - Matrix.diagonal bounce) * Ac.transpose = 0 := by
    intro h1
    have : Matrix.diagonal bounce = 1 := by
      have hb1 : bounce = fun _ => 1 := funext h1
      rw [hb1, Matrix.diagonal_one]
    rw [this, sub_self, Matrix.zero_mul]
  have main : ∀ (v' : Fin s.mNumDOFs → ℚ) (world' : World),
      s.getAnalyticalNextV cod world = .ok (⟨_, v'⟩, world') →
      Ac.transpose.mulVec v'
        = ((1 - Matrix.diagonal bounce) * Ac.transpose).mulVec
            (v + (s.mTimeStep • Minv).mulVec (tau - C)) := by
    intro v' world' hret
    by_cases h0 : s.mNumDOFs * s.mNumClamping = 0
    · rcases Nat.mul_eq_zero.mp h0 with hn | hc
      · haveI : IsEmpty (Fin s.mNumDOFs) := by rw [hn]; infer_instance
        funext i
        simp [Matrix.mulVec, Matrix.dotProduct]
      · funext i
        exact absurd i.isLt (by omega)
    · rw [getAnalyticalNextV_eval cod s world Ac Aub E Minv bounce v tau C h0 hAc hAub hE hMinv hb
        hMinvW hv htau hC] at hret
      simp only [Except.ok.injEq, Prod.mk.injEq, VectorXd.mk.injEq, heq_eq_eq, true_and] at hret
      rw [Matrix.mul_assoc] at hQ hX
      obtain ⟨hQX, _⟩ := inverse_of_isPseudoInverse _ _ hQ hX
      rw [← hret.1, hdt]
      exact nonpenetration_algebra s.mTimeStep hdt0 Ac (Ac + Aub * E) Minv _ bounce v (tau - C) hQX
  refine ⟨fun v' world' hret => ⟨main v' world' hret, fun h1 => ?_⟩, fun h0 => ⟨_,
    getAnalyticalNextV_eval cod s world Ac Aub E Minv bounce v tau C h0 hAc hAub hE hMinv hb
      hMinvW hv htau hC⟩⟩
  rw [main v' world' hret, hone h1, Matrix.zero_mulVec]

end BackpropSnapshot

namespace BackpropSnapshot

/-- C6 (amended): when the world's timestep is the (nonzero) timestep stored in the snapshot and
`Q = A_cᵀ·Minv·(A_c + A_ub·E)` is invertible, the velocity `v'` returned by `getAnalyticalNextV`
satisfies `A_cᵀ·v' = (I − diag(bounce))·A_cᵀ·innerV` with `innerV = v + dt·Minv·(tau − C)`, hence
`A_cᵀ·v' = 0` when every bounce diagonal is 1; with a non-empty clamping matrix the routine does
return. -/
theorem getAnalyticalNextV_nonpenetration (cod : CompleteOrthogonalDecomposition)
    (s : BackpropSnapshot) (world : World)
    (Ac : Matrix (Fin s.mNumDOFs) (Fin s.mNumClamping) ℚ)
    (Aub : Matrix (Fin s.mNumDOFs) (Fin s.mNumUpperBound) ℚ)
    (E : Matrix (Fin s.mNumUpperBound) (Fin s.mNumClamping) ℚ)
    (Minv : Matrix (Fin s.mNumDOFs) (Fin s.mNumDOFs) ℚ)
    (bounce : Fin s.mNumClamping → ℚ) (v tau C : Fin s.mNumDOFs → ℚ)
    (hAc : s.getClampingConstraintMatrix world = .ok ⟨_, _, Ac⟩)
    (hAub : s.getUpperBoundConstraintMatrix world = .ok ⟨_, _, Aub⟩)
    (hE : s.getUpperBoundMappingMatrix = .ok ⟨_, _, E⟩)
    (hMinv : s.getInvMassMatrix world true = .ok (⟨_, _, Minv⟩, world))
    (hb : s.getBounceDiagonals = .ok ⟨_, bounce⟩)
    (hMinvW : world.getInvMassMatrix = .ok ⟨_, _, Minv⟩)
    (hv : world.getVelocities = ⟨_, v⟩) (htau : world.getForces = ⟨_, tau⟩)
    (hC : world.getCoriolisAndGravityAndExternalForces = ⟨_, C⟩)
    (hdt : world.getTimeStep = s.mTimeStep) (hdt0 : s.mTimeStep ≠ 0)
    (hQ : IsUnit (Ac.transpose * Minv * (Ac + Aub * E)).det)
    (hX : IsPseudoInverse (Ac.transpose * Minv * (Ac + Aub * E))
      (cod.pseudoInverse _ _ (Ac.transpose * Minv * (Ac + Aub * E)))) :
    (∀ (v' : Fin s.mNumDOFs → ℚ) (world' : World),
        s.getAnalyticalNextV cod world = .ok (⟨_, v'⟩, world') →
        Ac.transpose.mulVec v'
            = ((1 - Matrix.diagonal bounce) * Ac.transpose).mulVec
                (v + (s.mTimeStep • Minv).mulVec (tau - C))
          ∧ ((∀ i, bounce i = 1) → Ac.transpose.mulVec v' = 0))
      ∧ (s.mNumDOFs * s.mNumClamping ≠ 0 →
          ∃ v' : Fin s.mNumDOFs → ℚ, s.getAnalyticalNextV cod world = .ok (⟨_, v'⟩, world)) :=
  getAnalyticalNextV_nonpenetration_aux cod s world Ac Aub E Minv bounce v tau C hAc hAub hE hMinv
    hb hMinvW hv htau hC hdt hdt0 hQ hX

/-- C6 witness: the box in contact, falling at unit speed, comes to rest along the normal. -/
theorem getAnalyticalNextV_nonpenetration_witness :
    ∃ v' : Fin 2 → ℚ,
      (Scenario.contactSnapshot (1 / 2) 1 (1 / 100) ![0, -1] ![0, 10]).getAnalyticalNextV
          Scenario.cramer (Scenario.contactWorld (1 / 2) 1 (1 / 100) ![0, -1] ![0, 10])
        = .ok (⟨2, v'⟩, Scenario.contactWorld (1 / 2) 1 (1 / 100) ![0, -1] ![0, 10])
      ∧ (!![0; 1] : Matrix (Fin 2) (Fin 1) ℚ).transpose.mulVec v' = 0 := by
  have hQ : ((!![0; 1] : Matrix (Fin 2) (Fin 1) ℚ).transpose * (1 : Matrix (Fin 2) (Fin 2) ℚ)
      * ((!![0; 1] : Matrix (Fin 2) (Fin 1) ℚ)
        + (!![1; 0] : Matrix (Fin 2) (Fin 1) ℚ) * (!![1 / 2] : Matrix (Fin 1) (Fin 1) ℚ)))
      = 1 := by
    rw [Matrix.mul_one, Scenario.contact_Q]
  have T := getAnalyticalNextV_nonpenetration Scenario.cramer
    (Scenario.contactSnapshot (1 / 2) 1 (1 / 100) ![0, -1] ![0, 10])
    (Scenario.contactWorld (1 / 2) 1 (1 / 100) ![0, -1] ![0, 10])
    (!![0; 1] : Matrix (Fin 2) (Fin 1) ℚ) (!![1; 0] : Matrix (Fin 2) (Fin 1) ℚ)
    (!![1 / 2] : Matrix (Fin 1) (Fin 1) ℚ) (1 : Matrix (Fin 2) (Fin 2) ℚ)
    (![1] : Fin 1 → ℚ) ![0, -1] (fun _ => 0) ![0, 10]
    (Scenario.contact_assembleMatrix_of_skeletons _ rfl .CLAMPING)
    (Scenario.contact_assembleMatrix_of_skeletons _ rfl .UPPER_BOUND)
    (Scenario.contact_E _ _ _ _ _)
    (Scenario.contact_blockDiagonal_of_skeletons _ rfl .INV_MASS)
    (Scenario.contact_bounce _ _ _ _ _)
    (Scenario.contact_worldMinv _ rfl) rfl rfl rfl rfl
    (show (1 / 100 : ℚ) ≠ 0 by norm_num)
    (by rw [hQ]; simp)
    (Scenario.cramer_isPseudoInverse _ (by rw [hQ]; simp))
  obtain ⟨v', hv'⟩ := T.2 (by decide)
  exact ⟨v', hv', (T.1 v' _ hv').2 (by simp)⟩

/-- C6 counterexample: a snapshot taken with timestep 1, queried after the world's timestep was
set to 2. `Q` is the 1×1 identity and the bounce diagonal is 1, yet the returned velocity has
component 1 along the clamping direction. -/
theorem getAnalyticalNextV_nonpenetration_counterexample :
    IsUnit ((!![0; 1] : Matrix (Fin 2) (Fin 1) ℚ).transpose * (1 : Matrix (Fin 2) (Fin 2) ℚ)
        * ((!![0; 1] : Matrix (Fin 2) (Fin 1) ℚ)
          + (!![1; 0] : Matrix (Fin 2) (Fin 1) ℚ) * (!![1 / 2] : Matrix (Fin 1) (Fin 1) ℚ))).det
    ∧ ∃ v' : Fin 2 → ℚ,
        (Scenario.contactSnapshot (1 / 2) 1 1 ![0, -1] ![0, 0]).getAnalyticalNextV
            Scenario.cramer (Scenario.contactWorld (1 / 2) 1 2 ![0, -1] ![0, 0])
          = .ok (⟨2, v'⟩, Scenario.contactWorld (1 / 2) 1 2 ![0, -1] ![0, 0])
        ∧ (!![0; 1] : Matrix (Fin 2) (Fin 1) ℚ).transpose.mulVec v' = ![1]
        ∧ (!![0; 1] : Matrix (Fin 2) (Fin 1) ℚ).transpose.mulVec v'
          ≠ ((1 - Matrix.diagonal (![1] : Fin 1 → ℚ))
              * (!![0; 1] : Matrix (Fin 2) (Fin 1) ℚ).transpose).mulVec
              (![0, -1] + ((2 : ℚ) • (1 : Matrix (Fin 2) (Fin 2) ℚ)).mulVec
                ((fun _ => 0) - ![0, 0])) := by
  have hQ : ((!![0; 1] : Matrix (Fin 2) (Fin 1) ℚ).transpose * (1 : Matrix (Fin 2) (Fin 2) ℚ)
      * ((!![0; 1] : Matrix (Fin 2) (Fin 1) ℚ)
        + (!![1; 0] : Matrix (Fin 2) (Fin 1) ℚ) * (!![1 / 2] : Matrix (Fin 1) (Fin 1) ℚ)))
      = 1 := by
    rw [Matrix.mul_one, Scenario.contact_Q]
  have hpinv : Scenario.cramer.pseudoInverse 1 1
      ((!![0; 1] : Matrix (Fin 2) (Fin 1) ℚ).transpose * ((1 : Matrix (Fin 2) (Fin 2) ℚ)
        * ((!![0; 1] : Matrix (Fin 2) (Fin 1) ℚ)
          + (!![1; 0] : Matrix (Fin 2) (Fin 1) ℚ) * (!![1 / 2] : Matrix (Fin 1) (Fin 1) ℚ))))
      = 1 := by
    rw [Matrix.one_mul, Scenario.contact_Q, Scenario.cramer_square, inv_one]
  have h := getAnalyticalNextV_eval_of_pinv Scenario.cramer
    (Scenario.contactSnapshot (1 / 2) 1 1 ![0, -1] ![0, 0])
    (Scenario.contactWorld (1 / 2) 1 2 ![0, -1] ![0, 0])
    (!![0; 1] : Matrix (Fin 2) (Fin 1) ℚ) (!![1; 0] : Matrix (Fin 2) (Fin 1) ℚ)
    (!![1 / 2] : Matrix (Fin 1) (Fin 1) ℚ) (1 : Matrix (Fin 2) (Fin 2) ℚ)
    (![1] : Fin 1 → ℚ) ![0, -1] (fun _ => 0) ![0, 0] (1 : Matrix (Fin 1) (Fin 1) ℚ) (by decide)
    (Scenario.contact_assembleMatrix_of_skeletons _ rfl .CLAMPING)
    (Scenario.contact_assembleMatrix_of_skeletons _ rfl .UPPER_BOUND)
    (Scenario.contact_E _ _ _ _ _)
    (Scenario.contact_blockDiagonal_of_skeletons _ rfl .INV_MASS)
    (Scenario.contact_bounce _ _ _ _ _)
    (Scenario.contact_worldMinv _ rfl) rfl rfl rfl hpinv
  have hval : (!![0; 1] : Matrix (Fin 2) (Fin 1) ℚ).transpose.mulVec
      (![0, -1] + ((2 : ℚ) • (1 : Matrix (Fin 2) (Fin 2) ℚ)).mulVec ((fun _ => 0) - ![0, 0]
        - (((!![0; 1] : Matrix (Fin 2) (Fin 1) ℚ)
              + (!![1; 0] : Matrix (Fin 2) (Fin 1) ℚ) * (!![1 / 2] : Matrix (Fin 1) (Fin 1) ℚ))
            * ((1 / (1 : ℚ)) • ((1 : Matrix (Fin 1) (Fin 1) ℚ)
                * (Matrix.diagonal (![1] : Fin 1 → ℚ)
                  * (!![0; 1] : Matrix (Fin 2) (Fin 1) ℚ).transpose)))).mulVec
            (![0, -1] + ((2 : ℚ) • (1 : Matrix (Fin 2) (Fin 2) ℚ)).mulVec
              ((fun _ => 0) - ![0, 0])))) = ![1] := by
    have hd : Matrix.diagonal (![1] : Fin 1 → ℚ) = 1 := by
      ext i j
      fin_cases i; fin_cases j
      simp
    rw [hd, Matrix.one_mul, Matrix.one_mul, div_one, one_smul]
    funext i
    fin_cases i
    simp [Matrix.mulVec, Matrix.dotProduct, Fin.sum_univ_succ, Matrix.mul_apply,
      Matrix.transpose, Matrix.one_apply, Matrix.vecHead, Matrix.vecTail]
    norm_num
  refine ⟨by rw [hQ]; simp, _, h, hval, ?_⟩
  intro h1
  have h0 := congrFun (hval.symm.trans h1) 0
  simp [Matrix.mulVec, Matrix.dotProduct, Matrix.diagonal, Matrix.mul_apply,
    Matrix.one_apply] at h0

end BackpropSnapshot

/-! ## The velocity Jacobian with respect to a differentiation target -/

namespace BackpropSnapshot

/-- The formula `getVelJacobianWrt` returns, in terms of what its callees return in the world
forced to the stored pre-step position, velocity and torque; the world is restored. -/
theorem getVelJacobianWrt_eq (cod : CompleteOrthogonalDecomposition)
    (s : BackpropSnapshot) (world : World) (wrt : WithRespectTo) (k : Nat)
    (Ac : Matrix (Fin s.mNumDOFs) (Fin s.mNumClamping) ℚ)
    (Aub : Matrix (Fin s.mNumDOFs) (Fin s.mNumUpperBound) ℚ)
    (E : Matrix (Fin s.mNumUpperBound) (Fin s.mNumClamping) ℚ)
    (Minv : Matrix (Fin s.mNumDOFs) (Fin s.mNumDOFs) ℚ)
    (Pc : Matrix (Fin s.mNumClamping) (Fin s.mNumDOFs) ℚ)
    (dPc : Matrix (Fin s.mNumClamping) (Fin k) ℚ)
    (dM dC dOuterM : Matrix (Fin s.mNumDOFs) (Fin k) ℚ)
    (v tau C : Fin s.mNumDOFs → ℚ)
    (hv : s.mPreStepVelocity = ⟨_, v⟩) (htau : s.mPreStepTorques = ⟨_, tau⟩)
    (hC : (((world.setPositions s.mPreStepPosition).setVelocities s.mPreStepVelocity).setForces
        s.mPreStepTorques).getCoriolisAndGravityAndExternalForces = ⟨_, C⟩)
    (hdM : getJacobianOfMinv
        (((world.setPositions s.mPreStepPosition).setVelocities s.mPreStepVelocity).setForces
          s.mPreStepTorques) ⟨_, tau - C⟩ wrt
      = .ok (⟨_, _, dM⟩,
          ((world.setPositions s.mPreStepPosition).setVelocities s.mPreStepVelocity).setForces
            s.mPreStepTorques))
    (hMinv : (((world.setPositions s.mPreStepPosition).setVelocities s.mPreStepVelocity).setForces
        s.mPreStepTorques).getInvMassMatrix = .ok ⟨_, _, Minv⟩)
    (hdC : getJacobianOfC
        (((world.setPositions s.mPreStepPosition).setVelocities s.mPreStepVelocity).setForces
          s.mPreStepTorques) wrt
      = .ok (⟨_, _, dC⟩,
          ((world.setPositions s.mPreStepPosition).setVelocities s.mPreStepVelocity).setForces
            s.mPreStepTorques))
    (hdPc : s.getJacobianOfProjectionIntoClampsMatrix cod
        (((world.setPositions s.mPreStepPosition).setVelocities s.mPreStepVelocity).setForces
          s.mPreStepTorques) ⟨_, v + (world.getTimeStep • Minv).mulVec (tau - C)⟩ wrt
      = .ok (⟨_, _, dPc⟩,
          ((world.setPositions s.mPreStepPosition).setVelocities s.mPreStepVelocity).setForces
            s.mPreStepTorques))
    (hPc : s.getProjectionIntoClampsMatrix cod
        (((world.setPositions s.mPreStepPosition).setVelocities s.mPreStepVelocity).setForces
          s.mPreStepTorques) false
      = .ok (⟨_, _, Pc⟩,
          ((world.setPositions s.mPreStepPosition).setVelocities s.mPreStepVelocity).setForces
            s.mPreStepTorques))
    (hAc : s.getClampingConstraintMatrix
        (((world.setPositions s.mPreStepPosition).setVelocities s.mPreStepVelocity).setForces
          s.mPreStepTorques) = .ok ⟨_, _, Ac⟩)
    (hAub : s.getUpperBoundConstraintMatrix
        (((world.setPositions s.mPreStepPosition).setVelocities s.mPreStepVelocity).setForces
          s.mPreStepTorques) = .ok ⟨_, _, Aub⟩)
    (hE : s.getUpperBoundMappingMatrix = .ok ⟨_, _, E⟩)
    (hdOuterM : getJacobianOfMinv
        (((world.setPositions s.mPreStepPosition).setVelocities s.mPreStepVelocity).setForces
          s.mPreStepTorques)
        ⟨_, tau - C - ((Ac + Aub * E) * Pc).mulVec
          (v + (world.getTimeStep • Minv).mulVec (tau - C))⟩ wrt
      = .ok (⟨_, _, dOuterM⟩,
          ((world.setPositions s.mPreStepPosition).setVelocities s.mPreStepVelocity).setForces
            s.mPreStepTorques)) :
    s.getVelJacobianWrt cod world wrt
      = .ok (⟨_, _, world.getTimeStep • (dOuterM + Minv * (-dC - (Ac + Aub * E)
          * (dPc + world.getTimeStep • Pc * (dM - Minv * dC))))⟩, world) := by
  have hF : (((world.setPositions s.mPreStepPosition).setVelocities s.mPreStepVelocity).setForces
      s.mPreStepTorques).getForces = ⟨_, tau⟩ := htau
  have hV : (((world.setPositions s.mPreStepPosition).setVelocities s.mPreStepVelocity).setForces
      s.mPreStepTorques).getVelocities = ⟨_, v⟩ := hv
  have hT : (((world.setPositions s.mPreStepPosition).setVelocities s.mPreStepVelocity).setForces
      s.mPreStepTorques).getTimeStep = world.getTimeStep := rfl
  have hR : (RestorableSnapshot.create world).restore
      (((world.setPositions s.mPreStepPosition).setVelocities s.mPreStepVelocity).setForces
        s.mPreStepTorques) = world := rfl
  unfold getVelJacobianWrt
  simp only [hF, hC, hV, hT, hR, VectorXd.ok_vsub_ok, VectorXd.vsub_mk, Result.ok_bind, hdM,
    hMinv, hdC, MatrixXd.smul_ok, MatrixXd.smul_mk, MatrixXd.mulVecExpr_ok, MatrixXd.mulVec_mk,
    VectorXd.ok_vadd_ok, VectorXd.vadd_mk, hdPc, hPc, hAc, hAub, hE, MatrixXd.ok_mul_ok,
    MatrixXd.mul_mk, MatrixXd.ok_add_ok, MatrixXd.add_mk, hdOuterM, MatrixXd.neg_ok,
    MatrixXd.neg_mk, MatrixXd.ok_sub_ok, MatrixXd.sub_mk, Result.pure_eq]

/-- C7: evaluation at the failing input. For the free body (no clamping constraint, three DOFs,
one link mass) and the target `LINK_MASSES`, `getJacobianOfProjectionIntoClampsMatrix` returns a
matrix with `numDOFs = 3` columns where the other terms have `getWrtDim = 1` column, and
`getVelJacobianWrt` stops on the Eigen shape precondition of the sum
`dP_c + P_c * dt * (dM - Minv * dC)`; for the target `POSITION` the same snapshot returns. -/
theorem getVelJacobianWrt_linkMasses_aborts :
    getWrtDim (Scenario.freeBodyWorld 1 10 (1 / 100)) .LINK_MASSES = 1
      ∧ (Scenario.freeBodySnapshot 1 10 (1 / 100)).getJacobianOfProjectionIntoClampsMatrix
          Scenario.cramer (Scenario.freeBodyWorld 1 10 (1 / 100)) (VectorXd.Zero 3) .LINK_MASSES
        = .ok (⟨0, 3, 0⟩, Scenario.freeBodyWorld 1 10 (1 / 100))
      ∧ (Scenario.freeBodySnapshot 1 10 (1 / 100)).getVelJacobianWrt Scenario.cramer
          (Scenario.freeBodyWorld 1 10 (1 / 100)) .LINK_MASSES
        = .error .eigenAssertion
      ∧ ((Scenario.freeBodySnapshot 1 10 (1 / 100)).getVelJacobianWrt Scenario.cramer
          (Scenario.freeBodyWorld 1 10 (1 / 100)) .POSITION).isOk = true :=
  ⟨rfl, rfl, rfl, rfl⟩

end BackpropSnapshot

/-! ## Storage vectors: reading back what was assigned -/

namespace UninitVectorXd

theorem get_of_lt (v : UninitVectorXd) {i : Nat} (h : i < v.size) :
    v.get i = v.coeff ⟨i, h⟩ := by
  simp [get, h]

theorem assignedOn_iff (v : UninitVectorXd) (start n : Nat) :
    v.assignedOn start n = true
      ↔ ∀ i : Fin v.size, start ≤ i.val → i.val < start + n → (v.coeff i).isSome = true := by
  simp [assignedOn]

/-- A successful read of a segment returns the assigned coefficients of that range. -/
theorem segment_eq_ok {v : UninitVectorXd} {start n : Nat} {x : VectorXd}
    (h : v.segment start n = .ok x) :
    ∃ f : Fin n → ℚ, x = ⟨n, f⟩ ∧ ∀ k : Fin n, v.get (start + k.val) = some (f k) := by
  unfold segment at h
  split at h
  · rename_i hle
    split at h
    · rename_i ha
      cases h
      refine ⟨_, rfl, fun k => ?_⟩
      have hk : start + k.val < v.size := by have := k.isLt; omega
      rw [get_of_lt v hk]
      have hs := (assignedOn_iff v start n).mp ha ⟨start + k.val, hk⟩ (by simp)
        (by have := k.isLt; simp)
      cases hc : v.coeff ⟨start + k.val, hk⟩ with
      | none => rw [hc] at hs; cases hs
      | some q => rfl
    · cases h
  · cases h

/-- The effect of a successful segment assignment, coefficient by coefficient. -/
theorem setSegment_eq_ok {v v' : UninitVectorXd} {start n : Nat} {f : Fin n → ℚ}
    (h : v.setSegment start n ⟨n, f⟩ = .ok v') :
    v'.size = v.size ∧ (∀ k : Fin n, v'.get (start + k.val) = some (f k))
      ∧ (∀ i, ¬ (start ≤ i ∧ i < start + n) → v'.get i = v.get i) := by
  unfold setSegment at h
  split at h
  · rename_i hb
    cases h
    refine ⟨rfl, fun k => ?_, fun i hi => ?_⟩
    · have hk : start + k.val < v.size := by have := k.isLt; have := hb.2; omega
      have hin : start ≤ start + k.val ∧ start + k.val < start + n := by
        have := k.isLt; omega
      simp only [get, hk, dite_true, hin, and_self]
      congr 2
      apply Fin.ext
      simp
    · by_cases hlt : i < v.size
      · simp only [get, hlt, dite_true, hi, dite_false]
      · simp only [get, hlt, dite_false]
  · cases h

/-- Reading back the segment that was just assigned. -/
theorem segment_setSegment {v v' : UninitVectorXd} {start n : Nat} {f : Fin n → ℚ}
    (h : v.setSegment start n ⟨n, f⟩ = .ok v') :
    v'.segment start n = .ok ⟨n, f⟩ := by
  unfold setSegment at h
  split at h
  · rename_i hb
    cases h
    unfold segment
    have hle : start + n ≤ v.size := hb.2
    simp only [hle, dite_true]
    have ha : assignedOn ⟨v.size, fun i =>
        if hi : start ≤ i.val ∧ i.val < start + n then
          some ((⟨n, f⟩ : VectorXd).coeff ⟨i.val - start, by omega⟩)
        else v.coeff i⟩ start n = true := by
      rw [assignedOn_iff]
      intro i h1 h2
      simp only [h1, h2, and_self, dite_true, Option.isSome_some]
    rw [if_pos ha]
    congr 2
    funext k
    have hin : start ≤ start + k.val ∧ start + k.val < start + n := by
      have := k.isLt; omega
    simp only [hin, and_self, dite_true, Option.getD_some]
    congr 1
    apply Fin.ext
    simp
  · cases h

end UninitVectorXd

/-! ## The offset table built by the constructor -/

theorem Result.bind_eq_ok_iff {α β : Type} (x : Result α) (f : α → Result β) (b : β) :
    x >>= f = .ok b ↔ ∃ a, x = .ok a ∧ f a = .ok b := by
  cases x with
  | error e => simp
  | ok a => simp

theorem deref_eq_ok_iff {α : Type} (o : Option α) (a : α) : deref o = .ok a ↔ o = some a := by
  cases o <;> simp [deref]

namespace World

theorem getSkeleton_name {w : World} {name : String} {sk : Skeleton}
    (h : w.getSkeleton name = some sk) : sk.name = name := by
  have := List.find?_some h
  simpa using this

end World

namespace BackpropSnapshot

theorem constructorStep_mSkeletonOffset (s : BackpropSnapshot) (skel : Skeleton) :
    (s.constructorStep skel).mSkeletonOffset = (skel.name, s.mNumDOFs) :: s.mSkeletonOffset := by
  unfold constructorStep
  split
  · rfl
  · dsimp only
    split <;> rfl

theorem constructorStep_mNumDOFs (s : BackpropSnapshot) (skel : Skeleton) :
    (s.constructorStep skel).mNumDOFs = s.mNumDOFs + skel.numDofs := by
  unfold constructorStep
  split
  · rfl
  · dsimp only
    split <;> rfl

theorem foldl_constructorStep_mNumDOFs (l : List Skeleton) (s0 : BackpropSnapshot) :
    (l.foldl constructorStep s0).mNumDOFs = s0.mNumDOFs + (l.map Skeleton.numDofs).sum := by
  induction l generalizing s0 with
  | nil => simp
  | cons a l ih =>
    rw [List.foldl_cons, ih, constructorStep_mNumDOFs, List.map_cons, List.sum_cons, Nat.add_assoc]

theorem foldl_constructorStep_skeletonOffset (l : List Skeleton) (s0 : BackpropSnapshot)
    (name : String) (h : ∀ sk ∈ l, sk.name ≠ name) :
    (l.foldl constructorStep s0).skeletonOffset name = s0.skeletonOffset name := by
  induction l generalizing s0 with
  | nil => rfl
  | cons a l ih =>
    rw [List.foldl_cons, ih _ (fun sk hsk => h sk (List.mem_cons_of_mem _ hsk))]
    unfold skeletonOffset
    rw [constructorStep_mSkeletonOffset, List.lookup_cons]
    have hne : (name == a.name) = false := by
      simpa using (h a (List.mem_cons_self _ _)).symm
    rw [hne]

/-- The constructor gives every skeleton of a world with pairwise distinct names the sum of the
DOF counts of the skeletons before it as its offset. -/
theorem create_skeletonOffset (world : World) (preP preV preT : VectorXd)
    (l1 : List Skeleton) (a : Skeleton) (l2 : List Skeleton)
    (hw : world.skeletons = l1 ++ a :: l2)
    (hn : (world.skeletons.map Skeleton.name).Nodup) :
    (create world preP preV preT).skeletonOffset a.name = (l1.map Skeleton.numDofs).sum := by
  have hl2 : ∀ sk ∈ l2, sk.name ≠ a.name := by
    intro sk hsk heq
    rw [hw, List.map_append, List.map_cons] at hn
    have h2 := (List.nodup_append.mp hn).2.1
    have h3 := (List.nodup_cons.mp h2).1
    exact h3 (heq ▸ List.mem_map_of_mem _ hsk)
  unfold create
  rw [hw, List.foldl_append, List.foldl_cons, foldl_constructorStep_skeletonOffset _ _ _ hl2]
  unfold skeletonOffset
  rw [constructorStep_mSkeletonOffset, List.lookup_cons, beq_self_eq_true,
    foldl_constructorStep_mNumDOFs]
  simp

/-- The segments of two skeletons of the world do not overlap: the later one starts where the
earlier one ends, or further. -/
theorem create_skeletonOffset_le (world : World) (preP preV preT : VectorXd)
    (l1 : List Skeleton) (a : Skeleton) (l2 : List Skeleton)
    (hw : world.skeletons = l1 ++ a :: l2)
    (hn : (world.skeletons.map Skeleton.name).Nodup) (b : Skeleton) (hb : b ∈ l2) :
    (create world preP preV preT).skeletonOffset a.name + a.numDofs
      ≤ (create world preP preV preT).skeletonOffset b.name := by
  obtain ⟨m1, m2, rfl⟩ := List.append_of_mem hb
  have hw2 : world.skeletons = (l1 ++ a :: m1) ++ b :: m2 := by
    rw [hw]; simp
  rw [create_skeletonOffset world preP preV preT l1 a _ hw hn,
    create_skeletonOffset world preP preV preT _ b m2 hw2 hn]
  simp only [List.map_append, List.map_cons, List.sum_append, List.sum_cons]
  omega

/-! ## Which skeletons the group pass marks as visited -/

theorem backpropGather_visited (s : BackpropSnapshot) (world : World) (next : LossGradient)
    (names : List String) :
    ∀ (cursor : Nat) (gn : LossGradient) (visited : List String) (gn1 : LossGradient)
      (visited1 : List String),
      s.backpropGather world next names cursor gn visited = .ok (gn1, visited1) →
        ∀ x ∈ visited1, x ∈ visited ∨ x ∈ names := by
  induction names with
  | nil =>
    intro cursor gn visited gn1 visited1 h x hx
    simp only [backpropGather, Except.ok.injEq, Prod.mk.injEq] at h
    exact Or.inl (h.2 ▸ hx)
  | cons name rest ih =>
    intro cursor gn visited gn1 visited1 h x hx
    unfold backpropGather at h
    simp only [Result.bind_eq_ok_iff, deref_eq_ok_iff] at h
    obtain ⟨skel, hskel, h⟩ := h
    have hname := World.getSkeleton_name hskel
    split at h
    · simp [throw, throwThe, MonadExceptOf.throw] at h
    · simp only [Result.pure_eq, Result.ok_bind, Result.bind_eq_ok_iff] at h
      obtain ⟨_, _, _, _, _, _, _, _, h⟩ := h
      rcases ih _ _ _ _ _ h x hx with h1 | h1
      · rcases List.mem_cons.mp h1 with h2 | h2
        · exact Or.inr (List.mem_cons.mpr (Or.inl (h2.trans hname)))
        · exact Or.inl h2
      · exact Or.inr (List.mem_cons_of_mem _ h1)

theorem backpropGroups_visited (s : BackpropSnapshot) (world : World) (next : LossGradient)
    (groups : List (SharedPtr ConstrainedGroupGradientMatrices)) :
    ∀ (this : LossGradient) (visited : List String) (this1 : LossGradient)
      (visited1 : List String),
      s.backpropGroups world next groups this visited = .ok (this1, visited1) →
        ∀ x ∈ visited1, x ∈ visited ∨ ∃ g ∈ groups, x ∈ g.obj.mSkeletons := by
  induction groups with
  | nil =>
    intro this visited this1 visited1 h x hx
    simp only [backpropGroups, Except.ok.injEq, Prod.mk.injEq] at h
    exact Or.inl (h.2 ▸ hx)
  | cons group rest ih =>
    intro this visited this1 visited1 h x hx
    unfold backpropGroups at h
    simp only [Result.bind_eq_ok_iff] at h
    obtain ⟨⟨gn, visited0⟩, hg, _, _, h⟩ := h
    rcases ih _ _ _ _ h x hx with h1 | ⟨g, hg1, hg2⟩
    · rcases backpropGather_visited s world next _ _ _ _ _ _ hg x h1 with h2 | h2
      · exact Or.inl h2
      · exact Or.inr ⟨group, List.mem_cons_self _ _, h2⟩
    · exact Or.inr ⟨g, List.mem_cons_of_mem _ hg1, hg2⟩

end BackpropSnapshot

/-! ## The free-skeleton pass of `backprop` -/

namespace BackpropSnapshot

/-- What one iteration of the free-skeleton loop reads from the next-timestep loss and assigns to
the three output vectors. -/
theorem backpropFreeSkeleton_eq_ok {s : BackpropSnapshot} {world : World}
    {next this out : LossGradient} {skel : Skeleton}
    (h : s.backpropFreeSkeleton world next skel this = .ok out) :
    ∃ nextVel nextPos : Fin skel.numDofs → ℚ,
      next.lossWrtVelocity.segment (s.skeletonOffset skel.name) skel.numDofs
          = .ok ⟨skel.numDofs, nextVel⟩
      ∧ next.lossWrtPosition.segment (s.skeletonOffset skel.name) skel.numDofs
          = .ok ⟨skel.numDofs, nextPos⟩
      ∧ this.lossWrtTorque.setSegment (s.skeletonOffset skel.name) skel.numDofs
          ⟨skel.numDofs, s.mTimeStep • (skel.invMassMatrix world.state).mulVec nextVel⟩
          = .ok out.lossWrtTorque
      ∧ this.lossWrtPosition.setSegment (s.skeletonOffset skel.name) skel.numDofs
          ⟨skel.numDofs, nextPos - (skel.posCJacobian world.state).transpose.mulVec
            (s.mTimeStep • (skel.invMassMatrix world.state).mulVec nextVel)⟩
          = .ok out.lossWrtPosition
      ∧ this.lossWrtVelocity.setSegment (s.skeletonOffset skel.name) skel.numDofs
          ⟨skel.numDofs, nextVel - (skel.velCJacobian world.state).transpose.mulVec
              (s.mTimeStep • (skel.invMassMatrix world.state).mulVec nextVel)
            + s.mTimeStep • (nextPos - (skel.posCJacobian world.state).transpose.mulVec
              (s.mTimeStep • (skel.invMassMatrix world.state).mulVec nextVel))⟩
          = .ok out.lossWrtVelocity := by
  unfold backpropFreeSkeleton at h
  simp only [Result.bind_eq_ok_iff] at h
  obtain ⟨nv, hnv, torque, htorque, thisTorque, hTq, np, hnp, pos, hpos, thisPos, hPos, vel, hvel,
    thisVel, hVel, hout⟩ := h
  obtain ⟨nextVel, rfl, -⟩ := UninitVectorXd.segment_eq_ok hnv
  obtain ⟨nextPos, rfl, -⟩ := UninitVectorXd.segment_eq_ok hnp
  simp only [Skeleton.multiplyByImplicitInvMassMatrix, Skeleton.getInvMassMatrix,
    MatrixXd.mulVec_mk, VectorXd.vsmul_ok, VectorXd.vsmul_mk, Except.ok.injEq] at htorque
  subst htorque
  rw [UninitVectorXd.segment_setSegment hTq] at hpos hvel
  simp only [Skeleton.getPosCJacobian, MatrixXd.transpose_mk, MatrixXd.mulVecExpr_ok,
    MatrixXd.mulVec_mk, VectorXd.ok_vsub_ok, VectorXd.vsub_mk, Except.ok.injEq] at hpos
  subst hpos
  rw [UninitVectorXd.segment_setSegment hPos] at hvel
  simp only [Skeleton.getVelCJacobian, MatrixXd.transpose_mk, MatrixXd.mulVecExpr_ok,
    MatrixXd.mulVec_mk, VectorXd.ok_vsub_ok, VectorXd.vsub_mk, VectorXd.vsmul_ok,
    VectorXd.vsmul_mk, VectorXd.ok_vadd_ok, VectorXd.vadd_mk, Except.ok.injEq] at hvel
  subst hvel
  simp only [Result.pure_eq, Except.ok.injEq] at hout
  subst hout
  exact ⟨nextVel, nextPos, hnv, hnp, hTq, hPos, hVel⟩

/-- One iteration of the free-skeleton loop leaves every coefficient outside the segment of its
skeleton as it was. -/
theorem backpropFreeSkeleton_get {s : BackpropSnapshot} {world : World}
    {next this out : LossGradient} {skel : Skeleton}
    (h : s.backpropFreeSkeleton world next skel this = .ok out) (i : Nat)
    (hi : ¬ (s.skeletonOffset skel.name ≤ i ∧ i < s.skeletonOffset skel.name + skel.numDofs)) :
    out.lossWrtTorque.get i = this.lossWrtTorque.get i
      ∧ out.lossWrtPosition.get i = this.lossWrtPosition.get i
      ∧ out.lossWrtVelocity.get i = this.lossWrtVelocity.get i := by
  obtain ⟨nextVel, nextPos, -, -, hT, hP, hV⟩ := backpropFreeSkeleton_eq_ok h
  exact ⟨(UninitVectorXd.setSegment_eq_ok hT).2.2 i hi,
    (UninitVectorXd.setSegment_eq_ok hP).2.2 i hi, (UninitVectorXd.setSegment_eq_ok hV).2.2 i hi⟩

/-- The free-skeleton loop leaves every coefficient that lies in no segment of its skeletons as it
was. -/
theorem backpropFreeSkeletons_get (s : BackpropSnapshot) (world : World) (next : LossGradient)
    (visited : List String) (l : List Skeleton) :
    ∀ (this out : LossGradient),
      s.backpropFreeSkeletons world next visited l this = .ok out →
      ∀ i : Nat,
        (∀ sk ∈ l,
          ¬ (s.skeletonOffset sk.name ≤ i ∧ i < s.skeletonOffset sk.name + sk.numDofs)) →
        out.lossWrtTorque.get i = this.lossWrtTorque.get i
          ∧ out.lossWrtPosition.get i = this.lossWrtPosition.get i
          ∧ out.lossWrtVelocity.get i = this.lossWrtVelocity.get i := by
  induction l with
  | nil =>
    intro this out h i _
    simp only [backpropFreeSkeletons, Except.ok.injEq] at h
    subst h
    exact ⟨rfl, rfl, rfl⟩
  | cons a l ih =>
    intro this out h i hi
    unfold backpropFreeSkeletons at h
    simp only [Result.bind_eq_ok_iff] at h
    obtain ⟨mid, hmid, h⟩ := h
    have hrest := ih mid out h i (fun sk hsk => hi sk (List.mem_cons_of_mem _ hsk))
    have hstep : mid.lossWrtTorque.get i = this.lossWrtTorque.get i
        ∧ mid.lossWrtPosition.get i = this.lossWrtPosition.get i
        ∧ mid.lossWrtVelocity.get i = this.lossWrtVelocity.get i := by
      split at hmid
      · exact backpropFreeSkeleton_get hmid i (hi a (List.mem_cons_self _ _))
      · simp only [Result.pure_eq, Except.ok.injEq] at hmid
        subst hmid
        exact ⟨rfl, rfl, rfl⟩
    exact ⟨hrest.1.trans hstep.1, hrest.2.1.trans hstep.2.1, hrest.2.2.trans hstep.2.2⟩

/-- The free-skeleton loop over a concatenation runs the loop over the first part, then over the
second. -/
theorem backpropFreeSkeletons_append (s : BackpropSnapshot) (world : World) (next : LossGradient)
    (visited : List String) (l1 l2 : List Skeleton) :
    ∀ this : LossGradient,
      s.backpropFreeSkeletons world next visited (l1 ++ l2) this
        = s.backpropFreeSkeletons world next visited l1 this
            >>= fun mid => s.backpropFreeSkeletons world next visited l2 mid := by
  induction l1 with
  | nil => intro this; rfl
  | cons a l ih =>
    intro this
    simp only [List.cons_append, backpropFreeSkeletons, bind_assoc]
    congr 1
    funext mid
    exact ih mid

end BackpropSnapshot

namespace BackpropSnapshot

/-- What `backprop` writes on the segment of a mobile skeleton that no constraint group lists. -/
theorem backprop_free_mobile_skeleton_aux (world0 world : World) (preP preV preT : VectorXd)
    (s : BackpropSnapshot) (this next : LossGradient) (skel : Skeleton)
    (hs : s = create world0 preP preV preT)
    (hsk : world.skeletons = world0.skeletons)
    (hnames : (world0.skeletons.map Skeleton.name).Nodup)
    (hmem : skel ∈ world.skeletons)
    (hfree : ∀ g ∈ s.mGradientMatrices, skel.name ∉ g.obj.mSkeletons)
    (hmobile : skel.mobile = true)
    (hrun : (s.backprop world this next).isOk = true) :
    ∃ out : LossGradient, s.backprop world this next = .ok (out, world) ∧
      ∃ nextVel nextPos torque pos vel : Fin skel.numDofs → ℚ,
        (∀ k : Fin skel.numDofs,
          next.lossWrtVelocity.get (s.skeletonOffset skel.name + k.val) = some (nextVel k))
        ∧ (∀ k : Fin skel.numDofs,
          next.lossWrtPosition.get (s.skeletonOffset skel.name + k.val) = some (nextPos k))
        ∧ torque = s.mTimeStep • (skel.invMassMatrix (s.atPreStep world).state).mulVec nextVel
        ∧ pos = nextPos - (skel.posCJacobian (s.atPreStep world).state).transpose.mulVec torque
        ∧ vel = nextVel - (skel.velCJacobian (s.atPreStep world).state).transpose.mulVec torque
            + s.mTimeStep • pos
        ∧ ∀ k : Fin skel.numDofs,
            out.lossWrtTorque.get (s.skeletonOffset skel.name + k.val) = some (torque k)
            ∧ out.lossWrtPosition.get (s.skeletonOffset skel.name + k.val) = some (pos k)
            ∧ out.lossWrtVelocity.get (s.skeletonOffset skel.name + k.val) = some (vel k) := by
  cases hr : s.backprop world this next with
  | error e => rw [hr] at hrun; cases hrun
  | ok r =>
    obtain ⟨out, world1⟩ := r
    unfold backprop at hr
    simp only [Result.bind_eq_ok_iff] at hr
    obtain ⟨⟨this1, visited⟩, hgroups, out0, hloop, hret⟩ := hr
    simp only [Result.pure_eq, Except.ok.injEq, Prod.mk.injEq] at hret
    obtain ⟨rfl, hworld⟩ := hret
    have hw1 : world = world1 := by
      rw [← hworld]; rfl
    subst hw1
    refine ⟨out0, rfl, ?_⟩
    have hvis : visited.contains skel.name = false := by
      cases hc : visited.contains skel.name with
      | false => rfl
      | true =>
        have hin : skel.name ∈ visited := by simpa using hc
        rcases backpropGroups_visited s _ next _ _ _ _ _ hgroups _ hin with h1 | ⟨g, hg, hg2⟩
        · cases h1
        · exact absurd hg2 (hfree g hg)
    obtain ⟨l1, l2, hl⟩ := List.append_of_mem hmem
    have hws : ((world.setPositions s.mPreStepPosition).setVelocities
        s.mPreStepVelocity).skeletons = l1 ++ skel :: l2 := hl
    rw [hws, backpropFreeSkeletons_append] at hloop
    simp only [Result.bind_eq_ok_iff] at hloop
    obtain ⟨mid, -, hloop⟩ := hloop
    rw [backpropFreeSkeletons] at hloop
    simp only [hvis, hmobile, Bool.not_false, Bool.and_self, if_true, Result.bind_eq_ok_iff]
      at hloop
    obtain ⟨mid2, hstep, hrest⟩ := hloop
    obtain ⟨nextVel, nextPos, hnv, hnp, hT, hP, hV⟩ := backpropFreeSkeleton_eq_ok hstep
    obtain ⟨f, hf, hfget⟩ := UninitVectorXd.segment_eq_ok hnv
    obtain ⟨g, hg, hgget⟩ := UninitVectorXd.segment_eq_ok hnp
    simp only [VectorXd.mk.injEq, heq_eq_eq, true_and] at hf hg
    subst hf hg
    refine ⟨nextVel, nextPos, _, _, _, hfget, hgget, rfl, rfl, rfl, fun k => ?_⟩
    have hdisj : ∀ sk ∈ l2, ¬ (s.skeletonOffset sk.name ≤ s.skeletonOffset skel.name + k.val
        ∧ s.skeletonOffset skel.name + k.val < s.skeletonOffset sk.name + sk.numDofs) := by
      intro sk hsk2
      have hle := create_skeletonOffset_le world0 preP preV preT l1 skel l2 (hsk ▸ hl) hnames
        sk hsk2
      rw [← hs] at hle
      have := k.isLt
      omega
    have hframe := backpropFreeSkeletons_get s _ next visited l2 mid2 out0 hrest
      (s.skeletonOffset skel.name + k.val) hdisj
    rw [hframe.1, hframe.2.1, hframe.2.2]
    exact ⟨(UninitVectorXd.setSegment_eq_ok hT).2.1 k, (UninitVectorXd.setSegment_eq_ok hP).2.1 k,
      (UninitVectorXd.setSegment_eq_ok hV).2.1 k⟩

/-- C8 (amended): for a snapshot built by the constructor from a world with pairwise distinct
skeleton names, and a skeleton of the world that no constraint group of the snapshot lists and that
is mobile, a run of `backprop` that returns leaves the world as it was and has written, on the
DOF segment of that skeleton: torque loss = `dt * Minv_skel * (next velocity loss)`, position loss
= `next position loss - posCJacobian_skel^T * (torque loss)`, velocity loss = `next velocity loss -
velCJacobian_skel^T * (torque loss) + dt * (position loss)`, where the next losses are read on the
same segment and the skeleton matrices at the stored pre-step state. -/
theorem backprop_free_mobile_skeleton (world0 world : World) (preP preV preT : VectorXd)
    (s : BackpropSnapshot) (this next : LossGradient) (skel : Skeleton)
    (hs : s = create world0 preP preV preT)
    (hsk : world.skeletons = world0.skeletons)
    (hnames : (world0.skeletons.map Skeleton.name).Nodup)
    (hmem : skel ∈ world.skeletons)
    (hfree : ∀ g ∈ s.mGradientMatrices, skel.name ∉ g.obj.mSkeletons)
    (hmobile : skel.mobile = true)
    (hrun : (s.backprop world this next).isOk = true) :
    ∃ out : LossGradient, s.backprop world this next = .ok (out, world) ∧
      ∃ nextVel nextPos torque pos vel : Fin skel.numDofs → ℚ,
        (∀ k : Fin skel.numDofs,
          next.lossWrtVelocity.get (s.skeletonOffset skel.name + k.val) = some (nextVel k))
        ∧ (∀ k : Fin skel.numDofs,
          next.lossWrtPosition.get (s.skeletonOffset skel.name + k.val) = some (nextPos k))
        ∧ torque = s.mTimeStep • (skel.invMassMatrix (s.atPreStep world).state).mulVec nextVel
        ∧ pos = nextPos - (skel.posCJacobian (s.atPreStep world).state).transpose.mulVec torque
        ∧ vel = nextVel - (skel.velCJacobian (s.atPreStep world).state).transpose.mulVec torque
            + s.mTimeStep • pos
        ∧ ∀ k : Fin skel.numDofs,
            out.lossWrtTorque.get (s.skeletonOffset skel.name + k.val) = some (torque k)
            ∧ out.lossWrtPosition.get (s.skeletonOffset skel.name + k.val) = some (pos k)
            ∧ out.lossWrtVelocity.get (s.skeletonOffset skel.name + k.val) = some (vel k) :=
  backprop_free_mobile_skeleton_aux world0 world preP preV preT s this next skel hs hsk hnames
    hmem hfree hmobile hrun

/-- C8, witness: the free body next to the box in contact, with a next-timestep loss on all five
DOFs. -/
theorem backprop_free_mobile_skeleton_witness :
    ∃ out : LossGradient,
      (Scenario.mixedSnapshot 2 (1 / 10)).backprop (Scenario.mixedWorld 2 (1 / 10))
          Scenario.mixedLoss Scenario.mixedLoss
        = .ok (out, Scenario.mixedWorld 2 (1 / 10)) ∧
      ∃ nextVel nextPos torque pos vel : Fin (Scenario.bodySkeleton 2 true).numDofs → ℚ,
        (∀ k : Fin (Scenario.bodySkeleton 2 true).numDofs,
          Scenario.mixedLoss.lossWrtVelocity.get
            ((Scenario.mixedSnapshot 2 (1 / 10)).skeletonOffset (Scenario.bodySkeleton 2 true).name
              + k.val) = some (nextVel k))
        ∧ (∀ k : Fin (Scenario.bodySkeleton 2 true).numDofs,
          Scenario.mixedLoss.lossWrtPosition.get
            ((Scenario.mixedSnapshot 2 (1 / 10)).skeletonOffset (Scenario.bodySkeleton 2 true).name
              + k.val) = some (nextPos k))
        ∧ torque = (Scenario.mixedSnapshot 2 (1 / 10)).mTimeStep
            • ((Scenario.bodySkeleton 2 true).invMassMatrix
                ((Scenario.mixedSnapshot 2 (1 / 10)).atPreStep
                  (Scenario.mixedWorld 2 (1 / 10))).state).mulVec nextVel
        ∧ pos = nextPos - ((Scenario.bodySkeleton 2 true).posCJacobian
                ((Scenario.mixedSnapshot 2 (1 / 10)).atPreStep
                  (Scenario.mixedWorld 2 (1 / 10))).state).transpose.mulVec torque
        ∧ vel = nextVel - ((Scenario.bodySkeleton 2 true).velCJacobian
                ((Scenario.mixedSnapshot 2 (1 / 10)).atPreStep
                  (Scenario.mixedWorld 2 (1 / 10))).state).transpose.mulVec torque
            + (Scenario.mixedSnapshot 2 (1 / 10)).mTimeStep • pos
        ∧ ∀ k : Fin (Scenario.bodySkeleton 2 true).numDofs,
            out.lossWrtTorque.get
              ((Scenario.mixedSnapshot 2 (1 / 10)).skeletonOffset
                (Scenario.bodySkeleton 2 true).name + k.val) = some (torque k)
            ∧ out.lossWrtPosition.get
              ((Scenario.mixedSnapshot 2 (1 / 10)).skeletonOffset
                (Scenario.bodySkeleton 2 true).name + k.val) = some (pos k)
            ∧ out.lossWrtVelocity.get
              ((Scenario.mixedSnapshot 2 (1 / 10)).skeletonOffset
                (Scenario.bodySkeleton 2 true).name + k.val) = some (vel k) :=
  backprop_free_mobile_skeleton (Scenario.mixedWorld 2 (1 / 10)) (Scenario.mixedWorld 2 (1 / 10))
    (VectorXd.Zero 5) (VectorXd.Zero 5) (VectorXd.Zero 5) (Scenario.mixedSnapshot 2 (1 / 10))
    Scenario.mixedLoss Scenario.mixedLoss (Scenario.bodySkeleton 2 true) rfl rfl (by decide)
    (by simp [Scenario.mixedWorld])
    (by simp [Scenario.mixedSnapshot, create, Scenario.mixedWorld, constructorStep,
      Scenario.boxSkeleton, Scenario.bodySkeleton, Scenario.contactGroup])
    rfl rfl

/-- C8, counterexample: the only skeleton of the world is listed by no constraint group but is not
mobile. With next velocity loss `(4, 5, 6)`, `dt = 1` and `Minv = I` the claimed torque loss on its
segment `[0, 3)` is `(4, 5, 6)`; `backprop` returns with that segment never assigned. -/
theorem backprop_free_skeleton_counterexample :
    Scenario.bodySkeleton 1 false ∈ Scenario.immobileBodyWorld.skeletons
      ∧ Scenario.immobileBodySnapshot.mGradientMatrices = []
      ∧ Scenario.immobileBodySnapshot.skeletonOffset (Scenario.bodySkeleton 1 false).name = 0
      ∧ Scenario.immobileBodySnapshot.mTimeStep = 1
      ∧ (Scenario.bodySkeleton 1 false).invMassMatrix
          (Scenario.immobileBodySnapshot.atPreStep Scenario.immobileBodyWorld).state = 1
      ∧ Scenario.unitLoss.lossWrtVelocity.read = .ok ⟨3, ![4, 5, 6]⟩
      ∧ Scenario.immobileBodySnapshot.backprop Scenario.immobileBodyWorld Scenario.unitLoss
          Scenario.unitLoss
        = .ok (⟨UninitVectorXd.alloc 3, UninitVectorXd.alloc 3, UninitVectorXd.alloc 3⟩,
            Scenario.immobileBodyWorld)
      ∧ (UninitVectorXd.alloc 3).get 0 = none := by
  refine ⟨by simp [Scenario.immobileBodyWorld], rfl, rfl, rfl, ?_, ?_, rfl, rfl⟩
  · simp [Scenario.bodySkeleton]
  · simp only [UninitVectorXd.read, UninitVectorXd.segment, Scenario.unitLoss,
      UninitVectorXd.ofVector]
    simp [UninitVectorXd.assignedOn]

end BackpropSnapshot

/-! ## Coverage of the output vectors -/

namespace BackpropSnapshot

/-- C9: evaluation at the failing input. In the world of the box in contact (DOFs 0 and 1, covered
by the constraint group) next to a body that is in no group and not mobile (DOFs 2 to 4),
`backprop` returns with the three output vectors assigned on the segment of the box only: the
entries of the immobile body are never written, and reading any of the output vectors as a whole
reads storage without a value. -/
theorem backprop_immobile_unassigned :
    ∃ out : LossGradient,
      Scenario.anchoredSnapshot.backprop Scenario.anchoredWorld Scenario.mixedLoss
          Scenario.mixedLoss = .ok (out, Scenario.anchoredWorld)
      ∧ Scenario.anchoredSnapshot.mNumDOFs = 5
      ∧ [0, 1, 2, 3, 4].map out.lossWrtPosition.get = [some 0, some 0, none, none, none]
      ∧ [0, 1, 2, 3, 4].map out.lossWrtVelocity.get = [some 0, some 0, none, none, none]
      ∧ [0, 1, 2, 3, 4].map out.lossWrtTorque.get = [some 0, some 0, none, none, none]
      ∧ out.lossWrtPosition.read = .error .uninitializedRead
      ∧ out.lossWrtVelocity.read = .error .uninitializedRead
      ∧ out.lossWrtTorque.read = .error .uninitializedRead :=
  ⟨_, rfl, rfl, rfl, rfl, rfl, rfl, rfl, rfl⟩

end BackpropSnapshot

/-! ## The world around a run of `backprop` -/

namespace BackpropSnapshot

theorem backprop_eq_passes_aux (s : BackpropSnapshot) (world : World)
    (this next : LossGradient) :
    s.backprop world this next
      = (s.backpropPasses (s.atPreStep world) next).map (fun out => (out, world)) := by
  unfold backprop backpropPasses atPreStep
  cases hg : s.backpropGroups ((world.setPositions s.mPreStepPosition).setVelocities
      s.mPreStepVelocity) next s.mGradientMatrices
      { lossWrtPosition := UninitVectorXd.alloc s.mNumDOFs
        lossWrtVelocity := UninitVectorXd.alloc s.mNumDOFs
        lossWrtTorque := UninitVectorXd.alloc s.mNumDOFs } [] with
  | error e => simp only [hg]; rfl
  | ok r =>
    obtain ⟨this1, visited⟩ := r
    simp only [hg, Result.ok_bind]
    cases hf : s.backpropFreeSkeletons ((world.setPositions s.mPreStepPosition).setVelocities
        s.mPreStepVelocity) next visited
        ((world.setPositions s.mPreStepPosition).setVelocities s.mPreStepVelocity).skeletons
        this1 with
    | error e => rfl
    | ok out => rfl

/-- C10: `backprop` runs its group pass and its free-skeleton pass in the world whose positions and
velocities are the stored pre-step ones, and whenever it returns it returns the world it was
called with, so positions and velocities are back to their values before the call. -/
theorem backprop_restores_world (s : BackpropSnapshot) (world : World)
    (this next : LossGradient) :
    s.backprop world this next
        = (s.backpropPasses (s.atPreStep world) next).map (fun out => (out, world))
      ∧ (s.atPreStep world).getPositions = s.mPreStepPosition
      ∧ (s.atPreStep world).getVelocities = s.mPreStepVelocity
      ∧ ((s.atPreStep world).setPositions world.getPositions).setVelocities world.getVelocities
          = world :=
  ⟨backprop_eq_passes_aux s world this next, rfl, rfl, rfl⟩

end BackpropSnapshot

/-! ## Coefficients of matrices and of assigned blocks -/

namespace MatrixXd

theorem get_mk {m n : Nat} (A : Matrix (Fin m) (Fin n) ℚ) (i : Fin m) (j : Fin n) :
    (MatrixXd.mk m n A).get i.val j.val = some (A i j) := by
  simp [get]

theorem mget_of_lt (A : MatrixXd) {i j : Nat} (hi : i < A.rows) (hj : j < A.cols) :
    A.get i j = some (A.coeff ⟨i, hi⟩ ⟨j, hj⟩) := by
  simp [get, hi, hj]

theorem get_Zero {r c i j : Nat} (hi : i < r) (hj : j < c) : (Zero r c).get i j = some 0 := by
  simp [get, Zero, hi, hj]

/-- A matrix is determined by its shape and its coefficients. -/
theorem eq_mk_of_get {K : MatrixXd} {r c : Nat} (F : Matrix (Fin r) (Fin c) ℚ)
    (hr : K.rows = r) (hc : K.cols = c)
    (h : ∀ (i : Fin r) (j : Fin c), K.get i.val j.val = some (F i j)) : K = ⟨r, c, F⟩ := by
  obtain ⟨r', c', coeff⟩ := K
  simp only at hr hc
  subst hr hc
  congr 1
  ext i j
  have := h i j
  rw [get_mk] at this
  exact Option.some.inj this

/-- The effect of a successful block assignment, coefficient by coefficient. -/
theorem setBlock_get {J K B : MatrixXd} {r c h w : Nat}
    (hset : J.setBlock r c h w B = .ok K) :
    K.rows = J.rows ∧ K.cols = J.cols ∧ B.rows = h ∧ B.cols = w
      ∧ r + h ≤ J.rows ∧ c + w ≤ J.cols
      ∧ (∀ i j, i < h → j < w → K.get (r + i) (c + j) = B.get i j)
      ∧ (∀ i j, ¬ ((r ≤ i ∧ i < r + h) ∧ (c ≤ j ∧ j < c + w)) → K.get i j = J.get i j) := by
  unfold setBlock at hset
  split at hset
  · rename_i hb
    cases hset
    refine ⟨rfl, rfl, hb.1, hb.2.1, hb.2.2.1, hb.2.2.2, fun i j hi hj => ?_, fun i j hij => ?_⟩
    · have h1 : r + i < J.rows := by have := hb.2.2.1; omega
      have h2 : c + j < J.cols := by have := hb.2.2.2; omega
      have h3 : i < B.rows := by rw [hb.1]; exact hi
      have h4 : j < B.cols := by rw [hb.2.1]; exact hj
      have hin : (r ≤ r + i ∧ r + i < r + h) ∧ (c ≤ c + j ∧ c + j < c + w) := by omega
      simp only [get, h1, h2, h3, h4, and_self, dite_true, hin, Option.some.injEq]
      congr 1 <;> apply Fin.ext <;> simp
    · by_cases hlt : i < J.rows ∧ j < J.cols
      · simp only [get, hlt, and_self, dite_true, hij, dite_false]
      · simp only [get, hlt, dite_false]
  · cases hset

/-- The coefficients of a block that was read successfully. -/
theorem block_get {A B : MatrixXd} {r c h w : Nat} (hb : A.block r c h w = .ok B) :
    B.rows = h ∧ B.cols = w ∧ r + h ≤ A.rows ∧ c + w ≤ A.cols
      ∧ ∀ i j, i < h → j < w → B.get i j = A.get (r + i) (c + j) := by
  unfold block at hb
  split at hb
  · rename_i hcond
    cases hb
    refine ⟨rfl, rfl, hcond.1, hcond.2, fun i j hi hj => ?_⟩
    have h1 : r + i < A.rows := by have := hcond.1; omega
    have h2 : c + j < A.cols := by have := hcond.2; omega
    simp only [get, hi, hj, and_self, dite_true, h1, h2]
  · cases hb

end MatrixXd

/-! ## The segments of the offset table -/

namespace BackpropSnapshot

/-- Every index below the total DOF count falls into the prefix-sum segment of one skeleton. -/
theorem exists_split_of_lt_sum :
    ∀ (l : List Skeleton) (i : Nat), i < (l.map Skeleton.numDofs).sum →
      ∃ l1 a l2, l = l1 ++ a :: l2 ∧ (l1.map Skeleton.numDofs).sum ≤ i
        ∧ i < (l1.map Skeleton.numDofs).sum + a.numDofs := by
  intro l
  induction l with
  | nil => intro i h; simp at h
  | cons a l ih =>
    intro i h
    simp only [List.map_cons, List.sum_cons] at h
    by_cases hi : i < a.numDofs
    · exact ⟨[], a, l, rfl, by simp, by simpa using hi⟩
    · obtain ⟨l1, b, l2, hl, h1, h2⟩ := ih (i - a.numDofs) (by omega)
      refine ⟨a :: l1, b, l2, by rw [hl]; rfl, ?_, ?_⟩
      · simp only [List.map_cons, List.sum_cons]; omega
      · simp only [List.map_cons, List.sum_cons]; omega

theorem create_mNumDOFs (world : World) (preP preV preT : VectorXd) :
    (create world preP preV preT).mNumDOFs = (world.skeletons.map Skeleton.numDofs).sum := by
  unfold create
  rw [foldl_constructorStep_mNumDOFs]
  simp

/-- The segment of a skeleton of the world ends at or before the total DOF count. -/
theorem create_skeletonOffset_add_le (world : World) (preP preV preT : VectorXd)
    (hn : (world.skeletons.map Skeleton.name).Nodup) (a : Skeleton) (ha : a ∈ world.skeletons) :
    (create world preP preV preT).skeletonOffset a.name + a.numDofs
      ≤ (create world preP preV preT).mNumDOFs := by
  obtain ⟨l1, l2, hl⟩ := List.append_of_mem ha
  rw [create_skeletonOffset world preP preV preT l1 a l2 hl hn, create_mNumDOFs, hl]
  simp only [List.map_append, List.map_cons, List.sum_append, List.sum_cons]
  omega

/-- The segments of two skeletons of the world with different names do not overlap. -/
theorem create_segments_disjoint (world : World) (preP preV preT : VectorXd)
    (hn : (world.skeletons.map Skeleton.name).Nodup) (a b : Skeleton)
    (ha : a ∈ world.skeletons) (hb : b ∈ world.skeletons) (hab : a.name ≠ b.name) :
    (create world preP preV preT).skeletonOffset a.name + a.numDofs
        ≤ (create world preP preV preT).skeletonOffset b.name
      ∨ (create world preP preV preT).skeletonOffset b.name + b.numDofs
        ≤ (create world preP preV preT).skeletonOffset a.name := by
  obtain ⟨l1, l2, hl⟩ := List.append_of_mem ha
  rw [hl] at hb
  rcases List.mem_append.mp hb with h1 | h1
  · obtain ⟨m1, m2, hm⟩ := List.append_of_mem h1
    have hl' : world.skeletons = m1 ++ b :: (m2 ++ a :: l2) := by
      rw [hl, hm]; simp
    exact Or.inr (create_skeletonOffset_le world preP preV preT m1 b _ hl' hn a (by simp))
  · rcases List.mem_cons.mp h1 with h2 | h2
    · exact absurd (congrArg Skeleton.name h2).symm hab
    · exact Or.inl (create_skeletonOffset_le world preP preV preT l1 a l2 hl hn b h2)

/-- Every index below the total DOF count lies in the segment of a skeleton of the world. -/
theorem create_segments_cover (world : World) (preP preV preT : VectorXd)
    (hn : (world.skeletons.map Skeleton.name).Nodup) (i : Nat)
    (hi : i < (create world preP preV preT).mNumDOFs) :
    ∃ a ∈ world.skeletons, (create world preP preV preT).skeletonOffset a.name ≤ i
      ∧ i < (create world preP preV preT).skeletonOffset a.name + a.numDofs := by
  rw [create_mNumDOFs] at hi
  obtain ⟨l1, a, l2, hl, h1, h2⟩ := exists_split_of_lt_sum _ i hi
  refine ⟨a, by rw [hl]; simp, ?_, ?_⟩
  · rw [create_skeletonOffset world preP preV preT l1 a l2 hl hn]; exact h1
  · rw [create_skeletonOffset world preP preV preT l1 a l2 hl hn]; exact h2

/-- C15: after construction over a world whose skeletons have pairwise distinct names, the offset
of a skeleton is the sum of the DOF counts of the skeletons before it, `mNumDOFs` is the sum of all
DOF counts, every segment `[offset, offset + dofs)` lies in `[0, mNumDOFs)`, two segments of
different skeletons are disjoint, and every index below `mNumDOFs` lies in a segment. -/
theorem create_offsets_partition (world : World) (preP preV preT : VectorXd)
    (hn : (world.skeletons.map Skeleton.name).Nodup) :
    (∀ l1 a l2, world.skeletons = l1 ++ a :: l2 →
        (create world preP preV preT).skeletonOffset a.name = (l1.map Skeleton.numDofs).sum)
      ∧ (create world preP preV preT).mNumDOFs = (world.skeletons.map Skeleton.numDofs).sum
      ∧ (∀ a ∈ world.skeletons,
          (create world preP preV preT).skeletonOffset a.name + a.numDofs
            ≤ (create world preP preV preT).mNumDOFs)
      ∧ (∀ a ∈ world.skeletons, ∀ b ∈ world.skeletons, a.name ≠ b.name →
          (create world preP preV preT).skeletonOffset a.name + a.numDofs
              ≤ (create world preP preV preT).skeletonOffset b.name
            ∨ (create world preP preV preT).skeletonOffset b.name + b.numDofs
              ≤ (create world preP preV preT).skeletonOffset a.name)
      ∧ (∀ i, i < (create world preP preV preT).mNumDOFs →
          ∃ a ∈ world.skeletons, (create world preP preV preT).skeletonOffset a.name ≤ i
            ∧ i < (create world preP preV preT).skeletonOffset a.name + a.numDofs) :=
  ⟨fun l1 a l2 hl => create_skeletonOffset world preP preV preT l1 a l2 hl hn,
    create_mNumDOFs world preP preV preT,
    fun a ha => create_skeletonOffset_add_le world preP preV preT hn a ha,
    fun a ha b hb hab => create_segments_disjoint world preP preV preT hn a b ha hb hab,
    fun i hi => create_segments_cover world preP preV preT hn i hi⟩

/-- C15 witness: the box (2 DOFs) followed by the free body (3 DOFs). -/
theorem create_offsets_partition_witness :
    (Scenario.mixedSnapshot 2 (1 / 10)).skeletonOffset "box" = 0
      ∧ (Scenario.mixedSnapshot 2 (1 / 10)).skeletonOffset "body" = 2
      ∧ (Scenario.mixedSnapshot 2 (1 / 10)).mNumDOFs = 5 := by
  have h := create_offsets_partition (Scenario.mixedWorld 2 (1 / 10)) (VectorXd.Zero 5)
    (VectorXd.Zero 5) (VectorXd.Zero 5) (by decide)
  refine ⟨?_, ?_, ?_⟩
  · exact h.1 [] (Scenario.boxSkeleton 0 1) [Scenario.bodySkeleton 2 true] rfl
  · exact h.1 [Scenario.boxSkeleton 0 1] (Scenario.bodySkeleton 2 true) [] rfl
  · exact h.2.1

end BackpropSnapshot

/-! ## The block-diagonal assembly -/

namespace BackpropSnapshot

/-- The loop of `assembleBlockDiagonalMatrix` returns when the blocks fit, writes every skeleton
matrix at the running cursor and leaves every coefficient outside the diagonal blocks as it
was. -/
theorem assembleDiagonalBlocks_get (world : World) (whichMatrix : BlockDiagonalMatrixToAssemble) :
    ∀ (l : List Skeleton) (cursor : Nat) (J : MatrixXd),
      cursor + (l.map Skeleton.numDofs).sum ≤ J.rows →
      cursor + (l.map Skeleton.numDofs).sum ≤ J.cols →
      ∃ K, assembleDiagonalBlocks world whichMatrix l cursor J = .ok K
        ∧ K.rows = J.rows ∧ K.cols = J.cols
        ∧ (∀ l1 a l2, l = l1 ++ a :: l2 → ∀ r c, r < a.numDofs → c < a.numDofs →
            K.get (cursor + (l1.map Skeleton.numDofs).sum + r)
                (cursor + (l1.map Skeleton.numDofs).sum + c)
              = (skeletonMatrixToAssemble a world.state whichMatrix).get r c)
        ∧ (∀ i j,
            (∀ l1 a l2, l = l1 ++ a :: l2 →
              ¬ ((cursor + (l1.map Skeleton.numDofs).sum ≤ i
                    ∧ i < cursor + (l1.map Skeleton.numDofs).sum + a.numDofs)
                ∧ (cursor + (l1.map Skeleton.numDofs).sum ≤ j
                    ∧ j < cursor + (l1.map Skeleton.numDofs).sum + a.numDofs))) →
            K.get i j = J.get i j) := by
  intro l
  induction l with
  | nil =>
    intro cursor J _ _
    refine ⟨J, rfl, rfl, rfl, ?_, fun i j _ => rfl⟩
    intro l1 a l2 h
    simp at h
  | cons a l ih =>
    intro cursor J hr hc
    simp only [List.map_cons, List.sum_cons] at hr hc
    have hshape := skeletonMatrixToAssemble_shape a world.state whichMatrix
    have hset : ∃ J1, J.setBlock cursor cursor a.numDofs a.numDofs
        (skeletonMatrixToAssemble a world.state whichMatrix) = .ok J1 := by
      unfold MatrixXd.setBlock
      rw [dif_pos ⟨hshape.1, hshape.2, by omega, by omega⟩]
      exact ⟨_, rfl⟩
    obtain ⟨J1, hJ1⟩ := hset
    obtain ⟨h1r, h1c, -, -, -, -, hval, hframe⟩ := MatrixXd.setBlock_get hJ1
    obtain ⟨K, hK, hKr, hKc, hKval, hKframe⟩ := ih (cursor + a.numDofs) J1
      (by rw [h1r]; omega) (by rw [h1c]; omega)
    refine ⟨K, ?_, by rw [hKr, h1r], by rw [hKc, h1c], ?_, ?_⟩
    · simp only [assembleDiagonalBlocks, hJ1, Result.ok_bind]
      exact hK
    · intro l1 b l2 hl r c hr' hc'
      cases l1 with
      | nil =>
        simp only [List.nil_append, List.cons.injEq] at hl
        obtain ⟨rfl, rfl⟩ := hl
        simp only [List.map_nil, List.sum_nil, Nat.add_zero]
        rw [hKframe, hval r c hr' hc']
        intro l1 b l2 _ hin
        omega
      | cons a' l1' =>
        simp only [List.cons_append, List.cons.injEq] at hl
        obtain ⟨rfl, hl⟩ := hl
        have := hKval l1' b l2 hl r c hr' hc'
        simp only [List.map_cons, List.sum_cons]
        rw [← this]
        congr 1 <;> omega
    · intro i j hij
      rw [hKframe, hframe]
      · have := hij [] a l rfl
        simpa using this
      · intro l1 b l2 hl
        have := hij (a :: l1) b l2 (by rw [hl]; rfl)
        simp only [List.map_cons, List.sum_cons] at this
        intro hin
        apply this
        omega

end BackpropSnapshot

namespace BackpropSnapshot

theorem assembleBlockDiagonalMatrix_blocks_aux (world0 world : World)
    (preP preV preT : VectorXd) (s : BackpropSnapshot)
    (whichMatrix : BlockDiagonalMatrixToAssemble) (forFiniteDifferencing : Bool)
    (hs : s = create world0 preP preV preT)
    (hsk : world.skeletons = world0.skeletons)
    (hn : (world0.skeletons.map Skeleton.name).Nodup) :
    ∃ J : Matrix (Fin s.mNumDOFs) (Fin s.mNumDOFs) ℚ,
      s.assembleBlockDiagonalMatrix world whichMatrix forFiniteDifferencing
          = .ok (⟨_, _, J⟩, world)
      ∧ (∀ a ∈ world.skeletons, ∀ r c, r < a.numDofs → c < a.numDofs →
          (MatrixXd.mk _ _ J).get (s.skeletonOffset a.name + r) (s.skeletonOffset a.name + c)
            = (skeletonMatrixToAssemble a
                (if forFiniteDifferencing then world else s.atPreStep world).state
                whichMatrix).get r c)
      ∧ (∀ i j, i < s.mNumDOFs → j < s.mNumDOFs →
          (∀ a ∈ world.skeletons,
            ¬ ((s.skeletonOffset a.name ≤ i ∧ i < s.skeletonOffset a.name + a.numDofs)
              ∧ (s.skeletonOffset a.name ≤ j ∧ j < s.skeletonOffset a.name + a.numDofs))) →
          (MatrixXd.mk _ _ J).get i j = some 0) := by
  have hsum : s.mNumDOFs = (world.skeletons.map Skeleton.numDofs).sum := by
    rw [hs, create_mNumDOFs, hsk]
  have hoff : ∀ l1 a l2, world.skeletons = l1 ++ a :: l2 →
      s.skeletonOffset a.name = (l1.map Skeleton.numDofs).sum := by
    intro l1 a l2 hl
    rw [hs]
    exact create_skeletonOffset world0 preP preV preT l1 a l2 (hsk ▸ hl) hn
  have key : ∀ w : World, w.skeletons = world.skeletons →
      ∃ J : Matrix (Fin s.mNumDOFs) (Fin s.mNumDOFs) ℚ,
        assembleDiagonalBlocks w whichMatrix world.skeletons 0
            (MatrixXd.Zero s.mNumDOFs s.mNumDOFs) = .ok ⟨_, _, J⟩
        ∧ (∀ a ∈ world.skeletons, ∀ r c, r < a.numDofs → c < a.numDofs →
            (MatrixXd.mk _ _ J).get (s.skeletonOffset a.name + r) (s.skeletonOffset a.name + c)
              = (skeletonMatrixToAssemble a w.state whichMatrix).get r c)
        ∧ (∀ i j, i < s.mNumDOFs → j < s.mNumDOFs →
            (∀ a ∈ world.skeletons,
              ¬ ((s.skeletonOffset a.name ≤ i ∧ i < s.skeletonOffset a.name + a.numDofs)
                ∧ (s.skeletonOffset a.name ≤ j ∧ j < s.skeletonOffset a.name + a.numDofs))) →
            (MatrixXd.mk _ _ J).get i j = some 0) := by
    intro w _
    obtain ⟨K, hK, hKr, hKc, hval, hframe⟩ := assembleDiagonalBlocks_get w whichMatrix
      world.skeletons 0 (MatrixXd.Zero s.mNumDOFs s.mNumDOFs)
      (by simp only [MatrixXd.Zero]; omega) (by simp only [MatrixXd.Zero]; omega)
    have hKr1 : K.rows = s.mNumDOFs := hKr
    have hKc1 : K.cols = s.mNumDOFs := hKc
    obtain ⟨J, hJ⟩ := MatrixXd.exists_mk K hKr1 hKc1
    subst hJ
    refine ⟨J, hK, ?_, ?_⟩
    · intro a ha r c hr hc
      obtain ⟨l1, l2, hl⟩ := List.append_of_mem ha
      have := hval l1 a l2 hl r c hr hc
      rw [hoff l1 a l2 hl]
      simpa using this
    · intro i j hi hj hij
      refine (hframe i j ?_).trans (MatrixXd.get_Zero hi hj)
      intro l1 a l2 hl
      have := hij a (by rw [hl]; simp)
      rw [hoff l1 a l2 hl] at this
      simpa using this
  cases forFiniteDifferencing with
  | true =>
    obtain ⟨J, hJ, h1, h2⟩ := key world rfl
    refine ⟨J, ?_, h1, h2⟩
    rw [assembleBlockDiagonalMatrix_true, hJ]
    rfl
  | false =>
    obtain ⟨J, hJ, h1, h2⟩ := key (s.atPreStep world) rfl
    refine ⟨J, ?_, h1, h2⟩
    rw [assembleBlockDiagonalMatrix_false, hJ]
    rfl

end BackpropSnapshot

namespace BackpropSnapshot

/-- C12: for a snapshot built by the constructor from a world with pairwise distinct skeleton
names, `assembleBlockDiagonalMatrix` (which `getMassMatrix`, `getInvMassMatrix`, `getPosCJacobian`
and `getVelCJacobian` call with their selector) returns an `mNumDOFs × mNumDOFs` matrix whose
block at the offset of each skeleton is that skeleton's own matrix and whose coefficients outside
these diagonal blocks are zero; the world is returned as it was. -/
theorem assembleBlockDiagonalMatrix_blocks (world0 world : World)
    (preP preV preT : VectorXd) (s : BackpropSnapshot)
    (whichMatrix : BlockDiagonalMatrixToAssemble) (forFiniteDifferencing : Bool)
    (hs : s = create world0 preP preV preT)
    (hsk : world.skeletons = world0.skeletons)
    (hn : (world0.skeletons.map Skeleton.name).Nodup) :
    ∃ J : Matrix (Fin s.mNumDOFs) (Fin s.mNumDOFs) ℚ,
      s.assembleBlockDiagonalMatrix world whichMatrix forFiniteDifferencing
          = .ok (⟨_, _, J⟩, world)
      ∧ (∀ a ∈ world.skeletons, ∀ r c, r < a.numDofs → c < a.numDofs →
          (MatrixXd.mk _ _ J).get (s.skeletonOffset a.name + r) (s.skeletonOffset a.name + c)
            = (skeletonMatrixToAssemble a
                (if forFiniteDifferencing then world else s.atPreStep world).state
                whichMatrix).get r c)
      ∧ (∀ i j, i < s.mNumDOFs → j < s.mNumDOFs →
          (∀ a ∈ world.skeletons,
            ¬ ((s.skeletonOffset a.name ≤ i ∧ i < s.skeletonOffset a.name + a.numDofs)
              ∧ (s.skeletonOffset a.name ≤ j ∧ j < s.skeletonOffset a.name + a.numDofs))) →
          (MatrixXd.mk _ _ J).get i j = some 0) :=
  assembleBlockDiagonalMatrix_blocks_aux world0 world preP preV preT s whichMatrix
    forFiniteDifferencing hs hsk hn

/-- C12 witness: the velocity-Coriolis Jacobian of the box in contact next to the free body. -/
theorem assembleBlockDiagonalMatrix_blocks_witness :
    ∃ J : Matrix (Fin (Scenario.mixedSnapshot 2 (1 / 10)).mNumDOFs)
        (Fin (Scenario.mixedSnapshot 2 (1 / 10)).mNumDOFs) ℚ,
      (Scenario.mixedSnapshot 2 (1 / 10)).getVelCJacobian (Scenario.mixedWorld 2 (1 / 10))
          = .ok (⟨_, _, J⟩, Scenario.mixedWorld 2 (1 / 10))
      ∧ (MatrixXd.mk _ _ J).get 0 1 = some 1
      ∧ (MatrixXd.mk _ _ J).get 1 0 = some (-1)
      ∧ (MatrixXd.mk _ _ J).get 1 2 = some 0 := by
  obtain ⟨J, hJ, hval, hzero⟩ := assembleBlockDiagonalMatrix_blocks (Scenario.mixedWorld 2 (1 / 10))
    (Scenario.mixedWorld 2 (1 / 10)) (VectorXd.Zero 5) (VectorXd.Zero 5) (VectorXd.Zero 5)
    (Scenario.mixedSnapshot 2 (1 / 10)) .VEL_C false rfl rfl (by decide)
  refine ⟨J, hJ, ?_, ?_, ?_⟩
  · have := hval (Scenario.boxSkeleton 0 1) (by simp [Scenario.mixedWorld]) 0 1 (by decide)
      (by decide)
    rw [show (Scenario.mixedSnapshot 2 (1 / 10)).skeletonOffset (Scenario.boxSkeleton 0 1).name
      = 0 from rfl] at this
    rw [this]
    simp [skeletonMatrixToAssemble, Skeleton.getVelCJacobian, MatrixXd.get, Scenario.boxSkeleton]
  · have := hval (Scenario.boxSkeleton 0 1) (by simp [Scenario.mixedWorld]) 1 0 (by decide)
      (by decide)
    rw [show (Scenario.mixedSnapshot 2 (1 / 10)).skeletonOffset (Scenario.boxSkeleton 0 1).name
      = 0 from rfl] at this
    rw [this]
    simp [skeletonMatrixToAssemble, Skeleton.getVelCJacobian, MatrixXd.get, Scenario.boxSkeleton]
  · refine hzero 1 2 (by decide) (by decide) ?_
    intro a ha
    simp only [Scenario.mixedWorld, List.mem_cons, List.mem_singleton, List.not_mem_nil,
      or_false] at ha
    rcases ha with rfl | rfl
    · rw [show (Scenario.mixedSnapshot 2 (1 / 10)).skeletonOffset (Scenario.boxSkeleton 0 1).name
        = 0 from rfl]
      simp [Scenario.boxSkeleton]
    · rw [show (Scenario.mixedSnapshot 2 (1 / 10)).skeletonOffset
        (Scenario.bodySkeleton 2 true).name = 2 from rfl]
      simp [Scenario.bodySkeleton]

end BackpropSnapshot

/-! ## The upper-bound mapping matrix -/

namespace BackpropSnapshot

/-- The second loop of `getUpperBoundMappingMatrix` returns when the blocks fit, writes every
group mapping matrix at the running pair of cursors and leaves every coefficient outside these
blocks as it was. -/
theorem mappingBlocks_get :
    ∀ (l : List (SharedPtr ConstrainedGroupGradientMatrices)) (cursorUpperBound cursorClamping : Nat)
      (M : MatrixXd),
      cursorUpperBound + (l.map fun g => g.obj.mUpperBoundMappingMatrix.rows).sum ≤ M.rows →
      cursorClamping + (l.map fun g => g.obj.mUpperBoundMappingMatrix.cols).sum ≤ M.cols →
      ∃ K, mappingBlocks l cursorUpperBound cursorClamping M = .ok K
        ∧ K.rows = M.rows ∧ K.cols = M.cols
        ∧ (∀ l1 g l2, l = l1 ++ g :: l2 → ∀ r c,
            r < g.obj.mUpperBoundMappingMatrix.rows → c < g.obj.mUpperBoundMappingMatrix.cols →
            K.get (cursorUpperBound + (l1.map fun g => g.obj.mUpperBoundMappingMatrix.rows).sum + r)
                (cursorClamping + (l1.map fun g => g.obj.mUpperBoundMappingMatrix.cols).sum + c)
              = g.obj.mUpperBoundMappingMatrix.get r c)
        ∧ (∀ i j,
            (∀ l1 g l2, l = l1 ++ g :: l2 →
              ¬ ((cursorUpperBound + (l1.map fun g => g.obj.mUpperBoundMappingMatrix.rows).sum ≤ i
                    ∧ i < cursorUpperBound
                        + (l1.map fun g => g.obj.mUpperBoundMappingMatrix.rows).sum
                        + g.obj.mUpperBoundMappingMatrix.rows)
                ∧ (cursorClamping + (l1.map fun g => g.obj.mUpperBoundMappingMatrix.cols).sum ≤ j
                    ∧ j < cursorClamping
                        + (l1.map fun g => g.obj.mUpperBoundMappingMatrix.cols).sum
                        + g.obj.mUpperBoundMappingMatrix.cols))) →
            K.get i j = M.get i j) := by
  intro l
  induction l with
  | nil =>
    intro cu cc M _ _
    refine ⟨M, rfl, rfl, rfl, ?_, fun i j _ => rfl⟩
    intro l1 a l2 h
    simp at h
  | cons a l ih =>
    intro cu cc M hr hc
    simp only [List.map_cons, List.sum_cons] at hr hc
    have hset : ∃ M1, M.setBlock cu cc a.obj.mUpperBoundMappingMatrix.rows
        a.obj.mUpperBoundMappingMatrix.cols a.obj.mUpperBoundMappingMatrix = .ok M1 := by
      unfold MatrixXd.setBlock
      rw [dif_pos ⟨rfl, rfl, by omega, by omega⟩]
      exact ⟨_, rfl⟩
    obtain ⟨M1, hM1⟩ := hset
    obtain ⟨h1r, h1c, -, -, -, -, hval, hframe⟩ := MatrixXd.setBlock_get hM1
    obtain ⟨K, hK, hKr, hKc, hKval, hKframe⟩ := ih (cu + a.obj.mUpperBoundMappingMatrix.rows)
      (cc + a.obj.mUpperBoundMappingMatrix.cols) M1 (by rw [h1r]; omega) (by rw [h1c]; omega)
    refine ⟨K, ?_, by rw [hKr, h1r], by rw [hKc, h1c], ?_, ?_⟩
    · simp only [mappingBlocks, hM1, Result.ok_bind]
      exact hK
    · intro l1 b l2 hl r c hr' hc'
      cases l1 with
      | nil =>
        simp only [List.nil_append, List.cons.injEq] at hl
        obtain ⟨rfl, rfl⟩ := hl
        simp only [List.map_nil, List.sum_nil, Nat.add_zero]
        rw [hKframe, hval r c hr' hc']
        intro l1 b l2 _ hin
        omega
      | cons a' l1' =>
        simp only [List.cons_append, List.cons.injEq] at hl
        obtain ⟨rfl, hl⟩ := hl
        have := hKval l1' b l2 hl r c hr' hc'
        simp only [List.map_cons, List.sum_cons]
        rw [← this]
        congr 1 <;> omega
    · intro i j hij
      rw [hKframe, hframe]
      · have := hij [] a l rfl
        simpa using this
      · intro l1 b l2 hl
        have := hij (a :: l1) b l2 (by rw [hl]; rfl)
        simp only [List.map_cons, List.sum_cons] at this
        intro hin
        apply this
        omega

theorem getUpperBoundMappingMatrix_blocks_aux (s : BackpropSnapshot)
    (hshape : ∀ g ∈ s.mGradientMatrices,
      g.obj.mUpperBoundMappingMatrix.rows = g.obj.mUpperBoundConstraintMatrix.cols
        ∧ g.obj.mUpperBoundMappingMatrix.cols = g.obj.mClampingConstraintMatrix.cols) :
    ∃ E : Matrix
        (Fin (s.mGradientMatrices.map fun g => g.obj.mUpperBoundConstraintMatrix.cols).sum)
        (Fin (s.mGradientMatrices.map fun g => g.obj.mClampingConstraintMatrix.cols).sum) ℚ,
      s.getUpperBoundMappingMatrix = .ok ⟨_, _, E⟩
      ∧ (∀ l1 g l2, s.mGradientMatrices = l1 ++ g :: l2 → ∀ r c,
          r < g.obj.mUpperBoundConstraintMatrix.cols → c < g.obj.mClampingConstraintMatrix.cols →
          (MatrixXd.mk _ _ E).get
              ((l1.map fun g => g.obj.mUpperBoundConstraintMatrix.cols).sum + r)
              ((l1.map fun g => g.obj.mClampingConstraintMatrix.cols).sum + c)
            = g.obj.mUpperBoundMappingMatrix.get r c)
      ∧ (∀ i j, i < (s.mGradientMatrices.map fun g => g.obj.mUpperBoundConstraintMatrix.cols).sum →
          j < (s.mGradientMatrices.map fun g => g.obj.mClampingConstraintMatrix.cols).sum →
          (∀ l1 g l2, s.mGradientMatrices = l1 ++ g :: l2 →
            ¬ (((l1.map fun g => g.obj.mUpperBoundConstraintMatrix.cols).sum ≤ i
                  ∧ i < (l1.map fun g => g.obj.mUpperBoundConstraintMatrix.cols).sum
                      + g.obj.mUpperBoundConstraintMatrix.cols)
              ∧ ((l1.map fun g => g.obj.mClampingConstraintMatrix.cols).sum ≤ j
                  ∧ j < (l1.map fun g => g.obj.mClampingConstraintMatrix.cols).sum
                      + g.obj.mClampingConstraintMatrix.cols))) →
          (MatrixXd.mk _ _ E).get i j = some 0) := by
  have hmapr : ∀ l : List (SharedPtr ConstrainedGroupGradientMatrices),
      (∀ g ∈ l, g ∈ s.mGradientMatrices) →
      (l.map fun g => g.obj.mUpperBoundMappingMatrix.rows)
        = (l.map fun g => g.obj.mUpperBoundConstraintMatrix.cols) := by
    intro l hl
    exact List.map_congr_left fun g hg => (hshape g (hl g hg)).1
  have hmapc : ∀ l : List (SharedPtr ConstrainedGroupGradientMatrices),
      (∀ g ∈ l, g ∈ s.mGradientMatrices) →
      (l.map fun g => g.obj.mUpperBoundMappingMatrix.cols)
        = (l.map fun g => g.obj.mClampingConstraintMatrix.cols) := by
    intro l hl
    exact List.map_congr_left fun g hg => (hshape g (hl g hg)).2
  obtain ⟨K, hK, hKr, hKc, hval, hframe⟩ := mappingBlocks_get s.mGradientMatrices 0 0
    (MatrixXd.Zero (s.mGradientMatrices.map fun g => g.obj.mUpperBoundConstraintMatrix.cols).sum
      (s.mGradientMatrices.map fun g => g.obj.mClampingConstraintMatrix.cols).sum)
    (by rw [hmapr _ (fun g hg => hg)]; simp [MatrixXd.Zero])
    (by rw [hmapc _ (fun g hg => hg)]; simp [MatrixXd.Zero])
  have hKr1 : K.rows
      = (s.mGradientMatrices.map fun g => g.obj.mUpperBoundConstraintMatrix.cols).sum := hKr
  have hKc1 : K.cols
      = (s.mGradientMatrices.map fun g => g.obj.mClampingConstraintMatrix.cols).sum := hKc
  obtain ⟨E, hE⟩ := MatrixXd.exists_mk K hKr1 hKc1
  subst hE
  refine ⟨E, hK, ?_, ?_⟩
  · intro l1 g l2 hl r c hr hc
    have hg : g ∈ s.mGradientMatrices := by rw [hl]; simp
    have hl1 : ∀ g' ∈ l1, g' ∈ s.mGradientMatrices := by
      intro g' hg'; rw [hl]; simp [hg']
    have := hval l1 g l2 hl r c (by rw [(hshape g hg).1]; exact hr)
      (by rw [(hshape g hg).2]; exact hc)
    rw [hmapr l1 hl1, hmapc l1 hl1] at this
    simpa using this
  · intro i j hi hj hij
    refine (hframe i j ?_).trans (MatrixXd.get_Zero hi hj)
    intro l1 g l2 hl
    have hg : g ∈ s.mGradientMatrices := by rw [hl]; simp
    have hl1 : ∀ g' ∈ l1, g' ∈ s.mGradientMatrices := by
      intro g' hg'; rw [hl]; simp [hg']
    have := hij l1 g l2 hl
    rw [hmapr l1 hl1, hmapc l1 hl1, (hshape g hg).1, (hshape g hg).2]
    simpa using this

end BackpropSnapshot

namespace BackpropSnapshot

/-- C14 (amended): when every group mapping matrix has (upper-bound count) rows and (clamping
count) columns, `getUpperBoundMappingMatrix` returns the matrix with total-upper-bound rows and
total-clamping columns whose block at the running pair of offsets of each group, in group order,
is that group's own mapping matrix, and which is zero outside these diagonal blocks. -/
theorem getUpperBoundMappingMatrix_blocks (s : BackpropSnapshot)
    (hshape : ∀ g ∈ s.mGradientMatrices,
      g.obj.mUpperBoundMappingMatrix.rows = g.obj.mUpperBoundConstraintMatrix.cols
        ∧ g.obj.mUpperBoundMappingMatrix.cols = g.obj.mClampingConstraintMatrix.cols) :
    ∃ E : Matrix
        (Fin (s.mGradientMatrices.map fun g => g.obj.mUpperBoundConstraintMatrix.cols).sum)
        (Fin (s.mGradientMatrices.map fun g => g.obj.mClampingConstraintMatrix.cols).sum) ℚ,
      s.getUpperBoundMappingMatrix = .ok ⟨_, _, E⟩
      ∧ (∀ l1 g l2, s.mGradientMatrices = l1 ++ g :: l2 → ∀ r c,
          r < g.obj.mUpperBoundConstraintMatrix.cols → c < g.obj.mClampingConstraintMatrix.cols →
          (MatrixXd.mk _ _ E).get
              ((l1.map fun g => g.obj.mUpperBoundConstraintMatrix.cols).sum + r)
              ((l1.map fun g => g.obj.mClampingConstraintMatrix.cols).sum + c)
            = g.obj.mUpperBoundMappingMatrix.get r c)
      ∧ (∀ i j, i < (s.mGradientMatrices.map fun g => g.obj.mUpperBoundConstraintMatrix.cols).sum →
          j < (s.mGradientMatrices.map fun g => g.obj.mClampingConstraintMatrix.cols).sum →
          (∀ l1 g l2, s.mGradientMatrices = l1 ++ g :: l2 →
            ¬ (((l1.map fun g => g.obj.mUpperBoundConstraintMatrix.cols).sum ≤ i
                  ∧ i < (l1.map fun g => g.obj.mUpperBoundConstraintMatrix.cols).sum
                      + g.obj.mUpperBoundConstraintMatrix.cols)
              ∧ ((l1.map fun g => g.obj.mClampingConstraintMatrix.cols).sum ≤ j
                  ∧ j < (l1.map fun g => g.obj.mClampingConstraintMatrix.cols).sum
                      + g.obj.mClampingConstraintMatrix.cols))) →
          (MatrixXd.mk _ _ E).get i j = some 0) :=
  getUpperBoundMappingMatrix_blocks_aux s hshape

/-- C14 witness: the box (one clamping, one upper-bound column) followed by the sled (two clamping
columns, one upper-bound column): the mapping matrix is 2 × 3 with the blocks `(1/2)` and
`(1/3, 0)` on its diagonal. -/
theorem getUpperBoundMappingMatrix_blocks_witness :
    ∃ E : Matrix (Fin 2) (Fin 3) ℚ,
      (Scenario.yardSnapshot (1 / 2) (1 / 3)).getUpperBoundMappingMatrix = .ok ⟨2, 3, E⟩
      ∧ (MatrixXd.mk 2 3 E).get 0 0 = some (1 / 2)
      ∧ (MatrixXd.mk 2 3 E).get 1 1 = some (1 / 3)
      ∧ (MatrixXd.mk 2 3 E).get 1 2 = some 0
      ∧ (MatrixXd.mk 2 3 E).get 1 0 = some 0 := by
  have hg : (Scenario.yardSnapshot (1 / 2) (1 / 3)).mGradientMatrices
      = [⟨0, Scenario.contactGroup (1 / 2) 1⟩, ⟨1, Scenario.sledGroup (1 / 3)⟩] := rfl
  obtain ⟨E, hE, hval, hzero⟩ := getUpperBoundMappingMatrix_blocks
    (Scenario.yardSnapshot (1 / 2) (1 / 3)) (by
      intro g hgm
      rw [hg] at hgm
      simp only [List.mem_cons, List.mem_singleton, List.not_mem_nil, or_false] at hgm
      rcases hgm with rfl | rfl <;> exact ⟨rfl, rfl⟩)
  refine ⟨E, hE, ?_, ?_, ?_, ?_⟩
  · have := hval [] ⟨0, Scenario.contactGroup (1 / 2) 1⟩ [⟨1, Scenario.sledGroup (1 / 3)⟩] hg 0 0
      (by decide) (by decide)
    refine this.trans ?_
    simp [Scenario.contactGroup, MatrixXd.get]
  · have := hval [⟨0, Scenario.contactGroup (1 / 2) 1⟩] ⟨1, Scenario.sledGroup (1 / 3)⟩ [] hg 0 0
      (by decide) (by decide)
    refine this.trans ?_
    simp [Scenario.sledGroup, MatrixXd.get]
  · have := hval [⟨0, Scenario.contactGroup (1 / 2) 1⟩] ⟨1, Scenario.sledGroup (1 / 3)⟩ [] hg 0 1
      (by decide) (by decide)
    refine this.trans ?_
    simp [Scenario.sledGroup, MatrixXd.get]
  · refine hzero 1 0 (by decide) (by decide) ?_
    intro l1 g l2 hl
    rw [hg] at hl
    rcases l1 with _ | ⟨a, _ | ⟨b, l1⟩⟩
    · simp only [List.nil_append, List.cons.injEq] at hl
      obtain ⟨rfl, -⟩ := hl
      simp [Scenario.contactGroup]
    · simp only [List.cons_append, List.nil_append, List.cons.injEq] at hl
      obtain ⟨rfl, rfl, -⟩ := hl
      simp [Scenario.contactGroup, Scenario.sledGroup]
    · simp at hl

/-- C14 counterexample: for the sled alone (two clamping columns, one upper-bound column) the
returned mapping matrix has one row and two columns: total-upper-bound rows and total-clamping
columns, not the other way round. -/
theorem getUpperBoundMappingMatrix_shape_counterexample :
    (Scenario.sledSnapshot (1 / 2)).mNumClamping = 2
      ∧ (Scenario.sledSnapshot (1 / 2)).mNumUpperBound = 1
      ∧ (Scenario.sledSnapshot (1 / 2)).getUpperBoundMappingMatrix
          = .ok ⟨1, 2, !![1 / 2, 0]⟩ := by
  refine ⟨rfl, rfl, ?_⟩
  simp [BackpropSnapshot.getUpperBoundMappingMatrix, BackpropSnapshot.mappingBlocks,
    Scenario.sledSnapshot, BackpropSnapshot.create, Scenario.sledWorld, Scenario.sledSkeleton,
    BackpropSnapshot.constructorStep, Scenario.sledGroup]

end BackpropSnapshot

/-! ## The assembly of the constraint matrices -/

namespace World

theorem memberDofs_of_getSkeleton {w : World} {name : String} {skel : Skeleton}
    (h : w.getSkeleton name = some skel) : w.memberDofs name = skel.numDofs := by
  simp [memberDofs, h]

theorem mem_of_getSkeleton {w : World} {name : String} {skel : Skeleton}
    (h : w.getSkeleton name = some skel) : skel ∈ w.skeletons :=
  List.mem_of_find?_eq_some h

end World

namespace BackpropSnapshot

/-- The inner loop of `assembleMatrix` for one group matrix `G`: it returns when every member
skeleton is known to the world and the blocks fit; it copies the row section of each member to the
member's world offset, in the columns of the group, and leaves every other coefficient as it
was. A later member overwrites an earlier one only where their world segments overlap. -/
theorem assembleGroupRows_get (s : BackpropSnapshot) (world : World) (G : MatrixXd)
    (constraintCursor : Nat) :
    ∀ (names : List String) (dofCursorGroup : Nat) (M : MatrixXd),
      (∀ name ∈ names, ∃ skel, world.getSkeleton name = some skel
        ∧ s.skeletonOffset skel.name + skel.numDofs ≤ M.rows) →
      dofCursorGroup + (names.map world.memberDofs).sum ≤ G.rows →
      constraintCursor + G.cols ≤ M.cols →
      ∃ K, assembleGroupRows s world G constraintCursor names dofCursorGroup M = .ok K
        ∧ K.rows = M.rows ∧ K.cols = M.cols
        ∧ (∀ ns1 name ns2 skel, names = ns1 ++ name :: ns2 → world.getSkeleton name = some skel →
            (∀ name' ∈ ns2, ∀ skel', world.getSkeleton name' = some skel' →
              s.skeletonOffset skel.name + skel.numDofs ≤ s.skeletonOffset skel'.name
                ∨ s.skeletonOffset skel'.name + skel'.numDofs ≤ s.skeletonOffset skel.name) →
            ∀ r c, r < skel.numDofs → c < G.cols →
              K.get (s.skeletonOffset skel.name + r) (constraintCursor + c)
                = G.get (dofCursorGroup + (ns1.map world.memberDofs).sum + r) c)
        ∧ (∀ i j,
            (∀ name ∈ names, ∀ skel, world.getSkeleton name = some skel →
              ¬ ((s.skeletonOffset skel.name ≤ i ∧ i < s.skeletonOffset skel.name + skel.numDofs)
                ∧ (constraintCursor ≤ j ∧ j < constraintCursor + G.cols))) →
            K.get i j = M.get i j) := by
  intro names
  induction names with
  | nil =>
    intro gcur M _ _ _
    refine ⟨M, rfl, rfl, rfl, ?_, fun i j _ => rfl⟩
    intro ns1 name ns2 skel h
    simp at h
  | cons name rest ih =>
    intro gcur M hres hG hcols
    obtain ⟨skel, hskel, hfit⟩ := hres name (List.mem_cons_self _ _)
    have hmd := World.memberDofs_of_getSkeleton hskel
    simp only [List.map_cons, List.sum_cons, hmd] at hG
    have hsrc : ∃ src, G.block gcur 0 skel.numDofs G.cols = .ok src := by
      unfold MatrixXd.block
      rw [dif_pos ⟨by omega, by omega⟩]
      exact ⟨_, rfl⟩
    obtain ⟨src, hsrc⟩ := hsrc
    obtain ⟨hsr, hsc, -, -, hsval⟩ := MatrixXd.block_get hsrc
    have hset : ∃ M1, M.setBlock (s.skeletonOffset skel.name) constraintCursor skel.numDofs
        G.cols src = .ok M1 := by
      unfold MatrixXd.setBlock
      rw [dif_pos ⟨hsr, hsc, hfit, hcols⟩]
      exact ⟨_, rfl⟩
    obtain ⟨M1, hM1⟩ := hset
    obtain ⟨h1r, h1c, -, -, -, -, hval, hframe⟩ := MatrixXd.setBlock_get hM1
    obtain ⟨K, hK, hKr, hKc, hKval, hKframe⟩ := ih (gcur + skel.numDofs) M1
      (fun n hnm => by
        obtain ⟨sk, h1, h2⟩ := hres n (List.mem_cons_of_mem _ hnm)
        exact ⟨sk, h1, by rw [h1r]; exact h2⟩)
      (by omega) (by rw [h1c]; exact hcols)
    refine ⟨K, ?_, by rw [hKr, h1r], by rw [hKc, h1c], ?_, ?_⟩
    · simp only [assembleGroupRows, hskel, deref, Result.ok_bind, hsrc, hM1]
      exact hK
    · intro ns1 name' ns2 skel' hl hskel' hdisj r c hr hc
      cases ns1 with
      | nil =>
        simp only [List.nil_append, List.cons.injEq] at hl
        obtain ⟨rfl, rfl⟩ := hl
        have hsk : skel' = skel := Option.some.inj (hskel'.symm.trans hskel)
        subst hsk
        simp only [List.map_nil, List.sum_nil, Nat.add_zero]
        rw [hKframe, hval r c hr hc, hsval r c hr hc, Nat.zero_add]
        intro n hnm sk hsk hin
        rcases hdisj n hnm sk hsk with h1 | h1 <;> omega
      | cons a ns1' =>
        simp only [List.cons_append, List.cons.injEq] at hl
        obtain ⟨rfl, hl⟩ := hl
        have := hKval ns1' name' ns2 skel' hl hskel' hdisj r c hr hc
        simp only [List.map_cons, List.sum_cons, hmd]
        rw [this]
        congr 1
        omega
    · intro i j hij
      rw [hKframe, hframe]
      · exact hij name (List.mem_cons_self _ _) skel hskel
      · intro n hnm sk hsk
        exact hij n (List.mem_cons_of_mem _ hnm) sk hsk

end BackpropSnapshot

namespace BackpropSnapshot

/-- The outer loop of `assembleMatrix`: it returns when the blocks of every group fit, places the
row sections of each group in the columns of that group, which start where the columns of the
earlier groups end, and leaves every other coefficient as it was. -/
theorem assembleGroups_get (s : BackpropSnapshot) (world : World)
    (whichMatrix : MatrixToAssemble) :
    ∀ (groups : List (SharedPtr ConstrainedGroupGradientMatrices)) (constraintCursor : Nat)
      (M : MatrixXd),
      (∀ g ∈ groups, ∀ name ∈ g.obj.mSkeletons, ∃ skel, world.getSkeleton name = some skel
        ∧ s.skeletonOffset skel.name + skel.numDofs ≤ M.rows) →
      (∀ g ∈ groups, (g.obj.mSkeletons.map world.memberDofs).sum
        ≤ (groupMatrixToAssemble g.obj whichMatrix).rows) →
      constraintCursor
        + (groups.map fun g => (groupMatrixToAssemble g.obj whichMatrix).cols).sum ≤ M.cols →
      ∃ K, assembleGroups s world whichMatrix groups constraintCursor M = .ok K
        ∧ K.rows = M.rows ∧ K.cols = M.cols
        ∧ (∀ gs1 g gs2, groups = gs1 ++ g :: gs2 →
            ∀ ns1 name ns2 skel, g.obj.mSkeletons = ns1 ++ name :: ns2 →
            world.getSkeleton name = some skel →
            (∀ name' ∈ ns2, ∀ skel', world.getSkeleton name' = some skel' →
              s.skeletonOffset skel.name + skel.numDofs ≤ s.skeletonOffset skel'.name
                ∨ s.skeletonOffset skel'.name + skel'.numDofs ≤ s.skeletonOffset skel.name) →
            ∀ r c, r < skel.numDofs → c < (groupMatrixToAssemble g.obj whichMatrix).cols →
              K.get (s.skeletonOffset skel.name + r)
                  (constraintCursor
                    + (gs1.map fun g => (groupMatrixToAssemble g.obj whichMatrix).cols).sum + c)
                = (groupMatrixToAssemble g.obj whichMatrix).get
                    ((ns1.map world.memberDofs).sum + r) c)
        ∧ (∀ i j,
            (∀ gs1 g gs2, groups = gs1 ++ g :: gs2 →
              ∀ name ∈ g.obj.mSkeletons, ∀ skel, world.getSkeleton name = some skel →
              ¬ ((s.skeletonOffset skel.name ≤ i ∧ i < s.skeletonOffset skel.name + skel.numDofs)
                ∧ (constraintCursor
                      + (gs1.map fun g => (groupMatrixToAssemble g.obj whichMatrix).cols).sum ≤ j
                  ∧ j < constraintCursor
                      + (gs1.map fun g => (groupMatrixToAssemble g.obj whichMatrix).cols).sum
                      + (groupMatrixToAssemble g.obj whichMatrix).cols))) →
            K.get i j = M.get i j) := by
  intro groups
  induction groups with
  | nil =>
    intro cc M _ _ _
    refine ⟨M, rfl, rfl, rfl, ?_, fun i j _ => rfl⟩
    intro gs1 g gs2 h
    simp at h
  | cons g rest ih =>
    intro cc M hres hG hcols
    simp only [List.map_cons, List.sum_cons] at hcols
    obtain ⟨M1, hM1, h1r, h1c, hval, hframe⟩ := assembleGroupRows_get s world
      (groupMatrixToAssemble g.obj whichMatrix) cc g.obj.mSkeletons 0 M
      (hres g (List.mem_cons_self _ _))
      (by have := hG g (List.mem_cons_self _ _); omega) (by omega)
    obtain ⟨K, hK, hKr, hKc, hKval, hKframe⟩ := ih
      (cc + (groupMatrixToAssemble g.obj whichMatrix).cols) M1
      (fun g' hg' n hnm => by
        obtain ⟨sk, h1, h2⟩ := hres g' (List.mem_cons_of_mem _ hg') n hnm
        exact ⟨sk, h1, by rw [h1r]; exact h2⟩)
      (fun g' hg' => hG g' (List.mem_cons_of_mem _ hg'))
      (by rw [h1c]; omega)
    refine ⟨K, ?_, by rw [hKr, h1r], by rw [hKc, h1c], ?_, ?_⟩
    · simp only [assembleGroups, hM1, Result.ok_bind]
      exact hK
    · intro gs1 g' gs2 hl ns1 name ns2 skel hns hskel hdisj r c hr hc
      cases gs1 with
      | nil =>
        simp only [List.nil_append, List.cons.injEq] at hl
        obtain ⟨rfl, rfl⟩ := hl
        simp only [List.map_nil, List.sum_nil, Nat.add_zero]
        rw [hKframe]
        · have := hval ns1 name ns2 skel hns hskel hdisj r c hr hc
          rw [this, Nat.zero_add]
        · intro gs1 g' gs2 _ n _ sk _ hin
          omega
      | cons a gs1' =>
        simp only [List.cons_append, List.cons.injEq] at hl
        obtain ⟨rfl, hl⟩ := hl
        have := hKval gs1' g' gs2 hl ns1 name ns2 skel hns hskel hdisj r c hr hc
        simp only [List.map_cons, List.sum_cons]
        rw [← this]
        congr 1
        omega
    · intro i j hij
      rw [hKframe, hframe]
      · intro n hnm sk hsk
        have := hij [] g rest rfl n hnm sk hsk
        simpa using this
      · intro gs1 g' gs2 hl n hnm sk hsk
        have := hij (g :: gs1) g' gs2 (by rw [hl]; rfl) n hnm sk hsk
        simp only [List.map_cons, List.sum_cons] at this
        intro hin
        apply this
        omega

end BackpropSnapshot

namespace BackpropSnapshot

/-- The counters of the constructor are the column totals of the groups it collected. -/
theorem foldl_constructorStep_counts (l : List Skeleton) :
    ∀ s0 : BackpropSnapshot,
      (s0.mNumClamping
          = (s0.mGradientMatrices.map fun g => g.obj.mClampingConstraintMatrix.cols).sum
        ∧ s0.mNumUpperBound
          = (s0.mGradientMatrices.map fun g => g.obj.mUpperBoundConstraintMatrix.cols).sum
        ∧ s0.mNumBouncing
          = (s0.mGradientMatrices.map fun g => g.obj.mBouncingConstraintMatrix.cols).sum) →
      ((l.foldl constructorStep s0).mNumClamping
          = ((l.foldl constructorStep s0).mGradientMatrices.map
              fun g => g.obj.mClampingConstraintMatrix.cols).sum
        ∧ (l.foldl constructorStep s0).mNumUpperBound
          = ((l.foldl constructorStep s0).mGradientMatrices.map
              fun g => g.obj.mUpperBoundConstraintMatrix.cols).sum
        ∧ (l.foldl constructorStep s0).mNumBouncing
          = ((l.foldl constructorStep s0).mGradientMatrices.map
              fun g => g.obj.mBouncingConstraintMatrix.cols).sum) := by
  induction l with
  | nil => intro s0 h; exact h
  | cons a l ih =>
    intro s0 h
    rw [List.foldl_cons]
    apply ih
    unfold constructorStep
    split
    · exact h
    · dsimp only
      split
      · simp only [List.map_append, List.map_cons, List.map_nil, List.sum_append, List.sum_cons,
          List.sum_nil, Nat.add_zero]
        exact ⟨by rw [h.1], by rw [h.2.1], by rw [h.2.2]⟩
      · exact h

theorem create_numColsToAssemble (world : World) (preP preV preT : VectorXd)
    (whichMatrix : MatrixToAssemble)
    (hmassed : ∀ g ∈ (create world preP preV preT).mGradientMatrices,
      g.obj.mMassedClampingConstraintMatrix.cols = g.obj.mClampingConstraintMatrix.cols
        ∧ g.obj.mMassedUpperBoundConstraintMatrix.cols
          = g.obj.mUpperBoundConstraintMatrix.cols) :
    ((create world preP preV preT).mGradientMatrices.map
        fun g => (groupMatrixToAssemble g.obj whichMatrix).cols).sum
      = (create world preP preV preT).numColsToAssemble whichMatrix := by
  have h := foldl_constructorStep_counts world.skeletons
    { mTimeStep := world.getTimeStep
      mPreStepPosition := preP
      mPreStepVelocity := preV
      mPreStepTorques := preT
      mPostStepPosition := world.getPositions
      mPostStepVelocity := world.getVelocities
      mPostStepTorques := world.getForces
      mNumDOFs := 0
      mNumConstraintDim := 0
      mNumClamping := 0
      mNumUpperBound := 0
      mNumBouncing := 0
      mSkeletonOffset := []
      mGradientMatrices := [] } ⟨rfl, rfl, rfl⟩
  have h' : (create world preP preV preT).mNumClamping
        = ((create world preP preV preT).mGradientMatrices.map
            fun g => g.obj.mClampingConstraintMatrix.cols).sum
      ∧ (create world preP preV preT).mNumUpperBound
        = ((create world preP preV preT).mGradientMatrices.map
            fun g => g.obj.mUpperBoundConstraintMatrix.cols).sum
      ∧ (create world preP preV preT).mNumBouncing
        = ((create world preP preV preT).mGradientMatrices.map
            fun g => g.obj.mBouncingConstraintMatrix.cols).sum := h
  cases whichMatrix with
  | CLAMPING => exact h'.1.symm
  | MASSED_CLAMPING =>
    simp only [groupMatrixToAssemble, numColsToAssemble]
    rw [h'.1]
    exact congrArg List.sum (List.map_congr_left fun g hg => (hmassed g hg).1)
  | UPPER_BOUND => exact h'.2.1.symm
  | MASSED_UPPER_BOUND =>
    simp only [groupMatrixToAssemble, numColsToAssemble]
    rw [h'.2.1]
    exact congrArg List.sum (List.map_congr_left fun g hg => (hmassed g hg).2)
  | BOUNCING => exact h'.2.2.symm

end BackpropSnapshot

namespace BackpropSnapshot

theorem assembleMatrix_blocks_aux (world0 world : World) (preP preV preT : VectorXd)
    (s : BackpropSnapshot) (whichMatrix : MatrixToAssemble)
    (hs : s = create world0 preP preV preT)
    (hsk : world.skeletons = world0.skeletons)
    (hn : (world0.skeletons.map Skeleton.name).Nodup)
    (hg : ∀ g ∈ s.mGradientMatrices, GroupWellFormed world g.obj) :
    ∃ M : Matrix (Fin s.mNumDOFs) (Fin (s.numColsToAssemble whichMatrix)) ℚ,
      s.assembleMatrix world whichMatrix = .ok ⟨_, _, M⟩
      ∧ (∀ gs1 g gs2, s.mGradientMatrices = gs1 ++ g :: gs2 →
          ∀ ns1 name ns2 skel, g.obj.mSkeletons = ns1 ++ name :: ns2 →
          world.getSkeleton name = some skel →
          ∀ r c, r < skel.numDofs → c < (groupMatrixToAssemble g.obj whichMatrix).cols →
            (MatrixXd.mk _ _ M).get (s.skeletonOffset skel.name + r)
                ((gs1.map fun g => (groupMatrixToAssemble g.obj whichMatrix).cols).sum + c)
              = (groupMatrixToAssemble g.obj whichMatrix).get
                  ((ns1.map world.memberDofs).sum + r) c)
      ∧ (∀ i j, i < s.mNumDOFs → j < s.numColsToAssemble whichMatrix →
          (∀ gs1 g gs2, s.mGradientMatrices = gs1 ++ g :: gs2 →
            ∀ name ∈ g.obj.mSkeletons, ∀ skel, world.getSkeleton name = some skel →
            ¬ ((s.skeletonOffset skel.name ≤ i ∧ i < s.skeletonOffset skel.name + skel.numDofs)
              ∧ ((gs1.map fun g => (groupMatrixToAssemble g.obj whichMatrix).cols).sum ≤ j
                ∧ j < (gs1.map fun g => (groupMatrixToAssemble g.obj whichMatrix).cols).sum
                    + (groupMatrixToAssemble g.obj whichMatrix).cols))) →
          (MatrixXd.mk _ _ M).get i j = some 0) := by
  have hcols : (s.mGradientMatrices.map
      fun g => (groupMatrixToAssemble g.obj whichMatrix).cols).sum
      = s.numColsToAssemble whichMatrix := by
    subst hs
    exact create_numColsToAssemble world0 preP preV preT whichMatrix
      (fun g hgm => ⟨(hg g hgm).massedClampingCols, (hg g hgm).massedUpperBoundCols⟩)
  have hfit : ∀ skel ∈ world.skeletons, s.skeletonOffset skel.name + skel.numDofs ≤ s.mNumDOFs := by
    intro skel hmem
    subst hs
    exact create_skeletonOffset_add_le world0 preP preV preT hn skel (hsk ▸ hmem)
  obtain ⟨K, hK, hKr, hKc, hval, hframe⟩ := assembleGroups_get s world whichMatrix
    s.mGradientMatrices 0 (MatrixXd.Zero s.mNumDOFs (s.numColsToAssemble whichMatrix))
    (fun g hgm name hname => by
      obtain ⟨skel, hskel⟩ := (hg g hgm).known name hname
      exact ⟨skel, hskel, hfit skel (World.mem_of_getSkeleton hskel)⟩)
    (fun g hgm => (hg g hgm).rows whichMatrix)
    (by rw [hcols]; simp [MatrixXd.Zero])
  have hKr1 : K.rows = s.mNumDOFs := hKr
  have hKc1 : K.cols = s.numColsToAssemble whichMatrix := hKc
  obtain ⟨M, hM⟩ := MatrixXd.exists_mk K hKr1 hKc1
  subst hM
  refine ⟨M, hK, ?_, ?_⟩
  · intro gs1 g gs2 hl ns1 name ns2 skel hns hskel r c hr hc
    have hgm : g ∈ s.mGradientMatrices := by rw [hl]; simp
    have hnd := (hg g hgm).nodup
    have := hval gs1 g gs2 hl ns1 name ns2 skel hns hskel (by
      intro name' hname' skel' hskel'
      have hne : skel.name ≠ skel'.name := by
        rw [World.getSkeleton_name hskel, World.getSkeleton_name hskel']
        intro heq
        rw [hns] at hnd
        have h2 := (List.nodup_append.mp hnd).2.1
        exact (List.nodup_cons.mp h2).1 (heq ▸ hname')
      subst hs
      exact create_segments_disjoint world0 preP preV preT hn skel skel'
        (hsk ▸ World.mem_of_getSkeleton hskel) (hsk ▸ World.mem_of_getSkeleton hskel') hne)
      r c hr hc
    simpa using this
  · intro i j hi hj hij
    refine (hframe i j ?_).trans (MatrixXd.get_Zero hi hj)
    intro gs1 g gs2 hl name hname skel hskel
    have := hij gs1 g gs2 hl name hname skel hskel
    simpa using this

end BackpropSnapshot

namespace Scenario

theorem yard_groups (mu1 mu2 : ℚ) : (yardSnapshot mu1 mu2).mGradientMatrices
    = [⟨0, contactGroup mu1 1⟩, ⟨1, sledGroup mu2⟩] := rfl

theorem yard_wellFormed (mu1 mu2 : ℚ) :
    ∀ g ∈ (yardSnapshot mu1 mu2).mGradientMatrices, GroupWellFormed (yardWorld mu1 mu2) g.obj := by
  intro g hg
  rw [yard_groups] at hg
  simp only [List.mem_cons, List.mem_singleton, List.not_mem_nil, or_false] at hg
  rcases hg with rfl | rfl
  · refine ⟨List.nodup_singleton _, ?_, ?_, rfl, rfl⟩
    · intro name hname
      simp only [contactGroup, List.mem_singleton] at hname
      subst hname
      exact ⟨boxSkeleton mu1 1, rfl⟩
    · intro whichMatrix
      cases whichMatrix <;> exact Nat.le_refl 2
  · refine ⟨List.nodup_singleton _, ?_, ?_, rfl, rfl⟩
    · intro name hname
      simp only [sledGroup, List.mem_singleton] at hname
      subst hname
      exact ⟨sledSkeleton mu2, rfl⟩
    · intro whichMatrix
      cases whichMatrix <;> exact Nat.le_refl 3

end Scenario

namespace BackpropSnapshot

/-- C11: for a snapshot built by the constructor from a world with pairwise distinct skeleton
names and well-formed constraint groups, `assembleMatrix` (which the five constraint-matrix
accessors call with their selector) returns the `mNumDOFs × (total column count)` matrix `M` with
`M[o + r, c_i + c] = G_i[g + r, c]` for every group `i` with column offset `c_i` (the columns of
the earlier groups), every member skeleton of it with world offset `o` and group-local offset `g`
(the DOFs of the earlier members), every `r` below the DOF count of the skeleton and every column
`c` of the group matrix `G_i`; every coefficient outside these blocks is zero. -/
theorem assembleMatrix_blocks (world0 world : World) (preP preV preT : VectorXd)
    (s : BackpropSnapshot) (whichMatrix : MatrixToAssemble)
    (hs : s = create world0 preP preV preT)
    (hsk : world.skeletons = world0.skeletons)
    (hn : (world0.skeletons.map Skeleton.name).Nodup)
    (hg : ∀ g ∈ s.mGradientMatrices, GroupWellFormed world g.obj) :
    ∃ M : Matrix (Fin s.mNumDOFs) (Fin (s.numColsToAssemble whichMatrix)) ℚ,
      s.assembleMatrix world whichMatrix = .ok ⟨_, _, M⟩
      ∧ (s.mGradientMatrices.map fun g => (groupMatrixToAssemble g.obj whichMatrix).cols).sum
          = s.numColsToAssemble whichMatrix
      ∧ (∀ gs1 g gs2, s.mGradientMatrices = gs1 ++ g :: gs2 →
          ∀ ns1 name ns2 skel, g.obj.mSkeletons = ns1 ++ name :: ns2 →
          world.getSkeleton name = some skel →
          ∀ r c, r < skel.numDofs → c < (groupMatrixToAssemble g.obj whichMatrix).cols →
            (MatrixXd.mk _ _ M).get (s.skeletonOffset skel.name + r)
                ((gs1.map fun g => (groupMatrixToAssemble g.obj whichMatrix).cols).sum + c)
              = (groupMatrixToAssemble g.obj whichMatrix).get
                  ((ns1.map world.memberDofs).sum + r) c)
      ∧ (∀ i j, i < s.mNumDOFs → j < s.numColsToAssemble whichMatrix →
          (∀ gs1 g gs2, s.mGradientMatrices = gs1 ++ g :: gs2 →
            ∀ name ∈ g.obj.mSkeletons, ∀ skel, world.getSkeleton name = some skel →
            ¬ ((s.skeletonOffset skel.name ≤ i ∧ i < s.skeletonOffset skel.name + skel.numDofs)
              ∧ ((gs1.map fun g => (groupMatrixToAssemble g.obj whichMatrix).cols).sum ≤ j
                ∧ j < (gs1.map fun g => (groupMatrixToAssemble g.obj whichMatrix).cols).sum
                    + (groupMatrixToAssemble g.obj whichMatrix).cols))) →
          (MatrixXd.mk _ _ M).get i j = some 0) := by
  obtain ⟨M, hM, hval, hzero⟩ := assembleMatrix_blocks_aux world0 world preP preV preT s
    whichMatrix hs hsk hn hg
  refine ⟨M, hM, ?_, hval, hzero⟩
  subst hs
  exact create_numColsToAssemble world0 preP preV preT whichMatrix
    (fun g hgm => ⟨(hg g hgm).massedClampingCols, (hg g hgm).massedUpperBoundCols⟩)

/-- C11 witness: the clamping matrix of the box (DOFs 0 and 1, column 0) followed by the sled
(DOFs 2 to 4, columns 1 and 2). -/
theorem assembleMatrix_blocks_witness :
    ∃ M : Matrix (Fin 5) (Fin 3) ℚ,
      (Scenario.yardSnapshot (1 / 2) (1 / 3)).getClampingConstraintMatrix
          (Scenario.yardWorld (1 / 2) (1 / 3)) = .ok ⟨5, 3, M⟩
      ∧ (MatrixXd.mk 5 3 M).get 1 0 = some 1
      ∧ (MatrixXd.mk 5 3 M).get 4 2 = some 1
      ∧ (MatrixXd.mk 5 3 M).get 3 0 = some 0 := by
  obtain ⟨M, hM, -, hval, hzero⟩ := assembleMatrix_blocks (Scenario.yardWorld (1 / 2) (1 / 3))
    (Scenario.yardWorld (1 / 2) (1 / 3)) (VectorXd.Zero 5) (VectorXd.Zero 5) (VectorXd.Zero 5)
    (Scenario.yardSnapshot (1 / 2) (1 / 3)) .CLAMPING rfl rfl (by decide)
    (Scenario.yard_wellFormed (1 / 2) (1 / 3))
  refine ⟨M, hM, ?_, ?_, ?_⟩
  · have := hval [] ⟨0, Scenario.contactGroup (1 / 2) 1⟩ [⟨1, Scenario.sledGroup (1 / 3)⟩]
      (Scenario.yard_groups _ _) [] "box" [] (Scenario.boxSkeleton (1 / 2) 1) rfl rfl 1 0
      (by decide) (by decide)
    refine this.trans ?_
    simp [groupMatrixToAssemble, Scenario.contactGroup, MatrixXd.get]
  · have := hval [⟨0, Scenario.contactGroup (1 / 2) 1⟩] ⟨1, Scenario.sledGroup (1 / 3)⟩ []
      (Scenario.yard_groups _ _) [] "sled" [] (Scenario.sledSkeleton (1 / 3)) rfl rfl 2 1
      (by decide) (by decide)
    refine this.trans ?_
    simp [groupMatrixToAssemble, Scenario.sledGroup, MatrixXd.get]
  · refine hzero 3 0 (by decide) (by decide) ?_
    intro gs1 g gs2 hl name hname skel hskel
    rw [Scenario.yard_groups] at hl
    rcases gs1 with _ | ⟨a, _ | ⟨b, gs1⟩⟩
    · simp only [List.nil_append, List.cons.injEq] at hl
      obtain ⟨rfl, -⟩ := hl
      simp only [Scenario.contactGroup, List.mem_singleton] at hname
      subst hname
      have hsk : skel = Scenario.boxSkeleton (1 / 2) 1 := (Option.some.inj hskel).symm
      subst hsk
      rw [show (Scenario.yardSnapshot (1 / 2) (1 / 3)).skeletonOffset
        (Scenario.boxSkeleton (1 / 2) 1).name = 0 from rfl]
      simp [Scenario.boxSkeleton]
    · simp only [List.cons_append, List.nil_append, List.cons.injEq] at hl
      obtain ⟨rfl, rfl, -⟩ := hl
      simp [groupMatrixToAssemble, Scenario.contactGroup, Scenario.sledGroup]
    · simp at hl

end BackpropSnapshot

/-! ## The position-position and velocity-position Jacobians -/

namespace BackpropSnapshot

theorem getPosPosJacobian_no_bounce_aux (cod : CompleteOrthogonalDecomposition)
    (s : BackpropSnapshot) (world : World) (A_b : MatrixXd)
    (hA : s.getBouncingConstraintMatrix world = .ok A_b) (h0 : A_b.size = 0) :
    s.getPosPosJacobian cod world = .ok ⟨s.mNumDOFs, s.mNumDOFs, 1⟩ := by
  unfold getPosPosJacobian
  simp only [hA, Result.ok_bind, h0, if_true, Result.pure_eq, MatrixXd.Identity_eq]

/-- C16: when the assembled bouncing constraint matrix is empty, `getPosPosJacobian` returns the
`mNumDOFs × mNumDOFs` identity matrix. -/
theorem getPosPosJacobian_no_bounce (cod : CompleteOrthogonalDecomposition)
    (s : BackpropSnapshot) (world : World) (A_b : MatrixXd)
    (hA : s.getBouncingConstraintMatrix world = .ok A_b) (h0 : A_b.size = 0) :
    s.getPosPosJacobian cod world = .ok ⟨s.mNumDOFs, s.mNumDOFs, 1⟩ :=
  getPosPosJacobian_no_bounce_aux cod s world A_b hA h0

/-- C16 witness: the box in contact without bounce; its bouncing matrix has no column. -/
theorem getPosPosJacobian_no_bounce_witness :
    (Scenario.contactSnapshot (1 / 2) 1 (1 / 100) ![0, -1] ![0, 0]).getPosPosJacobian
        Scenario.cramer (Scenario.contactWorld (1 / 2) 1 (1 / 100) ![0, -1] ![0, 0])
      = .ok ⟨2, 2, 1⟩ :=
  getPosPosJacobian_no_bounce Scenario.cramer
    (Scenario.contactSnapshot (1 / 2) 1 (1 / 100) ![0, -1] ![0, 0])
    (Scenario.contactWorld (1 / 2) 1 (1 / 100) ![0, -1] ![0, 0]) ⟨2, 0, 0⟩
    (Scenario.contact_assembleMatrix (1 / 2) 1 (1 / 100) ![0, -1] ![0, 0] .BOUNCING) rfl

/-- C17: `getVelPosJacobian` is `getPosPosJacobian` with every coefficient multiplied by the stored
timestep, and it returns exactly when `getPosPosJacobian` does; with an empty bouncing matrix it
is `dt * I`. -/
theorem getVelPosJacobian_eq (cod : CompleteOrthogonalDecomposition)
    (s : BackpropSnapshot) (world : World) :
    s.getVelPosJacobian cod world
        = (s.getPosPosJacobian cod world).map (MatrixXd.smul s.mTimeStep)
      ∧ (∀ (n : Nat) (X : Matrix (Fin n) (Fin n) ℚ),
          s.getPosPosJacobian cod world = .ok ⟨n, n, X⟩ →
          s.getVelPosJacobian cod world = .ok ⟨n, n, s.mTimeStep • X⟩)
      ∧ (∀ A_b : MatrixXd, s.getBouncingConstraintMatrix world = .ok A_b → A_b.size = 0 →
          s.getVelPosJacobian cod world
            = .ok ⟨s.mNumDOFs, s.mNumDOFs,
                s.mTimeStep • (1 : Matrix (Fin s.mNumDOFs) (Fin s.mNumDOFs) ℚ)⟩) := by
  have h1 : s.getVelPosJacobian cod world
      = (s.getPosPosJacobian cod world).map (MatrixXd.smul s.mTimeStep) := by
    unfold getVelPosJacobian
    cases s.getPosPosJacobian cod world <;> rfl
  refine ⟨h1, ?_, ?_⟩
  · intro n X hX
    rw [h1, hX]
    rfl
  · intro A_b hA h0
    rw [h1, getPosPosJacobian_no_bounce_aux cod s world A_b hA h0]
    rfl

/-- C17 witness: the box in contact without bounce, timestep 1/100. -/
theorem getVelPosJacobian_eq_witness :
    (Scenario.contactSnapshot (1 / 2) 1 (1 / 100) ![0, -1] ![0, 0]).getVelPosJacobian
        Scenario.cramer (Scenario.contactWorld (1 / 2) 1 (1 / 100) ![0, -1] ![0, 0])
      = .ok ⟨2, 2, (1 / 100 : ℚ) • (1 : Matrix (Fin 2) (Fin 2) ℚ)⟩ :=
  (getVelPosJacobian_eq Scenario.cramer
    (Scenario.contactSnapshot (1 / 2) 1 (1 / 100) ![0, -1] ![0, 0])
    (Scenario.contactWorld (1 / 2) 1 (1 / 100) ![0, -1] ![0, 0])).2.2 ⟨2, 0, 0⟩
    (Scenario.contact_assembleMatrix (1 / 2) 1 (1 / 100) ![0, -1] ![0, 0] .BOUNCING) rfl

end BackpropSnapshot

/-! ## Backprop through one unconstrained body -/

namespace UninitVectorXd

theorem setSegment_ok (v : UninitVectorXd) (start n : Nat) (f : Fin n → ℚ)
    (h : start + n ≤ v.size) : ∃ v', v.setSegment start n ⟨n, f⟩ = .ok v' := by
  unfold setSegment
  rw [dif_pos ⟨rfl, h⟩]
  exact ⟨_, rfl⟩

/-- Reading all of a vector whose whole range was just assigned. -/
theorem read_setSegment_full {v v' : UninitVectorXd} {n : Nat} {f : Fin n → ℚ}
    (hn : v.size = n) (h : v.setSegment 0 n ⟨n, f⟩ = .ok v') : v'.read = .ok ⟨n, f⟩ := by
  have hs := (setSegment_eq_ok h).1
  unfold read
  rw [hs, hn]
  exact segment_setSegment h

end UninitVectorXd

namespace BackpropSnapshot

/-- One iteration of the free-skeleton loop returns when the segment of the skeleton lies in the
three output vectors and is assigned in the two input vectors. -/
theorem backpropFreeSkeleton_ok (s : BackpropSnapshot) (world : World)
    (next this : LossGradient) (skel : Skeleton) (L Lp : Fin skel.numDofs → ℚ)
    (hv : next.lossWrtVelocity.segment (s.skeletonOffset skel.name) skel.numDofs
      = .ok ⟨skel.numDofs, L⟩)
    (hp : next.lossWrtPosition.segment (s.skeletonOffset skel.name) skel.numDofs
      = .ok ⟨skel.numDofs, Lp⟩)
    (h1 : s.skeletonOffset skel.name + skel.numDofs ≤ this.lossWrtTorque.size)
    (h2 : s.skeletonOffset skel.name + skel.numDofs ≤ this.lossWrtPosition.size)
    (h3 : s.skeletonOffset skel.name + skel.numDofs ≤ this.lossWrtVelocity.size) :
    ∃ out, s.backpropFreeSkeleton world next skel this = .ok out := by
  obtain ⟨vT, hT⟩ := UninitVectorXd.setSegment_ok this.lossWrtTorque
    (s.skeletonOffset skel.name) skel.numDofs
    (s.mTimeStep • (skel.invMassMatrix world.state).mulVec L) h1
  obtain ⟨vP, hP⟩ := UninitVectorXd.setSegment_ok this.lossWrtPosition
    (s.skeletonOffset skel.name) skel.numDofs
    (Lp - (skel.posCJacobian world.state).transpose.mulVec
      (s.mTimeStep • (skel.invMassMatrix world.state).mulVec L)) h2
  obtain ⟨vV, hV⟩ := UninitVectorXd.setSegment_ok this.lossWrtVelocity
    (s.skeletonOffset skel.name) skel.numDofs
    (L - (skel.velCJacobian world.state).transpose.mulVec
        (s.mTimeStep • (skel.invMassMatrix world.state).mulVec L)
      + s.mTimeStep • (Lp - (skel.posCJacobian world.state).transpose.mulVec
        (s.mTimeStep • (skel.invMassMatrix world.state).mulVec L))) h3
  refine ⟨⟨vP, vV, vT⟩, ?_⟩
  unfold backpropFreeSkeleton
  simp only [hv, Result.ok_bind, Skeleton.multiplyByImplicitInvMassMatrix,
    Skeleton.getInvMassMatrix, MatrixXd.mulVec_mk, VectorXd.vsmul_ok, VectorXd.vsmul_mk, hT, hp,
    UninitVectorXd.segment_setSegment hT, Skeleton.getPosCJacobian, MatrixXd.transpose_mk,
    MatrixXd.mulVecExpr_ok, VectorXd.ok_vsub_ok, VectorXd.vsub_mk, hP,
    UninitVectorXd.segment_setSegment hP, Skeleton.getVelCJacobian, VectorXd.ok_vadd_ok,
    VectorXd.vadd_mk, hV, Result.pure_eq]

theorem backprop_single_free_body_aux (world0 world : World) (preP preV preT : VectorXd)
    (s : BackpropSnapshot) (skel : Skeleton) (m : ℚ) (this next : LossGradient)
    (L Lp : Fin skel.numDofs → ℚ)
    (hs : s = create world0 preP preV preT)
    (hw0 : world0.skeletons = [skel]) (hw : world.skeletons = [skel])
    (hfree : skel.gradientConstraintMatrices = none) (hmobile : skel.mobile = true)
    (hMinv : ∀ st, skel.invMassMatrix st = (1 / m) • (1 : Matrix _ _ ℚ))
    (hposC : ∀ st, skel.posCJacobian st = 0)
    (hv : next.lossWrtVelocity.read = .ok ⟨skel.numDofs, L⟩)
    (hp : next.lossWrtPosition.read = .ok ⟨skel.numDofs, Lp⟩) :
    ∃ out : LossGradient, s.backprop world this next = .ok (out, world)
      ∧ out.lossWrtTorque.read = .ok ⟨skel.numDofs, (s.mTimeStep / m) • L⟩
      ∧ out.lossWrtPosition.read = .ok ⟨skel.numDofs, Lp⟩ := by
  have hgm : s.mGradientMatrices = [] := by
    rw [hs]; unfold create; rw [hw0]
    simp [constructorStep, hfree]
  have hnd : s.mNumDOFs = skel.numDofs := by
    rw [hs, create_mNumDOFs, hw0]; simp
  have hoff : s.skeletonOffset skel.name = 0 := by
    rw [hs]; unfold create; rw [hw0]
    simp [constructorStep, hfree, skeletonOffset]
  have hsize : ∀ {v : UninitVectorXd} {x : VectorXd}, v.read = .ok x → v.size = x.size := by
    intro v x h
    unfold UninitVectorXd.read at h
    obtain ⟨f, rfl, -⟩ := UninitVectorXd.segment_eq_ok h
    rfl
  have hv' : next.lossWrtVelocity.segment (s.skeletonOffset skel.name) skel.numDofs
      = .ok ⟨skel.numDofs, L⟩ := by
    rw [hoff]
    have := hsize hv
    simp only at this
    rw [← hv, UninitVectorXd.read, this]
  have hp' : next.lossWrtPosition.segment (s.skeletonOffset skel.name) skel.numDofs
      = .ok ⟨skel.numDofs, Lp⟩ := by
    rw [hoff]
    have := hsize hp
    simp only at this
    rw [← hp, UninitVectorXd.read, this]
  obtain ⟨out, hout⟩ := backpropFreeSkeleton_ok s (s.atPreStep world) next
    ⟨UninitVectorXd.alloc s.mNumDOFs, UninitVectorXd.alloc s.mNumDOFs,
      UninitVectorXd.alloc s.mNumDOFs⟩ skel L Lp hv' hp'
    (by rw [hoff, hnd]; simp [UninitVectorXd.alloc])
    (by rw [hoff, hnd]; simp [UninitVectorXd.alloc])
    (by rw [hoff, hnd]; simp [UninitVectorXd.alloc])
  obtain ⟨nextVel, nextPos, hnv, hnp, hT, hP, -⟩ := backpropFreeSkeleton_eq_ok hout
  have e1 : nextVel = L := by
    have := hnv.symm.trans hv'
    simpa using this
  have e2 : nextPos = Lp := by
    have := hnp.symm.trans hp'
    simpa using this
  subst e1 e2
  refine ⟨out, ?_, ?_, ?_⟩
  · have hrun := backprop_eq_passes_aux s world this next
    rw [hrun]
    unfold backpropPasses
    simp only [hgm, backpropGroups, Result.ok_bind]
    rw [show (s.atPreStep world).skeletons = [skel] from hw]
    simp only [backpropFreeSkeletons, List.contains_nil, Bool.not_false, hmobile, Bool.and_self,
      if_true, hout, Result.ok_bind]
    rfl
  · rw [hoff] at hT
    have := UninitVectorXd.read_setSegment_full (by simp [UninitVectorXd.alloc, hnd]) hT
    rw [this, hMinv]
    simp only [Matrix.smul_mulVec_assoc, Matrix.one_mulVec, smul_smul, one_mul, mul_one_div]
  · rw [hoff] at hP
    have := UninitVectorXd.read_setSegment_full (by simp [UninitVectorXd.alloc, hnd]) hP
    rw [this, hposC]
    simp

end BackpropSnapshot

namespace Scenario

theorem unitLoss_velocity : unitLoss.lossWrtVelocity.read = .ok ⟨3, ![4, 5, 6]⟩ := by
  simp only [UninitVectorXd.read, UninitVectorXd.segment, unitLoss, UninitVectorXd.ofVector]
  simp [UninitVectorXd.assignedOn]

theorem unitLoss_position : unitLoss.lossWrtPosition.read = .ok ⟨3, ![1, 2, 3]⟩ := by
  simp only [UninitVectorXd.read, UninitVectorXd.segment, unitLoss, UninitVectorXd.ofVector]
  simp [UninitVectorXd.assignedOn]

end Scenario

namespace BackpropSnapshot

/-- C20: for a world of one mobile body that belongs to no constraint group, with inverse mass
matrix `(1/m) * I` and zero position-Coriolis Jacobian, and a snapshot built by the constructor,
`backprop` of a next-step loss with velocity part `L` and position part `Lp` returns, leaves the
world as it was, and yields the torque loss `(dt/m) * L` and the position loss `Lp`. -/
theorem backprop_single_free_body (world0 world : World) (preP preV preT : VectorXd)
    (s : BackpropSnapshot) (skel : Skeleton) (m : ℚ) (this next : LossGradient)
    (L Lp : Fin skel.numDofs → ℚ)
    (hs : s = create world0 preP preV preT)
    (hw0 : world0.skeletons = [skel]) (hw : world.skeletons = [skel])
    (hfree : skel.gradientConstraintMatrices = none) (hmobile : skel.mobile = true)
    (hMinv : ∀ st, skel.invMassMatrix st = (1 / m) • (1 : Matrix _ _ ℚ))
    (hposC : ∀ st, skel.posCJacobian st = 0)
    (hv : next.lossWrtVelocity.read = .ok ⟨skel.numDofs, L⟩)
    (hp : next.lossWrtPosition.read = .ok ⟨skel.numDofs, Lp⟩) :
    ∃ out : LossGradient, s.backprop world this next = .ok (out, world)
      ∧ out.lossWrtTorque.read = .ok ⟨skel.numDofs, (s.mTimeStep / m) • L⟩
      ∧ out.lossWrtPosition.read = .ok ⟨skel.numDofs, Lp⟩ :=
  backprop_single_free_body_aux world0 world preP preV preT s skel m this next L Lp hs hw0 hw
    hfree hmobile hMinv hposC hv hp

/-- C20 witness: the free body of mass 2 with timestep 1/100, next-step velocity loss `(4, 5, 6)`
and position loss `(1, 2, 3)`. -/
theorem backprop_single_free_body_witness :
    ∃ out : LossGradient,
      (Scenario.freeBodySnapshot 2 10 (1 / 100)).backprop (Scenario.freeBodyWorld 2 10 (1 / 100))
          Scenario.unitLoss Scenario.unitLoss
        = .ok (out, Scenario.freeBodyWorld 2 10 (1 / 100))
      ∧ out.lossWrtTorque.read = .ok ⟨3, ((1 / 100 : ℚ) / 2) • ![4, 5, 6]⟩
      ∧ out.lossWrtPosition.read = .ok ⟨3, ![1, 2, 3]⟩ :=
  backprop_single_free_body (Scenario.freeBodyWorld 2 10 (1 / 100))
    (Scenario.freeBodyWorld 2 10 (1 / 100)) (VectorXd.Zero 3) (VectorXd.Zero 3) (VectorXd.Zero 3)
    (Scenario.freeBodySnapshot 2 10 (1 / 100)) (Scenario.bodySkeleton 2 true) 2
    Scenario.unitLoss Scenario.unitLoss ![4, 5, 6] ![1, 2, 3] rfl rfl rfl rfl rfl
    (fun _ => rfl) (fun _ => rfl) Scenario.unitLoss_velocity Scenario.unitLoss_position

end BackpropSnapshot

/-! ## The loops of `getPosPosJacobian` in closed form -/

namespace VectorXd

theorem vget_mk {n : Nat} (f : Fin n → ℚ) (i : Fin n) : (VectorXd.mk n f).get i.val = some (f i) := by
  simp [get]

theorem vget_of_lt (v : VectorXd) {i : Nat} (h : i < v.size) :
    v.get i = some (v.coeff ⟨i, h⟩) := by
  simp [get, h]

/-- A vector is determined by its size and its coefficients. -/
theorem eq_mk_of_vget {v : VectorXd} {n : Nat} (f : Fin n → ℚ) (hn : v.size = n)
    (h : ∀ i : Fin n, v.get i.val = some (f i)) : v = ⟨n, f⟩ := by
  obtain ⟨n', coeff⟩ := v
  simp only at hn
  subst hn
  congr 1
  funext i
  have := h i
  rw [vget_mk] at this
  exact Option.some.inj this

theorem setAt_get {v w : VectorXd} {i : Nat} {x : ℚ} (h : v.setAt i x = .ok w) :
    w.size = v.size ∧ w.get i = some x ∧ ∀ k, k ≠ i → w.get k = v.get k := by
  unfold setAt at h
  split at h
  · rename_i hi
    cases h
    refine ⟨rfl, ?_, fun k hk => ?_⟩
    · simp [get, hi]
    · by_cases hlt : k < v.size
      · simp [get, hlt, hk]
      · simp [get, hlt]
  · cases h

theorem setAt_ok (v : VectorXd) {i : Nat} (x : ℚ) (h : i < v.size) :
    ∃ w, v.setAt i x = .ok w := by
  unfold setAt
  rw [if_pos h]
  exact ⟨_, rfl⟩

theorem segment_mk {N : Nat} (q : Fin N → ℚ) (start n : Nat) (h : start + n ≤ N) :
    (VectorXd.mk N q).segment start n
      = .ok ⟨n, fun k => q ⟨start + k.val, by have := k.isLt; omega⟩⟩ := by
  unfold segment
  rw [dif_pos h]

theorem coeffAt_mk {n : Nat} (f : Fin n → ℚ) (i : Fin n) :
    (VectorXd.mk n f).coeffAt i.val = .ok (f i) := by
  simp [coeffAt]

end VectorXd

namespace MatrixXd

theorem col_mk {n m : Nat} (A : Matrix (Fin n) (Fin m) ℚ) (i : Fin m) :
    (MatrixXd.mk n m A).col i.val = .ok ⟨n, fun r => A r i⟩ := by
  simp [col]

theorem setCol_get {J K : MatrixXd} {i n : Nat} {f : Fin n → ℚ}
    (h : J.setCol i ⟨n, f⟩ = .ok K) :
    K.rows = J.rows ∧ K.cols = J.cols
      ∧ (∀ r : Fin n, K.get r.val i = some (f r))
      ∧ (∀ r c, c ≠ i → K.get r c = J.get r c) := by
  unfold setCol at h
  split at h
  · rename_i hb
    cases h
    refine ⟨rfl, rfl, fun r => ?_, fun r c hc => ?_⟩
    · have hr : r.val < J.rows := by rw [← hb.1]; exact r.isLt
      simp only [get, hr, hb.2, and_self, dite_true, if_true]
      rfl
    · by_cases hlt : r < J.rows ∧ c < J.cols
      · simp only [get, hlt, and_self, dite_true, hc, if_false]
      · simp only [get, hlt, dite_false]
  · cases h

theorem setCol_ok (J : MatrixXd) {i n : Nat} (f : Fin n → ℚ) (hn : n = J.rows)
    (hi : i < J.cols) : ∃ K, J.setCol i ⟨n, f⟩ = .ok K := by
  unfold setCol
  rw [dif_pos ⟨hn, hi⟩]
  exact ⟨_, rfl⟩

end MatrixXd

namespace BackpropSnapshot

/-- The loop that recovers `X` from `q`, over the columns `start, …, start + len - 1`. -/
theorem recoverColumns_get (n : Nat) (q : Fin (n * n) → ℚ) :
    ∀ (len start : Nat) (X : MatrixXd), X.rows = n → start + len ≤ X.cols → start + len ≤ n →
      ∃ K, recoverColumns n ⟨n * n, q⟩ (List.range' start len) X = .ok K
        ∧ K.rows = X.rows ∧ K.cols = X.cols
        ∧ (∀ (i k : Fin n), start ≤ i.val → i.val < start + len →
            K.get k.val i.val = some (q (finProdFinEquiv (i, k))))
        ∧ (∀ r c, ¬ (start ≤ c ∧ c < start + len) → K.get r c = X.get r c) := by
  intro len
  induction len with
  | zero =>
    intro start X _ _ _
    refine ⟨X, rfl, rfl, rfl, ?_, fun r c _ => rfl⟩
    intro i k h1 h2
    omega
  | succ len ih =>
    intro start X hr hc hn
    have hstart : start < n := by omega
    have hseg : start * n + n ≤ n * n := by
      have h1 : (start + 1) * n ≤ n * n := Nat.mul_le_mul_right n (by omega)
      rw [Nat.add_mul, Nat.one_mul] at h1
      exact h1
    obtain ⟨X1, hX1⟩ := MatrixXd.setCol_ok X
      (fun k : Fin n => q ⟨start * n + k.val, by have := k.isLt; omega⟩) hr.symm
      (show start < X.cols by omega)
    obtain ⟨h1r, h1c, hval, hframe⟩ := MatrixXd.setCol_get hX1
    obtain ⟨K, hK, hKr, hKc, hKval, hKframe⟩ := ih (start + 1) X1 (by rw [h1r]; exact hr)
      (by rw [h1c]; omega) (by omega)
    refine ⟨K, ?_, by rw [hKr, h1r], by rw [hKc, h1c], ?_, ?_⟩
    · rw [List.range'_succ]
      simp only [recoverColumns, VectorXd.segment_mk q (start * n) n hseg, Result.ok_bind, hX1]
      exact hK
    · intro i k h1 h2
      by_cases hi : i.val = start
      · rw [hKframe k.val i.val (by omega), hi, hval k]
        congr 2
        apply Fin.ext
        simp only [finProdFinEquiv_apply_val, hi]
        rw [Nat.mul_comm, Nat.add_comm]
      · exact hKval i k (by omega) (by omega)
    · intro r c hcr
      rw [hKframe r c (by omega), hframe r c (by omega)]

/-- The matrix `X` that `getPosPosJacobian` recovers from the vector `q`. -/
theorem recoverColumns_eq (n : Nat) (q : Fin (n * n) → ℚ) :
    recoverColumns n ⟨n * n, q⟩ (List.range n) (MatrixXd.Zero n n) = .ok ⟨n, n, unvec q⟩ := by
  obtain ⟨K, hK, hKr, hKc, hval, -⟩ := recoverColumns_get n q n 0 (MatrixXd.Zero n n) rfl
    (by simp [MatrixXd.Zero]) (by simp)
  rw [List.range_eq_range', hK]
  congr 1
  exact MatrixXd.eq_mk_of_get (unvec q) hKr hKc
    (fun k i => hval i k (Nat.zero_le _) (by simp))

end BackpropSnapshot

namespace BackpropSnapshot

/-- The loop that sets the diagonal entries of the vectorised identity, over the indices
`start, …, start + len - 1`. -/
theorem centerDiagonal_get (n : Nat) :
    ∀ (len start : Nat) (v : VectorXd), v.size = n * n → start + len ≤ n →
      ∃ w, centerDiagonal n (List.range' start len) v = .ok w
        ∧ w.size = v.size
        ∧ (∀ i, start ≤ i → i < start + len → w.get (i * n + i) = some 1)
        ∧ (∀ p, (∀ i, start ≤ i → i < start + len → p ≠ i * n + i) → w.get p = v.get p) := by
  intro len
  induction len with
  | zero =>
    intro start v _ _
    refine ⟨v, rfl, rfl, ?_, fun p _ => rfl⟩
    intro i h1 h2
    omega
  | succ len ih =>
    intro start v hv hn
    have hstart : start < n := by omega
    have hlt : start * n + start < n * n := by
      have h1 : (start + 1) * n ≤ n * n := Nat.mul_le_mul_right n (by omega)
      rw [Nat.add_mul, Nat.one_mul] at h1
      omega
    obtain ⟨v1, hv1⟩ := VectorXd.setAt_ok v 1 (show start * n + start < v.size by rw [hv]; exact hlt)
    obtain ⟨h1s, hval, hframe⟩ := VectorXd.setAt_get hv1
    obtain ⟨w, hw, hws, hwval, hwframe⟩ := ih (start + 1) v1 (by rw [h1s]; exact hv) (by omega)
    refine ⟨w, ?_, by rw [hws, h1s], ?_, ?_⟩
    · rw [List.range'_succ]
      simp only [centerDiagonal, hv1, Result.ok_bind]
      exact hw
    · intro i h1 h2
      by_cases hi : i = start
      · subst hi
        rw [hwframe, hval]
        intro j hj1 hj2
        have h3 : (i + 1) * n ≤ j * n := Nat.mul_le_mul_right n hj1
        rw [Nat.add_mul, Nat.one_mul] at h3
        omega
      · exact hwval i (by omega) (by omega)
    · intro p hp
      rw [hwframe p (fun i h1 h2 => hp i (by omega) (by omega)),
        hframe p (hp start (Nat.le_refl _) (by omega))]

/-- The vector `center` of `getPosPosJacobian` is the vectorised identity. -/
theorem centerDiagonal_eq (n : Nat) :
    centerDiagonal n (List.range n) (VectorXd.Zero (n * n)) = .ok ⟨n * n, vecIdentity n⟩ := by
  obtain ⟨w, hw, hws, hval, hframe⟩ := centerDiagonal_get n n 0 (VectorXd.Zero (n * n)) rfl
    (by simp)
  rw [List.range_eq_range', hw]
  congr 1
  refine VectorXd.eq_mk_of_vget (vecIdentity n) hws (fun p => ?_)
  have hn : 0 < n := by
    rcases Nat.eq_zero_or_pos n with h | h
    · subst h; exact absurd p.isLt (by simp)
    · exact h
  have hp : p.val / n * n + p.val % n = p.val := Nat.div_add_mod' p.val n
  have hd : p.val / n < n := Nat.div_lt_of_lt_mul p.isLt
  have hm : p.val % n < n := Nat.mod_lt _ hn
  unfold vecIdentity
  by_cases hdm : p.divNat = p.modNat
  · rw [if_pos hdm]
    have hdm' : p.val / n = p.val % n := congrArg Fin.val hdm
    have := hval (p.val / n) (Nat.zero_le _) (by omega)
    rw [← this]
    congr 1
    omega
  · rw [if_neg hdm]
    have hdm' : p.val / n ≠ p.val % n := fun h => hdm (Fin.ext h)
    rw [hframe p.val]
    · simp [VectorXd.get, VectorXd.Zero]
    · intro i _ hi heq
      rw [Nat.zero_add] at hi
      have h1 : p.val / n = i := by
        rw [heq, Nat.mul_comm, Nat.mul_add_div hn, Nat.div_eq_of_lt hi, Nat.add_zero]
      have h2 : p.val % n = i := by
        rw [heq, Nat.mul_comm, Nat.mul_add_mod, Nat.mod_eq_of_lt hi]
      exact hdm' (h1.trans h2.symm)

end BackpropSnapshot

namespace BackpropSnapshot

/-- The inner loop of the construction of `W` for one column, over the row blocks
`start, …, start + len - 1`. -/
theorem outerProductBlocks_get (n : Nat) (af : Fin n → ℚ) (i : Nat) :
    ∀ (len start : Nat) (W : MatrixXd), W.rows = n * n → i < W.cols → start + len ≤ n →
      ∃ K, outerProductBlocks n ⟨n, af⟩ i (List.range' start len) W = .ok K
        ∧ K.rows = W.rows ∧ K.cols = W.cols
        ∧ (∀ (j k : Fin n), start ≤ j.val → j.val < start + len →
            K.get (j.val * n + k.val) i = some (af j * af k))
        ∧ (∀ p c, ¬ (c = i ∧ start * n ≤ p ∧ p < (start + len) * n) →
            K.get p c = W.get p c) := by
  intro len
  induction len with
  | zero =>
    intro start W _ _ _
    refine ⟨W, rfl, rfl, rfl, ?_, fun p c _ => rfl⟩
    intro j k h1 h2
    omega
  | succ len ih =>
    intro start W hr hc hn
    have hstart : start < n := by omega
    have e1 : (start + 1) * n = start * n + n := by rw [Nat.add_mul, Nat.one_mul]
    have e2 : (start + (len + 1)) * n = (start + 1 + len) * n := by
      rw [Nat.add_comm len 1, Nat.add_assoc]
    have hfit : start * n + n ≤ n * n := by
      have h1 : (start + 1) * n ≤ n * n := Nat.mul_le_mul_right n (by omega)
      rw [e1] at h1
      exact h1
    have hset : ∃ W1, W.setBlock (start * n) i n 1
        (VectorXd.smul (af ⟨start, hstart⟩) ⟨n, af⟩).asMatrix = .ok W1 := by
      unfold MatrixXd.setBlock
      rw [dif_pos ⟨rfl, rfl, by rw [hr]; exact hfit, by omega⟩]
      exact ⟨_, rfl⟩
    obtain ⟨W1, hW1⟩ := hset
    obtain ⟨h1r, h1c, -, -, -, -, hval, hframe⟩ := MatrixXd.setBlock_get hW1
    obtain ⟨K, hK, hKr, hKc, hKval, hKframe⟩ := ih (start + 1) W1 (by rw [h1r]; exact hr)
      (by rw [h1c]; exact hc) (by omega)
    refine ⟨K, ?_, by rw [hKr, h1r], by rw [hKc, h1c], ?_, ?_⟩
    · rw [List.range'_succ]
      simp only [outerProductBlocks, VectorXd.coeffAt_mk af ⟨start, hstart⟩, Result.ok_bind, hW1]
      exact hK
    · intro j k h1 h2
      by_cases hj : j.val = start
      · have hjs : j = ⟨start, hstart⟩ := Fin.ext hj
        subst hjs
        rw [hKframe]
        · have := hval k.val 0 k.isLt Nat.zero_lt_one
          rw [show i + 0 = i from rfl] at this
          rw [this]
          simp [VectorXd.asMatrix, VectorXd.smul, MatrixXd.get]
        · intro hin
          have := k.isLt
          simp only at hin
          omega
      · exact hKval j k (by omega) (by omega)
    · intro p c hpc
      rw [hKframe p c, hframe p c]
      · intro hin
        apply hpc
        have h5 : (start + 1) * n ≤ (start + (len + 1)) * n := Nat.mul_le_mul_right n (by omega)
        omega
      · intro hin
        apply hpc
        rw [e2]
        omega

/-- The outer loop of the construction of `W`, over the columns `start, …, start + len - 1`. -/
theorem outerProductColumns_get (n m : Nat) (A : Matrix (Fin n) (Fin m) ℚ) :
    ∀ (len start : Nat) (W : MatrixXd), W.rows = n * n → W.cols = m → start + len ≤ m →
      ∃ K, outerProductColumns ⟨n, m, A⟩ (List.range' start len) W = .ok K
        ∧ K.rows = W.rows ∧ K.cols = W.cols
        ∧ (∀ (i : Fin m) (j k : Fin n), start ≤ i.val → i.val < start + len →
            K.get (j.val * n + k.val) i.val = some (A j i * A k i))
        ∧ (∀ p c, ¬ (start ≤ c ∧ c < start + len) → K.get p c = W.get p c) := by
  intro len
  induction len with
  | zero =>
    intro start W _ _ _
    refine ⟨W, rfl, rfl, rfl, ?_, fun p c _ => rfl⟩
    intro i j k h1 h2
    omega
  | succ len ih =>
    intro start W hr hc hm
    have hstart : start < m := by omega
    obtain ⟨W1, hW1, h1r, h1c, hval, hframe⟩ := outerProductBlocks_get n
      (fun r => A r ⟨start, hstart⟩) start n 0 W hr (by omega) (by omega)
    obtain ⟨K, hK, hKr, hKc, hKval, hKframe⟩ := ih (start + 1) W1 (by rw [h1r]; exact hr)
      (by rw [h1c]; exact hc) (by omega)
    refine ⟨K, ?_, by rw [hKr, h1r], by rw [hKc, h1c], ?_, ?_⟩
    · rw [List.range'_succ]
      simp only [outerProductColumns, MatrixXd.col_mk A ⟨start, hstart⟩, Result.ok_bind,
        List.range_eq_range', hW1]
      exact hK
    · intro i j k h1 h2
      by_cases hi : i.val = start
      · have his : i = ⟨start, hstart⟩ := Fin.ext hi
        subst his
        rw [hKframe _ _ (by simp)]
        exact hval j k (Nat.zero_le _) (by simp)
      · exact hKval i j k (by omega) (by omega)
    · intro p c hpc
      rw [hKframe p c (by omega), hframe p c (by omega)]

/-- The matrix `W` of `getPosPosJacobian`: its columns are the vectorised outer products of the
columns of the bouncing matrix. -/
theorem outerProductColumns_eq (n m : Nat) (A : Matrix (Fin n) (Fin m) ℚ) :
    outerProductColumns ⟨n, m, A⟩ (List.range m) (MatrixXd.Zero (n * n) m)
      = .ok ⟨n * n, m, outerProductMatrix A⟩ := by
  obtain ⟨K, hK, hKr, hKc, hval, -⟩ := outerProductColumns_get n m A m 0
    (MatrixXd.Zero (n * n) m) rfl rfl (by simp)
  rw [List.range_eq_range', hK]
  congr 1
  refine MatrixXd.eq_mk_of_get (outerProductMatrix A) hKr hKc (fun p i => ?_)
  have := hval i p.divNat p.modNat (Nat.zero_le _) (by simp)
  refine Eq.trans ?_ this
  congr 1
  exact (Nat.div_add_mod' p.val n).symm

end BackpropSnapshot

/-! ## Vectorised matrices -/

section Vectorised

variable {n m : Nat}

theorem sum_vec_eq_sum_sum (f : Fin (n * n) → ℚ) :
    ∑ p, f p = ∑ j : Fin n, ∑ k : Fin n, f (finProdFinEquiv (j, k)) := by
  rw [← Equiv.sum_comp finProdFinEquiv f, Fintype.sum_prod_type]

theorem divNat_finProdFinEquiv (j k : Fin n) : (finProdFinEquiv (j, k)).divNat = j :=
  congrArg Prod.fst (finProdFinEquiv.symm_apply_apply (j, k))

theorem modNat_finProdFinEquiv (j k : Fin n) : (finProdFinEquiv (j, k)).modNat = k :=
  congrArg Prod.snd (finProdFinEquiv.symm_apply_apply (j, k))

/-- The value `a_i^T * X * a_i` of the matrix recovered from `q` is the `i`-th coefficient of
`W^T * q`. -/
theorem constraint_value_unvec (A : Matrix (Fin n) (Fin m) ℚ) (q : Fin (n * n) → ℚ) (i : Fin m) :
    Matrix.dotProduct (fun k => A k i) ((unvec q).mulVec (fun j => A j i))
      = ((outerProductMatrix A).transpose.mulVec q) i := by
  simp only [Matrix.dotProduct, Matrix.mulVec, unvec, outerProductMatrix, Matrix.transpose_apply]
  rw [sum_vec_eq_sum_sum]
  simp only [divNat_finProdFinEquiv, modNat_finProdFinEquiv, Finset.mul_sum]
  rw [Finset.sum_comm]
  refine Finset.sum_congr rfl fun j _ => Finset.sum_congr rfl fun k _ => ?_
  ring

/-- Every matrix is recovered from its column-major vectorisation. -/
theorem unvec_vec (Y : Matrix (Fin n) (Fin n) ℚ) :
    unvec (fun p : Fin (n * n) => Y p.modNat p.divNat) = Y := by
  ext k i
  simp only [unvec, divNat_finProdFinEquiv, modNat_finProdFinEquiv]

/-- The squared Frobenius distance to the identity, on the vectorised matrix. -/
theorem frobenius_unvec (q : Fin (n * n) → ℚ) :
    ∑ k : Fin n, ∑ j : Fin n, (unvec q k j - (1 : Matrix (Fin n) (Fin n) ℚ) k j) ^ 2
      = ∑ p, (q p - vecIdentity n p) ^ 2 := by
  rw [sum_vec_eq_sum_sum, Finset.sum_comm]
  refine Finset.sum_congr rfl fun j _ => Finset.sum_congr rfl fun k _ => ?_
  simp only [unvec, vecIdentity, divNat_finProdFinEquiv, modNat_finProdFinEquiv,
    Matrix.one_apply]
  by_cases h : j = k
  · subst h; simp
  · have h' : ¬ k = j := fun e => h e.symm
    simp [h, h']

end Vectorised

/-! ## Two facts about the pseudo-inverse -/

/-- A matrix with linearly independent rows times its pseudo-inverse is the identity. -/
theorem mul_pseudoInverse_of_linearIndependent {m N : Nat} (B : Matrix (Fin m) (Fin N) ℚ)
    (P : Matrix (Fin N) (Fin m) ℚ) (hP : IsPseudoInverse B P)
    (hli : LinearIndependent ℚ (fun i : Fin m => B i)) : B * P = 1 := by
  have hinj := Matrix.vecMul_injective_iff.mpr hli
  have h0 : (B * P - 1 : Matrix (Fin m) (Fin m) ℚ) * B = 0 := by
    rw [Matrix.sub_mul, hP.1, Matrix.one_mul, sub_self]
  have h1 : (B * P - 1 : Matrix (Fin m) (Fin m) ℚ) = 0 := by
    ext i j
    have hrow : Matrix.vecMul ((B * P - 1 : Matrix (Fin m) (Fin m) ℚ) i) B
        = Matrix.vecMul 0 B := by
      rw [Matrix.zero_vecMul]
      funext c
      have := congrFun (congrFun h0 i) c
      simpa [Matrix.mul_apply, Matrix.vecMul, Matrix.dotProduct] using this
    have := hinj hrow
    exact congrFun this j
  exact sub_eq_zero.mp h1

/-- The minimum-norm solution `P * b` is orthogonal to the kernel of `B`. -/
theorem pseudoInverse_mulVec_orthogonal {m N : Nat} (B : Matrix (Fin m) (Fin N) ℚ)
    (P : Matrix (Fin N) (Fin m) ℚ) (hP : IsPseudoInverse B P) (b : Fin m → ℚ)
    (z : Fin N → ℚ) (hz : B.mulVec z = 0) : Matrix.dotProduct (P.mulVec b) z = 0 := by
  have h1 : P.mulVec b = (P * B).transpose.mulVec (P.mulVec b) := by
    rw [hP.2.2.2, Matrix.mulVec_mulVec, hP.2.1]
  rw [h1, Matrix.mulVec_transpose, ← Matrix.dotProduct_mulVec, ← Matrix.mulVec_mulVec, hz,
    Matrix.mulVec_zero, Matrix.dotProduct_zero]

/-- Among the vectors with the same image under `B`, the one that differs from the centre by
`-(P * b)` is closest to the centre. -/
theorem sum_sq_le_of_pseudoInverse {m N : Nat} (B : Matrix (Fin m) (Fin N) ℚ)
    (P : Matrix (Fin N) (Fin m) ℚ) (hP : IsPseudoInverse B P) (b : Fin m → ℚ)
    (c y : Fin N → ℚ) (hy : B.mulVec y = B.mulVec (c - P.mulVec b)) :
    ∑ p, ((c - P.mulVec b) p - c p) ^ 2 ≤ ∑ p, (y p - c p) ^ 2 := by
  have hz : B.mulVec (y - (c - P.mulVec b)) = 0 := by
    rw [Matrix.mulVec_sub, hy, sub_self]
  have horth := pseudoInverse_mulVec_orthogonal B P hP b _ hz
  have key : ∀ p, (y p - c p) ^ 2
      = ((c - P.mulVec b) p - c p) ^ 2
        + (-2) * (P.mulVec b p * (y - (c - P.mulVec b)) p)
        + ((y - (c - P.mulVec b)) p) ^ 2 := by
    intro p
    simp only [Pi.sub_apply]
    ring
  have hsum : ∑ p, (y p - c p) ^ 2
      = ∑ p, ((c - P.mulVec b) p - c p) ^ 2
        + (-2) * Matrix.dotProduct (P.mulVec b) (y - (c - P.mulVec b))
        + ∑ p, ((y - (c - P.mulVec b)) p) ^ 2 := by
    rw [Finset.sum_congr rfl fun p _ => key p, Finset.sum_add_distrib, Finset.sum_add_distrib,
      ← Finset.mul_sum]
    rfl
  rw [hsum, horth, mul_zero, add_zero]
  exact le_add_of_nonneg_right (Finset.sum_nonneg fun p _ => sq_nonneg _)

/-! ## The position-position Jacobian with bouncing constraints -/

namespace Scenario

/-- For a matrix with invertible Gram matrix `A * A^T`, `A^T * (A * A^T)^(-1)` satisfies the
Moore-Penrose conditions. -/
theorem rightInverse_isPseudoInverse {m N : Nat} (B : Matrix (Fin m) (Fin N) ℚ)
    (h : IsUnit (B * B.transpose).det) :
    IsPseudoInverse B (rightInverse.pseudoInverse m N B) := by
  have hC : (B * B.transpose).det⁻¹ • (B * B.transpose).adjugate = (B * B.transpose)⁻¹ := by
    ext i j
    simp [Matrix.inv_def, Ring.inverse_eq_inv']
  have hP : rightInverse.pseudoInverse m N B = B.transpose * (B * B.transpose)⁻¹ := by
    simp only [rightInverse, hC]
  have hsymm : ((B * B.transpose)⁻¹).transpose = (B * B.transpose)⁻¹ := by
    rw [Matrix.transpose_nonsing_inv, Matrix.transpose_mul, Matrix.transpose_transpose]
  have hBP : B * (B.transpose * (B * B.transpose)⁻¹) = 1 := by
    rw [← Matrix.mul_assoc, Matrix.mul_nonsing_inv _ h]
  rw [hP]
  refine ⟨?_, ?_, ?_, ?_⟩
  · rw [hBP, Matrix.one_mul]
  · rw [Matrix.mul_assoc, Matrix.mul_assoc, hBP, Matrix.mul_one]
  · rw [hBP, Matrix.transpose_one]
  · rw [Matrix.transpose_mul, Matrix.transpose_mul, hsymm, Matrix.transpose_transpose,
      Matrix.mul_assoc]

end Scenario

namespace BackpropSnapshot

/-- The value `getPosPosJacobian` returns when the bouncing matrix is not empty, in terms of the
bouncing matrix and the restitution diagonals. -/
theorem getPosPosJacobian_bounce_eq (cod : CompleteOrthogonalDecomposition)
    (s : BackpropSnapshot) (world : World)
    (A : Matrix (Fin s.mNumDOFs) (Fin s.mNumBouncing) ℚ) (R : Fin s.mNumBouncing → ℚ)
    (hA : s.getBouncingConstraintMatrix world = .ok ⟨_, _, A⟩)
    (hR : s.getRestitutionDiagonals = .ok ⟨_, R⟩)
    (hne : s.mNumDOFs * s.mNumBouncing ≠ 0) :
    s.getPosPosJacobian cod world
      = .ok ⟨_, _, unvec (vecIdentity s.mNumDOFs
          - (cod.pseudoInverse _ _ (outerProductMatrix A).transpose).mulVec
              (R + (outerProductMatrix A).transpose.mulVec (vecIdentity s.mNumDOFs)))⟩ := by
  unfold getPosPosJacobian
  simp only [hA, Result.ok_bind, MatrixXd.size_mk, hne, if_false, outerProductColumns_eq,
    centerDiagonal_eq, hR, MatrixXd.transpose_mk, MatrixXd.mulVec_mk, VectorXd.vadd_mk,
    CompleteOrthogonalDecomposition.solveVec, CompleteOrthogonalDecomposition.pinv,
    VectorXd.vsub_mk, recoverColumns_eq]

end BackpropSnapshot

/-- A matrix whose Gram matrix `B * B^T` is invertible has linearly independent rows. -/
theorem linearIndependent_rows_of_isUnit_gram {m N : Nat} (B : Matrix (Fin m) (Fin N) ℚ)
    (h : IsUnit (B * B.transpose).det) : LinearIndependent ℚ (fun i : Fin m => B i) := by
  rw [← Matrix.vecMul_injective_iff]
  intro x y hxy
  have hxy' : Matrix.vecMul x B = Matrix.vecMul y B := hxy
  have h2 : Matrix.vecMul x (B * B.transpose) = Matrix.vecMul y (B * B.transpose) := by
    rw [← Matrix.vecMul_vecMul, ← Matrix.vecMul_vecMul, hxy']
  exact (Matrix.vecMul_injective_iff_isUnit.mpr ((Matrix.isUnit_iff_isUnit_det _).mpr h)) h2

namespace Scenario

theorem ball_bouncing (e : ℚ) :
    (ballSnapshot e).getBouncingConstraintMatrix (ballWorld e) = .ok ⟨2, 1, !![0; 1]⟩ := by
  simp [BackpropSnapshot.getBouncingConstraintMatrix, BackpropSnapshot.assembleMatrix,
    ballSnapshot, BackpropSnapshot.create, ballWorld, ballSkeleton,
    BackpropSnapshot.constructorStep, ballGroup, BackpropSnapshot.assembleGroups,
    BackpropSnapshot.assembleGroupRows, BackpropSnapshot.groupMatrixToAssemble,
    World.getSkeleton, deref, BackpropSnapshot.skeletonOffset,
    BackpropSnapshot.numColsToAssemble]

theorem ball_restitution (e : ℚ) : (ballSnapshot e).getRestitutionDiagonals = .ok ⟨1, ![e]⟩ := rfl

theorem ball_gram :
    (outerProductMatrix (!![0; 1] : Matrix (Fin 2) (Fin 1) ℚ)).transpose
        * ((outerProductMatrix (!![0; 1] : Matrix (Fin 2) (Fin 1) ℚ)).transpose).transpose
      = 1 := by
  ext i j
  rw [Matrix.mul_apply, sum_vec_eq_sum_sum]
  simp only [outerProductMatrix, Matrix.transpose_apply, divNat_finProdFinEquiv,
    modNat_finProdFinEquiv]
  simp [Fin.sum_univ_two, Matrix.one_apply, Subsingleton.elim i j]

theorem ball_gram_isUnit :
    IsUnit ((outerProductMatrix (!![0; 1] : Matrix (Fin 2) (Fin 1) ℚ)).transpose
        * ((outerProductMatrix (!![0; 1] : Matrix (Fin 2) (Fin 1) ℚ)).transpose).transpose).det := by
  rw [ball_gram]
  simp

end Scenario

namespace BackpropSnapshot

theorem getPosPosJacobian_constraint_values_aux (cod : CompleteOrthogonalDecomposition)
    (s : BackpropSnapshot) (world : World)
    (A : Matrix (Fin s.mNumDOFs) (Fin s.mNumBouncing) ℚ) (R : Fin s.mNumBouncing → ℚ)
    (hA : s.getBouncingConstraintMatrix world = .ok ⟨_, _, A⟩)
    (hR : s.getRestitutionDiagonals = .ok ⟨_, R⟩)
    (hne : s.mNumDOFs * s.mNumBouncing ≠ 0)
    (hP : IsPseudoInverse (outerProductMatrix A).transpose
      (cod.pseudoInverse _ _ (outerProductMatrix A).transpose))
    (hli : LinearIndependent ℚ (fun i : Fin s.mNumBouncing => (outerProductMatrix A).transpose i)) :
    ∃ X : Matrix (Fin s.mNumDOFs) (Fin s.mNumDOFs) ℚ,
      s.getPosPosJacobian cod world = .ok ⟨_, _, X⟩
      ∧ ∀ i, Matrix.dotProduct (fun k => A k i) (X.mulVec (fun j => A j i)) = - R i := by
  refine ⟨_, getPosPosJacobian_bounce_eq cod s world A R hA hR hne, fun i => ?_⟩
  rw [constraint_value_unvec, Matrix.mulVec_sub, Matrix.mulVec_mulVec,
    mul_pseudoInverse_of_linearIndependent _ _ hP hli, Matrix.one_mulVec]
  simp

theorem getPosPosJacobian_closest_aux (cod : CompleteOrthogonalDecomposition)
    (s : BackpropSnapshot) (world : World)
    (A : Matrix (Fin s.mNumDOFs) (Fin s.mNumBouncing) ℚ) (R : Fin s.mNumBouncing → ℚ)
    (hA : s.getBouncingConstraintMatrix world = .ok ⟨_, _, A⟩)
    (hR : s.getRestitutionDiagonals = .ok ⟨_, R⟩)
    (hne : s.mNumDOFs * s.mNumBouncing ≠ 0)
    (hP : IsPseudoInverse (outerProductMatrix A).transpose
      (cod.pseudoInverse _ _ (outerProductMatrix A).transpose)) :
    ∃ X : Matrix (Fin s.mNumDOFs) (Fin s.mNumDOFs) ℚ,
      s.getPosPosJacobian cod world = .ok ⟨_, _, X⟩
      ∧ ∀ Y : Matrix (Fin s.mNumDOFs) (Fin s.mNumDOFs) ℚ,
          (∀ i, Matrix.dotProduct (fun k => A k i) (Y.mulVec (fun j => A j i))
            = Matrix.dotProduct (fun k => A k i) (X.mulVec (fun j => A j i))) →
          ∑ k, ∑ j, (X k j - (1 : Matrix _ _ ℚ) k j) ^ 2
            ≤ ∑ k, ∑ j, (Y k j - (1 : Matrix _ _ ℚ) k j) ^ 2 := by
  refine ⟨_, getPosPosJacobian_bounce_eq cod s world A R hA hR hne, fun Y hY => ?_⟩
  have hy : (outerProductMatrix A).transpose.mulVec (fun p => Y p.modNat p.divNat)
      = (outerProductMatrix A).transpose.mulVec (vecIdentity s.mNumDOFs
          - (cod.pseudoInverse _ _ (outerProductMatrix A).transpose).mulVec
              (R + (outerProductMatrix A).transpose.mulVec (vecIdentity s.mNumDOFs))) := by
    funext i
    rw [← constraint_value_unvec, ← constraint_value_unvec, unvec_vec]
    exact hY i
  have := sum_sq_le_of_pseudoInverse _ _ hP
    (R + (outerProductMatrix A).transpose.mulVec (vecIdentity s.mNumDOFs))
    (vecIdentity s.mNumDOFs) (fun p => Y p.modNat p.divNat) hy
  rw [frobenius_unvec]
  conv_rhs => rw [← unvec_vec Y, frobenius_unvec]
  exact this

end BackpropSnapshot

namespace Scenario

theorem ball_pseudoInverse :
    rightInverse.pseudoInverse 1 (2 * 2)
        (outerProductMatrix (!![0; 1] : Matrix (Fin 2) (Fin 1) ℚ)).transpose
      = outerProductMatrix (!![0; 1] : Matrix (Fin 2) (Fin 1) ℚ) := by
  have h := ball_gram
  simp only [Matrix.transpose_transpose] at h
  simp only [rightInverse, Matrix.transpose_transpose, h, Matrix.det_one, inv_one,
    Matrix.adjugate_one, one_smul, Matrix.mul_one]

/-- The position-position Jacobian of the bouncing ball with restitution coefficient `e`. -/
theorem ball_posPos (e : ℚ) :
    (ballSnapshot e).getPosPosJacobian rightInverse (ballWorld e)
      = .ok ⟨2, 2, !![1, 0; 0, -e]⟩ := by
  rw [BackpropSnapshot.getPosPosJacobian_bounce_eq rightInverse (ballSnapshot e) (ballWorld e)
    !![0; 1] ![e] (ball_bouncing e) (ball_restitution e) (show (2 * 1 : Nat) ≠ 0 by decide)]
  congr 2
  show unvec (vecIdentity 2
      - (rightInverse.pseudoInverse 1 (2 * 2)
          (outerProductMatrix (!![0; 1] : Matrix (Fin 2) (Fin 1) ℚ)).transpose).mulVec
          (![e] + (outerProductMatrix (!![0; 1] : Matrix (Fin 2) (Fin 1) ℚ)).transpose.mulVec
            (vecIdentity 2))) = !![1, 0; 0, -e]
  rw [ball_pseudoInverse]
  ext k i
  simp only [unvec, Pi.sub_apply, Matrix.mulVec, Matrix.dotProduct, Pi.add_apply,
    Matrix.transpose_apply, sum_vec_eq_sum_sum, outerProductMatrix, vecIdentity,
    divNat_finProdFinEquiv, modNat_finProdFinEquiv]
  fin_cases k <;> fin_cases i <;> simp [Fin.sum_univ_two]

end Scenario

namespace BackpropSnapshot

/-- C18 (amended): when the bouncing matrix `A_b` is non-empty and the vectorised outer products
`vec(a_i * a_i^T)` of its columns are linearly independent, `getPosPosJacobian` returns a matrix
`X` with `a_i^T * X * a_i` equal to the negative of the `i`-th restitution diagonal, for every
bouncing column `i`. -/
theorem getPosPosJacobian_constraint_values (cod : CompleteOrthogonalDecomposition)
    (s : BackpropSnapshot) (world : World)
    (A : Matrix (Fin s.mNumDOFs) (Fin s.mNumBouncing) ℚ) (R : Fin s.mNumBouncing → ℚ)
    (hA : s.getBouncingConstraintMatrix world = .ok ⟨_, _, A⟩)
    (hR : s.getRestitutionDiagonals = .ok ⟨_, R⟩)
    (hne : s.mNumDOFs * s.mNumBouncing ≠ 0)
    (hP : IsPseudoInverse (outerProductMatrix A).transpose
      (cod.pseudoInverse _ _ (outerProductMatrix A).transpose))
    (hli : LinearIndependent ℚ (fun i : Fin s.mNumBouncing => (outerProductMatrix A).transpose i)) :
    ∃ X : Matrix (Fin s.mNumDOFs) (Fin s.mNumDOFs) ℚ,
      s.getPosPosJacobian cod world = .ok ⟨_, _, X⟩
      ∧ ∀ i, Matrix.dotProduct (fun k => A k i) (X.mulVec (fun j => A j i)) = - R i :=
  getPosPosJacobian_constraint_values_aux cod s world A R hA hR hne hP hli

/-- C18 witness: the ball bouncing with restitution coefficient 1/3. -/
theorem getPosPosJacobian_constraint_values_witness :
    ∃ X : Matrix (Fin 2) (Fin 2) ℚ,
      (Scenario.ballSnapshot (1 / 3)).getPosPosJacobian Scenario.rightInverse
          (Scenario.ballWorld (1 / 3)) = .ok ⟨2, 2, X⟩
      ∧ ∀ i : Fin 1,
          Matrix.dotProduct (fun k => (!![0; 1] : Matrix (Fin 2) (Fin 1) ℚ) k i)
              (X.mulVec (fun j => (!![0; 1] : Matrix (Fin 2) (Fin 1) ℚ) j i))
            = - (![1 / 3] : Fin 1 → ℚ) i :=
  getPosPosJacobian_constraint_values Scenario.rightInverse (Scenario.ballSnapshot (1 / 3))
    (Scenario.ballWorld (1 / 3)) !![0; 1] ![1 / 3] (Scenario.ball_bouncing (1 / 3))
    (Scenario.ball_restitution (1 / 3)) (show (2 * 1 : Nat) ≠ 0 by decide)
    (Scenario.rightInverse_isPseudoInverse _ Scenario.ball_gram_isUnit)
    (linearIndependent_rows_of_isUnit_gram _ Scenario.ball_gram_isUnit)

/-- C18 counterexample: the ball bouncing with restitution coefficient 1/2. The bouncing matrix
has the single column `a = (0, 1)`, `vec(a * a^T)` is not zero, and the returned matrix is
`diag(1, -1/2)`: `a^T * X * a = -1/2`, not the restitution diagonal `1/2`. -/
theorem getPosPosJacobian_constraint_values_counterexample :
    (Scenario.ballSnapshot (1 / 2)).getBouncingConstraintMatrix (Scenario.ballWorld (1 / 2))
        = .ok ⟨2, 1, !![0; 1]⟩
      ∧ (Scenario.ballSnapshot (1 / 2)).getRestitutionDiagonals = .ok ⟨1, ![1 / 2]⟩
      ∧ LinearIndependent ℚ (fun i : Fin 1 =>
          (outerProductMatrix (!![0; 1] : Matrix (Fin 2) (Fin 1) ℚ)).transpose i)
      ∧ IsPseudoInverse (outerProductMatrix (!![0; 1] : Matrix (Fin 2) (Fin 1) ℚ)).transpose
          (Scenario.rightInverse.pseudoInverse 1 (2 * 2)
            (outerProductMatrix (!![0; 1] : Matrix (Fin 2) (Fin 1) ℚ)).transpose)
      ∧ (Scenario.ballSnapshot (1 / 2)).getPosPosJacobian Scenario.rightInverse
          (Scenario.ballWorld (1 / 2)) = .ok ⟨2, 2, !![1, 0; 0, -(1 / 2)]⟩
      ∧ Matrix.dotProduct ![0, 1]
          ((!![1, 0; 0, -(1 / 2)] : Matrix (Fin 2) (Fin 2) ℚ).mulVec ![0, 1]) = -(1 / 2)
      ∧ Matrix.dotProduct ![0, 1]
          ((!![1, 0; 0, -(1 / 2)] : Matrix (Fin 2) (Fin 2) ℚ).mulVec ![0, 1])
        ≠ (![1 / 2] : Fin 1 → ℚ) 0 := by
  refine ⟨Scenario.ball_bouncing _, Scenario.ball_restitution _,
    linearIndependent_rows_of_isUnit_gram _ Scenario.ball_gram_isUnit,
    Scenario.rightInverse_isPseudoInverse _ Scenario.ball_gram_isUnit,
    Scenario.ball_posPos _, ?_, ?_⟩
  · simp [Matrix.dotProduct, Matrix.mulVec, Fin.sum_univ_two]
  · simp [Matrix.dotProduct, Matrix.mulVec, Fin.sum_univ_two]
    norm_num

/-- C19: when the bouncing matrix `A_b` is non-empty, the matrix `X` returned by
`getPosPosJacobian` is at least as close to the identity, in squared Frobenius norm, as every
matrix `Y` with the same constraint values `a_i^T * Y * a_i = a_i^T * X * a_i` for all bouncing
columns `i`. -/
theorem getPosPosJacobian_closest (cod : CompleteOrthogonalDecomposition)
    (s : BackpropSnapshot) (world : World)
    (A : Matrix (Fin s.mNumDOFs) (Fin s.mNumBouncing) ℚ) (R : Fin s.mNumBouncing → ℚ)
    (hA : s.getBouncingConstraintMatrix world = .ok ⟨_, _, A⟩)
    (hR : s.getRestitutionDiagonals = .ok ⟨_, R⟩)
    (hne : s.mNumDOFs * s.mNumBouncing ≠ 0)
    (hP : IsPseudoInverse (outerProductMatrix A).transpose
      (cod.pseudoInverse _ _ (outerProductMatrix A).transpose)) :
    ∃ X : Matrix (Fin s.mNumDOFs) (Fin s.mNumDOFs) ℚ,
      s.getPosPosJacobian cod world = .ok ⟨_, _, X⟩
      ∧ ∀ Y : Matrix (Fin s.mNumDOFs) (Fin s.mNumDOFs) ℚ,
          (∀ i, Matrix.dotProduct (fun k => A k i) (Y.mulVec (fun j => A j i))
            = Matrix.dotProduct (fun k => A k i) (X.mulVec (fun j => A j i))) →
          ∑ k, ∑ j, (X k j - (1 : Matrix _ _ ℚ) k j) ^ 2
            ≤ ∑ k, ∑ j, (Y k j - (1 : Matrix _ _ ℚ) k j) ^ 2 :=
  getPosPosJacobian_closest_aux cod s world A R hA hR hne hP

/-- C19 witness: the ball bouncing with restitution coefficient 1/2. -/
theorem getPosPosJacobian_closest_witness :
    ∃ X : Matrix (Fin 2) (Fin 2) ℚ,
      (Scenario.ballSnapshot (1 / 2)).getPosPosJacobian Scenario.rightInverse
          (Scenario.ballWorld (1 / 2)) = .ok ⟨2, 2, X⟩
      ∧ ∀ Y : Matrix (Fin 2) (Fin 2) ℚ,
          (∀ i : Fin 1,
            Matrix.dotProduct (fun k => (!![0; 1] : Matrix (Fin 2) (Fin 1) ℚ) k i)
                (Y.mulVec (fun j => (!![0; 1] : Matrix (Fin 2) (Fin 1) ℚ) j i))
              = Matrix.dotProduct (fun k => (!![0; 1] : Matrix (Fin 2) (Fin 1) ℚ) k i)
                (X.mulVec (fun j => (!![0; 1] : Matrix (Fin 2) (Fin 1) ℚ) j i))) →
          ∑ k, ∑ j, (X k j - (1 : Matrix (Fin 2) (Fin 2) ℚ) k j) ^ 2
            ≤ ∑ k, ∑ j, (Y k j - (1 : Matrix (Fin 2) (Fin 2) ℚ) k j) ^ 2 :=
  getPosPosJacobian_closest Scenario.rightInverse (Scenario.ballSnapshot (1 / 2))
    (Scenario.ballWorld (1 / 2)) !![0; 1] ![1 / 2] (Scenario.ball_bouncing (1 / 2))
    (Scenario.ball_restitution (1 / 2)) (show (2 * 1 : Nat) ≠ 0 by decide)
    (Scenario.rightInverse_isPseudoInverse _ Scenario.ball_gram_isUnit)

end BackpropSnapshot

/-! ## The differentiable contact constraint: world force -/

namespace DifferentiableContactConstraint

theorem head3_setTail3_setHead3 (v : Vector6d) (a b : Vector3d) :
    ((v.setHead3 a).setTail3 b).head3 = a := by
  funext i
  have := i.isLt
  simp only [Vector6d.head3, Vector6d.setTail3, Vector6d.setHead3]
  rw [dif_neg (by omega), dif_pos (by omega)]

theorem tail3_setTail3 (v : Vector6d) (b : Vector3d) : (v.setTail3 b).tail3 = b := by
  funext i
  simp only [Vector6d.tail3, Vector6d.setTail3]
  rw [dif_pos (by omega)]
  congr 1

/-- The world force of a constraint built by the constructor from a contact constraint, in terms
of the force direction. -/
theorem getWorldForce_contact_aux (skeletons : List String) (cc : ContactConstraint) (k : Int)
    (d : Vector3d)
    (hd : (create ⟨skeletons, some cc⟩ k).getContactWorldForceDirection = .ok d) :
    ∃ F : Vector6d, (create ⟨skeletons, some cc⟩ k).getWorldForce = .ok F
      ∧ F.head3 = cc.contact.point.cross d ∧ F.tail3 = d := by
  refine ⟨_, ?_, head3_setTail3_setHead3 0 _ d, tail3_setTail3 _ d⟩
  simp only [getWorldForce, hd]
  rfl

theorem getContactWorldForceDirection_normal_aux (skeletons : List String)
    (cc : ContactConstraint) :
    (create ⟨skeletons, some cc⟩ 0).getContactWorldForceDirection = .ok cc.contact.normal := rfl

theorem getContactWorldForceDirection_tangent_aux (skeletons : List String)
    (cc : ContactConstraint) (j : Fin 2) :
    (create ⟨skeletons, some cc⟩ (j.val + 1)).getContactWorldForceDirection
      = .ok (fun i => cc.getTangentBasisMatrixODE cc.contact.normal i j) := by
  have h0 : ((j.val : Int) + 1 = 0) = False := by
    simp only [eq_iff_iff, iff_false]; omega
  have h1 : (0 ≤ (j.val : Int) + 1 - 1 ∧ (j.val : Int) + 1 - 1 < 2) := by
    have := j.isLt
    constructor <;> omega
  simp only [getContactWorldForceDirection, create, ConstraintBase.isContactConstraint,
    Option.isSome_some, Bool.not_true, Bool.false_eq_true, if_false, if_true, h0, deref,
    Result.ok_bind, Option.map_some', tangentColumn, dif_pos h1]
  congr 1
  funext i
  congr 1
  apply Fin.ext
  simp

theorem getWorldForce_noncontact_aux (skeletons : List String) (k : Int) :
    (create ⟨skeletons, none⟩ k).getWorldForce = .ok 0 := by
  have : (create ⟨skeletons, none⟩ k).getWorldForce
      = .ok (((0 : Vector6d).setHead3 ((0 : Vector3d).cross 0)).setTail3 0) := rfl
  rw [this]
  congr 1
  funext i
  simp only [Vector6d.setTail3, Vector6d.setHead3, Vector3d.cross]
  split
  · rfl
  · split
    · rename_i h1 h2
      have h3 : (⟨i.val, h2⟩ : Fin 3) = 0 ∨ (⟨i.val, h2⟩ : Fin 3) = 1
          ∨ (⟨i.val, h2⟩ : Fin 3) = 2 := by
        have : i.val = 0 ∨ i.val = 1 ∨ i.val = 2 := by omega
        rcases this with h | h | h
        · left; exact Fin.ext h
        · right; left; exact Fin.ext h
        · right; right; exact Fin.ext h
      rcases h3 with h | h | h <;> rw [h] <;> simp
    · rfl

/-- C26: for a constraint built by the constructor from a contact constraint with contact point
`p` and normal `n`, `getWorldForce` returns the 6-vector whose head (torque) is `p × d` and whose
tail (force) is `d`, where `d = n` for the dimension index 0 and `d` is column `k - 1` of the
tangent basis of `n` for the dimension indices `k = 1, 2`; for a constraint that is not a contact
constraint it returns the zero 6-vector, whatever the index. -/
theorem getWorldForce_eq (skeletons : List String) (cc : ContactConstraint) :
    (∃ F : Vector6d, (create ⟨skeletons, some cc⟩ 0).getWorldForce = .ok F
      ∧ F.head3 = cc.contact.point.cross cc.contact.normal ∧ F.tail3 = cc.contact.normal)
    ∧ (∀ j : Fin 2, ∃ F : Vector6d,
        (create ⟨skeletons, some cc⟩ (j.val + 1)).getWorldForce = .ok F
        ∧ F.head3 = cc.contact.point.cross
            (fun i => cc.getTangentBasisMatrixODE cc.contact.normal i j)
        ∧ F.tail3 = fun i => cc.getTangentBasisMatrixODE cc.contact.normal i j)
    ∧ ∀ k : Int, (create ⟨skeletons, none⟩ k).getWorldForce = .ok 0 :=
  ⟨getWorldForce_contact_aux skeletons cc 0 _
      (getContactWorldForceDirection_normal_aux skeletons cc),
    fun j => getWorldForce_contact_aux skeletons cc _ _
      (getContactWorldForceDirection_tangent_aux skeletons cc j),
    getWorldForce_noncontact_aux skeletons⟩

end DifferentiableContactConstraint

/-! ## The differentiable contact constraint: constraint forces -/

namespace UninitVectorXd

theorem setCoeff_eq_ok {v v' : UninitVectorXd} {i : Nat} {x : ℚ}
    (h : v.setCoeff i x = .ok v') :
    v'.size = v.size ∧ i < v.size ∧ v'.get i = some x ∧ ∀ p, p ≠ i → v'.get p = v.get p := by
  unfold setCoeff at h
  split at h
  · rename_i hi
    simp only [Except.ok.injEq] at h
    subst h
    refine ⟨rfl, hi, ?_, fun p hp => ?_⟩
    · simp [get, hi]
    · simp only [get]
      split
      · simp [hp]
      · rfl
  · cases h

theorem setCoeff_ok (v : UninitVectorXd) {i : Nat} (x : ℚ) (h : i < v.size) :
    ∃ v', v.setCoeff i x = .ok v' := by
  unfold setCoeff
  rw [if_pos h]
  exact ⟨_, rfl⟩

end UninitVectorXd

namespace DifferentiableContactConstraint

/-- A constraint built by the constructor always has a force multiple: the contact constraint is
only dereferenced when it was set. -/
theorem getForceMultiple_create_aux (constraint : ConstraintBase) (k : Int)
    (dof : dynamics.DegreeOfFreedom) :
    ∃ x : ℚ, (create constraint k).getForceMultiple dof = .ok x := by
  obtain ⟨skeletons, cc⟩ := constraint
  cases cc with
  | none => exact ⟨1, rfl⟩
  | some cc =>
    simp only [getForceMultiple, create, ConstraintBase.isContactConstraint, Option.isSome_some,
      Bool.not_true, Bool.false_eq_true, if_false, if_true, deref, Result.ok_bind]
    split
    · split <;> exact ⟨_, rfl⟩
    · split
      · split <;> exact ⟨_, rfl⟩
      · exact ⟨_, rfl⟩

/-- What the loop over the degrees of freedom writes: entry `i + j` for the `j`-th degree of
freedom of the list, nothing below `i`. -/
theorem constraintForcesLoop_eq (c : DifferentiableContactConstraint) (m : MathGeometry)
    (F : Vector6d) (hm : ∀ dof, ∃ x : ℚ, c.getForceMultiple dof = .ok x) :
    ∀ (dofs : List dynamics.DegreeOfFreedom) (i : Nat) (taus : UninitVectorXd),
      i + dofs.length ≤ taus.size →
      ∃ out, constraintForcesLoop c m F dofs i taus = .ok out ∧ out.size = taus.size
        ∧ (∀ p, p < i → out.get p = taus.get p)
        ∧ ∀ (j : Nat) (hj : j < dofs.length), ∃ multiple : ℚ,
            c.getForceMultiple (dofs.get ⟨j, hj⟩) = .ok multiple
            ∧ out.get (i + j)
              = some ((getWorldScrewAxis m (dofs.get ⟨j, hj⟩)).dot F * multiple) := by
  intro dofs
  induction dofs with
  | nil =>
    intro i taus _
    exact ⟨taus, rfl, rfl, fun _ _ => rfl, fun j hj => absurd hj (Nat.not_lt_zero j)⟩
  | cons dof rest ih =>
    intro i taus hsize
    simp only [List.length_cons] at hsize
    obtain ⟨x, hx⟩ := hm dof
    have hval : ∃ taus1, (if x = 0 then taus.setCoeff i 0
        else taus.setCoeff i ((getWorldScrewAxis m dof).dot F * x)) = .ok taus1
        ∧ taus1.size = taus.size ∧ taus1.get i = some ((getWorldScrewAxis m dof).dot F * x)
        ∧ ∀ p, p ≠ i → taus1.get p = taus.get p := by
      by_cases h0 : x = 0
      · obtain ⟨t1, ht1⟩ := taus.setCoeff_ok 0 (show i < taus.size by omega)
        have := UninitVectorXd.setCoeff_eq_ok ht1
        refine ⟨t1, by rw [if_pos h0]; exact ht1, this.1, ?_, this.2.2.2⟩
        rw [this.2.2.1, h0, mul_zero]
      · obtain ⟨t1, ht1⟩ := taus.setCoeff_ok ((getWorldScrewAxis m dof).dot F * x)
          (show i < taus.size by omega)
        have := UninitVectorXd.setCoeff_eq_ok ht1
        exact ⟨t1, by rw [if_neg h0]; exact ht1, this.1, this.2.2.1, this.2.2.2⟩
    obtain ⟨taus1, h1, hs1, hg1, hf1⟩ := hval
    obtain ⟨out, hout, hos, hframe, hvals⟩ := ih (i + 1) taus1 (by rw [hs1]; omega)
    refine ⟨out, ?_, hos.trans hs1, fun p hp => ?_, fun j hj => ?_⟩
    · simp only [constraintForcesLoop, hx, Result.ok_bind]
      rw [h1]
      exact hout
    · rw [hframe p (by omega), hf1 p (by omega)]
    · cases j with
      | zero =>
        refine ⟨x, hx, ?_⟩
        rw [Nat.add_zero, hframe i (by omega), hg1]
        rfl
      | succ j =>
        obtain ⟨mult, hmult, hget⟩ := hvals j (by simpa using hj)
        refine ⟨mult, hmult, ?_⟩
        rw [show i + (j + 1) = i + 1 + j by omega]
        exact hget

theorem getConstraintForces_aux (constraint : ConstraintBase) (k : Int) (m : MathGeometry)
    (skel : dynamics.Skeleton) :
    (skel.name ∉ constraint.skeletons →
      (create constraint k).getConstraintForces m skel
        = .ok (UninitVectorXd.ofVector (VectorXd.Zero skel.dofs.length)))
    ∧ (skel.name ∈ constraint.skeletons →
      ∀ F : Vector6d, (create constraint k).getWorldForce = .ok F →
        ∃ taus : UninitVectorXd, (create constraint k).getConstraintForces m skel = .ok taus
          ∧ taus.size = skel.dofs.length
          ∧ ∀ (i : Nat) (hi : i < skel.dofs.length), ∃ multiple : ℚ,
              (create constraint k).getForceMultiple (skel.dofs.get ⟨i, hi⟩) = .ok multiple
              ∧ taus.get i
                = some ((getWorldScrewAxis m (skel.dofs.get ⟨i, hi⟩)).dot F * multiple)) := by
  constructor
  · intro h
    have h' : skel.name ∉ (create constraint k).mSkeletons := h
    simp only [getConstraintForces, h', not_false_eq_true, if_true]
  · intro h F hF
    have h' : skel.name ∈ (create constraint k).mSkeletons := h
    obtain ⟨out, hout, hsize, -, hvals⟩ :=
      constraintForcesLoop_eq (create constraint k) m F
        (getForceMultiple_create_aux constraint k) skel.dofs 0
        (UninitVectorXd.alloc skel.dofs.length) (by simp [UninitVectorXd.alloc])
    refine ⟨out, ?_, hsize, fun i hi => ?_⟩
    · simp only [getConstraintForces, h', not_true_eq_false, if_false, hF, Result.ok_bind]
      exact hout
    · obtain ⟨mult, hmult, hget⟩ := hvals i hi
      exact ⟨mult, hmult, by simpa using hget⟩

/-- C27: for a constraint built by the constructor and every skeleton, `getConstraintForces(skel)`
returns the zero vector with one entry per DOF of the skeleton when the name of the skeleton is not
among the skeletons of the constraint; otherwise, with `F` the world force of the constraint, it
returns a vector with one entry per DOF of the skeleton whose `i`-th entry is
`(worldScrewAxis(dof_i) · F) * forceMultiple(dof_i)`. -/
theorem getConstraintForces_eq (constraint : ConstraintBase) (k : Int) (m : MathGeometry)
    (skel : dynamics.Skeleton) :
    (skel.name ∉ constraint.skeletons →
      (create constraint k).getConstraintForces m skel
        = .ok (UninitVectorXd.ofVector (VectorXd.Zero skel.dofs.length)))
    ∧ (skel.name ∈ constraint.skeletons →
      ∀ F : Vector6d, (create constraint k).getWorldForce = .ok F →
        ∃ taus : UninitVectorXd, (create constraint k).getConstraintForces m skel = .ok taus
          ∧ taus.size = skel.dofs.length
          ∧ ∀ (i : Nat) (hi : i < skel.dofs.length), ∃ multiple : ℚ,
              (create constraint k).getForceMultiple (skel.dofs.get ⟨i, hi⟩) = .ok multiple
              ∧ taus.get i
                = some ((getWorldScrewAxis m (skel.dofs.get ⟨i, hi⟩)).dot F * multiple)) :=
  getConstraintForces_aux constraint k m skel

end DifferentiableContactConstraint

namespace DifferentiableContactConstraint

/-- C27, witness: the contact of the arm with the ground in its normal dimension. The bystander
skeleton gets two zeros; the arm gets one entry per hinge, computed from the world force
`(p × n, n)` with `p = (1, 2, 3)` and `n = (0, 1, 0)`. -/
theorem getConstraintForces_eq_witness :
    (create (Scenario.groundConstraint .VERTEX_FACE) 0).getConstraintForces Scenario.geometry
        Scenario.bystanderSkeleton
      = .ok (UninitVectorXd.ofVector (VectorXd.Zero Scenario.bystanderSkeleton.dofs.length))
    ∧ ∃ taus : UninitVectorXd,
        (create (Scenario.groundConstraint .VERTEX_FACE) 0).getConstraintForces Scenario.geometry
          Scenario.armSkeleton = .ok taus
        ∧ taus.size = Scenario.armSkeleton.dofs.length
        ∧ ∀ (i : Nat) (hi : i < Scenario.armSkeleton.dofs.length), ∃ multiple : ℚ,
            (create (Scenario.groundConstraint .VERTEX_FACE) 0).getForceMultiple
              (Scenario.armSkeleton.dofs.get ⟨i, hi⟩) = .ok multiple
            ∧ taus.get i
              = some ((getWorldScrewAxis Scenario.geometry
                  (Scenario.armSkeleton.dofs.get ⟨i, hi⟩)).dot
                  (((0 : Vector6d).setHead3
                    (Vector3d.cross ![1, 2, 3] ![0, 1, 0])).setTail3 ![0, 1, 0])
                  * multiple) :=
  ⟨(getConstraintForces_eq (Scenario.groundConstraint .VERTEX_FACE) 0 Scenario.geometry
      Scenario.bystanderSkeleton).1 (by decide),
    (getConstraintForces_eq (Scenario.groundConstraint .VERTEX_FACE) 0 Scenario.geometry
      Scenario.armSkeleton).2 (by decide) _ rfl⟩

/-! ## The differentiable contact constraint: the force multiple -/

/-- When the two bodies of the contact lie in skeletons of different names, the force multiple is
`+1` for a DOF of the skeleton and tree of body A whose child body has at most the index of body
A, `-1` for a DOF of the skeleton and tree of body B whose child body has at most the index of
body B, and `0` otherwise. -/
theorem getForceMultiple_distinct_skeletons (skeletons : List String) (cc : ContactConstraint)
    (k : Int) (dof : dynamics.DegreeOfFreedom)
    (hAB : cc.bodyNodeA.skeletonName ≠ cc.bodyNodeB.skeletonName) :
    (create ⟨skeletons, some cc⟩ k).getForceMultiple dof
      = .ok (if dof.skeletonName = cc.bodyNodeA.skeletonName
              ∧ cc.bodyNodeA.treeIndex = dof.treeIndex
              ∧ dof.childBodyNode.indexInTree ≤ cc.bodyNodeA.indexInTree then 1
            else if dof.skeletonName = cc.bodyNodeB.skeletonName
              ∧ cc.bodyNodeB.treeIndex = dof.treeIndex
              ∧ dof.childBodyNode.indexInTree ≤ cc.bodyNodeB.indexInTree then -1
            else 0) := by
  simp only [getForceMultiple, create, ConstraintBase.isContactConstraint, Option.isSome_some,
    Bool.not_true, Bool.false_eq_true, if_false, if_true, deref, Result.ok_bind, ge_iff_le]
  split_ifs <;> first | rfl | (exfalso; simp_all)

/-- C28: evaluation at the failing input. In the self-contact of the skeleton `"arm"` (body A is
body 1 and body B is body 3 of tree 0), the hinge whose child is body 2 lies in the skeleton and
tree of body B, its child index 2 is at most the index 3 of body B, and the `+1` case does not
apply because 2 exceeds the index 1 of body A: the claimed multiple is `-1`, and
`getForceMultiple` returns `0`. -/
theorem getForceMultiple_self_contact :
    (Scenario.hingeDof "arm" 0 2).skeletonName = Scenario.selfContact.bodyNodeB.skeletonName
    ∧ Scenario.selfContact.bodyNodeB.treeIndex = (Scenario.hingeDof "arm" 0 2).treeIndex
    ∧ (Scenario.hingeDof "arm" 0 2).childBodyNode.indexInTree
        ≤ Scenario.selfContact.bodyNodeB.indexInTree
    ∧ ¬ ((Scenario.hingeDof "arm" 0 2).childBodyNode.indexInTree
        ≤ Scenario.selfContact.bodyNodeA.indexInTree)
    ∧ Scenario.selfConstraint.isContactConstraint = true
    ∧ (create Scenario.selfConstraint 0).getForceMultiple (Scenario.hingeDof "arm" 0 2)
        = .ok 0 := by
  refine ⟨rfl, rfl, by decide, by decide, rfl, ?_⟩
  simp [getForceMultiple, create, ConstraintBase.isContactConstraint, Scenario.selfConstraint,
    Scenario.selfContact, Scenario.hingeDof, Scenario.bodyNode, deref]

/-! ## The differentiable contact constraint: gradients by skeleton contact type -/

theorem getSkeletonContactType_create_aux (skeletons : List String) (cc : ContactConstraint)
    (k : Int) (name : String) :
    (create ⟨skeletons, some cc⟩ k).getSkeletonContactType name
      = .ok (if name = cc.bodyNodeA.skeletonName then
              (match cc.contact.type with
                | .FACE_VERTEX => .FACE
                | .VERTEX_FACE => .VERTEX
                | .EDGE_EDGE => .EDGE
                | .UNSUPPORTED => .UNSUPPORTED)
            else if name = cc.bodyNodeB.skeletonName then
              (match cc.contact.type with
                | .FACE_VERTEX => .VERTEX
                | .VERTEX_FACE => .FACE
                | .EDGE_EDGE => .EDGE
                | .UNSUPPORTED => .UNSUPPORTED)
            else .NONE) := by
  simp only [getSkeletonContactType, getContactType, create, ConstraintBase.isContactConstraint,
    Option.isSome_some, Bool.not_true, Bool.false_eq_true, if_false, if_true, deref,
    Result.ok_bind, Option.map_some', Result.map_ok]
  split
  · cases cc.contact.type <;> rfl
  · split
    · cases cc.contact.type <;> rfl
    · rfl

theorem gradients_by_type_aux (skeletons : List String) (cc : ContactConstraint) (k : Int)
    (m : MathGeometry) (dof : dynamics.DegreeOfFreedom) (type : SkeletonContactType)
    (ht : (create ⟨skeletons, some cc⟩ k).getSkeletonContactType dof.skeletonName = .ok type) :
    (type = .VERTEX →
      (create ⟨skeletons, some cc⟩ k).getContactNormalGradient m dof = .ok 0
      ∧ (create ⟨skeletons, some cc⟩ k).getContactForceGradient m dof = .ok 0)
    ∧ (type = .FACE →
      (create ⟨skeletons, some cc⟩ k).getContactPositionGradient m dof = .ok 0)
    ∧ (type = .EDGE ∨ type = .UNSUPPORTED ∨ type = .NONE →
      (create ⟨skeletons, some cc⟩ k).getContactPositionGradient m dof = .ok 0
      ∧ (create ⟨skeletons, some cc⟩ k).getContactNormalGradient m dof = .ok 0
      ∧ (create ⟨skeletons, some cc⟩ k).getContactForceGradient m dof = .ok 0) := by
  have hpos : (create ⟨skeletons, some cc⟩ k).getContactWorldPosition = .ok cc.contact.point :=
    rfl
  have hnormal : (create ⟨skeletons, some cc⟩ k).getContactWorldNormal = .ok cc.contact.normal :=
    rfl
  refine ⟨fun h => ?_, fun h => ?_, fun h => ?_⟩
  · subst h
    constructor
    · simp only [getContactNormalGradient, hnormal, ht, Result.ok_bind, if_true, Result.pure_eq]
    · simp only [getContactForceGradient, ht, Result.ok_bind, if_true, Result.pure_eq]
  · subst h
    simp only [getContactPositionGradient, hpos, ht, Result.ok_bind, Result.pure_eq]
    rfl
  · refine ⟨?_, ?_, ?_⟩
    · simp only [getContactPositionGradient, hpos, ht, Result.ok_bind, Result.pure_eq]
      rcases h with h | h | h <;> subst h <;> rfl
    · simp only [getContactNormalGradient, hnormal, ht, Result.ok_bind, Result.pure_eq]
      rcases h with h | h | h <;> subst h <;> rfl
    · simp only [getContactForceGradient, ht, Result.ok_bind, Result.pure_eq]
      rcases h with h | h | h <;> subst h <;> rfl

/-- C29: for a constraint built by the constructor from a contact constraint and every DOF, the
skeleton contact type of the DOF's skeleton is computed without failure: for the skeleton of body
A it is FACE for FACE_VERTEX, VERTEX for VERTEX_FACE, EDGE for EDGE_EDGE and UNSUPPORTED otherwise;
for the skeleton of body B (when it is not also that of body A) it is VERTEX for FACE_VERTEX, FACE
for VERTEX_FACE, EDGE for EDGE_EDGE and UNSUPPORTED otherwise; for any other skeleton it is NONE.
For VERTEX the normal gradient and the force-direction gradient are zero; for FACE the position
gradient is zero; for EDGE, UNSUPPORTED and NONE the three gradients are zero. -/
theorem gradients_follow_skeleton_contact_type (skeletons : List String)
    (cc : ContactConstraint) (k : Int) (m : MathGeometry) (dof : dynamics.DegreeOfFreedom) :
    ∃ type : SkeletonContactType,
      (create ⟨skeletons, some cc⟩ k).getSkeletonContactType dof.skeletonName = .ok type
      ∧ (dof.skeletonName = cc.bodyNodeA.skeletonName →
          type = (match cc.contact.type with
            | .FACE_VERTEX => .FACE
            | .VERTEX_FACE => .VERTEX
            | .EDGE_EDGE => .EDGE
            | .UNSUPPORTED => .UNSUPPORTED))
      ∧ (dof.skeletonName ≠ cc.bodyNodeA.skeletonName →
          dof.skeletonName = cc.bodyNodeB.skeletonName →
          type = (match cc.contact.type with
            | .FACE_VERTEX => .VERTEX
            | .VERTEX_FACE => .FACE
            | .EDGE_EDGE => .EDGE
            | .UNSUPPORTED => .UNSUPPORTED))
      ∧ (dof.skeletonName ≠ cc.bodyNodeA.skeletonName →
          dof.skeletonName ≠ cc.bodyNodeB.skeletonName → type = .NONE)
      ∧ (type = .VERTEX →
          (create ⟨skeletons, some cc⟩ k).getContactNormalGradient m dof = .ok 0
          ∧ (create ⟨skeletons, some cc⟩ k).getContactForceGradient m dof = .ok 0)
      ∧ (type = .FACE →
          (create ⟨skeletons, some cc⟩ k).getContactPositionGradient m dof = .ok 0)
      ∧ (type = .EDGE ∨ type = .UNSUPPORTED ∨ type = .NONE →
          (create ⟨skeletons, some cc⟩ k).getContactPositionGradient m dof = .ok 0
          ∧ (create ⟨skeletons, some cc⟩ k).getContactNormalGradient m dof = .ok 0
          ∧ (create ⟨skeletons, some cc⟩ k).getContactForceGradient m dof = .ok 0) := by
  refine ⟨_, getSkeletonContactType_create_aux skeletons cc k dof.skeletonName,
    fun hA => by rw [if_pos hA], fun hA hB => by rw [if_neg hA, if_pos hB],
    fun hA hB => by rw [if_neg hA, if_neg hB], ?_⟩
  exact gradients_by_type_aux skeletons cc k m dof _
    (getSkeletonContactType_create_aux skeletons cc k dof.skeletonName)

/-- C29, witness: in the FACE_VERTEX contact of the arm (body A) with the ground (body B), a hinge
of the arm is of type FACE and its position gradient is zero; a hinge of the ground is of type
VERTEX and its normal and force-direction gradients are zero; a hinge of a skeleton that the
contact does not touch is of type NONE and its three gradients are zero. -/
theorem gradients_follow_skeleton_contact_type_witness :
    (create (Scenario.groundConstraint .FACE_VERTEX) 1).getContactPositionGradient
        Scenario.geometry (Scenario.hingeDof "arm" 0 1) = .ok 0
    ∧ ((create (Scenario.groundConstraint .FACE_VERTEX) 1).getContactNormalGradient
        Scenario.geometry (Scenario.hingeDof "ground" 0 0) = .ok 0
      ∧ (create (Scenario.groundConstraint .FACE_VERTEX) 1).getContactForceGradient
        Scenario.geometry (Scenario.hingeDof "ground" 0 0) = .ok 0)
    ∧ ((create (Scenario.groundConstraint .FACE_VERTEX) 1).getContactPositionGradient
        Scenario.geometry (Scenario.hingeDof "bystander" 0 1) = .ok 0
      ∧ (create (Scenario.groundConstraint .FACE_VERTEX) 1).getContactNormalGradient
        Scenario.geometry (Scenario.hingeDof "bystander" 0 1) = .ok 0
      ∧ (create (Scenario.groundConstraint .FACE_VERTEX) 1).getContactForceGradient
        Scenario.geometry (Scenario.hingeDof "bystander" 0 1) = .ok 0) := by
  refine ⟨?_, ?_, ?_⟩
  · obtain ⟨type, -, hA, -, -, -, hF, -⟩ := gradients_follow_skeleton_contact_type
      ["arm", "ground"] (Scenario.groundContact .FACE_VERTEX) 1 Scenario.geometry
      (Scenario.hingeDof "arm" 0 1)
    exact hF (hA rfl)
  · obtain ⟨type, -, -, hB, -, hV, -, -⟩ := gradients_follow_skeleton_contact_type
      ["arm", "ground"] (Scenario.groundContact .FACE_VERTEX) 1 Scenario.geometry
      (Scenario.hingeDof "ground" 0 0)
    exact hV (hB (by decide) rfl)
  · obtain ⟨type, -, -, -, hN, -, -, hZ⟩ := gradients_follow_skeleton_contact_type
      ["arm", "ground"] (Scenario.groundContact .FACE_VERTEX) 1 Scenario.geometry
      (Scenario.hingeDof "bystander" 0 1)
    exact hZ (Or.inr (Or.inr (hN (by decide) (by decide))))

/-! ## The differentiable contact constraint: constraints that are no contact -/

/-- For a constraint that is not a contact constraint the constructor leaves the contact
constraint null, and the classification of a skeleton dereferences it. -/
theorem getSkeletonContactType_noncontact_aux (skeletons : List String) (k : Int)
    (name : String) :
    (create ⟨skeletons, none⟩ k).getSkeletonContactType name = .error .nullPointer := rfl

/-- C30: evaluation at the failing input. For the joint limit of the arm, which is not a contact
constraint, the constructor leaves the contact constraint null; `getContactType` returns
UNSUPPORTED, but the classification of the skeleton of a hinge of the arm dereferences the null
contact constraint, and so do the three gradient routines, which do not return the zero
vector. -/
theorem gradients_of_joint_limit_abort :
    Scenario.jointLimit.isContactConstraint = false
    ∧ (create Scenario.jointLimit 0).mContactConstraint = none
    ∧ (create Scenario.jointLimit 0).getContactType = .ok .UNSUPPORTED
    ∧ (create Scenario.jointLimit 0).getSkeletonContactType
        (Scenario.hingeDof "arm" 0 1).skeletonName = .error .nullPointer
    ∧ (create Scenario.jointLimit 0).getContactPositionGradient Scenario.geometry
        (Scenario.hingeDof "arm" 0 1) = .error .nullPointer
    ∧ (create Scenario.jointLimit 0).getContactNormalGradient Scenario.geometry
        (Scenario.hingeDof "arm" 0 1) = .error .nullPointer
    ∧ (create Scenario.jointLimit 0).getContactForceGradient Scenario.geometry
        (Scenario.hingeDof "arm" 0 1) = .error .nullPointer :=
  ⟨rfl, rfl, rfl, rfl, rfl, rfl, rfl⟩

end DifferentiableContactConstraint

/-! ## The analytic accessors leave the world as it was -/

theorem Result.map_eq_ok {α β : Type} {x : Result α} {f : α → β} {r : β}
    (h : Except.map f x = .ok r) : ∃ a, x = .ok a ∧ f a = r := by
  cases x with
  | error e => cases h
  | ok a => exact ⟨a, rfl, by simpa using h⟩

namespace BackpropSnapshot

theorem assembleBlockDiagonalMatrix_world {s : BackpropSnapshot} {world : World}
    {whichMatrix : BlockDiagonalMatrixToAssemble} {forFiniteDifferencing : Bool}
    {r : MatrixXd × World}
    (h : s.assembleBlockDiagonalMatrix world whichMatrix forFiniteDifferencing = .ok r) :
    r.2 = world := by
  cases forFiniteDifferencing
  · rw [assembleBlockDiagonalMatrix_false] at h
    obtain ⟨J, -, rfl⟩ := Result.map_eq_ok h
    rfl
  · rw [assembleBlockDiagonalMatrix_true] at h
    obtain ⟨J, -, rfl⟩ := Result.map_eq_ok h
    rfl

theorem getProjectionIntoClampsMatrix_world {cod : CompleteOrthogonalDecomposition}
    {s : BackpropSnapshot} {world : World} {forFiniteDifferencing : Bool}
    {r : MatrixXd × World}
    (h : s.getProjectionIntoClampsMatrix cod world forFiniteDifferencing = .ok r) :
    r.2 = world := by
  unfold getProjectionIntoClampsMatrix at h
  simp only [Result.bind_eq_ok_iff] at h
  obtain ⟨A_c, -, h⟩ := h
  split at h
  · simp only [Result.pure_eq, Except.ok.injEq] at h
    subst h
    rfl
  · simp only [Result.bind_eq_ok_iff] at h
    obtain ⟨E, -, ⟨M, w1⟩, hM, forceToVel, -, bounce, -, rhs, -, solution, -, h⟩ := h
    simp only [Result.pure_eq, Except.ok.injEq] at h
    subst h
    show w1 = world
    cases forFiniteDifferencing
    · simp only [Bool.false_eq_true, if_false, Result.bind_eq_ok_iff] at hM
      obtain ⟨V_c, -, V_ub, -, r1, -, hM⟩ := hM
      simp only [Result.pure_eq, Except.ok.injEq, Prod.mk.injEq] at hM
      exact hM.2.symm
    · simp only [if_true, Result.bind_eq_ok_iff] at hM
      obtain ⟨A_ub, -, ⟨Minv, w2⟩, hMinv, r1, -, hM⟩ := hM
      simp only [Result.pure_eq, Except.ok.injEq, Prod.mk.injEq] at hM
      have := assembleBlockDiagonalMatrix_world hMinv
      exact hM.2.symm.trans this

theorem getForceVelJacobian_world {cod : CompleteOrthogonalDecomposition}
    {s : BackpropSnapshot} {world : World} {r : MatrixXd × World}
    (h : s.getForceVelJacobian cod world = .ok r) : r.2 = world := by
  unfold getForceVelJacobian at h
  simp only [Result.bind_eq_ok_iff] at h
  obtain ⟨A_c, -, ⟨Minv, w1⟩, hMinv, h⟩ := h
  have hw1 : w1 = world := assembleBlockDiagonalMatrix_world hMinv
  subst hw1
  dsimp only at h
  split at h
  · simp only [Result.pure_eq, Except.ok.injEq] at h
    subst h
    rfl
  · simp only [Result.bind_eq_ok_iff] at h
    obtain ⟨A_ub, -, E, -, ⟨P_c, w2⟩, hP, h⟩ := h
    have hw2 : w2 = w1 := getProjectionIntoClampsMatrix_world hP
    subst hw2
    dsimp only at h
    split at h
    · simp only [Result.bind_eq_ok_iff, Result.pure_eq, Except.ok.injEq] at h
      obtain ⟨r1, -, h⟩ := h
      subst h
      rfl
    · simp only [Result.bind_eq_ok_iff, Result.pure_eq, Except.ok.injEq] at h
      obtain ⟨r1, -, h⟩ := h
      subst h
      rfl

theorem getVelVelJacobian_world {cod : CompleteOrthogonalDecomposition}
    {s : BackpropSnapshot} {world : World} {r : MatrixXd × World}
    (h : s.getVelVelJacobian cod world = .ok r) : r.2 = world := by
  unfold getVelVelJacobian at h
  simp only [Result.bind_eq_ok_iff] at h
  obtain ⟨A_c, -, h⟩ := h
  split at h
  · simp only [Result.bind_eq_ok_iff] at h
    obtain ⟨⟨forceVel, w1⟩, hF, ⟨velC, w2⟩, hV, r1, -, h⟩ := h
    have hw1 : w1 = world := getForceVelJacobian_world hF
    subst hw1
    have hw2 : w2 = w1 := assembleBlockDiagonalMatrix_world hV
    subst hw2
    simp only [Result.pure_eq, Except.ok.injEq] at h
    subst h
    rfl
  · simp only [Result.bind_eq_ok_iff] at h
    obtain ⟨A_ub, -, E, -, ⟨P_c, w1⟩, hP, ⟨Minv, w2⟩, hM, parts1, -, parts2, -,
      ⟨forceVel, w3⟩, hF, ⟨velC, w4⟩, hV, r1, -, h⟩ := h
    have hw1 : w1 = world := getProjectionIntoClampsMatrix_world hP
    subst hw1
    have hw2 : w2 = w1 := assembleBlockDiagonalMatrix_world hM
    subst hw2
    have hw3 : w3 = w2 := getForceVelJacobian_world hF
    subst hw3
    have hw4 : w4 = w3 := assembleBlockDiagonalMatrix_world hV
    subst hw4
    simp only [Result.pure_eq, Except.ok.injEq] at h
    subst h
    rfl

theorem getAnalyticalNextV_world {cod : CompleteOrthogonalDecomposition}
    {s : BackpropSnapshot} {world : World} {r : VectorXd × World}
    (h : s.getAnalyticalNextV cod world = .ok r) : r.2 = world := by
  unfold getAnalyticalNextV at h
  simp only [Result.bind_eq_ok_iff] at h
  obtain ⟨A_c, -, A_ub, -, E, -, A, -, ⟨P_c, w1⟩, hP, Minv, -, innerV, -, r1, -, h⟩ := h
  have hw1 : w1 = world := getProjectionIntoClampsMatrix_world hP
  subst hw1
  simp only [Result.pure_eq, Except.ok.injEq] at h
  subst h
  rfl

/-- C25: each analytic accessor that is handed the world returns the world it was called with, so
that a second call in a row is the same call and yields the same matrix: this holds for the mass
matrix, the inverse mass matrix (in both modes), the two Coriolis Jacobians, the projection into
the clamping constraints (in both modes), the force-velocity and the velocity-velocity Jacobians.
The accessors of the assembled constraint matrices, of the upper-bound mapping, of the
position-position and of the velocity-position Jacobians only read the snapshot and the world:
they are functions of the two and return no world. -/
theorem accessors_leave_world (cod : CompleteOrthogonalDecomposition) (s : BackpropSnapshot)
    (world : World) :
    (∀ (b : Bool) (M : MatrixXd) (w : World), s.getMassMatrix world b = .ok (M, w) →
      w = world ∧ s.getMassMatrix w b = .ok (M, w))
    ∧ (∀ (b : Bool) (M : MatrixXd) (w : World), s.getInvMassMatrix world b = .ok (M, w) →
      w = world ∧ s.getInvMassMatrix w b = .ok (M, w))
    ∧ (∀ (M : MatrixXd) (w : World), s.getPosCJacobian world = .ok (M, w) →
      w = world ∧ s.getPosCJacobian w = .ok (M, w))
    ∧ (∀ (M : MatrixXd) (w : World), s.getVelCJacobian world = .ok (M, w) →
      w = world ∧ s.getVelCJacobian w = .ok (M, w))
    ∧ (∀ (b : Bool) (M : MatrixXd) (w : World),
      s.getProjectionIntoClampsMatrix cod world b = .ok (M, w) →
      w = world ∧ s.getProjectionIntoClampsMatrix cod w b = .ok (M, w))
    ∧ (∀ (M : MatrixXd) (w : World), s.getForceVelJacobian cod world = .ok (M, w) →
      w = world ∧ s.getForceVelJacobian cod w = .ok (M, w))
    ∧ (∀ (M : MatrixXd) (w : World), s.getVelVelJacobian cod world = .ok (M, w) →
      w = world ∧ s.getVelVelJacobian cod w = .ok (M, w)) := by
  refine ⟨fun b M w h => ?_, fun b M w h => ?_, fun M w h => ?_, fun M w h => ?_,
    fun b M w h => ?_, fun M w h => ?_, fun M w h => ?_⟩
  · have hw : w = world := assembleBlockDiagonalMatrix_world h
    subst hw; exact ⟨rfl, h⟩
  · have hw : w = world := assembleBlockDiagonalMatrix_world h
    subst hw; exact ⟨rfl, h⟩
  · have hw : w = world := assembleBlockDiagonalMatrix_world h
    subst hw; exact ⟨rfl, h⟩
  · have hw : w = world := assembleBlockDiagonalMatrix_world h
    subst hw; exact ⟨rfl, h⟩
  · have hw : w = world := getProjectionIntoClampsMatrix_world h
    subst hw; exact ⟨rfl, h⟩
  · have hw : w = world := getForceVelJacobian_world h
    subst hw; exact ⟨rfl, h⟩
  · have hw : w = world := getVelVelJacobian_world h
    subst hw; exact ⟨rfl, h⟩

/-- C25, witness: the force-velocity Jacobian of the box in contact, called again in the world
that the first call returned. -/
theorem accessors_leave_world_witness :
    Scenario.contactWorld 0 1 (1 / 10) 0 0 = Scenario.contactWorld 0 1 (1 / 10) 0 0
    ∧ (Scenario.contactSnapshot 0 1 (1 / 10) 0 0).getForceVelJacobian Scenario.cramer
        (Scenario.contactWorld 0 1 (1 / 10) 0 0)
      = .ok (⟨2, 2, ((1 / 10 : ℚ)) • (1 : Matrix (Fin 2) (Fin 2) ℚ)
          * (1 - ((1 / 10 : ℚ)) • ((!![0; 1] : Matrix (Fin 2) (Fin 1) ℚ)
              + (!![1; 0] : Matrix (Fin 2) (Fin 1) ℚ) * (!![0] : Matrix (Fin 1) (Fin 1) ℚ))
            * ((1 / (1 / 10 : ℚ)) • (!![0, 1] : Matrix (Fin 1) (Fin 2) ℚ))
            * (1 : Matrix (Fin 2) (Fin 2) ℚ))⟩, Scenario.contactWorld 0 1 (1 / 10) 0 0) :=
  (accessors_leave_world Scenario.cramer (Scenario.contactSnapshot 0 1 (1 / 10) 0 0)
    (Scenario.contactWorld 0 1 (1 / 10) 0 0)).2.2.2.2.2.1 _ _
    (Scenario.contact_forceVel 0 1 (1 / 10) 0 0)

end BackpropSnapshot

/-! ## The finite-difference routines restore the world -/

theorem foldlM_invariant {α : Type} (f : α → Nat → Result α) (P : α → Prop)
    (hP : ∀ a i b, P a → f a i = .ok b → P b) :
    ∀ (l : List Nat) (a b : α), P a → l.foldlM f a = .ok b → P b := by
  intro l
  induction l with
  | nil =>
    intro a b ha h
    simp only [List.foldlM_nil, Result.pure_eq, Except.ok.injEq] at h
    exact h ▸ ha
  | cons i l ih =>
    intro a b ha h
    simp only [List.foldlM_cons, Result.bind_eq_ok_iff] at h
    obtain ⟨a1, h1, h2⟩ := h
    exact ih a1 b (hP a i a1 ha h1) h2

namespace World

theorem step_settings {forward : World → WorldState} (hf : StepKeepsSolverSettings forward)
    (w : World) :
    (w.step forward).state.timeStep = w.state.timeStep
      ∧ (w.step forward).state.gradientEnabled = w.state.gradientEnabled
      ∧ (w.step forward).state.penetrationCorrectionEnabled
          = w.state.penetrationCorrectionEnabled := hf w

theorem steps_settings {forward : World → WorldState} (hf : StepKeepsSolverSettings forward) :
    ∀ (n : Nat) (w : World),
      (w.steps forward n).state.timeStep = w.state.timeStep
        ∧ (w.steps forward n).state.gradientEnabled = w.state.gradientEnabled
        ∧ (w.steps forward n).state.penetrationCorrectionEnabled
            = w.state.penetrationCorrectionEnabled := by
  intro n
  induction n with
  | zero => intro w; exact ⟨rfl, rfl, rfl⟩
  | succ n ih =>
    intro w
    have h1 := ih (w.step forward)
    have h2 := hf w
    exact ⟨h1.1.trans h2.1, h1.2.1.trans h2.2.1, h1.2.2.trans h2.2.2⟩

end World

namespace BackpropSnapshot

theorem finiteDifferenceVelVelJacobianStep_settings {forward : World → WorldState}
    (hf : StepKeepsSolverSettings forward) {s : BackpropSnapshot}
    {snapshot : RestorableSnapshot} {originalVel : VectorXd} {EPSILON : ℚ}
    {acc b : UninitMatrixXd × World} {i : Nat}
    (h : finiteDifferenceVelVelJacobianStep forward s snapshot originalVel EPSILON acc i
      = .ok b) :
    b.2.state.timeStep = acc.2.state.timeStep
      ∧ b.2.state.gradientEnabled = acc.2.state.gradientEnabled
      ∧ b.2.state.penetrationCorrectionEnabled = acc.2.state.penetrationCorrectionEnabled := by
  unfold finiteDifferenceVelVelJacobianStep at h
  simp only [Result.bind_eq_ok_iff, Result.pure_eq, Except.ok.injEq] at h
  obtain ⟨tweaked, -, velChange, -, J, -, rfl⟩ := h
  exact World.step_settings hf _

theorem finiteDifferenceForceVelJacobianStep_settings {forward : World → WorldState}
    (hf : StepKeepsSolverSettings forward) {s : BackpropSnapshot}
    {snapshot : RestorableSnapshot} {originalForces originalVel : VectorXd} {EPSILON : ℚ}
    {acc b : UninitMatrixXd × World} {i : Nat}
    (h : finiteDifferenceForceVelJacobianStep forward s snapshot originalForces originalVel
      EPSILON acc i = .ok b) :
    b.2.state.timeStep = acc.2.state.timeStep
      ∧ b.2.state.gradientEnabled = acc.2.state.gradientEnabled
      ∧ b.2.state.penetrationCorrectionEnabled = acc.2.state.penetrationCorrectionEnabled := by
  unfold finiteDifferenceForceVelJacobianStep at h
  simp only [Result.bind_eq_ok_iff, Result.pure_eq, Except.ok.injEq] at h
  obtain ⟨tweaked, -, velChange, -, J, -, rfl⟩ := h
  exact World.step_settings hf _

theorem finiteDifferencePosVelJacobianStep_settings {forward : World → WorldState}
    (hf : StepKeepsSolverSettings forward) {cod : CompleteOrthogonalDecomposition}
    {s : BackpropSnapshot} {snapshot : RestorableSnapshot} {originalVel : VectorXd}
    {dt EPSILON : ℚ} {acc b : UninitMatrixXd × World} {i : Nat}
    (h : finiteDifferencePosVelJacobianStep forward cod s snapshot originalVel dt EPSILON acc i
      = .ok b) :
    b.2.state.timeStep = acc.2.state.timeStep
      ∧ b.2.state.gradientEnabled = acc.2.state.gradientEnabled
      ∧ b.2.state.penetrationCorrectionEnabled = acc.2.state.penetrationCorrectionEnabled := by
  unfold finiteDifferencePosVelJacobianStep at h
  simp only [Result.bind_eq_ok_iff, Result.pure_eq, Except.ok.injEq] at h
  obtain ⟨tweaked, -, ⟨expected, w1⟩, hA, accel, -, realAccel, -, velChange, -, d, -, J, -,
    rfl⟩ := h
  have hw1 := getAnalyticalNextV_world hA
  dsimp only at hw1
  subst hw1
  exact World.step_settings hf _

theorem finiteDifferencePosPosJacobianStep_settings {forward : World → WorldState}
    (hf : StepKeepsSolverSettings forward) {s : BackpropSnapshot} {subdivisions : Nat}
    {snapshot : RestorableSnapshot} {originalPosition : VectorXd} {EPSILON : ℚ}
    {acc b : UninitMatrixXd × World} {i : Nat}
    (h : finiteDifferencePosPosJacobianStep forward s subdivisions snapshot originalPosition
      EPSILON acc i = .ok b) :
    b.2.state.timeStep = acc.2.state.timeStep
      ∧ b.2.state.gradientEnabled = acc.2.state.gradientEnabled
      ∧ b.2.state.penetrationCorrectionEnabled = acc.2.state.penetrationCorrectionEnabled := by
  unfold finiteDifferencePosPosJacobianStep at h
  simp only [Result.bind_eq_ok_iff, Result.pure_eq, Except.ok.injEq] at h
  obtain ⟨tweaked, -, posChange, -, J, -, rfl⟩ := h
  exact World.steps_settings hf _ _

theorem finiteDifferenceVelPosJacobianStep_settings {forward : World → WorldState}
    (hf : StepKeepsSolverSettings forward) {s : BackpropSnapshot} {subdivisions : Nat}
    {snapshot : RestorableSnapshot} {originalPosition : VectorXd} {EPSILON : ℚ}
    {acc b : UninitMatrixXd × World} {i : Nat}
    (h : finiteDifferenceVelPosJacobianStep forward s subdivisions snapshot originalPosition
      EPSILON acc i = .ok b) :
    b.2.state.timeStep = acc.2.state.timeStep
      ∧ b.2.state.gradientEnabled = acc.2.state.gradientEnabled
      ∧ b.2.state.penetrationCorrectionEnabled = acc.2.state.penetrationCorrectionEnabled := by
  unfold finiteDifferenceVelPosJacobianStep at h
  simp only [Result.bind_eq_ok_iff, Result.pure_eq, Except.ok.injEq] at h
  obtain ⟨tweaked, -, posChange, -, J, -, rfl⟩ := h
  exact World.steps_settings hf _ _

/-- A loop whose iterations keep the timestep and the two solver flags keeps them. -/
theorem foldlM_settings (f : UninitMatrixXd × World → Nat → Result (UninitMatrixXd × World))
    (hstep : ∀ acc i b, f acc i = .ok b →
      b.2.state.timeStep = acc.2.state.timeStep
        ∧ b.2.state.gradientEnabled = acc.2.state.gradientEnabled
        ∧ b.2.state.penetrationCorrectionEnabled = acc.2.state.penetrationCorrectionEnabled)
    (l : List Nat) (a b : UninitMatrixXd × World) (h : l.foldlM f a = .ok b) :
    b.2.state.timeStep = a.2.state.timeStep
      ∧ b.2.state.gradientEnabled = a.2.state.gradientEnabled
      ∧ b.2.state.penetrationCorrectionEnabled = a.2.state.penetrationCorrectionEnabled :=
  foldlM_invariant f
    (fun x => x.2.state.timeStep = a.2.state.timeStep
      ∧ x.2.state.gradientEnabled = a.2.state.gradientEnabled
      ∧ x.2.state.penetrationCorrectionEnabled = a.2.state.penetrationCorrectionEnabled)
    (fun x i y hx hy =>
      ⟨(hstep x i y hy).1.trans hx.1, (hstep x i y hy).2.1.trans hx.2.1,
        (hstep x i y hy).2.2.trans hx.2.2⟩)
    l a b ⟨rfl, rfl, rfl⟩ h

theorem finiteDifferenceVelVelJacobian_restores_aux {forward : World → WorldState}
    (hf : StepKeepsSolverSettings forward) {s : BackpropSnapshot} {world : World}
    {r : UninitMatrixXd × World}
    (h : s.finiteDifferenceVelVelJacobian forward world = .ok r) : RestoredTo world r.2 := by
  unfold finiteDifferenceVelVelJacobian at h
  simp only [Result.bind_eq_ok_iff, Result.pure_eq, Except.ok.injEq] at h
  obtain ⟨⟨J, w1⟩, hloop, rfl⟩ := h
  have hinv := foldlM_settings _
    (fun acc i b hb => finiteDifferenceVelVelJacobianStep_settings hf hb) _ _ _ hloop
  have h0 := World.step_settings hf ((((world.setGradientEnabled false).setPositions
    s.mPreStepPosition).setVelocities s.mPreStepVelocity).setForces s.mPreStepTorques)
  exact ⟨rfl, rfl, rfl, hinv.1.trans h0.1, rfl, hinv.2.2.trans h0.2.2⟩

theorem finiteDifferenceForceVelJacobian_restores_aux {forward : World → WorldState}
    (hf : StepKeepsSolverSettings forward) {s : BackpropSnapshot} {world : World}
    {r : UninitMatrixXd × World}
    (h : s.finiteDifferenceForceVelJacobian forward world = .ok r) : RestoredTo world r.2 := by
  unfold finiteDifferenceForceVelJacobian at h
  simp only [Result.bind_eq_ok_iff, Result.pure_eq, Except.ok.injEq] at h
  obtain ⟨⟨J, w1⟩, hloop, rfl⟩ := h
  have hinv := foldlM_settings _
    (fun acc i b hb => finiteDifferenceForceVelJacobianStep_settings hf hb) _ _ _ hloop
  have h0 := World.step_settings hf ((((world.setGradientEnabled false).setPositions
    s.mPreStepPosition).setVelocities s.mPreStepVelocity).setForces s.mPreStepTorques)
  exact ⟨rfl, rfl, rfl, hinv.1.trans h0.1, rfl, hinv.2.2.trans h0.2.2⟩

theorem finiteDifferencePosVelJacobian_restores_aux {forward : World → WorldState}
    (hf : StepKeepsSolverSettings forward) {cod : CompleteOrthogonalDecomposition}
    {s : BackpropSnapshot} {world : World} {r : UninitMatrixXd × World}
    (h : s.finiteDifferencePosVelJacobian forward cod world = .ok r) :
    RestoredTo world r.2 := by
  unfold finiteDifferencePosVelJacobian at h
  simp only [Result.bind_eq_ok_iff, Result.pure_eq, Except.ok.injEq] at h
  obtain ⟨⟨expected, w0⟩, hA, accel, -, realAccel, -, d, -, ⟨J, w1⟩, hloop, rfl⟩ := h
  have hw0 := getAnalyticalNextV_world hA
  dsimp only at hw0
  subst hw0
  have hinv := foldlM_settings _
    (fun acc i b hb => finiteDifferencePosVelJacobianStep_settings hf hb) _ _ _ hloop
  have h0 := World.step_settings hf (((((world.setGradientEnabled
    false).setPenetrationCorrectionEnabled false).setPositions
    s.mPreStepPosition).setVelocities s.mPreStepVelocity).setForces s.mPreStepTorques)
  exact ⟨rfl, rfl, rfl, hinv.1.trans h0.1, rfl, rfl⟩

theorem finiteDifferencePosPosJacobian_restores_aux {forward : World → WorldState}
    (hf : StepKeepsSolverSettings forward) {s : BackpropSnapshot} {world : World}
    {subdivisions : Nat} {r : UninitMatrixXd × World}
    (h : s.finiteDifferencePosPosJacobian forward world subdivisions = .ok r) :
    RestoredTo world r.2 := by
  unfold finiteDifferencePosPosJacobian at h
  simp only [Result.bind_eq_ok_iff, Result.pure_eq, Except.ok.injEq] at h
  obtain ⟨⟨J, w1⟩, hloop, rfl⟩ := h
  have hinv := foldlM_settings _
    (fun acc i b hb => finiteDifferencePosPosJacobianStep_settings hf hb) _ _ _ hloop
  have h0 := World.steps_settings hf subdivisions (((((world.setTimeStep
    (world.getTimeStep / subdivisions)).setGradientEnabled false).setPositions
    s.mPreStepPosition).setVelocities s.mPreStepVelocity).setForces s.mPreStepTorques)
  exact ⟨rfl, rfl, rfl, rfl, rfl, hinv.2.2.trans h0.2.2⟩

theorem finiteDifferenceVelPosJacobian_restores_aux {forward : World → WorldState}
    (hf : StepKeepsSolverSettings forward) {s : BackpropSnapshot} {world : World}
    {subdivisions : Nat} {r : UninitMatrixXd × World}
    (h : s.finiteDifferenceVelPosJacobian forward world subdivisions = .ok r) :
    RestoredTo world r.2 := by
  unfold finiteDifferenceVelPosJacobian at h
  simp only [Result.bind_eq_ok_iff, Result.pure_eq, Except.ok.injEq] at h
  obtain ⟨⟨J, w1⟩, hloop, rfl⟩ := h
  have hinv := foldlM_settings _
    (fun acc i b hb => finiteDifferenceVelPosJacobianStep_settings hf hb) _ _ _ hloop
  have h0 := World.steps_settings hf subdivisions (((((world.setTimeStep
    (world.getTimeStep / subdivisions)).setGradientEnabled false).setPositions
    s.mPreStepPosition).setVelocities s.mPreStepVelocity).setForces s.mPreStepTorques)
  exact ⟨rfl, rfl, rfl, rfl, rfl, hinv.2.2.trans h0.2.2⟩

/-- C23: when a forward step alters neither the timestep nor the two solver flags, each of the
five finite-difference Jacobian routines (velocity-velocity, position-velocity, force-velocity,
position-position, velocity-position) that returns leaves the world with the position, velocity,
torque, timestep, gradient flag and penetration-correction flag it was called with, for every
snapshot, world and number of subdivisions. -/
theorem finiteDifference_restores_world (forward : World → WorldState)
    (hf : StepKeepsSolverSettings forward) (cod : CompleteOrthogonalDecomposition)
    (s : BackpropSnapshot) (world : World) (subdivisions : Nat) :
    (∀ r, s.finiteDifferenceVelVelJacobian forward world = .ok r → RestoredTo world r.2)
    ∧ (∀ r, s.finiteDifferencePosVelJacobian forward cod world = .ok r → RestoredTo world r.2)
    ∧ (∀ r, s.finiteDifferenceForceVelJacobian forward world = .ok r → RestoredTo world r.2)
    ∧ (∀ r, s.finiteDifferencePosPosJacobian forward world subdivisions = .ok r →
        RestoredTo world r.2)
    ∧ (∀ r, s.finiteDifferenceVelPosJacobian forward world subdivisions = .ok r →
        RestoredTo world r.2) :=
  ⟨fun _ h => finiteDifferenceVelVelJacobian_restores_aux hf h,
    fun _ h => finiteDifferencePosVelJacobian_restores_aux hf h,
    fun _ h => finiteDifferenceForceVelJacobian_restores_aux hf h,
    fun _ h => finiteDifferencePosPosJacobian_restores_aux hf h,
    fun _ h => finiteDifferenceVelPosJacobian_restores_aux hf h⟩

end BackpropSnapshot

namespace Scenario

theorem drift_keeps_settings : StepKeepsSolverSettings drift := fun _ => ⟨rfl, rfl, rfl⟩

theorem driftWithCorrection_keeps_settings : StepKeepsSolverSettings driftWithCorrection := by
  intro w
  unfold driftWithCorrection
  split
  · exact ⟨rfl, rfl, rfl⟩
  · exact ⟨rfl, rfl, rfl⟩

end Scenario

namespace BackpropSnapshot

/-- C23, witness: the pendulum with a forward step of free motion; the five routines return (the
subdivided ones with two subdivisions) and leave the world as the theorem says. -/
theorem finiteDifference_restores_world_witness :
    StepKeepsSolverSettings Scenario.drift
    ∧ (∃ r, Scenario.pendulumSnapshot.finiteDifferenceVelVelJacobian Scenario.drift
          Scenario.pendulumWorld = .ok r ∧ RestoredTo Scenario.pendulumWorld r.2)
    ∧ (∃ r, Scenario.pendulumSnapshot.finiteDifferencePosVelJacobian Scenario.drift
          Scenario.cramer Scenario.pendulumWorld = .ok r
        ∧ RestoredTo Scenario.pendulumWorld r.2)
    ∧ (∃ r, Scenario.pendulumSnapshot.finiteDifferenceForceVelJacobian Scenario.drift
          Scenario.pendulumWorld = .ok r ∧ RestoredTo Scenario.pendulumWorld r.2)
    ∧ (∃ r, Scenario.pendulumSnapshot.finiteDifferencePosPosJacobian Scenario.drift
          Scenario.pendulumWorld 2 = .ok r ∧ RestoredTo Scenario.pendulumWorld r.2)
    ∧ (∃ r, Scenario.pendulumSnapshot.finiteDifferenceVelPosJacobian Scenario.drift
          Scenario.pendulumWorld 2 = .ok r ∧ RestoredTo Scenario.pendulumWorld r.2) :=
  ⟨Scenario.drift_keeps_settings,
    ⟨_, rfl, (finiteDifference_restores_world Scenario.drift Scenario.drift_keeps_settings
      Scenario.cramer Scenario.pendulumSnapshot Scenario.pendulumWorld 2).1 _ rfl⟩,
    ⟨_, rfl, (finiteDifference_restores_world Scenario.drift Scenario.drift_keeps_settings
      Scenario.cramer Scenario.pendulumSnapshot Scenario.pendulumWorld 2).2.1 _ rfl⟩,
    ⟨_, rfl, (finiteDifference_restores_world Scenario.drift Scenario.drift_keeps_settings
      Scenario.cramer Scenario.pendulumSnapshot Scenario.pendulumWorld 2).2.2.1 _ rfl⟩,
    ⟨_, rfl, (finiteDifference_restores_world Scenario.drift Scenario.drift_keeps_settings
      Scenario.cramer Scenario.pendulumSnapshot Scenario.pendulumWorld 2).2.2.2.1 _ rfl⟩,
    ⟨_, rfl, (finiteDifference_restores_world Scenario.drift Scenario.drift_keeps_settings
      Scenario.cramer Scenario.pendulumSnapshot Scenario.pendulumWorld 2).2.2.2.2 _ rfl⟩⟩

end BackpropSnapshot

/-! ## The flags under which the finite-difference routines step the world -/

theorem foldlM_congr_invariant {α : Type} (f g : α → Nat → Result α) (P : α → Prop)
    (hfg : ∀ a i, P a → f a i = g a i) (hP : ∀ a i b, P a → f a i = .ok b → P b) :
    ∀ (l : List Nat) (a : α), P a → l.foldlM f a = l.foldlM g a := by
  intro l
  induction l with
  | nil => intro a _; rfl
  | cons i l ih =>
    intro a ha
    simp only [List.foldlM_cons]
    rw [← hfg a i ha]
    cases h : f a i with
    | error e => rfl
    | ok a1 => exact ih a1 (hP a i a1 ha h)

namespace World

theorem step_congr {forward1 forward2 : World → WorldState} {w : World}
    (h : forward1 w = forward2 w) : w.step forward1 = w.step forward2 := by
  unfold step
  rw [h]

theorem steps_congr {forward1 forward2 : World → WorldState}
    (h1 : StepKeepsSolverSettings forward1) (P : World → Prop)
    (hP : ∀ w w' : World, w'.state.gradientEnabled = w.state.gradientEnabled →
      w'.state.penetrationCorrectionEnabled = w.state.penetrationCorrectionEnabled → P w → P w')
    (hagree : ∀ w, P w → forward1 w = forward2 w) :
    ∀ (n : Nat) (w : World), P w → w.steps forward1 n = w.steps forward2 n := by
  intro n
  induction n with
  | zero => intro w _; rfl
  | succ n ih =>
    intro w hw
    show (w.step forward1).steps forward1 n = (w.step forward2).steps forward2 n
    rw [← step_congr (hagree w hw)]
    exact ih _ (hP w _ (h1 w).2.1 (h1 w).2.2 hw)

end World

namespace BackpropSnapshot

theorem finiteDifferenceVelVelJacobianStep_congr {forward1 forward2 : World → WorldState}
    (hagree : ∀ w : World, w.state.gradientEnabled = false → forward1 w = forward2 w)
    (s : BackpropSnapshot) (snapshot : RestorableSnapshot) (originalVel : VectorXd)
    (EPSILON : ℚ) (acc : UninitMatrixXd × World) (i : Nat)
    (hacc : acc.2.state.gradientEnabled = false) :
    finiteDifferenceVelVelJacobianStep forward1 s snapshot originalVel EPSILON acc i
      = finiteDifferenceVelVelJacobianStep forward2 s snapshot originalVel EPSILON acc i := by
  unfold finiteDifferenceVelVelJacobianStep
  have h : ∀ tv, ((((snapshot.restore acc.2).setPositions s.mPreStepPosition).setForces
      s.mPreStepTorques).setVelocities tv).step forward1
      = ((((snapshot.restore acc.2).setPositions s.mPreStepPosition).setForces
      s.mPreStepTorques).setVelocities tv).step forward2 :=
    fun tv => World.step_congr (hagree _ hacc)
  simp only [h]

theorem finiteDifferenceVelVelJacobian_congr {forward1 forward2 : World → WorldState}
    (h1 : StepKeepsSolverSettings forward1)
    (hagree : ∀ w : World, w.state.gradientEnabled = false → forward1 w = forward2 w)
    (s : BackpropSnapshot) (world : World) :
    s.finiteDifferenceVelVelJacobian forward1 world
      = s.finiteDifferenceVelVelJacobian forward2 world := by
  unfold finiteDifferenceVelVelJacobian
  have h0 : ((((world.setGradientEnabled false).setPositions s.mPreStepPosition).setVelocities
      s.mPreStepVelocity).setForces s.mPreStepTorques).step forward1
      = ((((world.setGradientEnabled false).setPositions s.mPreStepPosition).setVelocities
      s.mPreStepVelocity).setForces s.mPreStepTorques).step forward2 :=
    World.step_congr (hagree _ rfl)
  have hg : (((((world.setGradientEnabled false).setPositions s.mPreStepPosition).setVelocities
      s.mPreStepVelocity).setForces s.mPreStepTorques).step forward2).state.gradientEnabled
      = false := by
    rw [← h0]
    exact (h1 _).2.1
  simp only [h0]
  rw [foldlM_congr_invariant _
    (finiteDifferenceVelVelJacobianStep forward2 s (RestorableSnapshot.create world) _ _)
    (fun a => a.2.state.gradientEnabled = false)
    (fun a i ha => finiteDifferenceVelVelJacobianStep_congr hagree s _ _ _ a i ha)
    (fun a i b ha hb => (finiteDifferenceVelVelJacobianStep_settings h1 hb).2.1.trans ha)
    _ _ hg]

end BackpropSnapshot

namespace BackpropSnapshot

theorem finiteDifferenceForceVelJacobianStep_congr {forward1 forward2 : World → WorldState}
    (hagree : ∀ w : World, w.state.gradientEnabled = false → forward1 w = forward2 w)
    (s : BackpropSnapshot) (snapshot : RestorableSnapshot) (originalForces originalVel : VectorXd)
    (EPSILON : ℚ) (acc : UninitMatrixXd × World) (i : Nat)
    (hacc : acc.2.state.gradientEnabled = false) :
    finiteDifferenceForceVelJacobianStep forward1 s snapshot originalForces originalVel EPSILON
        acc i
      = finiteDifferenceForceVelJacobianStep forward2 s snapshot originalForces originalVel
        EPSILON acc i := by
  unfold finiteDifferenceForceVelJacobianStep
  have h : ∀ tf, ((((snapshot.restore acc.2).setPositions s.mPreStepPosition).setVelocities
      s.mPreStepVelocity).setForces tf).step forward1
      = ((((snapshot.restore acc.2).setPositions s.mPreStepPosition).setVelocities
      s.mPreStepVelocity).setForces tf).step forward2 :=
    fun tf => World.step_congr (hagree _ hacc)
  simp only [h]

theorem finiteDifferenceForceVelJacobian_congr {forward1 forward2 : World → WorldState}
    (h1 : StepKeepsSolverSettings forward1)
    (hagree : ∀ w : World, w.state.gradientEnabled = false → forward1 w = forward2 w)
    (s : BackpropSnapshot) (world : World) :
    s.finiteDifferenceForceVelJacobian forward1 world
      = s.finiteDifferenceForceVelJacobian forward2 world := by
  unfold finiteDifferenceForceVelJacobian
  have h0 : ((((world.setGradientEnabled false).setPositions s.mPreStepPosition).setVelocities
      s.mPreStepVelocity).setForces s.mPreStepTorques).step forward1
      = ((((world.setGradientEnabled false).setPositions s.mPreStepPosition).setVelocities
      s.mPreStepVelocity).setForces s.mPreStepTorques).step forward2 :=
    World.step_congr (hagree _ rfl)
  have hg : (((((world.setGradientEnabled false).setPositions s.mPreStepPosition).setVelocities
      s.mPreStepVelocity).setForces s.mPreStepTorques).step forward2).state.gradientEnabled
      = false := by
    rw [← h0]
    exact (h1 _).2.1
  simp only [h0]
  rw [foldlM_congr_invariant _
    (finiteDifferenceForceVelJacobianStep forward2 s (RestorableSnapshot.create world) _ _ _)
    (fun a => a.2.state.gradientEnabled = false)
    (fun a i ha => finiteDifferenceForceVelJacobianStep_congr hagree s _ _ _ _ a i ha)
    (fun a i b ha hb => (finiteDifferenceForceVelJacobianStep_settings h1 hb).2.1.trans ha)
    _ _ hg]

theorem steps_congr_gradient {forward1 forward2 : World → WorldState}
    (h1 : StepKeepsSolverSettings forward1)
    (hagree : ∀ w : World, w.state.gradientEnabled = false → forward1 w = forward2 w)
    (n : Nat) (w : World) (hw : w.state.gradientEnabled = false) :
    w.steps forward1 n = w.steps forward2 n :=
  World.steps_congr h1 (fun w => w.state.gradientEnabled = false)
    (fun _ _ hg _ h => hg.trans h) hagree n w hw

theorem finiteDifferencePosPosJacobianStep_congr {forward1 forward2 : World → WorldState}
    (h1 : StepKeepsSolverSettings forward1)
    (hagree : ∀ w : World, w.state.gradientEnabled = false → forward1 w = forward2 w)
    (s : BackpropSnapshot) (subdivisions : Nat) (snapshot : RestorableSnapshot)
    (originalPosition : VectorXd) (EPSILON : ℚ) (acc : UninitMatrixXd × World) (i : Nat)
    (hacc : acc.2.state.gradientEnabled = false) :
    finiteDifferencePosPosJacobianStep forward1 s subdivisions snapshot originalPosition EPSILON
        acc i
      = finiteDifferencePosPosJacobianStep forward2 s subdivisions snapshot originalPosition
        EPSILON acc i := by
  unfold finiteDifferencePosPosJacobianStep
  have h : ∀ tp, ((((snapshot.restore acc.2).setVelocities s.mPreStepVelocity).setForces
      s.mPreStepTorques).setPositions tp).steps forward1 subdivisions
      = ((((snapshot.restore acc.2).setVelocities s.mPreStepVelocity).setForces
      s.mPreStepTorques).setPositions tp).steps forward2 subdivisions :=
    fun tp => steps_congr_gradient h1 hagree _ _ hacc
  simp only [h]

theorem finiteDifferencePosPosJacobian_congr {forward1 forward2 : World → WorldState}
    (h1 : StepKeepsSolverSettings forward1)
    (hagree : ∀ w : World, w.state.gradientEnabled = false → forward1 w = forward2 w)
    (s : BackpropSnapshot) (world : World) (subdivisions : Nat) :
    s.finiteDifferencePosPosJacobian forward1 world subdivisions
      = s.finiteDifferencePosPosJacobian forward2 world subdivisions := by
  unfold finiteDifferencePosPosJacobian
  have h0 : (((((world.setTimeStep (world.getTimeStep / subdivisions)).setGradientEnabled
      false).setPositions s.mPreStepPosition).setVelocities s.mPreStepVelocity).setForces
      s.mPreStepTorques).steps forward1 subdivisions
      = (((((world.setTimeStep (world.getTimeStep / subdivisions)).setGradientEnabled
      false).setPositions s.mPreStepPosition).setVelocities s.mPreStepVelocity).setForces
      s.mPreStepTorques).steps forward2 subdivisions :=
    steps_congr_gradient h1 hagree _ _ rfl
  have hg : ((((((world.setTimeStep (world.getTimeStep / subdivisions)).setGradientEnabled
      false).setPositions s.mPreStepPosition).setVelocities s.mPreStepVelocity).setForces
      s.mPreStepTorques).steps forward2 subdivisions).state.gradientEnabled = false := by
    rw [← h0]
    exact (World.steps_settings h1 _ _).2.1
  simp only [h0]
  rw [foldlM_congr_invariant _
    (finiteDifferencePosPosJacobianStep forward2 s subdivisions
      (RestorableSnapshot.create world) _ _)
    (fun a => a.2.state.gradientEnabled = false)
    (fun a i ha => finiteDifferencePosPosJacobianStep_congr h1 hagree s _ _ _ _ a i ha)
    (fun a i b ha hb => (finiteDifferencePosPosJacobianStep_settings h1 hb).2.1.trans ha)
    _ _ hg]

theorem finiteDifferenceVelPosJacobianStep_congr {forward1 forward2 : World → WorldState}
    (h1 : StepKeepsSolverSettings forward1)
    (hagree : ∀ w : World, w.state.gradientEnabled = false → forward1 w = forward2 w)
    (s : BackpropSnapshot) (subdivisions : Nat) (snapshot : RestorableSnapshot)
    (originalPosition : VectorXd) (EPSILON : ℚ) (acc : UninitMatrixXd × World) (i : Nat)
    (hacc : acc.2.state.gradientEnabled = false) :
    finiteDifferenceVelPosJacobianStep forward1 s subdivisions snapshot originalPosition EPSILON
        acc i
      = finiteDifferenceVelPosJacobianStep forward2 s subdivisions snapshot originalPosition
        EPSILON acc i := by
  unfold finiteDifferenceVelPosJacobianStep
  have h : ∀ tv, ((((snapshot.restore acc.2).setPositions s.mPreStepPosition).setForces
      s.mPreStepTorques).setVelocities tv).steps forward1 subdivisions
      = ((((snapshot.restore acc.2).setPositions s.mPreStepPosition).setForces
      s.mPreStepTorques).setVelocities tv).steps forward2 subdivisions :=
    fun tv => steps_congr_gradient h1 hagree _ _ hacc
  simp only [h]

theorem finiteDifferenceVelPosJacobian_congr {forward1 forward2 : World → WorldState}
    (h1 : StepKeepsSolverSettings forward1)
    (hagree : ∀ w : World, w.state.gradientEnabled = false → forward1 w = forward2 w)
    (s : BackpropSnapshot) (world : World) (subdivisions : Nat) :
    s.finiteDifferenceVelPosJacobian forward1 world subdivisions
      = s.finiteDifferenceVelPosJacobian forward2 world subdivisions := by
  unfold finiteDifferenceVelPosJacobian
  have h0 : (((((world.setTimeStep (world.getTimeStep / subdivisions)).setGradientEnabled
      false).setPositions s.mPreStepPosition).setVelocities s.mPreStepVelocity).setForces
      s.mPreStepTorques).steps forward1 subdivisions
      = (((((world.setTimeStep (world.getTimeStep / subdivisions)).setGradientEnabled
      false).setPositions s.mPreStepPosition).setVelocities s.mPreStepVelocity).setForces
      s.mPreStepTorques).steps forward2 subdivisions :=
    steps_congr_gradient h1 hagree _ _ rfl
  have hg : ((((((world.setTimeStep (world.getTimeStep / subdivisions)).setGradientEnabled
      false).setPositions s.mPreStepPosition).setVelocities s.mPreStepVelocity).setForces
      s.mPreStepTorques).steps forward2 subdivisions).state.gradientEnabled = false := by
    rw [← h0]
    exact (World.steps_settings h1 _ _).2.1
  simp only [h0]
  rw [foldlM_congr_invariant _
    (finiteDifferenceVelPosJacobianStep forward2 s subdivisions
      (RestorableSnapshot.create world) _ _)
    (fun a => a.2.state.gradientEnabled = false)
    (fun a i ha => finiteDifferenceVelPosJacobianStep_congr h1 hagree s _ _ _ _ a i ha)
    (fun a i b ha hb => (finiteDifferenceVelPosJacobianStep_settings h1 hb).2.1.trans ha)
    _ _ hg]

theorem finiteDifferencePosVelJacobianStep_congr {forward1 forward2 : World → WorldState}
    (hagree : ∀ w : World, w.state.gradientEnabled = false →
      w.state.penetrationCorrectionEnabled = false → forward1 w = forward2 w)
    (cod : CompleteOrthogonalDecomposition) (s : BackpropSnapshot)
    (snapshot : RestorableSnapshot) (originalVel : VectorXd) (dt EPSILON : ℚ)
    (acc : UninitMatrixXd × World) (i : Nat)
    (hacc : acc.2.state.gradientEnabled = false
      ∧ acc.2.state.penetrationCorrectionEnabled = false) :
    finiteDifferencePosVelJacobianStep forward1 cod s snapshot originalVel dt EPSILON acc i
      = finiteDifferencePosVelJacobianStep forward2 cod s snapshot originalVel dt EPSILON acc
        i := by
  unfold finiteDifferencePosVelJacobianStep
  cases htp : s.mPreStepPosition.addAt i EPSILON with
  | error e => rfl
  | ok tp =>
    simp only [Result.ok_bind]
    cases hA : s.getAnalyticalNextV cod ((((snapshot.restore acc.2).setForces
        s.mPreStepTorques).setVelocities s.mPreStepVelocity).setPositions tp) with
    | error e => rfl
    | ok r =>
      obtain ⟨expected, w1⟩ := r
      have hw1 := getAnalyticalNextV_world hA
      dsimp only at hw1
      subst hw1
      simp only [Result.ok_bind]
      have h : ((((snapshot.restore acc.2).setForces s.mPreStepTorques).setVelocities
          s.mPreStepVelocity).setPositions tp).step forward1
          = ((((snapshot.restore acc.2).setForces s.mPreStepTorques).setVelocities
          s.mPreStepVelocity).setPositions tp).step forward2 :=
        World.step_congr (hagree _ hacc.1 hacc.2)
      rw [h]

theorem finiteDifferencePosVelJacobian_congr {forward1 forward2 : World → WorldState}
    (h1 : StepKeepsSolverSettings forward1)
    (hagree : ∀ w : World, w.state.gradientEnabled = false →
      w.state.penetrationCorrectionEnabled = false → forward1 w = forward2 w)
    (cod : CompleteOrthogonalDecomposition) (s : BackpropSnapshot) (world : World) :
    s.finiteDifferencePosVelJacobian forward1 cod world
      = s.finiteDifferencePosVelJacobian forward2 cod world := by
  unfold finiteDifferencePosVelJacobian
  simp only []
  cases hA : s.getAnalyticalNextV cod (((((world.setGradientEnabled
      false).setPenetrationCorrectionEnabled false).setPositions
      s.mPreStepPosition).setVelocities s.mPreStepVelocity).setForces s.mPreStepTorques) with
  | error e => rfl
  | ok r =>
    obtain ⟨expected, w1⟩ := r
    have hw1 := getAnalyticalNextV_world hA
    dsimp only at hw1
    subst hw1
    simp only [Result.ok_bind]
    have h0 := World.step_congr (hagree (((((world.setGradientEnabled
      false).setPenetrationCorrectionEnabled false).setPositions
      s.mPreStepPosition).setVelocities s.mPreStepVelocity).setForces s.mPreStepTorques)
      rfl rfl)
    have hg : ((((((world.setGradientEnabled
        false).setPenetrationCorrectionEnabled false).setPositions
        s.mPreStepPosition).setVelocities s.mPreStepVelocity).setForces
        s.mPreStepTorques).step forward2).state.gradientEnabled = false
        ∧ ((((((world.setGradientEnabled
        false).setPenetrationCorrectionEnabled false).setPositions
        s.mPreStepPosition).setVelocities s.mPreStepVelocity).setForces
        s.mPreStepTorques).step forward2).state.penetrationCorrectionEnabled = false := by
      rw [← h0]
      exact ⟨(h1 _).2.1, (h1 _).2.2⟩
    simp only [h0]
    rw [foldlM_congr_invariant _
      (finiteDifferencePosVelJacobianStep forward2 cod s (RestorableSnapshot.create world)
        _ _ _)
      (fun a => a.2.state.gradientEnabled = false
        ∧ a.2.state.penetrationCorrectionEnabled = false)
      (fun a i ha => finiteDifferencePosVelJacobianStep_congr hagree cod s _ _ _ _ a i ha)
      (fun a i b ha hb =>
        ⟨(finiteDifferencePosVelJacobianStep_settings h1 hb).2.1.trans ha.1,
          (finiteDifferencePosVelJacobianStep_settings h1 hb).2.2.trans ha.2⟩)
      _ _ hg]

/-- The flags that the routines do disable: take two forward steps, the first of which alters
neither the timestep nor the solver flags. If they agree on every world whose gradient flag is disabled, each of the
velocity-velocity, force-velocity, position-position and velocity-position routines behaves the
same with either; if they agree on every world whose gradient flag and penetration-correction flag
are both disabled, the position-velocity routine behaves the same with either. So every forward
step of the five routines runs with the gradient flag disabled, and every forward step of the
position-velocity routine also runs with penetration correction disabled. -/
theorem finiteDifference_steps_flags (forward1 forward2 : World → WorldState)
    (h1 : StepKeepsSolverSettings forward1) (cod : CompleteOrthogonalDecomposition)
    (s : BackpropSnapshot) (world : World) (subdivisions : Nat) :
    ((∀ w : World, w.state.gradientEnabled = false → forward1 w = forward2 w) →
      s.finiteDifferenceVelVelJacobian forward1 world
          = s.finiteDifferenceVelVelJacobian forward2 world
        ∧ s.finiteDifferenceForceVelJacobian forward1 world
          = s.finiteDifferenceForceVelJacobian forward2 world
        ∧ s.finiteDifferencePosPosJacobian forward1 world subdivisions
          = s.finiteDifferencePosPosJacobian forward2 world subdivisions
        ∧ s.finiteDifferenceVelPosJacobian forward1 world subdivisions
          = s.finiteDifferenceVelPosJacobian forward2 world subdivisions)
    ∧ ((∀ w : World, w.state.gradientEnabled = false →
        w.state.penetrationCorrectionEnabled = false → forward1 w = forward2 w) →
      s.finiteDifferencePosVelJacobian forward1 cod world
        = s.finiteDifferencePosVelJacobian forward2 cod world) :=
  ⟨fun h => ⟨finiteDifferenceVelVelJacobian_congr h1 h s world,
      finiteDifferenceForceVelJacobian_congr h1 h s world,
      finiteDifferencePosPosJacobian_congr h1 h s world subdivisions,
      finiteDifferenceVelPosJacobian_congr h1 h s world subdivisions⟩,
    fun h => finiteDifferencePosVelJacobian_congr h1 h cod s world⟩

end BackpropSnapshot

namespace Scenario

theorem pendulum_velVel_drift_entry :
    ∃ r, pendulumSnapshot.finiteDifferenceVelVelJacobian drift pendulumWorld = .ok r
      ∧ r.1.get 0 0 = some 1 := by
  refine ⟨_, rfl, ?_⟩
  simp [UninitMatrixXd.get, UninitMatrixXd.alloc, pendulumSnapshot, BackpropSnapshot.create,
    pendulumWorld, World.step, drift, World.getVelocities, World.setVelocities,
    World.setForces, World.setPositions, World.setGradientEnabled, RestorableSnapshot.restore,
    RestorableSnapshot.create, VectorXd.div, VectorXd.Zero, restState, World.getPositions,
    World.getForces, BackpropSnapshot.constructorStep, pendulumSkeleton, World.getTimeStep]

theorem pendulum_velVel_correction_entry :
    ∃ r, pendulumSnapshot.finiteDifferenceVelVelJacobian driftWithCorrection pendulumWorld
        = .ok r
      ∧ r.1.get 0 0 = some 2 := by
  refine ⟨_, rfl, ?_⟩
  simp [UninitMatrixXd.get, UninitMatrixXd.alloc, pendulumSnapshot, BackpropSnapshot.create,
    pendulumWorld, World.step, drift, driftWithCorrection, World.getVelocities,
    World.setVelocities, World.setForces, World.setPositions, World.setGradientEnabled,
    RestorableSnapshot.restore, RestorableSnapshot.create, VectorXd.div, VectorXd.Zero,
    VectorXd.smul, restState, World.getPositions, World.getForces,
    BackpropSnapshot.constructorStep, pendulumSkeleton, World.getTimeStep]

end Scenario

namespace Scenario

theorem drift_eq_driftWithGradients (w : World) (h : w.state.gradientEnabled = false) :
    drift w = driftWithGradients w := by
  unfold driftWithGradients
  rw [h]
  rfl

theorem drift_eq_driftWithCorrection (w : World)
    (h : w.state.penetrationCorrectionEnabled = false) : drift w = driftWithCorrection w := by
  unfold driftWithCorrection
  rw [h]
  rfl

end Scenario

namespace BackpropSnapshot

/-- An instance: on the pendulum, whose world has both flags set before the call, free motion
and the step that doubles the velocity when the gradient flag is enabled give the same results
in the four routines, and free motion and the step that doubles the velocity when penetration
correction is enabled give the same result in the position-velocity routine. -/
theorem finiteDifference_steps_flags_witness :
    StepKeepsSolverSettings Scenario.drift
    ∧ (∀ w : World, w.state.gradientEnabled = false →
        Scenario.drift w = Scenario.driftWithGradients w)
    ∧ (Scenario.pendulumSnapshot.finiteDifferenceVelVelJacobian Scenario.drift
          Scenario.pendulumWorld
        = Scenario.pendulumSnapshot.finiteDifferenceVelVelJacobian Scenario.driftWithGradients
          Scenario.pendulumWorld
      ∧ Scenario.pendulumSnapshot.finiteDifferenceForceVelJacobian Scenario.drift
          Scenario.pendulumWorld
        = Scenario.pendulumSnapshot.finiteDifferenceForceVelJacobian Scenario.driftWithGradients
          Scenario.pendulumWorld
      ∧ Scenario.pendulumSnapshot.finiteDifferencePosPosJacobian Scenario.drift
          Scenario.pendulumWorld 2
        = Scenario.pendulumSnapshot.finiteDifferencePosPosJacobian Scenario.driftWithGradients
          Scenario.pendulumWorld 2
      ∧ Scenario.pendulumSnapshot.finiteDifferenceVelPosJacobian Scenario.drift
          Scenario.pendulumWorld 2
        = Scenario.pendulumSnapshot.finiteDifferenceVelPosJacobian Scenario.driftWithGradients
          Scenario.pendulumWorld 2)
    ∧ (∀ w : World, w.state.gradientEnabled = false →
        w.state.penetrationCorrectionEnabled = false →
        Scenario.drift w = Scenario.driftWithCorrection w)
    ∧ Scenario.pendulumSnapshot.finiteDifferencePosVelJacobian Scenario.drift Scenario.cramer
        Scenario.pendulumWorld
      = Scenario.pendulumSnapshot.finiteDifferencePosVelJacobian Scenario.driftWithCorrection
        Scenario.cramer Scenario.pendulumWorld :=
  ⟨Scenario.drift_keeps_settings, Scenario.drift_eq_driftWithGradients,
    (finiteDifference_steps_flags Scenario.drift Scenario.driftWithGradients
      Scenario.drift_keeps_settings Scenario.cramer Scenario.pendulumSnapshot
      Scenario.pendulumWorld 2).1 Scenario.drift_eq_driftWithGradients,
    fun w _ h => Scenario.drift_eq_driftWithCorrection w h,
    (finiteDifference_steps_flags Scenario.drift Scenario.driftWithCorrection
      Scenario.drift_keeps_settings Scenario.cramer Scenario.pendulumSnapshot
      Scenario.pendulumWorld 2).2 (fun w _ h => Scenario.drift_eq_driftWithCorrection w h)⟩

/-- The velocity-velocity routine on the pendulum, whose world has penetration correction enabled
before the call.
Free motion and the step that doubles the velocity when penetration correction is enabled agree on
every world in which penetration correction is disabled, and neither alters the timestep or the
flags. The velocity-velocity routine returns the coefficient 1 with the first and 2 with the
second: its forward steps ran with penetration correction enabled. -/
theorem finiteDifference_penetration_counterexample :
    StepKeepsSolverSettings Scenario.drift
    ∧ StepKeepsSolverSettings Scenario.driftWithCorrection
    ∧ (∀ w : World, w.state.penetrationCorrectionEnabled = false →
        Scenario.drift w = Scenario.driftWithCorrection w)
    ∧ Scenario.pendulumWorld.state.penetrationCorrectionEnabled = true
    ∧ ∃ r1 r2,
        Scenario.pendulumSnapshot.finiteDifferenceVelVelJacobian Scenario.drift
          Scenario.pendulumWorld = .ok r1
        ∧ Scenario.pendulumSnapshot.finiteDifferenceVelVelJacobian Scenario.driftWithCorrection
          Scenario.pendulumWorld = .ok r2
        ∧ r1.1.get 0 0 = some 1 ∧ r2.1.get 0 0 = some 2 := by
  obtain ⟨r1, h1, e1⟩ := Scenario.pendulum_velVel_drift_entry
  obtain ⟨r2, h2, e2⟩ := Scenario.pendulum_velVel_correction_entry
  exact ⟨Scenario.drift_keeps_settings, Scenario.driftWithCorrection_keeps_settings,
    Scenario.drift_eq_driftWithCorrection, rfl, r1, r2, h1, h2, e1, e2⟩

end BackpropSnapshot

/-! ## The velocity loss of a free skeleton -/

namespace Scenario

theorem pendulum_assembleMatrix (whichMatrix : MatrixToAssemble) :
    pendulumSnapshot.assembleMatrix pendulumWorld whichMatrix = .ok ⟨1, 0, 0⟩ := by
  cases whichMatrix <;> rfl

theorem pendulum_velC :
    pendulumSnapshot.getVelCJacobian pendulumWorld = .ok (⟨1, 1, 0⟩, pendulumWorld) := by
  unfold BackpropSnapshot.getVelCJacobian
  rw [BackpropSnapshot.assembleBlockDiagonalMatrix_false]
  simp [BackpropSnapshot.assembleDiagonalBlocks, pendulumWorld, pendulumSkeleton,
    BackpropSnapshot.skeletonMatrixToAssemble, Skeleton.getVelCJacobian, pendulumSnapshot,
    BackpropSnapshot.create, BackpropSnapshot.constructorStep, MatrixXd.Zero, MatrixXd.setBlock]
  rfl

theorem pendulum_velVel (cod : CompleteOrthogonalDecomposition) :
    pendulumSnapshot.getVelVelJacobian cod pendulumWorld = .ok (⟨1, 1, 1⟩, pendulumWorld) :=
  BackpropSnapshot.getVelVelJacobian_unconstrained_aux cod pendulumSnapshot pendulumWorld rfl rfl
    pendulum_velC

theorem pendulum_velPos (cod : CompleteOrthogonalDecomposition) :
    pendulumSnapshot.getVelPosJacobian cod pendulumWorld
      = .ok ⟨1, 1, (1 / 2 : ℚ) • (1 : Matrix (Fin 1) (Fin 1) ℚ)⟩ := by
  unfold BackpropSnapshot.getVelPosJacobian
  rw [BackpropSnapshot.getPosPosJacobian_no_bounce_aux cod pendulumSnapshot pendulumWorld
    ⟨1, 0, 0⟩ (pendulum_assembleMatrix .BOUNCING) rfl]
  rfl

end Scenario

namespace BackpropSnapshot

/-- C21, counterexample: the pendulum world has one free, mobile skeleton with one DOF, no
constraint group, the symmetric inverse mass matrix `[1]`, position-Coriolis Jacobian `[4]` and
timestep `1/2`. The analytic Jacobians are `velVel = [1]` and `velPos = [1/2]`, so for the next
loss `Lv = (1)`, `Lp = (0)` the claimed velocity loss is `velVel^T * Lv + velPos^T * Lp = (1)`.
`backprop` returns the velocity loss `(0)`: it adds `dt` times the position loss of this
timestep, `Lp - posC^T * (dt * Minv * Lv) = (-2)`, not `dt` times `Lp`. -/
theorem backprop_velocity_loss_counterexample :
    Scenario.pendulumSnapshot.mGradientMatrices = []
    ∧ Scenario.pendulumSkeleton.mobile = true
    ∧ (∀ st, (Scenario.pendulumSkeleton.invMassMatrix st).IsSymm)
    ∧ Scenario.velocityLoss.lossWrtVelocity.read = .ok ⟨1, ![1]⟩
    ∧ Scenario.velocityLoss.lossWrtPosition.read = .ok ⟨1, ![0]⟩
    ∧ Scenario.pendulumSnapshot.getVelVelJacobian Scenario.cramer Scenario.pendulumWorld
        = .ok (⟨1, 1, 1⟩, Scenario.pendulumWorld)
    ∧ Scenario.pendulumSnapshot.getVelPosJacobian Scenario.cramer Scenario.pendulumWorld
        = .ok ⟨1, 1, (1 / 2 : ℚ) • (1 : Matrix (Fin 1) (Fin 1) ℚ)⟩
    ∧ (1 : Matrix (Fin 1) (Fin 1) ℚ).transpose.mulVec ![1]
        + ((1 / 2 : ℚ) • (1 : Matrix (Fin 1) (Fin 1) ℚ)).transpose.mulVec ![0] = ![1]
    ∧ ∃ out : LossGradient,
        Scenario.pendulumSnapshot.backprop Scenario.pendulumWorld Scenario.velocityLoss
          Scenario.velocityLoss = .ok (out, Scenario.pendulumWorld)
        ∧ out.lossWrtTorque.read = .ok ⟨1, ![1 / 2]⟩
        ∧ out.lossWrtPosition.read = .ok ⟨1, ![-2]⟩
        ∧ out.lossWrtVelocity.read = .ok ⟨1, ![0]⟩
        ∧ out.lossWrtVelocity.read ≠ .ok ⟨1, ![1]⟩ := by
  have hne : ∀ r : Result VectorXd, r = .ok ⟨1, ![0]⟩ → r ≠ .ok ⟨1, ![1]⟩ := by
    intro r h1 h2
    rw [h1] at h2
    simp only [Except.ok.injEq, VectorXd.mk.injEq, heq_eq_eq, true_and] at h2
    have := congrFun h2 0
    simp at this
  refine ⟨rfl, rfl, fun st => ?_, ?_, ?_, Scenario.pendulum_velVel _, Scenario.pendulum_velPos _,
    ?_, _, rfl, ?_, ?_, ?_, hne _ ?_⟩
  · simp [Scenario.pendulumSkeleton, Matrix.IsSymm]
  · simp [Scenario.velocityLoss, UninitVectorXd.read, UninitVectorXd.segment,
      UninitVectorXd.ofVector, UninitVectorXd.assignedOn]
    funext i; fin_cases i; rfl
  · simp [Scenario.velocityLoss, UninitVectorXd.read, UninitVectorXd.segment,
      UninitVectorXd.ofVector, UninitVectorXd.assignedOn]
    funext i; fin_cases i; rfl
  · funext i; fin_cases i; simp [Matrix.mulVec, Matrix.dotProduct]
  · simp [UninitVectorXd.read, UninitVectorXd.segment, UninitVectorXd.assignedOn,
      skeletonOffset, Scenario.pendulumSnapshot, create, constructorStep,
      Scenario.pendulumSkeleton, UninitVectorXd.alloc, Scenario.velocityLoss,
      UninitVectorXd.ofVector, Skeleton.getInvMassMatrix, Skeleton.getPosCJacobian,
      Skeleton.getVelCJacobian, Matrix.mulVec, Matrix.dotProduct, Scenario.pendulumWorld,
      World.getTimeStep, Scenario.restState]
    funext i
    fin_cases i
    simp [Matrix.one_apply]
    try norm_num
  · simp [UninitVectorXd.read, UninitVectorXd.segment, UninitVectorXd.assignedOn,
      skeletonOffset, Scenario.pendulumSnapshot, create, constructorStep,
      Scenario.pendulumSkeleton, UninitVectorXd.alloc, Scenario.velocityLoss,
      UninitVectorXd.ofVector, Skeleton.getInvMassMatrix, Skeleton.getPosCJacobian,
      Skeleton.getVelCJacobian, Matrix.mulVec, Matrix.dotProduct, Scenario.pendulumWorld,
      World.getTimeStep, Scenario.restState]
    funext i
    fin_cases i
    simp [Matrix.one_apply]
    try norm_num
  · simp [UninitVectorXd.read, UninitVectorXd.segment, UninitVectorXd.assignedOn,
      skeletonOffset, Scenario.pendulumSnapshot, create, constructorStep,
      Scenario.pendulumSkeleton, UninitVectorXd.alloc, Scenario.velocityLoss,
      UninitVectorXd.ofVector, Skeleton.getInvMassMatrix, Skeleton.getPosCJacobian,
      Skeleton.getVelCJacobian, Matrix.mulVec, Matrix.dotProduct, Scenario.pendulumWorld,
      World.getTimeStep, Scenario.restState]
    funext i
    fin_cases i
    simp [Matrix.one_apply]
    try norm_num
  · simp [UninitVectorXd.read, UninitVectorXd.segment, UninitVectorXd.assignedOn,
      skeletonOffset, Scenario.pendulumSnapshot, create, constructorStep,
      Scenario.pendulumSkeleton, UninitVectorXd.alloc, Scenario.velocityLoss,
      UninitVectorXd.ofVector, Skeleton.getInvMassMatrix, Skeleton.getPosCJacobian,
      Skeleton.getVelCJacobian, Matrix.mulVec, Matrix.dotProduct, Scenario.pendulumWorld,
      World.getTimeStep, Scenario.restState]
    funext i
    fin_cases i
    simp [Matrix.one_apply]
    try norm_num

end BackpropSnapshot

/-! ## The torque loss of a world without constraint groups -/

namespace UninitVectorXd

theorem size_of_read {v : UninitVectorXd} {n : Nat} {f : Fin n → ℚ}
    (h : v.read = .ok ⟨n, f⟩) : v.size = n := by
  obtain ⟨g, hg, -⟩ := segment_eq_ok h
  exact (congrArg VectorXd.size hg).symm

/-- A vector that can be read as a whole can be read on every segment inside it. -/
theorem segment_of_read {v : UninitVectorXd} {x : VectorXd} (h : v.read = .ok x)
    (start n : Nat) (hle : start + n ≤ v.size) :
    ∃ f : Fin n → ℚ, v.segment start n = .ok ⟨n, f⟩ := by
  have ha : v.assignedOn 0 v.size = true := by
    unfold read segment at h
    split at h
    · split at h
      · assumption
      · cases h
    · cases h
  have hb : v.assignedOn start n = true :=
    (assignedOn_iff v start n).mpr fun i _ _ =>
      (assignedOn_iff v 0 v.size).mp ha i (Nat.zero_le _) (by have := i.isLt; omega)
  unfold segment
  rw [dif_pos hle, if_pos hb]
  exact ⟨_, rfl⟩

/-- A vector all of whose coefficients are assigned reads as the vector of these values. -/
theorem read_of_get {v : UninitVectorXd} {n : Nat} {g : Fin n → ℚ} (hn : v.size = n)
    (h : ∀ i : Fin n, v.get i.val = some (g i)) : v.read = .ok ⟨n, g⟩ := by
  subst hn
  have hc : ∀ i : Fin v.size, v.coeff i = some (g i) := fun i => by
    have := h i
    rwa [get_of_lt v i.isLt] at this
  have ha : v.assignedOn 0 v.size = true :=
    (assignedOn_iff v 0 v.size).mpr fun i _ _ => by rw [hc i]; rfl
  unfold read segment
  rw [dif_pos (by omega), if_pos ha]
  congr 2
  funext i
  have : (⟨0 + i.val, by have := i.isLt; omega⟩ : Fin v.size) = i := Fin.ext (Nat.zero_add _)
  rw [this, hc i]
  rfl

end UninitVectorXd

/-- A sum over `Fin n` of a function that vanishes outside the segment `[o, o + d)` is the sum over
the segment. -/
theorem sum_eq_sum_segment {n : Nat} (f : Fin n → ℚ) (o d : Nat) (hle : o + d ≤ n)
    (h0 : ∀ j : Fin n, ¬ (o ≤ j.val ∧ j.val < o + d) → f j = 0) :
    ∑ j, f j = ∑ b : Fin d, f ⟨o + b.val, by have := b.isLt; omega⟩ := by
  let e : Fin d ↪ Fin n :=
    ⟨fun b => ⟨o + b.val, by have := b.isLt; omega⟩, fun a b hab => by
      have := congrArg Fin.val hab
      simp only at this
      exact Fin.ext (by omega)⟩
  have h1 : ∑ b : Fin d, f ⟨o + b.val, by have := b.isLt; omega⟩
      = ∑ j ∈ Finset.univ.map e, f j := by
    rw [Finset.sum_map]
    rfl
  rw [h1]
  symm
  apply Finset.sum_subset (Finset.subset_univ _)
  intro j _ hj
  apply h0 j
  intro hin
  apply hj
  rw [Finset.mem_map]
  exact ⟨⟨j.val - o, by omega⟩, Finset.mem_univ _, Fin.ext (by simp [e]; omega)⟩

/-- A column of the transpose of `dt * J` applied to a vector, when the column of `J` vanishes
outside a diagonal block that holds the symmetric matrix `M`. -/
theorem transpose_mulVec_block {n d : Nat} (J : Matrix (Fin n) (Fin n) ℚ)
    (M : Matrix (Fin d) (Fin d) ℚ) (o : Nat) (hle : o + d ≤ n) (k : Fin d) (dt : ℚ)
    (Lv : Fin n → ℚ) (hM : M.IsSymm)
    (hblock : ∀ r : Fin d, J ⟨o + r.val, by have := r.isLt; omega⟩
      ⟨o + k.val, by have := k.isLt; omega⟩ = M r k)
    (hzero : ∀ j : Fin n, ¬ (o ≤ j.val ∧ j.val < o + d) →
      J j ⟨o + k.val, by have := k.isLt; omega⟩ = 0) :
    ((dt • J).transpose.mulVec Lv) ⟨o + k.val, by have := k.isLt; omega⟩
      = (dt • M.mulVec (fun b => Lv ⟨o + b.val, by have := b.isLt; omega⟩)) k := by
  simp only [Matrix.mulVec, Matrix.dotProduct, Matrix.transpose_apply, Matrix.smul_apply,
    Pi.smul_apply, smul_eq_mul]
  rw [sum_eq_sum_segment _ o d hle (fun j hj => by rw [hzero j hj]; ring), Finset.mul_sum]
  apply Finset.sum_congr rfl
  intro b _
  rw [hblock b, hM.apply k b]
  ring

namespace UninitVectorXd

theorem get_of_read {v : UninitVectorXd} {n : Nat} {f : Fin n → ℚ}
    (h : v.read = .ok ⟨n, f⟩) (i : Fin n) : v.get i.val = some (f i) := by
  obtain ⟨g, hg, hget⟩ := segment_eq_ok h
  cases hg
  have := hget i
  rwa [Nat.zero_add] at this

end UninitVectorXd

namespace BackpropSnapshot

/-- The free-skeleton loop returns when the next-timestep loss can be read and every segment lies
inside the vectors; the output vectors keep their size. -/
theorem backpropFreeSkeletons_ok (s : BackpropSnapshot) (world : World) (next : LossGradient)
    (visited : List String) (n : Nat) {xv xp : VectorXd}
    (hv : next.lossWrtVelocity.read = .ok xv) (hp : next.lossWrtPosition.read = .ok xp)
    (hvn : next.lossWrtVelocity.size = n) (hpn : next.lossWrtPosition.size = n) :
    ∀ l : List Skeleton, (∀ sk ∈ l, s.skeletonOffset sk.name + sk.numDofs ≤ n) →
      ∀ this : LossGradient, this.lossWrtTorque.size = n → this.lossWrtPosition.size = n →
        this.lossWrtVelocity.size = n →
        ∃ out, s.backpropFreeSkeletons world next visited l this = .ok out
          ∧ out.lossWrtTorque.size = n ∧ out.lossWrtPosition.size = n
          ∧ out.lossWrtVelocity.size = n := by
  intro l
  induction l with
  | nil =>
    intro _ this h1 h2 h3
    exact ⟨this, rfl, h1, h2, h3⟩
  | cons a l ih =>
    intro hl this h1 h2 h3
    have ha := hl a (List.mem_cons_self _ _)
    have hstep : ∃ mid, (if (!visited.contains a.name && a.mobile) = true then
          s.backpropFreeSkeleton world next a this else pure this) = .ok mid
        ∧ mid.lossWrtTorque.size = n ∧ mid.lossWrtPosition.size = n
        ∧ mid.lossWrtVelocity.size = n := by
      split
      · obtain ⟨fv, hfv⟩ := UninitVectorXd.segment_of_read hv (s.skeletonOffset a.name)
          a.numDofs (by rw [hvn]; exact ha)
        obtain ⟨fp, hfp⟩ := UninitVectorXd.segment_of_read hp (s.skeletonOffset a.name)
          a.numDofs (by rw [hpn]; exact ha)
        obtain ⟨mid, hmid⟩ := backpropFreeSkeleton_ok s world next this a fv fp hfv hfp
          (by rw [h1]; exact ha) (by rw [h2]; exact ha) (by rw [h3]; exact ha)
        obtain ⟨nv, np, -, -, hT, hP, hV⟩ := backpropFreeSkeleton_eq_ok hmid
        exact ⟨mid, hmid, (UninitVectorXd.setSegment_eq_ok hT).1.trans h1,
          (UninitVectorXd.setSegment_eq_ok hP).1.trans h2,
          (UninitVectorXd.setSegment_eq_ok hV).1.trans h3⟩
      · exact ⟨this, rfl, h1, h2, h3⟩
    obtain ⟨mid, hmid, hm1, hm2, hm3⟩ := hstep
    obtain ⟨out, hout, ho⟩ := ih (fun sk hsk => hl sk (List.mem_cons_of_mem _ hsk)) mid hm1 hm2
      hm3
    refine ⟨out, ?_, ho⟩
    simp only [backpropFreeSkeletons]
    rw [hmid]
    exact hout

end BackpropSnapshot

namespace BackpropSnapshot

/-- The constructor counts no clamping column when it collected no group. -/
theorem create_mNumClamping_of_no_group (world : World) (preP preV preT : VectorXd)
    (hfree : (create world preP preV preT).mGradientMatrices = []) :
    (create world preP preV preT).mNumClamping = 0 := by
  have h := create_numColsToAssemble world preP preV preT .CLAMPING
    (by rw [hfree]; intro g hg; cases hg)
  rw [hfree] at h
  exact h.symm

/-- In a world without constraint group `backprop` returns as soon as the next-timestep loss can
be read on all DOFs, and its three output vectors have one entry per DOF. -/
theorem backprop_no_group_ok (world0 world : World) (preP preV preT : VectorXd)
    (s : BackpropSnapshot) (this next : LossGradient) (Lv Lp : Fin s.mNumDOFs → ℚ)
    (hs : s = create world0 preP preV preT)
    (hsk : world.skeletons = world0.skeletons)
    (hnames : (world0.skeletons.map Skeleton.name).Nodup)
    (hfree : s.mGradientMatrices = [])
    (hv : next.lossWrtVelocity.read = .ok ⟨_, Lv⟩)
    (hp : next.lossWrtPosition.read = .ok ⟨_, Lp⟩) :
    ∃ out : LossGradient, s.backprop world this next = .ok (out, world)
      ∧ out.lossWrtTorque.size = s.mNumDOFs := by
  have hbound : ∀ sk ∈ (s.atPreStep world).skeletons,
      s.skeletonOffset sk.name + sk.numDofs ≤ s.mNumDOFs := by
    intro sk hsk'
    have hmem : sk ∈ world0.skeletons := hsk ▸ hsk'
    rw [hs]
    exact create_skeletonOffset_add_le world0 preP preV preT hnames sk hmem
  obtain ⟨out, hout, ho, -, -⟩ := backpropFreeSkeletons_ok s (s.atPreStep world) next []
    s.mNumDOFs hv hp (UninitVectorXd.size_of_read hv) (UninitVectorXd.size_of_read hp)
    (s.atPreStep world).skeletons hbound
    { lossWrtPosition := UninitVectorXd.alloc s.mNumDOFs
      lossWrtVelocity := UninitVectorXd.alloc s.mNumDOFs
      lossWrtTorque := UninitVectorXd.alloc s.mNumDOFs } rfl rfl rfl
  refine ⟨out, ?_, ho⟩
  rw [backprop_eq_passes_aux]
  unfold backpropPasses
  rw [hfree]
  simp only [backpropGroups, Result.ok_bind]
  rw [hout]
  rfl

theorem backprop_torque_aux (cod : CompleteOrthogonalDecomposition) (world0 world : World)
    (preP preV preT : VectorXd) (s : BackpropSnapshot) (this next : LossGradient)
    (Lv Lp : Fin s.mNumDOFs → ℚ)
    (hs : s = create world0 preP preV preT)
    (hsk : world.skeletons = world0.skeletons)
    (hnames : (world0.skeletons.map Skeleton.name).Nodup)
    (hfree : s.mGradientMatrices = [])
    (hmobile : ∀ sk ∈ world.skeletons, sk.mobile = true)
    (hsymm : ∀ sk ∈ world.skeletons, (sk.invMassMatrix (s.atPreStep world).state).IsSymm)
    (hv : next.lossWrtVelocity.read = .ok ⟨_, Lv⟩)
    (hp : next.lossWrtPosition.read = .ok ⟨_, Lp⟩) :
    ∃ (FV : Matrix (Fin s.mNumDOFs) (Fin s.mNumDOFs) ℚ) (out : LossGradient),
      s.getForceVelJacobian cod world = .ok (⟨_, _, FV⟩, world)
      ∧ s.backprop world this next = .ok (out, world)
      ∧ out.lossWrtTorque.read = .ok ⟨_, FV.transpose.mulVec Lv⟩ := by
  obtain ⟨J, hJ, hblocks, hzero⟩ := assembleBlockDiagonalMatrix_blocks_aux world0 world preP preV
    preT s .INV_MASS false hs hsk hnames
  have hclamp : s.mNumClamping = 0 := by
    subst hs
    exact create_mNumClamping_of_no_group world0 preP preV preT hfree
  have hA : s.getClampingConstraintMatrix world
      = .ok ⟨s.mNumDOFs, s.numColsToAssemble .CLAMPING, 0⟩ :=
    assembleMatrix_of_no_group s world .CLAMPING hfree
  have hFV := getForceVelJacobian_of_size_eq_zero cod s world _ J hA
    (by show s.mNumDOFs * s.mNumClamping = 0; rw [hclamp, Nat.mul_zero]) hJ
  obtain ⟨out, hout, hsize⟩ := backprop_no_group_ok world0 world preP preV preT s this next Lv Lp
    hs hsk hnames hfree hv hp
  refine ⟨s.mTimeStep • J, out, hFV, hout, ?_⟩
  apply UninitVectorXd.read_of_get hsize
  intro i
  obtain ⟨a, ha0, hlo, hhi⟩ := create_segments_cover world0 preP preV preT hnames i.val
    (by rw [← hs]; exact i.isLt)
  rw [← hs] at hlo hhi
  have ha : a ∈ world.skeletons := hsk ▸ ha0
  have hle : s.skeletonOffset a.name + a.numDofs ≤ s.mNumDOFs := by
    rw [hs]
    exact create_skeletonOffset_add_le world0 preP preV preT hnames a ha0
  obtain ⟨out', hout', nextVel, nextPos, torque, pos, vel, hnv, -, htorque, -, -, hget⟩ :=
    backprop_free_mobile_skeleton_aux world0 world preP preV preT s this next a hs hsk hnames ha
      (by rw [hfree]; intro g hg; cases hg) (hmobile a ha) (by rw [hout]; rfl)
  have hoo : out' = out := by
    rw [hout] at hout'
    simp only [Except.ok.injEq, Prod.mk.injEq] at hout'
    exact hout'.1.symm
  subst hoo
  have hk : i.val - s.skeletonOffset a.name < a.numDofs := by omega
  have hik : s.skeletonOffset a.name + (⟨i.val - s.skeletonOffset a.name, hk⟩ : Fin _).val
      = i.val := by simp only; omega
  have hg1 := (hget ⟨i.val - s.skeletonOffset a.name, hk⟩).1
  rw [hik] at hg1
  rw [hg1, htorque]
  have hnextVel : nextVel = fun b : Fin a.numDofs =>
      Lv ⟨s.skeletonOffset a.name + b.val, by have := b.isLt; omega⟩ := by
    funext b
    have h1 := hnv b
    have h2 := UninitVectorXd.get_of_read hv
      ⟨s.skeletonOffset a.name + b.val, by have := b.isLt; omega⟩
    rw [h1] at h2
    exact Option.some.inj h2
  have hmain := transpose_mulVec_block J (a.invMassMatrix (s.atPreStep world).state)
    (s.skeletonOffset a.name) hle ⟨i.val - s.skeletonOffset a.name, hk⟩ s.mTimeStep Lv
    (hsymm a ha)
    (fun r => by
      have hb := hblocks a ha r.val (i.val - s.skeletonOffset a.name) r.isLt hk
      rw [MatrixXd.mget_of_lt _ (show s.skeletonOffset a.name + r.val < s.mNumDOFs by
          have := r.isLt; omega)
        (show s.skeletonOffset a.name + (i.val - s.skeletonOffset a.name) < s.mNumDOFs by
          omega)] at hb
      simp only [Bool.false_eq_true, if_false, skeletonMatrixToAssemble,
        Skeleton.getInvMassMatrix, MatrixXd.get_mk] at hb
      have hb2 := hb.trans (MatrixXd.get_mk (a.invMassMatrix (s.atPreStep world).state) r
        ⟨i.val - s.skeletonOffset a.name, hk⟩)
      exact Option.some.inj hb2)
    (fun j hj => by
      have hz := hzero j.val i.val j.isLt i.isLt (fun a' ha' hboth => by
        by_cases hname : a'.name = a.name
        · rw [hname] at hboth
          have : a' = a := by
            have hinj := List.inj_on_of_nodup_map hnames
            exact hinj (hsk ▸ ha') ha0 hname
          subst this
          exact hj hboth.1
        · rcases create_segments_disjoint world0 preP preV preT hnames a' a (hsk ▸ ha') ha0
            hname with h | h
          · rw [← hs] at h; omega
          · rw [← hs] at h; omega)
      rw [MatrixXd.mget_of_lt _ j.isLt i.isLt] at hz
      have hz2 := Option.some.inj hz
      have hidx : (⟨s.skeletonOffset a.name + (i.val - s.skeletonOffset a.name), by omega⟩ :
          Fin s.mNumDOFs) = i := Fin.ext (by simp only; omega)
      rw [hidx]
      exact hz2)
  have hidx : (⟨s.skeletonOffset a.name + (i.val - s.skeletonOffset a.name), by omega⟩ :
      Fin s.mNumDOFs) = i := Fin.ext (by simp only; omega)
  rw [hidx] at hmain
  rw [hmain, hnextVel]

end BackpropSnapshot

theorem UninitVectorXd.read_ofVector (v : VectorXd) :
    (UninitVectorXd.ofVector v).read = .ok v := by
  obtain ⟨n, f⟩ := v
  exact UninitVectorXd.read_of_get rfl
    (fun i => by simp [UninitVectorXd.get, UninitVectorXd.ofVector])

namespace Scenario

theorem duo_symm : ∀ sk ∈ duoWorld.skeletons,
    (sk.invMassMatrix (duoSnapshot.atPreStep duoWorld).state).IsSymm := by
  intro sk hsk
  simp only [duoWorld, List.mem_cons, List.mem_singleton, List.not_mem_nil, or_false] at hsk
  rcases hsk with rfl | rfl
  · simp [pendulumSkeleton, Matrix.IsSymm]
  · simp [bodySkeleton, Matrix.IsSymm]

theorem duo_mobile : ∀ sk ∈ duoWorld.skeletons, sk.mobile = true := by
  intro sk hsk
  simp only [duoWorld, List.mem_cons, List.mem_singleton, List.not_mem_nil, or_false] at hsk
  rcases hsk with rfl | rfl <;> rfl

end Scenario

namespace BackpropSnapshot

/-- C22: for a snapshot built by the constructor from a world with pairwise distinct skeleton
names, without constraint group, all of whose skeletons are mobile and have a symmetric inverse
mass matrix at the pre-step state, and for two next-timestep losses with the same velocity part
`Lv` (given on all DOFs) and any position parts (given on all DOFs) and torque parts: `backprop`
returns for both, `getForceVelJacobian` returns a matrix `FV`, and the torque loss written by
either run is `FV^T * Lv`. -/
theorem backprop_torque_eq_forceVel (cod : CompleteOrthogonalDecomposition)
    (world0 world : World) (preP preV preT : VectorXd) (s : BackpropSnapshot)
    (this next next' : LossGradient) (Lv Lp Lp' : Fin s.mNumDOFs → ℚ)
    (hs : s = create world0 preP preV preT)
    (hsk : world.skeletons = world0.skeletons)
    (hnames : (world0.skeletons.map Skeleton.name).Nodup)
    (hfree : s.mGradientMatrices = [])
    (hmobile : ∀ sk ∈ world.skeletons, sk.mobile = true)
    (hsymm : ∀ sk ∈ world.skeletons, (sk.invMassMatrix (s.atPreStep world).state).IsSymm)
    (hv : next.lossWrtVelocity.read = .ok ⟨_, Lv⟩)
    (hp : next.lossWrtPosition.read = .ok ⟨_, Lp⟩)
    (hv' : next'.lossWrtVelocity.read = .ok ⟨_, Lv⟩)
    (hp' : next'.lossWrtPosition.read = .ok ⟨_, Lp'⟩) :
    ∃ (FV : Matrix (Fin s.mNumDOFs) (Fin s.mNumDOFs) ℚ) (out out' : LossGradient),
      s.getForceVelJacobian cod world = .ok (⟨_, _, FV⟩, world)
      ∧ s.backprop world this next = .ok (out, world)
      ∧ s.backprop world this next' = .ok (out', world)
      ∧ out.lossWrtTorque.read = .ok ⟨_, FV.transpose.mulVec Lv⟩
      ∧ out'.lossWrtTorque.read = .ok ⟨_, FV.transpose.mulVec Lv⟩ := by
  obtain ⟨FV, out, hFV, hout, hread⟩ := backprop_torque_aux cod world0 world preP preV preT s
    this next Lv Lp hs hsk hnames hfree hmobile hsymm hv hp
  obtain ⟨FV', out', hFV', hout', hread'⟩ := backprop_torque_aux cod world0 world preP preV preT
    s this next' Lv Lp' hs hsk hnames hfree hmobile hsymm hv' hp'
  rw [hFV] at hFV'
  simp only [Except.ok.injEq, Prod.mk.injEq, MatrixXd.mk.injEq, heq_eq_eq, true_and,
    and_true] at hFV'
  subst hFV'
  exact ⟨FV, out, out', hFV, hout, hout', hread, hread'⟩

/-- C22, witness: the pendulum next to the free body, with the next velocity loss `(5, 6, 7, 8)`
and two different position and torque parts. -/
theorem backprop_torque_eq_forceVel_witness :
    ∃ (FV : Matrix (Fin Scenario.duoSnapshot.mNumDOFs) (Fin Scenario.duoSnapshot.mNumDOFs) ℚ)
      (out out' : LossGradient),
      Scenario.duoSnapshot.getForceVelJacobian Scenario.cramer Scenario.duoWorld
        = .ok (⟨_, _, FV⟩, Scenario.duoWorld)
      ∧ Scenario.duoSnapshot.backprop Scenario.duoWorld Scenario.duoLoss Scenario.duoLoss
        = .ok (out, Scenario.duoWorld)
      ∧ Scenario.duoSnapshot.backprop Scenario.duoWorld Scenario.duoLoss Scenario.duoLossShifted
        = .ok (out', Scenario.duoWorld)
      ∧ out.lossWrtTorque.read = .ok ⟨_, FV.transpose.mulVec ![5, 6, 7, 8]⟩
      ∧ out'.lossWrtTorque.read = .ok ⟨_, FV.transpose.mulVec ![5, 6, 7, 8]⟩ :=
  backprop_torque_eq_forceVel Scenario.cramer Scenario.duoWorld Scenario.duoWorld
    (VectorXd.Zero 4) (VectorXd.Zero 4) (VectorXd.Zero 4) Scenario.duoSnapshot Scenario.duoLoss
    Scenario.duoLoss Scenario.duoLossShifted ![5, 6, 7, 8] ![1, 2, 3, 4] ![0, 0, 0, 9] rfl rfl
    (by decide) rfl Scenario.duo_mobile Scenario.duo_symm
    (UninitVectorXd.read_ofVector _) (UninitVectorXd.read_ofVector _)
    (UninitVectorXd.read_ofVector _) (UninitVectorXd.read_ofVector _)

end BackpropSnapshot

/-! ## The shape of the Jacobian of the projection into the clamping constraints -/

namespace BackpropSnapshot

/-- C35: evaluation at the failing input. For the pendulum next to a free body (four DOFs, no
clamping constraint) and the target `LINK_MASSES`, the wrt dimension differs from four, yet
`getJacobianOfProjectionIntoClampsMatrix` returns a matrix with zero rows and `numDOFs = 4`
columns, and `getVelJacobianWrt` stops on the Eigen shape precondition instead of returning a
matrix with `getWrtDim` columns. -/
theorem getJacobianOfProjectionIntoClampsMatrix_empty_shape :
    Scenario.duoSnapshot.mNumClamping = 0
      ∧ Scenario.duoWorld.getNumDofs = 4
      ∧ getWrtDim Scenario.duoWorld .LINK_MASSES = 2
      ∧ Scenario.duoSnapshot.getJacobianOfProjectionIntoClampsMatrix
          Scenario.cramer Scenario.duoWorld (VectorXd.Zero 4) .LINK_MASSES
        = .ok (⟨0, 4, 0⟩, Scenario.duoWorld)
      ∧ Scenario.duoSnapshot.getVelJacobianWrt Scenario.cramer Scenario.duoWorld .LINK_MASSES
        = .error .eigenAssertion :=
  ⟨rfl, rfl, rfl, rfl, rfl⟩

end BackpropSnapshot

/-! ## The massed and the general force-velocity Jacobian -/

namespace Scenario

theorem wedge_assembleMatrix (whichMatrix : MatrixToAssemble) :
    wedgeSnapshot.assembleMatrix wedgeWorld whichMatrix
      = .ok (BackpropSnapshot.groupMatrixToAssemble wedgeGroup whichMatrix) := by
  cases whichMatrix <;>
  simp [BackpropSnapshot.assembleMatrix,
    wedgeSnapshot, BackpropSnapshot.create, wedgeWorld, wedgeSkeleton,
    BackpropSnapshot.constructorStep, wedgeGroup, BackpropSnapshot.assembleGroups,
    BackpropSnapshot.assembleGroupRows, BackpropSnapshot.groupMatrixToAssemble,
    World.getSkeleton, deref, BackpropSnapshot.skeletonOffset,
    BackpropSnapshot.numColsToAssemble]

theorem wedge_E : wedgeSnapshot.getUpperBoundMappingMatrix = .ok ⟨0, 1, 0⟩ := by
  simp [BackpropSnapshot.getUpperBoundMappingMatrix, BackpropSnapshot.mappingBlocks,
    wedgeSnapshot, BackpropSnapshot.create, wedgeWorld, wedgeSkeleton,
    BackpropSnapshot.constructorStep, wedgeGroup]

theorem wedge_bounce : wedgeSnapshot.getBounceDiagonals = .ok ⟨1, ![1]⟩ := rfl

theorem wedge_diagonalBlocks (whichMatrix : BlockDiagonalMatrixToAssemble) (world : World) :
    BackpropSnapshot.assembleDiagonalBlocks world whichMatrix [wedgeSkeleton] 0
        (MatrixXd.Zero 2 2)
      = .ok (BackpropSnapshot.skeletonMatrixToAssemble wedgeSkeleton world.state
          whichMatrix) := by
  cases whichMatrix <;>
  simp [BackpropSnapshot.assembleDiagonalBlocks, wedgeSkeleton,
    BackpropSnapshot.skeletonMatrixToAssemble,
    Skeleton.getMassMatrix, Skeleton.getInvMassMatrix, Skeleton.getPosCJacobian,
    Skeleton.getVelCJacobian]

theorem wedge_blockDiagonal (whichMatrix : BlockDiagonalMatrixToAssemble) (ffd : Bool) :
    wedgeSnapshot.assembleBlockDiagonalMatrix wedgeWorld whichMatrix ffd
      = .ok (BackpropSnapshot.skeletonMatrixToAssemble wedgeSkeleton
          wedgeWorld.state whichMatrix, wedgeWorld) := by
  cases ffd
  · rw [BackpropSnapshot.assembleBlockDiagonalMatrix_false]
    have h := wedge_diagonalBlocks whichMatrix (wedgeSnapshot.atPreStep wedgeWorld)
    rw [show wedgeSnapshot.mNumDOFs = 2 from rfl,
      show wedgeWorld.skeletons = [wedgeSkeleton] from rfl, h]
    cases whichMatrix <;> rfl
  · rw [BackpropSnapshot.assembleBlockDiagonalMatrix_true]
    have h := wedge_diagonalBlocks whichMatrix wedgeWorld
    rw [show wedgeSnapshot.mNumDOFs = 2 from rfl,
      show wedgeWorld.skeletons = [wedgeSkeleton] from rfl, h]
    rfl

theorem wedge_Pc (ffd : Bool) :
    wedgeSnapshot.getProjectionIntoClampsMatrix leftInverse wedgeWorld ffd
      = .ok (⟨1, 2, !![2 / 3, 2 / 3]⟩, wedgeWorld) := by
  unfold BackpropSnapshot.getProjectionIntoClampsMatrix
    BackpropSnapshot.getClampingConstraintMatrix
    BackpropSnapshot.getUpperBoundConstraintMatrix
    BackpropSnapshot.getMassedClampingConstraintMatrix
    BackpropSnapshot.getMassedUpperBoundConstraintMatrix
    BackpropSnapshot.getInvMassMatrix
  rw [wedge_assembleMatrix, wedge_E, wedge_bounce]
  cases ffd
  · simp [wedge_assembleMatrix, BackpropSnapshot.groupMatrixToAssemble, wedgeGroup,
      CompleteOrthogonalDecomposition.solve, CompleteOrthogonalDecomposition.pinv, leftInverse,
      show wedgeSnapshot.mTimeStep = 1 from rfl]
    ext i j
    fin_cases i; fin_cases j <;>
      simp [Matrix.mul_apply, Matrix.diagonal, Matrix.vecHead, Matrix.transpose] <;> norm_num
  · simp [wedge_assembleMatrix, wedge_blockDiagonal,
      BackpropSnapshot.skeletonMatrixToAssemble, Skeleton.getInvMassMatrix, wedgeSkeleton,
      BackpropSnapshot.groupMatrixToAssemble, wedgeGroup,
      CompleteOrthogonalDecomposition.solve, CompleteOrthogonalDecomposition.pinv, leftInverse,
      show wedgeSnapshot.mTimeStep = 1 from rfl]
    ext i j
    fin_cases i; fin_cases j <;>
      simp [Matrix.mul_apply, Matrix.diagonal, Matrix.vecHead, Matrix.transpose] <;> norm_num

end Scenario

namespace Scenario

theorem wedge_forceVel :
    wedgeSnapshot.getForceVelJacobian leftInverse wedgeWorld
      = .ok (⟨2, 2, !![1 / 3, -1 / 3; -1 / 3, 1 / 3]⟩, wedgeWorld) := by
  have h := (BackpropSnapshot.getForceVelJacobian_clamping_aux leftInverse wedgeSnapshot
    wedgeWorld (!![1; 1] : Matrix (Fin 2) (Fin 1) ℚ) (0 : Matrix (Fin 2) (Fin 0) ℚ)
    (0 : Matrix (Fin 0) (Fin 1) ℚ) (!![1, 0; 0, 1 / 2] : Matrix (Fin 2) (Fin 2) ℚ)
    (!![2 / 3, 2 / 3] : Matrix (Fin 1) (Fin 2) ℚ)
    (show 0 < 1 from Nat.one_pos)
    (wedge_assembleMatrix .CLAMPING)
    (wedge_assembleMatrix .UPPER_BOUND)
    wedge_E
    (wedge_blockDiagonal .INV_MASS false)
    (wedge_Pc false)).1
  rw [h]
  congr 3
  show (1 : ℚ) • (!![1, 0; 0, 1 / 2] : Matrix (Fin 2) (Fin 2) ℚ)
      * ((1 : Matrix (Fin 2) (Fin 2) ℚ) - (1 : ℚ) • ((!![1; 1] : Matrix (Fin 2) (Fin 1) ℚ)
          + (0 : Matrix (Fin 2) (Fin 0) ℚ) * (0 : Matrix (Fin 0) (Fin 1) ℚ))
        * (!![2 / 3, 2 / 3] : Matrix (Fin 1) (Fin 2) ℚ)
        * (!![1, 0; 0, 1 / 2] : Matrix (Fin 2) (Fin 2) ℚ))
    = !![1 / 3, -1 / 3; -1 / 3, 1 / 3]
  ext i j
  fin_cases i <;> fin_cases j <;>
    simp [Matrix.mul_apply, Matrix.one_apply, Fin.sum_univ_two] <;> norm_num

theorem wedge_pinv :
    leftInverse.pseudoInverse 2 1 (!![1; 1 / 2] : Matrix (Fin 2) (Fin 1) ℚ)
      = !![4 / 5, 2 / 5] := by
  ext i j
  simp only [leftInverse, Matrix.mul_apply, Matrix.transpose_apply, Matrix.smul_apply,
    Matrix.adjugate_fin_one, Matrix.det_fin_one, Fin.sum_univ_two, Finset.univ_unique,
    Finset.sum_singleton, Matrix.one_apply]
  fin_cases i; fin_cases j <;> simp <;> norm_num

theorem wedge_massed_forceVel :
    wedgeMassed.getForceVelJacobian leftInverse
      = .ok ⟨2, 2, !![7 / 25, -9 / 25; -9 / 25, 8 / 25]⟩ := by
  simp only [MassedBackpropSnapshot.getForceVelJacobian,
    MassedBackpropSnapshot.getProjectionIntoClampsMatrix,
    MassedBackpropSnapshot.getClampingConstraintMatrix,
    MassedBackpropSnapshot.getUpperBoundConstraintMatrix,
    MassedBackpropSnapshot.getUpperBoundMappingMatrix,
    MassedBackpropSnapshot.getInvMassMatrix, wedgeMassed,
    CompleteOrthogonalDecomposition.pinv, wedge_pinv, MatrixXd.size_mk, Nat.mul_zero,
    gt_iff_lt, lt_self_iff_false, false_and, if_false, MatrixXd.ok_mul_ok, MatrixXd.mul_mk,
    MatrixXd.transpose_mk, Result.ok_bind, MatrixXd.ok_sub_ok, MatrixXd.sub_mk,
    MatrixXd.smul_ok, MatrixXd.smul_mk]
  congr 2
  ext i j
  simp only [Matrix.mul_apply, Matrix.transpose_apply, Matrix.smul_apply, Matrix.sub_apply,
    Fin.sum_univ_two, Finset.univ_unique, Finset.sum_singleton]
  fin_cases i <;> fin_cases j <;> simp <;> norm_num

end Scenario

namespace Scenario

/-- For a matrix with invertible Gram matrix `A^T * A`, `(A^T * A)^(-1) * A^T` satisfies the
Moore-Penrose conditions. -/
theorem leftInverse_isPseudoInverse {m N : Nat} (B : Matrix (Fin m) (Fin N) ℚ)
    (h : IsUnit (B.transpose * B).det) :
    IsPseudoInverse B (leftInverse.pseudoInverse m N B) := by
  have hC : (B.transpose * B).det⁻¹ • (B.transpose * B).adjugate = (B.transpose * B)⁻¹ := by
    ext i j
    simp [Matrix.inv_def, Ring.inverse_eq_inv']
  have hP : leftInverse.pseudoInverse m N B = (B.transpose * B)⁻¹ * B.transpose := by
    simp only [leftInverse, hC]
  have hsymm : ((B.transpose * B)⁻¹).transpose = (B.transpose * B)⁻¹ := by
    rw [Matrix.transpose_nonsing_inv, Matrix.transpose_mul, Matrix.transpose_transpose]
  have hPB : (B.transpose * B)⁻¹ * B.transpose * B = 1 := by
    rw [Matrix.mul_assoc, Matrix.nonsing_inv_mul _ h]
  rw [hP]
  refine ⟨?_, ?_, ?_, ?_⟩
  · rw [Matrix.mul_assoc, hPB, Matrix.mul_one]
  · rw [hPB, Matrix.one_mul]
  · rw [Matrix.transpose_mul, Matrix.transpose_mul, hsymm, Matrix.transpose_transpose,
      Matrix.mul_assoc]
  · rw [hPB, Matrix.transpose_one]

theorem wedge_pinv_plain :
    leftInverse.pseudoInverse 2 1 (!![1; 1] : Matrix (Fin 2) (Fin 1) ℚ)
      = !![1 / 2, 1 / 2] := by
  ext i j
  simp only [leftInverse, Matrix.mul_apply, Matrix.transpose_apply, Matrix.smul_apply,
    Matrix.adjugate_fin_one, Matrix.det_fin_one, Fin.sum_univ_two, Finset.univ_unique,
    Finset.sum_singleton, Matrix.one_apply]
  fin_cases i; fin_cases j <;> simp <;> norm_num

theorem wedge_plain_forceVel :
    MassedBackpropSnapshot.getForceVelJacobian leftInverse
        { wedgeMassed with clampingConstraintMatrix := ⟨2, 1, !![1; 1]⟩ }
      = .ok ⟨2, 2, !![5 / 8, -3 / 8; -3 / 8, 1 / 8]⟩ := by
  simp only [MassedBackpropSnapshot.getForceVelJacobian,
    MassedBackpropSnapshot.getProjectionIntoClampsMatrix,
    MassedBackpropSnapshot.getClampingConstraintMatrix,
    MassedBackpropSnapshot.getUpperBoundConstraintMatrix,
    MassedBackpropSnapshot.getUpperBoundMappingMatrix,
    MassedBackpropSnapshot.getInvMassMatrix, wedgeMassed,
    CompleteOrthogonalDecomposition.pinv, wedge_pinv_plain, MatrixXd.size_mk, Nat.mul_zero,
    gt_iff_lt, lt_self_iff_false, false_and, if_false, MatrixXd.ok_mul_ok, MatrixXd.mul_mk,
    MatrixXd.transpose_mk, Result.ok_bind, MatrixXd.ok_sub_ok, MatrixXd.sub_mk,
    MatrixXd.smul_ok, MatrixXd.smul_mk]
  congr 2
  ext i j
  simp only [Matrix.mul_apply, Matrix.transpose_apply, Matrix.smul_apply, Matrix.sub_apply,
    Fin.sum_univ_two, Finset.univ_unique, Finset.sum_singleton]
  fin_cases i <;> fin_cases j <;> simp <;> norm_num

end Scenario

namespace MassedBackpropSnapshot

/-- C32: evaluation at the failing input. The wedge has mass matrix `diag(1, 2)`, one clamping
column `A_c = (1, 1)`, no upper-bound column, bounce diagonal 1 and timestep 1; the massed
snapshot holds `V_c = Minv A_c = (1, 1/2)` and the decomposition returns the Moore-Penrose
pseudo-inverse of `V_c`. The general `getForceVelJacobian` returns
`[1/3, -1/3; -1/3, 1/3]`, which `A_c^T` annihilates, whereas the massed one returns
`[7/25, -9/25; -9/25, 8/25]`; reading the clamping accessor as `A_c` instead gives
`[5/8, -3/8; -3/8, 1/8]`, again another matrix. -/
theorem getForceVelJacobian_massed_differs :
    Scenario.wedgeSnapshot.getClampingConstraintMatrix Scenario.wedgeWorld
        = .ok ⟨2, 1, !![1; 1]⟩
      ∧ Scenario.wedgeSnapshot.getMassedClampingConstraintMatrix Scenario.wedgeWorld
        = .ok Scenario.wedgeMassed.getClampingConstraintMatrix
      ∧ Scenario.wedgeSnapshot.getInvMassMatrix Scenario.wedgeWorld false
        = .ok (Scenario.wedgeMassed.getInvMassMatrix, Scenario.wedgeWorld)
      ∧ Scenario.wedgeSnapshot.getMassMatrix Scenario.wedgeWorld false
        = .ok (Scenario.wedgeMassed.getMassMatrix, Scenario.wedgeWorld)
      ∧ Scenario.wedgeSnapshot.mNumUpperBound = 0
      ∧ Scenario.wedgeSnapshot.mTimeStep = Scenario.wedgeMassed.mTimeStep
      ∧ (!![1, 0; 0, 1 / 2] : Matrix (Fin 2) (Fin 2) ℚ) * (!![1; 1] : Matrix (Fin 2) (Fin 1) ℚ)
        = !![1; 1 / 2]
      ∧ (!![1, 0; 0, 2] : Matrix (Fin 2) (Fin 2) ℚ) * !![1, 0; 0, 1 / 2] = 1
      ∧ IsPseudoInverse (!![1; 1 / 2] : Matrix (Fin 2) (Fin 1) ℚ)
          (Scenario.leftInverse.pseudoInverse 2 1 !![1; 1 / 2])
      ∧ Scenario.wedgeSnapshot.getForceVelJacobian Scenario.leftInverse Scenario.wedgeWorld
        = .ok (⟨2, 2, !![1 / 3, -1 / 3; -1 / 3, 1 / 3]⟩, Scenario.wedgeWorld)
      ∧ (!![1, 1] : Matrix (Fin 1) (Fin 2) ℚ)
          * (!![1 / 3, -1 / 3; -1 / 3, 1 / 3] : Matrix (Fin 2) (Fin 2) ℚ) = 0
      ∧ Scenario.wedgeMassed.getForceVelJacobian Scenario.leftInverse
        = .ok ⟨2, 2, !![7 / 25, -9 / 25; -9 / 25, 8 / 25]⟩
      ∧ (!![1 / 3, -1 / 3; -1 / 3, 1 / 3] : Matrix (Fin 2) (Fin 2) ℚ)
        ≠ !![7 / 25, -9 / 25; -9 / 25, 8 / 25]
      ∧ getForceVelJacobian Scenario.leftInverse
          { Scenario.wedgeMassed with clampingConstraintMatrix := ⟨2, 1, !![1; 1]⟩ }
        = .ok ⟨2, 2, !![5 / 8, -3 / 8; -3 / 8, 1 / 8]⟩ := by
  refine ⟨Scenario.wedge_assembleMatrix .CLAMPING, Scenario.wedge_assembleMatrix .MASSED_CLAMPING,
    Scenario.wedge_blockDiagonal .INV_MASS false, Scenario.wedge_blockDiagonal .MASS false,
    rfl, rfl, ?_, ?_, ?_, Scenario.wedge_forceVel, ?_, Scenario.wedge_massed_forceVel, ?_,
    Scenario.wedge_plain_forceVel⟩
  · ext i j
    simp only [Matrix.mul_apply, Fin.sum_univ_two]
    fin_cases i <;> fin_cases j <;> simp
  · ext i j
    simp only [Matrix.mul_apply, Fin.sum_univ_two]
    fin_cases i <;> fin_cases j <;> simp [Matrix.one_apply]
  · apply Scenario.leftInverse_isPseudoInverse
    rw [Matrix.det_fin_one]
    simp only [Matrix.mul_apply, Matrix.transpose_apply, Fin.sum_univ_two]
    simp
    norm_num
  · ext i j
    simp only [Matrix.mul_apply, Fin.sum_univ_two]
    fin_cases i; fin_cases j <;> simp <;> norm_num
  · intro h
    have h00 := congrFun (congrFun h 0) 0
    norm_num at h00

end MassedBackpropSnapshot

/-! ## The two modes of the projection into the clamping constraints -/

namespace BackpropSnapshot

/-- The core of the comparison of the two modes: the constraint-force-to-implied-torques matrix
`Minv (A_c + A_ub E)` of the finite-differencing mode and the matrix `V_c + V_ub E` of the other
mode are the same result, for a mapping matrix `E` of any shape. -/
theorem impliedTorques_modes_aux {n c u : Nat}
    (Ac Vc : Matrix (Fin n) (Fin c) ℚ) (Aub Vub : Matrix (Fin n) (Fin u) ℚ)
    (Minv : Matrix (Fin n) (Fin n) ℚ) (E : MatrixXd)
    (hc : Vc = Minv * Ac) (hub : Vub = Minv * Aub) :
    ((Except.ok ⟨n, n, Minv⟩ : Result MatrixXd)
        * (Except.ok ⟨n, c, Ac⟩ + (Except.ok ⟨n, u, Aub⟩ * Except.ok E))
      : Result MatrixXd)
      = (Except.ok ⟨n, c, Vc⟩ + (Except.ok ⟨n, u, Vub⟩ * Except.ok E) : Result MatrixXd) := by
  obtain ⟨r, k, Ec⟩ := E
  by_cases hr : u = r
  · subst hr
    by_cases hk : c = k
    · subst hk
      simp only [MatrixXd.ok_mul_ok, MatrixXd.mul_mk, MatrixXd.ok_add_ok, MatrixXd.add_mk]
      rw [hc, hub, Matrix.mul_add, Matrix.mul_assoc]
    · simp only [MatrixXd.ok_mul_ok, MatrixXd.mul_mk, MatrixXd.ok_add_ok]
      simp only [MatrixXd.add, hk, and_false, dite_false]
      rfl
  · simp only [MatrixXd.ok_mul_ok]
    simp only [MatrixXd.mul, hr, dite_false]
    rfl

theorem getProjectionIntoClampsMatrix_modes_aux (cod : CompleteOrthogonalDecomposition)
    (s : BackpropSnapshot) (world : World)
    (Ac Vc : Matrix (Fin s.mNumDOFs) (Fin s.mNumClamping) ℚ)
    (Aub Vub : Matrix (Fin s.mNumDOFs) (Fin s.mNumUpperBound) ℚ)
    (Minv : Matrix (Fin s.mNumDOFs) (Fin s.mNumDOFs) ℚ)
    (hAc : s.getClampingConstraintMatrix world = .ok ⟨_, _, Ac⟩)
    (hAub : s.getUpperBoundConstraintMatrix world = .ok ⟨_, _, Aub⟩)
    (hVc : s.getMassedClampingConstraintMatrix world = .ok ⟨_, _, Vc⟩)
    (hVub : s.getMassedUpperBoundConstraintMatrix world = .ok ⟨_, _, Vub⟩)
    (hMinv : s.getInvMassMatrix world true = .ok (⟨_, _, Minv⟩, world))
    (hc : Vc = Minv * Ac) (hub : Vub = Minv * Aub) :
    s.getProjectionIntoClampsMatrix cod world true
      = s.getProjectionIntoClampsMatrix cod world false := by
  unfold getProjectionIntoClampsMatrix
  rw [hAc]
  simp only [Result.ok_bind]
  split
  · rfl
  · cases hE : s.getUpperBoundMappingMatrix with
    | error e => rfl
    | ok E =>
      simp only [Result.ok_bind, if_true, Bool.false_eq_true, if_false, hAub, hMinv, hVc, hVub]
      rw [impliedTorques_modes_aux Ac Vc Aub Vub Minv E hc hub]

/-- C33: the two modes of `getProjectionIntoClampsMatrix` return the same result (the same matrix
and world, or the same abort) whenever the assembled massed matrices are the inverse mass matrix
of the current world state times the plain ones, `V_c = Minv A_c` and `V_ub = Minv A_ub`. -/
theorem getProjectionIntoClampsMatrix_modes_agree (cod : CompleteOrthogonalDecomposition)
    (s : BackpropSnapshot) (world : World)
    (Ac Vc : Matrix (Fin s.mNumDOFs) (Fin s.mNumClamping) ℚ)
    (Aub Vub : Matrix (Fin s.mNumDOFs) (Fin s.mNumUpperBound) ℚ)
    (Minv : Matrix (Fin s.mNumDOFs) (Fin s.mNumDOFs) ℚ)
    (hAc : s.getClampingConstraintMatrix world = .ok ⟨_, _, Ac⟩)
    (hAub : s.getUpperBoundConstraintMatrix world = .ok ⟨_, _, Aub⟩)
    (hVc : s.getMassedClampingConstraintMatrix world = .ok ⟨_, _, Vc⟩)
    (hVub : s.getMassedUpperBoundConstraintMatrix world = .ok ⟨_, _, Vub⟩)
    (hMinv : s.getInvMassMatrix world true = .ok (⟨_, _, Minv⟩, world))
    (hc : Vc = Minv * Ac) (hub : Vub = Minv * Aub) :
    s.getProjectionIntoClampsMatrix cod world true
      = s.getProjectionIntoClampsMatrix cod world false :=
  getProjectionIntoClampsMatrix_modes_aux cod s world Ac Vc Aub Vub Minv hAc hAub hVc hVub hMinv
    hc hub

/-- C33 witness: the wedge, whose inverse mass matrix is `diag(1, 1/2)`. -/
theorem getProjectionIntoClampsMatrix_modes_agree_witness :
    Scenario.wedgeSnapshot.getProjectionIntoClampsMatrix Scenario.leftInverse
        Scenario.wedgeWorld true
      = Scenario.wedgeSnapshot.getProjectionIntoClampsMatrix Scenario.leftInverse
        Scenario.wedgeWorld false :=
  getProjectionIntoClampsMatrix_modes_agree Scenario.leftInverse Scenario.wedgeSnapshot
    Scenario.wedgeWorld (!![1; 1] : Matrix (Fin 2) (Fin 1) ℚ)
    (!![1; 1 / 2] : Matrix (Fin 2) (Fin 1) ℚ) (0 : Matrix (Fin 2) (Fin 0) ℚ)
    (0 : Matrix (Fin 2) (Fin 0) ℚ) (!![1, 0; 0, 1 / 2] : Matrix (Fin 2) (Fin 2) ℚ)
    (Scenario.wedge_assembleMatrix .CLAMPING) (Scenario.wedge_assembleMatrix .UPPER_BOUND)
    (Scenario.wedge_assembleMatrix .MASSED_CLAMPING)
    (Scenario.wedge_assembleMatrix .MASSED_UPPER_BOUND)
    (Scenario.wedge_blockDiagonal .INV_MASS true)
    (by
      ext i j
      simp only [Matrix.mul_apply, Fin.sum_univ_two]
      fin_cases i <;> fin_cases j <;> simp)
    (by
      ext i j
      exact Fin.elim0 j)

end BackpropSnapshot

/-! ## The constraint part of the velocity Jacobian is a projection -/

/-- The algebra behind the projection: with `X` a left inverse of `Q = A_c^T Minv A` and
`P = (1/dt) X A_c^T`, the matrix `T = dt Minv A P` is idempotent and splits the velocity
Jacobian. -/
theorem projection_algebra_aux {n c : Nat} (dt : ℚ) (hdt : dt ≠ 0)
    (Minv VC : Matrix (Fin n) (Fin n) ℚ) (A : Matrix (Fin n) (Fin c) ℚ)
    (Act : Matrix (Fin c) (Fin n) ℚ) (X : Matrix (Fin c) (Fin c) ℚ)
    (hX : X * (Act * (Minv * A)) = 1) :
    ((1 / dt) • (X * Act)) * (dt • Minv * A) = 1
      ∧ (dt • Minv * A * ((1 / dt) • (X * Act))) * (dt • Minv * A * ((1 / dt) • (X * Act)))
          = dt • Minv * A * ((1 / dt) • (X * Act))
      ∧ (1 - dt • Minv * A * ((1 / dt) • (X * Act)))
            * (1 - dt • Minv * A * ((1 / dt) • (X * Act)))
          = 1 - dt • Minv * A * ((1 / dt) • (X * Act))
      ∧ 1 - dt • Minv * A * ((1 / dt) • (X * Act))
            - dt • Minv * (1 - dt • A * ((1 / dt) • (X * Act)) * Minv) * VC
          = (1 - dt • Minv * A * ((1 / dt) • (X * Act))) * (1 - dt • Minv * VC) := by
  have hP : ((1 / dt) • (X * Act)) * (dt • Minv * A) = 1 := by
    rw [Matrix.smul_mul, Matrix.smul_mul, Matrix.mul_smul, smul_smul, Matrix.mul_assoc, hX]
    simp [hdt]
  have hT : (dt • Minv * A * ((1 / dt) • (X * Act))) * (dt • Minv * A * ((1 / dt) • (X * Act)))
      = dt • Minv * A * ((1 / dt) • (X * Act)) := by
    rw [Matrix.mul_assoc (dt • Minv * A) ((1 / dt) • (X * Act)),
      ← Matrix.mul_assoc ((1 / dt) • (X * Act)) (dt • Minv * A), hP, Matrix.one_mul]
  refine ⟨hP, hT, ?_, ?_⟩
  · rw [Matrix.sub_mul, Matrix.mul_sub, Matrix.mul_sub, hT]
    simp
  · simp only [Matrix.sub_mul, Matrix.mul_sub, Matrix.mul_one, Matrix.one_mul, Matrix.smul_mul,
      Matrix.mul_smul, Matrix.mul_assoc, smul_sub, smul_smul]
    have h1 : 1 / dt * dt = 1 := by field_simp
    have h2 : dt * (1 / dt) = 1 := by field_simp
    simp only [mul_assoc, h1, h2, mul_one, one_mul]


namespace BackpropSnapshot

theorem getVelVelJacobian_projection_aux (cod : CompleteOrthogonalDecomposition)
    (s : BackpropSnapshot) (world : World)
    (Ac Vc : Matrix (Fin s.mNumDOFs) (Fin s.mNumClamping) ℚ)
    (Aub Vub : Matrix (Fin s.mNumDOFs) (Fin s.mNumUpperBound) ℚ)
    (E : Matrix (Fin s.mNumUpperBound) (Fin s.mNumClamping) ℚ)
    (Minv VC : Matrix (Fin s.mNumDOFs) (Fin s.mNumDOFs) ℚ)
    (hpos : 0 < s.mNumClamping)
    (hAc : s.getClampingConstraintMatrix world = .ok ⟨_, _, Ac⟩)
    (hAub : s.getUpperBoundConstraintMatrix world = .ok ⟨_, _, Aub⟩)
    (hE : s.getUpperBoundMappingMatrix = .ok ⟨_, _, E⟩)
    (hVc : s.getMassedClampingConstraintMatrix world = .ok ⟨_, _, Vc⟩)
    (hVub : s.getMassedUpperBoundConstraintMatrix world = .ok ⟨_, _, Vub⟩)
    (hMinv : s.getInvMassMatrix world false = .ok (⟨_, _, Minv⟩, world))
    (hVC : s.getVelCJacobian world = .ok (⟨_, _, VC⟩, world))
    (hb : s.getBounceDiagonals = .ok ⟨s.mNumClamping, fun _ => 1⟩)
    (hc : Vc = Minv * Ac) (hub : Vub = Minv * Aub)
    (hdt : s.mTimeStep ≠ 0)
    (hQ : IsUnit (Ac.transpose * (Minv * (Ac + Aub * E))).det)
    (hcod : IsPseudoInverse (Ac.transpose * (Minv * (Ac + Aub * E)))
      (cod.pseudoInverse _ _ (Ac.transpose * (Minv * (Ac + Aub * E))))) :
    ∃ P : Matrix (Fin s.mNumClamping) (Fin s.mNumDOFs) ℚ,
      s.getProjectionIntoClampsMatrix cod world false = .ok (⟨_, _, P⟩, world)
        ∧ P * (s.mTimeStep • Minv * (Ac + Aub * E)) = 1
        ∧ (s.mTimeStep • Minv * (Ac + Aub * E) * P) * (s.mTimeStep • Minv * (Ac + Aub * E) * P)
            = s.mTimeStep • Minv * (Ac + Aub * E) * P
        ∧ (1 - s.mTimeStep • Minv * (Ac + Aub * E) * P)
              * (1 - s.mTimeStep • Minv * (Ac + Aub * E) * P)
            = 1 - s.mTimeStep • Minv * (Ac + Aub * E) * P
        ∧ s.getVelVelJacobian cod world
            = .ok (⟨_, _, (1 - s.mTimeStep • Minv * (Ac + Aub * E) * P)
                * (1 - s.mTimeStep • Minv * VC)⟩, world) := by
  have hV : Vc + Vub * E = Minv * (Ac + Aub * E) := by
    rw [hc, hub, Matrix.mul_add, Matrix.mul_assoc]
  have hn : s.mNumDOFs ≠ 0 := by
    intro h
    have hz : Ac.transpose * (Minv * (Ac + Aub * E)) = 0 :=
      matrix_mul_eq_zero_of_inner_eq_zero h _ _
    rw [hz] at hQ
    haveI : Nonempty (Fin s.mNumClamping) := ⟨⟨0, hpos⟩⟩
    rw [Matrix.det_zero inferInstance] at hQ
    exact not_isUnit_zero hQ
  have h0 : s.mNumDOFs * s.mNumClamping ≠ 0 := Nat.mul_ne_zero hn (by omega)
  have hP := ((getProjectionIntoClampsMatrix_exact_aux cod s world Ac hAc).2 h0 Vc Vub E
    (fun _ => 1) hVc hVub hE hb).1
  rw [hV] at hP
  have hdiag : Matrix.diagonal (fun _ : Fin s.mNumClamping => (1 : ℚ)) = 1 :=
    Matrix.diagonal_one
  rw [hdiag, Matrix.one_mul] at hP
  have hX := (inverse_of_isPseudoInverse _ _ hQ hcod).2
  obtain ⟨a1, a2, a3, a4⟩ := projection_algebra_aux s.mTimeStep hdt Minv VC (Ac + Aub * E)
    Ac.transpose (cod.pseudoInverse _ _ (Ac.transpose * (Minv * (Ac + Aub * E)))) hX
  have hFV := (getForceVelJacobian_clamping_aux cod s world Ac Aub E Minv _ hpos hAc hAub hE
    hMinv hP).1
  have hVV := (getVelVelJacobian_eq_aux cod s world Ac _ VC hAc hFV hVC).2 h0 Aub E Minv _
    hAub hE hMinv hP
  refine ⟨_, hP, a1, a2, a3, ?_⟩
  rw [hVV, a4]

end BackpropSnapshot

namespace BackpropSnapshot

/-- C36: with at least one clamping column, massed matrices `V_c = Minv A_c`, `V_ub = Minv A_ub`,
every bounce diagonal 1, a non-zero timestep and `Q = A_c^T Minv (A_c + A_ub E)` invertible, the
matrix `P_c` that `getProjectionIntoClampsMatrix` returns satisfies
`P_c (dt Minv (A_c + A_ub E)) = I`; hence `T = dt Minv (A_c + A_ub E) P_c` and `I - T` are
idempotent, and `getVelVelJacobian` returns `(I - T) (I - dt Minv velCJacobian)`. -/
theorem getVelVelJacobian_projection (cod : CompleteOrthogonalDecomposition)
    (s : BackpropSnapshot) (world : World)
    (Ac Vc : Matrix (Fin s.mNumDOFs) (Fin s.mNumClamping) ℚ)
    (Aub Vub : Matrix (Fin s.mNumDOFs) (Fin s.mNumUpperBound) ℚ)
    (E : Matrix (Fin s.mNumUpperBound) (Fin s.mNumClamping) ℚ)
    (Minv VC : Matrix (Fin s.mNumDOFs) (Fin s.mNumDOFs) ℚ)
    (hpos : 0 < s.mNumClamping)
    (hAc : s.getClampingConstraintMatrix world = .ok ⟨_, _, Ac⟩)
    (hAub : s.getUpperBoundConstraintMatrix world = .ok ⟨_, _, Aub⟩)
    (hE : s.getUpperBoundMappingMatrix = .ok ⟨_, _, E⟩)
    (hVc : s.getMassedClampingConstraintMatrix world = .ok ⟨_, _, Vc⟩)
    (hVub : s.getMassedUpperBoundConstraintMatrix world = .ok ⟨_, _, Vub⟩)
    (hMinv : s.getInvMassMatrix world false = .ok (⟨_, _, Minv⟩, world))
    (hVC : s.getVelCJacobian world = .ok (⟨_, _, VC⟩, world))
    (hb : s.getBounceDiagonals = .ok ⟨s.mNumClamping, fun _ => 1⟩)
    (hc : Vc = Minv * Ac) (hub : Vub = Minv * Aub)
    (hdt : s.mTimeStep ≠ 0)
    (hQ : IsUnit (Ac.transpose * (Minv * (Ac + Aub * E))).det)
    (hcod : IsPseudoInverse (Ac.transpose * (Minv * (Ac + Aub * E)))
      (cod.pseudoInverse _ _ (Ac.transpose * (Minv * (Ac + Aub * E))))) :
    ∃ P : Matrix (Fin s.mNumClamping) (Fin s.mNumDOFs) ℚ,
      s.getProjectionIntoClampsMatrix cod world false = .ok (⟨_, _, P⟩, world)
        ∧ P * (s.mTimeStep • Minv * (Ac + Aub * E)) = 1
        ∧ (s.mTimeStep • Minv * (Ac + Aub * E) * P) * (s.mTimeStep • Minv * (Ac + Aub * E) * P)
            = s.mTimeStep • Minv * (Ac + Aub * E) * P
        ∧ (1 - s.mTimeStep • Minv * (Ac + Aub * E) * P)
              * (1 - s.mTimeStep • Minv * (Ac + Aub * E) * P)
            = 1 - s.mTimeStep • Minv * (Ac + Aub * E) * P
        ∧ s.getVelVelJacobian cod world
            = .ok (⟨_, _, (1 - s.mTimeStep • Minv * (Ac + Aub * E) * P)
                * (1 - s.mTimeStep • Minv * VC)⟩, world) :=
  getVelVelJacobian_projection_aux cod s world Ac Vc Aub Vub E Minv VC hpos hAc hAub hE hVc hVub
    hMinv hVC hb hc hub hdt hQ hcod

/-- C36 witness: the box in contact with friction coefficient `1/2`, bounce diagonal 1 and
timestep `1/100`. -/
theorem getVelVelJacobian_projection_witness :
    ∃ P : Matrix (Fin 1) (Fin 2) ℚ,
      (Scenario.contactSnapshot (1 / 2) 1 (1 / 100) ![0, 0] ![0, 10]).getProjectionIntoClampsMatrix
          Scenario.cramer (Scenario.contactWorld (1 / 2) 1 (1 / 100) ![0, 0] ![0, 10]) false
        = .ok (⟨1, 2, P⟩, Scenario.contactWorld (1 / 2) 1 (1 / 100) ![0, 0] ![0, 10])
      ∧ P * ((1 / 100 : ℚ) • (1 : Matrix (Fin 2) (Fin 2) ℚ)
          * ((!![0; 1] : Matrix (Fin 2) (Fin 1) ℚ)
            + (!![1; 0] : Matrix (Fin 2) (Fin 1) ℚ) * (!![1 / 2] : Matrix (Fin 1) (Fin 1) ℚ)))
        = 1
      ∧ (Scenario.contactSnapshot (1 / 2) 1 (1 / 100) ![0, 0] ![0, 10]).getVelVelJacobian
          Scenario.cramer (Scenario.contactWorld (1 / 2) 1 (1 / 100) ![0, 0] ![0, 10])
        = .ok (⟨2, 2, (1 - (1 / 100 : ℚ) • (1 : Matrix (Fin 2) (Fin 2) ℚ)
              * ((!![0; 1] : Matrix (Fin 2) (Fin 1) ℚ)
                + (!![1; 0] : Matrix (Fin 2) (Fin 1) ℚ) * (!![1 / 2] : Matrix (Fin 1) (Fin 1) ℚ))
              * P)
            * (1 - (1 / 100 : ℚ) • (1 : Matrix (Fin 2) (Fin 2) ℚ)
              * (!![0, 1; -1, 0] : Matrix (Fin 2) (Fin 2) ℚ))⟩,
          Scenario.contactWorld (1 / 2) 1 (1 / 100) ![0, 0] ![0, 10]) := by
  obtain ⟨P, h1, h2, -, -, h5⟩ := getVelVelJacobian_projection Scenario.cramer
    (Scenario.contactSnapshot (1 / 2) 1 (1 / 100) ![0, 0] ![0, 10])
    (Scenario.contactWorld (1 / 2) 1 (1 / 100) ![0, 0] ![0, 10])
    (!![0; 1] : Matrix (Fin 2) (Fin 1) ℚ) (!![0; 1] : Matrix (Fin 2) (Fin 1) ℚ)
    (!![1; 0] : Matrix (Fin 2) (Fin 1) ℚ) (!![1; 0] : Matrix (Fin 2) (Fin 1) ℚ)
    (!![1 / 2] : Matrix (Fin 1) (Fin 1) ℚ) (1 : Matrix (Fin 2) (Fin 2) ℚ)
    (!![0, 1; -1, 0] : Matrix (Fin 2) (Fin 2) ℚ)
    (show 0 < 1 from Nat.one_pos)
    (Scenario.contact_assembleMatrix _ _ _ _ _ .CLAMPING)
    (Scenario.contact_assembleMatrix _ _ _ _ _ .UPPER_BOUND)
    (Scenario.contact_E _ _ _ _ _)
    (Scenario.contact_assembleMatrix _ _ _ _ _ .MASSED_CLAMPING)
    (Scenario.contact_assembleMatrix _ _ _ _ _ .MASSED_UPPER_BOUND)
    (Scenario.contact_blockDiagonal _ _ _ _ _ .INV_MASS false)
    (Scenario.contact_blockDiagonal _ _ _ _ _ .VEL_C false)
    (by
      rw [Scenario.contact_bounce]
      congr 2
      funext i
      fin_cases i
      rfl)
    (Matrix.one_mul _).symm (Matrix.one_mul _).symm
    (show (1 / 100 : ℚ) ≠ 0 by norm_num)
    (by rw [Matrix.one_mul, Scenario.contact_Q]; simp)
    (Scenario.cramer_isPseudoInverse _ (by rw [Matrix.one_mul, Scenario.contact_Q]; simp))
  exact ⟨P, h1, h2, h5⟩

end BackpropSnapshot

/-! ## Deduplication of the constraint groups and the counters of the constructor -/

theorem firstAppearances_sublist {α : Type} (l : List (SharedPtr α)) :
    (firstAppearances l).Sublist l := by
  induction l with
  | nil => exact List.Sublist.slnil
  | cons p rest ih =>
    simp only [firstAppearances]
    exact List.Sublist.cons₂ _ ((List.filter_sublist _).trans ih)

theorem firstAppearances_nodup {α : Type} (l : List (SharedPtr α)) :
    ((firstAppearances l).map SharedPtr.addr).Nodup := by
  induction l with
  | nil => exact List.nodup_nil
  | cons p rest ih =>
    simp only [firstAppearances, List.map_cons, List.nodup_cons]
    refine ⟨?_, ih.sublist ((List.filter_sublist _).map _)⟩
    intro hmem
    obtain ⟨q, hq, hqa⟩ := List.mem_map.mp hmem
    have := (List.mem_filter.mp hq).2
    simp [hqa] at this

theorem firstAppearances_complete {α : Type} (l : List (SharedPtr α)) :
    ∀ q ∈ l, ∃ g ∈ firstAppearances l, g.addr = q.addr := by
  induction l with
  | nil => intro q hq; simp at hq
  | cons p rest ih =>
    intro q hq
    simp only [firstAppearances]
    by_cases hqp : q.addr = p.addr
    · exact ⟨p, List.mem_cons_self _ _, hqp.symm⟩
    · rcases List.mem_cons.mp hq with rfl | hmem
      · exact absurd rfl hqp
      · obtain ⟨g, hg, hga⟩ := ih q hmem
        refine ⟨g, List.mem_cons_of_mem _ (List.mem_filter.mpr ⟨hg, ?_⟩), hga⟩
        simp [hga, hqp]

namespace BackpropSnapshot

/-- The loop of the constructor appends to the groups it starts with the first appearances of
the attached groups that are not among them. -/
theorem foldl_constructorStep_groups (l : List Skeleton) :
    ∀ s0 : BackpropSnapshot,
      (l.foldl constructorStep s0).mGradientMatrices
        = s0.mGradientMatrices
          ++ (firstAppearances (l.filterMap Skeleton.gradientConstraintMatrices)).filter
              (fun q => s0.mGradientMatrices.all (fun g => g.addr != q.addr)) := by
  induction l with
  | nil => intro s0; simp [firstAppearances]
  | cons a l ih =>
    intro s0
    rw [List.foldl_cons, ih]
    unfold constructorStep
    cases hga : a.gradientConstraintMatrices with
    | none =>
      simp only [List.filterMap_cons, hga]
    | some p =>
      simp only [List.filterMap_cons, hga, firstAppearances]
      by_cases hall : s0.mGradientMatrices.all (fun g => g.addr != p.addr) = true
      · simp only [hall, if_true, List.filter_cons, List.append_assoc, List.singleton_append,
          List.filter_filter]
        congr 2
        apply List.filter_congr
        intro q _
        simp only [List.all_append, List.all_cons, List.all_nil, Bool.and_true]
        have hsymm : (p.addr != q.addr) = (q.addr != p.addr) := by
          by_cases h : p.addr = q.addr
          · rw [h]
          · rw [bne_iff_ne.mpr h, bne_iff_ne.mpr (Ne.symm h)]
        rw [hsymm]
      · simp only [hall, if_false, List.filter_cons, Bool.false_eq_true, List.filter_filter]
        congr 1
        apply List.filter_congr
        intro q _
        by_cases hq : q.addr = p.addr
        · have hfalse : (s0.mGradientMatrices.all fun g => g.addr != q.addr) = false := by
            rw [hq]
            exact Bool.eq_false_iff.mpr hall
          rw [hfalse]
          rfl
        · have htrue : (q.addr != p.addr) = true := bne_iff_ne.mpr hq
          rw [htrue, Bool.and_true]

theorem create_groups_aux (world : World) (preP preV preT : VectorXd) :
    (create world preP preV preT).mGradientMatrices = firstAppearances world.attachedGroups := by
  unfold create
  rw [foldl_constructorStep_groups]
  simp [World.attachedGroups]

theorem create_counts_aux (world : World) (preP preV preT : VectorXd) :
    (create world preP preV preT).mNumClamping
        = ((create world preP preV preT).mGradientMatrices.map
            fun g => g.obj.mClampingConstraintMatrix.cols).sum
      ∧ (create world preP preV preT).mNumUpperBound
        = ((create world preP preV preT).mGradientMatrices.map
            fun g => g.obj.mUpperBoundConstraintMatrix.cols).sum
      ∧ (create world preP preV preT).mNumBouncing
        = ((create world preP preV preT).mGradientMatrices.map
            fun g => g.obj.mBouncingConstraintMatrix.cols).sum :=
  foldl_constructorStep_counts world.skeletons _ ⟨rfl, rfl, rfl⟩

end BackpropSnapshot

namespace BackpropSnapshot

theorem create_assembly_aux (world0 world : World) (preP preV preT : VectorXd)
    (s : BackpropSnapshot)
    (hs : s = create world0 preP preV preT)
    (hsk : world.skeletons = world0.skeletons)
    (hn : (world0.skeletons.map Skeleton.name).Nodup)
    (hg : ∀ g ∈ s.mGradientMatrices, GroupWellFormed world g.obj)
    (hshape : ∀ g ∈ s.mGradientMatrices,
      g.obj.mUpperBoundMappingMatrix.rows = g.obj.mUpperBoundConstraintMatrix.cols
        ∧ g.obj.mUpperBoundMappingMatrix.cols = g.obj.mClampingConstraintMatrix.cols) :
    s.mGradientMatrices = firstAppearances world0.attachedGroups
      ∧ (s.mGradientMatrices.map SharedPtr.addr).Nodup
      ∧ (∀ skel ∈ world0.skeletons, ∀ g, skel.gradientConstraintMatrices = some g →
          ∃ g' ∈ s.mGradientMatrices, g'.addr = g.addr)
      ∧ s.mNumClamping
          = (s.mGradientMatrices.map fun g => g.obj.mClampingConstraintMatrix.cols).sum
      ∧ s.mNumUpperBound
          = (s.mGradientMatrices.map fun g => g.obj.mUpperBoundConstraintMatrix.cols).sum
      ∧ s.mNumBouncing
          = (s.mGradientMatrices.map fun g => g.obj.mBouncingConstraintMatrix.cols).sum
      ∧ (∀ whichMatrix,
          (s.mGradientMatrices.map fun g => (groupMatrixToAssemble g.obj whichMatrix).cols).sum
              = s.numColsToAssemble whichMatrix
            ∧ ∃ M : Matrix (Fin s.mNumDOFs) (Fin (s.numColsToAssemble whichMatrix)) ℚ,
                s.assembleMatrix world whichMatrix = .ok ⟨_, _, M⟩)
      ∧ (s.mGradientMatrices.map fun g => g.obj.mUpperBoundMappingMatrix.rows).sum
          = s.mNumUpperBound
      ∧ (s.mGradientMatrices.map fun g => g.obj.mUpperBoundMappingMatrix.cols).sum
          = s.mNumClamping
      ∧ ∃ E : MatrixXd, s.getUpperBoundMappingMatrix = .ok E
          ∧ E.rows = s.mNumUpperBound ∧ E.cols = s.mNumClamping := by
  have hgroups : s.mGradientMatrices = firstAppearances world0.attachedGroups := by
    rw [hs]
    exact create_groups_aux world0 preP preV preT
  have hcounts := create_counts_aux world0 preP preV preT
  rw [← hs] at hcounts
  refine ⟨hgroups, ?_, ?_, hcounts.1, hcounts.2.1, hcounts.2.2, ?_, ?_, ?_, ?_⟩
  · rw [hgroups]
    exact firstAppearances_nodup _
  · intro skel hmem g hgs
    rw [hgroups]
    apply firstAppearances_complete
    exact List.mem_filterMap.mpr ⟨skel, hmem, hgs⟩
  · intro whichMatrix
    refine ⟨?_, ?_⟩
    · subst hs
      exact create_numColsToAssemble world0 preP preV preT whichMatrix
        (fun g hgm => ⟨(hg g hgm).massedClampingCols, (hg g hgm).massedUpperBoundCols⟩)
    · obtain ⟨M, hM, -⟩ := assembleMatrix_blocks_aux world0 world preP preV preT s whichMatrix
        hs hsk hn hg
      exact ⟨M, hM⟩
  · rw [hcounts.2.1]
    exact congrArg List.sum (List.map_congr_left fun g hgm => (hshape g hgm).1)
  · rw [hcounts.1]
    exact congrArg List.sum (List.map_congr_left fun g hgm => (hshape g hgm).2)
  · obtain ⟨E, hE, -⟩ := getUpperBoundMappingMatrix_blocks_aux s hshape
    exact ⟨_, hE, hcounts.2.1.symm, hcounts.1.symm⟩

end BackpropSnapshot

namespace Scenario

theorem tandem_groups :
    tandemSnapshot.mGradientMatrices = [⟨7, tandemGroup⟩, ⟨1, sledGroup (1 / 3)⟩] := rfl

theorem tandem_wellFormed :
    ∀ g ∈ tandemSnapshot.mGradientMatrices, GroupWellFormed tandemWorld g.obj := by
  intro g hg
  rw [tandem_groups] at hg
  simp only [List.mem_cons, List.mem_singleton, List.not_mem_nil, or_false] at hg
  rcases hg with rfl | rfl
  · refine ⟨by decide, ?_, ?_, rfl, rfl⟩
    · intro name hname
      simp only [tandemGroup, List.mem_cons, List.mem_singleton, List.not_mem_nil,
        or_false] at hname
      rcases hname with rfl | rfl
      · exact ⟨tandemSkeleton "front" 1, rfl⟩
      · exact ⟨tandemSkeleton "rear" 2, rfl⟩
    · intro whichMatrix
      cases whichMatrix <;> exact Nat.le_refl 3
  · refine ⟨List.nodup_singleton _, ?_, ?_, rfl, rfl⟩
    · intro name hname
      simp only [sledGroup, List.mem_singleton] at hname
      subst hname
      exact ⟨sledSkeleton (1 / 3), rfl⟩
    · intro whichMatrix
      cases whichMatrix <;> exact Nat.le_refl 3

theorem tandem_shapes :
    ∀ g ∈ tandemSnapshot.mGradientMatrices,
      g.obj.mUpperBoundMappingMatrix.rows = g.obj.mUpperBoundConstraintMatrix.cols
        ∧ g.obj.mUpperBoundMappingMatrix.cols = g.obj.mClampingConstraintMatrix.cols := by
  intro g hg
  rw [tandem_groups] at hg
  simp only [List.mem_cons, List.mem_singleton, List.not_mem_nil, or_false] at hg
  rcases hg with rfl | rfl
  · exact ⟨rfl, rfl⟩
  · exact ⟨rfl, rfl⟩

end Scenario

namespace BackpropSnapshot

/-- C37: the constructor stores the first appearances of the groups attached to the skeletons of
the world (each distinct group once, in the order in which the skeletons first present it), and
its three counters are the column totals over that list. For a world with pairwise distinct
skeleton names whose groups are well formed (a row for every member DOF, massed matrices as wide
as the plain ones, mapping matrices of upper-bound by clamping shape), the column cursor of
`assembleMatrix` ends at the allocated column count and the routine returns, every block write
lying inside the matrix; so do the two cursors of `getUpperBoundMappingMatrix`. -/
theorem create_groups_deduplicated (world0 world : World) (preP preV preT : VectorXd)
    (s : BackpropSnapshot)
    (hs : s = create world0 preP preV preT)
    (hsk : world.skeletons = world0.skeletons)
    (hn : (world0.skeletons.map Skeleton.name).Nodup)
    (hg : ∀ g ∈ s.mGradientMatrices, GroupWellFormed world g.obj)
    (hshape : ∀ g ∈ s.mGradientMatrices,
      g.obj.mUpperBoundMappingMatrix.rows = g.obj.mUpperBoundConstraintMatrix.cols
        ∧ g.obj.mUpperBoundMappingMatrix.cols = g.obj.mClampingConstraintMatrix.cols) :
    s.mGradientMatrices = firstAppearances world0.attachedGroups
      ∧ (s.mGradientMatrices.map SharedPtr.addr).Nodup
      ∧ (∀ skel ∈ world0.skeletons, ∀ g, skel.gradientConstraintMatrices = some g →
          ∃ g' ∈ s.mGradientMatrices, g'.addr = g.addr)
      ∧ s.mNumClamping
          = (s.mGradientMatrices.map fun g => g.obj.mClampingConstraintMatrix.cols).sum
      ∧ s.mNumUpperBound
          = (s.mGradientMatrices.map fun g => g.obj.mUpperBoundConstraintMatrix.cols).sum
      ∧ s.mNumBouncing
          = (s.mGradientMatrices.map fun g => g.obj.mBouncingConstraintMatrix.cols).sum
      ∧ (∀ whichMatrix,
          (s.mGradientMatrices.map fun g => (groupMatrixToAssemble g.obj whichMatrix).cols).sum
              = s.numColsToAssemble whichMatrix
            ∧ ∃ M : Matrix (Fin s.mNumDOFs) (Fin (s.numColsToAssemble whichMatrix)) ℚ,
                s.assembleMatrix world whichMatrix = .ok ⟨_, _, M⟩)
      ∧ (s.mGradientMatrices.map fun g => g.obj.mUpperBoundMappingMatrix.rows).sum
          = s.mNumUpperBound
      ∧ (s.mGradientMatrices.map fun g => g.obj.mUpperBoundMappingMatrix.cols).sum
          = s.mNumClamping
      ∧ ∃ E : MatrixXd, s.getUpperBoundMappingMatrix = .ok E
          ∧ E.rows = s.mNumUpperBound ∧ E.cols = s.mNumClamping :=
  create_assembly_aux world0 world preP preV preT s hs hsk hn hg hshape

/-- C37 witness: the tandem with the sled between its two members. The shared group is stored
once, before the group of the sled, and the clamping matrix is assembled with three columns. -/
theorem create_groups_deduplicated_witness :
    Scenario.tandemWorld.attachedGroups
        = [⟨7, Scenario.tandemGroup⟩, ⟨1, Scenario.sledGroup (1 / 3)⟩,
            ⟨7, Scenario.tandemGroup⟩]
      ∧ Scenario.tandemSnapshot.mGradientMatrices
        = [⟨7, Scenario.tandemGroup⟩, ⟨1, Scenario.sledGroup (1 / 3)⟩]
      ∧ Scenario.tandemSnapshot.mNumClamping = 3
      ∧ ∃ M : Matrix (Fin 6) (Fin 3) ℚ,
          Scenario.tandemSnapshot.assembleMatrix Scenario.tandemWorld .CLAMPING
            = .ok ⟨6, 3, M⟩ :=
  ⟨rfl, rfl, rfl,
    ((create_groups_deduplicated Scenario.tandemWorld Scenario.tandemWorld (VectorXd.Zero 6)
      (VectorXd.Zero 6) (VectorXd.Zero 6) Scenario.tandemSnapshot rfl rfl (by decide)
      Scenario.tandem_wellFormed Scenario.tandem_shapes).2.2.2.2.2.2.1 .CLAMPING).2⟩

end BackpropSnapshot

/-! ## The Jacobian of the constraint forces -/

namespace math

theorem LinearJacobian.setCol_spec (J : LinearJacobian) (i : Nat) (v : Vector3d)
    (hi : i < J.cols) :
    ∃ J', J.setCol i v = .ok J' ∧ J'.cols = J.cols ∧ J'.col i = .ok v
      ∧ ∀ p, p ≠ i → J'.col p = J.col p := by
  refine ⟨⟨J.cols, fun r c => if c.val = i then v r else J.coeff r c⟩, ?_, rfl, ?_, ?_⟩
  · simp only [LinearJacobian.setCol, if_pos hi]
  · simp only [LinearJacobian.col, dif_pos hi, if_true]
  · intro p hp
    simp only [LinearJacobian.col]
    split
    · simp only [if_neg hp]
    · rfl

theorem Jacobian.setTopBlock_spec (J : Jacobian) (i : Nat) (v : Vector3d) (hi : i < J.cols) :
    ∃ J', J.setTopBlock i v = .ok J' ∧ J'.cols = J.cols
      ∧ (∀ old, J.col i = .ok old → J'.col i = .ok (old.setHead3 v))
      ∧ ∀ p, p ≠ i → J'.col p = J.col p := by
  refine ⟨⟨J.cols, fun r c => if h : c.val = i ∧ r.val < 3 then v ⟨r.val, h.2⟩ else J.coeff r c⟩,
    ?_, rfl, ?_, ?_⟩
  · simp only [Jacobian.setTopBlock, if_pos hi]
  · intro old hold
    simp only [Jacobian.col, dif_pos hi, Except.ok.injEq] at hold ⊢
    subst hold
    funext r
    simp only [Vector6d.setHead3, true_and]
  · intro p hp
    simp only [Jacobian.col]
    split
    · congr 1
      funext r
      simp only [hp, false_and, dite_false]
    · rfl

theorem Jacobian.setBottomRows_spec (J : Jacobian) (n : Nat) (B : LinearJacobian)
    (hB : B.cols = n) (hn : n ≤ J.cols) :
    ∃ J', J.setBottomRows n B = .ok J' ∧ J'.cols = J.cols
      ∧ ∀ k, k < n → ∀ old b, J.col k = .ok old → B.col k = .ok b →
          J'.col k = .ok (old.setTail3 b) := by
  refine ⟨⟨J.cols, fun r c =>
      if h : 3 ≤ r.val ∧ c.val < n then B.coeff ⟨r.val - 3, by omega⟩ ⟨c.val, by omega⟩
      else J.coeff r c⟩, ?_, rfl, ?_⟩
  · simp only [Jacobian.setBottomRows, dif_pos (And.intro hB hn)]
  · intro k hk old b hold hb
    have hkJ : k < J.cols := by omega
    have hkB : k < B.cols := by omega
    simp only [Jacobian.col, dif_pos hkJ, Except.ok.injEq] at hold ⊢
    simp only [LinearJacobian.col, dif_pos hkB, Except.ok.injEq] at hb
    subst hold
    subst hb
    funext r
    simp only [Vector6d.setTail3, hk, and_true]

theorem Jacobian.col_Zero (n k : Nat) (hk : k < n) : (Jacobian.Zero n).col k = .ok 0 := by
  simp only [Jacobian.col, Jacobian.Zero, dif_pos hk]
  rfl

end math

theorem MatrixXd.setCoeff_spec (A : MatrixXd) (r c : Nat) (x : ℚ) (hr : r < A.rows)
    (hc : c < A.cols) :
    ∃ A', A.setCoeff r c x = .ok A' ∧ A'.rows = A.rows ∧ A'.cols = A.cols
      ∧ A'.get r c = some x ∧ ∀ i j, ¬ (i = r ∧ j = c) → A'.get i j = A.get i j := by
  refine ⟨⟨A.rows, A.cols, fun i j => if i.val = r ∧ j.val = c then x else A.coeff i j⟩, ?_, rfl,
    rfl, ?_, ?_⟩
  · simp only [MatrixXd.setCoeff, hr, hc, and_self, if_true]
  · simp only [MatrixXd.get, hr, hc, and_self, dite_true, if_true]
  · intro i j hij
    simp only [MatrixXd.get]
    split
    · simp only [hij, if_false]
    · rfl

namespace DifferentiableContactConstraint

/-- What the loop over the degrees of freedom writes: column `i + j` is the gradient of the
`j`-th degree of freedom of the list, and the columns below `i` are left alone. -/
theorem gradientColumnsLoop_eq (gradient : dynamics.DegreeOfFreedom → Result Vector3d)
    (g : dynamics.DegreeOfFreedom → Vector3d) :
    ∀ (dofs : List dynamics.DegreeOfFreedom) (i : Nat) (jac : math.LinearJacobian),
      (∀ dof ∈ dofs, gradient dof = .ok (g dof)) →
      i + dofs.length ≤ jac.cols →
      ∃ out, gradientColumnsLoop gradient dofs i jac = .ok out ∧ out.cols = jac.cols
        ∧ (∀ p, p < i → out.col p = jac.col p)
        ∧ ∀ (j : Nat) (hj : j < dofs.length), out.col (i + j) = .ok (g (dofs.get ⟨j, hj⟩)) := by
  intro dofs
  induction dofs with
  | nil =>
    intro i jac _ _
    exact ⟨jac, rfl, rfl, fun _ _ => rfl, fun j hj => absurd hj (Nat.not_lt_zero j)⟩
  | cons dof rest ih =>
    intro i jac hg hsize
    simp only [List.length_cons] at hsize
    obtain ⟨jac1, h1, hc1, hv1, hf1⟩ := jac.setCol_spec i (g dof) (by omega)
    obtain ⟨out, hout, hoc, hframe, hvals⟩ := ih (i + 1) jac1
      (fun d hd => hg d (List.mem_cons_of_mem _ hd)) (by rw [hc1]; omega)
    refine ⟨out, ?_, hoc.trans hc1, fun p hp => ?_, fun j hj => ?_⟩
    · simp only [gradientColumnsLoop, hg dof (List.mem_cons_self _ _), Result.ok_bind, h1]
      exact hout
    · rw [hframe p (by omega), hf1 p (by omega)]
    · cases j with
      | zero =>
        rw [Nat.add_zero, hframe i (by omega), hv1]
        rfl
      | succ j =>
        have := hvals j (by simpa using hj)
        rw [show i + (j + 1) = i + 1 + j by omega, this]
        rfl

end DifferentiableContactConstraint

namespace DifferentiableContactConstraint

/-- The loop of `getContactForceJacobian` over the columns: the head of column `k` becomes
`pos × dirJac.col(k) + posJac.col(k) × dir`, and nothing else changes. -/
theorem forceJacobianLoop_eq (pos dir : Vector3d) (posJac dirJac : math.LinearJacobian)
    (n : Nat) (d pp : Nat → Vector3d)
    (hd : ∀ k, k < n → dirJac.col k = .ok (d k))
    (hp : ∀ k, k < n → posJac.col k = .ok (pp k)) :
    ∀ (len start : Nat) (jac : math.Jacobian), start + len ≤ n → n ≤ jac.cols →
      ∃ out, (List.range' start len).foldlM
          (fun (jac : math.Jacobian) (i : Nat) => do
            let dirCol ← dirJac.col i
            let posCol ← posJac.col i
            jac.setTopBlock i (pos.cross dirCol + posCol.cross dir)) jac = .ok out
        ∧ out.cols = jac.cols
        ∧ (∀ k, ¬ (start ≤ k ∧ k < start + len) → out.col k = jac.col k)
        ∧ ∀ k, start ≤ k → k < start + len → ∀ old, jac.col k = .ok old →
            out.col k = .ok (old.setHead3 (pos.cross (d k) + (pp k).cross dir)) := by
  intro len
  induction len with
  | zero =>
    intro start jac _ _
    exact ⟨jac, rfl, rfl, fun _ _ => rfl, fun k h1 h2 => absurd h2 (by omega)⟩
  | succ len ih =>
    intro start jac hlen hn
    obtain ⟨jac1, h1, hc1, hv1, hf1⟩ := jac.setTopBlock_spec start
      (pos.cross (d start) + (pp start).cross dir) (by omega)
    obtain ⟨out, hout, hoc, hframe, hvals⟩ := ih (start + 1) jac1 (by omega) (by rw [hc1]; exact hn)
    refine ⟨out, ?_, hoc.trans hc1, fun k hk => ?_, fun k hk1 hk2 old hold => ?_⟩
    · rw [List.range'_succ, List.foldlM_cons]
      simp only [hd start (by omega), hp start (by omega), Result.ok_bind, h1]
      exact hout
    · rw [hframe k (by omega), hf1 k (by omega)]
    · by_cases hks : k = start
      · subst hks
        rw [hframe k (by omega)]
        exact hv1 old hold
      · apply hvals k (by omega) (by omega)
        rw [hf1 k hks]
        exact hold

/-- The value of `getContactWorldForceGradient(dof)` in terms of the values of its callees. -/
theorem getContactWorldForceGradient_aux (c : DifferentiableContactConstraint)
    (m : MathGeometry) (dof : dynamics.DegreeOfFreedom) (p f f' p' : Vector3d)
    (hp : c.getContactWorldPosition = .ok p) (hf : c.getContactWorldForceDirection = .ok f)
    (hf' : c.getContactForceGradient m dof = .ok f')
    (hp' : c.getContactPositionGradient m dof = .ok p') :
    c.getContactWorldForceGradient m dof
      = .ok (((0 : Vector6d).setHead3 (p.cross f' + p'.cross f)).setTail3 f') := by
  simp only [getContactWorldForceGradient, hp, hf, hf', hp', Result.ok_bind, Result.pure_eq]

/-- The columns of the matrix `getContactForceJacobian` returns are the gradients of the world
force. -/
theorem getContactForceJacobian_aux (c : DifferentiableContactConstraint) (m : MathGeometry)
    (world : simulation.World) (p f : Vector3d)
    (fg pg : dynamics.DegreeOfFreedom → Vector3d)
    (hp : c.getContactWorldPosition = .ok p) (hf : c.getContactWorldForceDirection = .ok f)
    (hfg : ∀ dof ∈ world.dofs, c.getContactForceGradient m dof = .ok (fg dof))
    (hpg : ∀ dof ∈ world.dofs, c.getContactPositionGradient m dof = .ok (pg dof)) :
    ∃ forceJac, c.getContactForceJacobian m world = .ok forceJac
      ∧ forceJac.cols = world.dofs.length
      ∧ ∀ (k : Nat) (hk : k < world.dofs.length),
          forceJac.col k
            = .ok (((0 : Vector6d).setHead3
                (p.cross (fg (world.dofs.get ⟨k, hk⟩)) + (pg (world.dofs.get ⟨k, hk⟩)).cross f)).setTail3
                (fg (world.dofs.get ⟨k, hk⟩))) := by
  obtain ⟨posJac, hposJac, hpc, -, hpv⟩ := gradientColumnsLoop_eq (c.getContactPositionGradient m)
    pg world.dofs 0 (math.LinearJacobian.Zero world.dofs.length) hpg
    (by simp [math.LinearJacobian.Zero])
  obtain ⟨dirJac, hdirJac, hdc, -, hdv⟩ := gradientColumnsLoop_eq (c.getContactForceGradient m)
    fg world.dofs 0 (math.LinearJacobian.Zero world.dofs.length) hfg
    (by simp [math.LinearJacobian.Zero])
  have hd : ∀ k, k < world.dofs.length → dirJac.col k
      = .ok ((fun k => if h : k < world.dofs.length then fg (world.dofs.get ⟨k, h⟩) else 0) k) := by
    intro k hk
    have := hdv k hk
    rw [Nat.zero_add] at this
    simp only [this, dif_pos hk]
  have hpp : ∀ k, k < world.dofs.length → posJac.col k
      = .ok ((fun k => if h : k < world.dofs.length then pg (world.dofs.get ⟨k, h⟩) else 0) k) := by
    intro k hk
    have := hpv k hk
    rw [Nat.zero_add] at this
    simp only [this, dif_pos hk]
  obtain ⟨top, htop, htc, -, htv⟩ := forceJacobianLoop_eq p f posJac dirJac world.dofs.length _ _
    hd hpp world.dofs.length 0 (math.Jacobian.Zero world.dofs.length) (by omega)
    (by simp [math.Jacobian.Zero])
  have hdcols : dirJac.cols = world.dofs.length := by
    rw [hdc]; rfl
  have htcols : top.cols = world.dofs.length := by
    rw [htc]; rfl
  obtain ⟨out, hout, hoc, hov⟩ := top.setBottomRows_spec world.dofs.length dirJac hdcols
    (by omega)
  refine ⟨out, ?_, hoc.trans htcols, fun k hk => ?_⟩
  · simp only [getContactForceJacobian, hp, hf, Result.ok_bind, getContactPositionJacobian,
      getContactForceDirectionJacobian, simulation.World.getNumDofs, simulation.World.getDofs,
      hposJac, hdirJac, List.range_eq_range', htop]
    exact hout
  · have h1 := htv k (by omega) (by omega) 0 (math.Jacobian.col_Zero _ k hk)
    have h2 := hov k hk _ _ h1 (hd k hk)
    simp only [dif_pos hk] at h2
    exact h2

end DifferentiableContactConstraint

namespace DifferentiableContactConstraint

/-- The inner loop of `getConstraintForcesJacobian`: it writes the coefficients of the row, one
per column, and leaves the others alone. -/
theorem constraintForcesJacobianRow_eq (c : DifferentiableContactConstraint) (m : MathGeometry)
    (dofs : List dynamics.DegreeOfFreedom) (forceJac : math.Jacobian) (force : Vector6d)
    (Gd : dynamics.DegreeOfFreedom → Vector6d) (mul : dynamics.DegreeOfFreedom → ℚ)
    (hcols : ∀ (k : Nat) (hk : k < dofs.length), forceJac.col k = .ok (Gd (dofs.get ⟨k, hk⟩)))
    (hmul : ∀ dof ∈ dofs, c.getForceMultiple dof = .ok (mul dof))
    (row : Nat) (hrow : row < dofs.length) (A : MatrixXd) (hr : row < A.rows)
    (hc : dofs.length ≤ A.cols) :
    ∃ out, constraintForcesJacobianRow c m dofs dofs.length forceJac force A row = .ok out
      ∧ out.rows = A.rows ∧ out.cols = A.cols
      ∧ (∀ i j, ¬ (i = row ∧ j < dofs.length) → out.get i j = A.get i j)
      ∧ ∀ (j : Nat) (hj : j < dofs.length),
          out.get row j
            = some (mul (dofs.get ⟨row, hrow⟩)
              * ((getScrewAxisGradient m (dofs.get ⟨row, hrow⟩) (dofs.get ⟨j, hj⟩)).dot force
                + (getWorldScrewAxis m (dofs.get ⟨row, hrow⟩)).dot (Gd (dofs.get ⟨j, hj⟩)))) := by
  have hget : ∀ (k : Nat) (hk : k < dofs.length), dofs[k]? = some (dofs.get ⟨k, hk⟩) := by
    intro k hk
    rw [List.getElem?_eq_getElem hk]
    rfl
  have hderef : ∀ a : dynamics.DegreeOfFreedom, deref (some a) = .ok a := fun _ => rfl
  have inner : ∀ step : MatrixXd → Nat → Result MatrixXd,
      (∀ (B : MatrixXd) (wrt : Nat) (hw : wrt < dofs.length),
        step B wrt = B.setCoeff row wrt
          (mul (dofs.get ⟨row, hrow⟩)
            * ((getScrewAxisGradient m (dofs.get ⟨row, hrow⟩) (dofs.get ⟨wrt, hw⟩)).dot force
              + (getWorldScrewAxis m (dofs.get ⟨row, hrow⟩)).dot (Gd (dofs.get ⟨wrt, hw⟩))))) →
      ∀ (len start : Nat) (B : MatrixXd), start + len ≤ dofs.length → row < B.rows →
      dofs.length ≤ B.cols →
      ∃ out, (List.range' start len).foldlM step B = .ok out
        ∧ out.rows = B.rows ∧ out.cols = B.cols
        ∧ (∀ i j, ¬ (i = row ∧ start ≤ j ∧ j < start + len) → out.get i j = B.get i j)
        ∧ ∀ (j : Nat) (hj : j < dofs.length), start ≤ j → j < start + len →
            out.get row j
              = some (mul (dofs.get ⟨row, hrow⟩)
                * ((getScrewAxisGradient m (dofs.get ⟨row, hrow⟩) (dofs.get ⟨j, hj⟩)).dot force
                  + (getWorldScrewAxis m (dofs.get ⟨row, hrow⟩)).dot
                      (Gd (dofs.get ⟨j, hj⟩)))) := by
    intro step hstep len
    induction len with
    | zero =>
      intro start B _ _ _
      exact ⟨B, rfl, rfl, rfl, fun _ _ _ => rfl, fun j _ h1 h2 => absurd h2 (by omega)⟩
    | succ len ih =>
      intro start B hlen hBr hBc
      have hs : start < dofs.length := by omega
      obtain ⟨B1, h1, hr1, hc1, hv1, hf1⟩ := B.setCoeff_spec row start
        (mul (dofs.get ⟨row, hrow⟩)
          * ((getScrewAxisGradient m (dofs.get ⟨row, hrow⟩) (dofs.get ⟨start, hs⟩)).dot force
            + (getWorldScrewAxis m (dofs.get ⟨row, hrow⟩)).dot (Gd (dofs.get ⟨start, hs⟩))))
        hBr (by omega)
      obtain ⟨out, hout, hor, hoc, hframe, hvals⟩ := ih (start + 1) B1 (by omega)
        (by rw [hr1]; exact hBr) (by rw [hc1]; exact hBc)
      refine ⟨out, ?_, hor.trans hr1, hoc.trans hc1, fun i j hij => ?_, fun j hj hj1 hj2 => ?_⟩
      · rw [List.range'_succ, List.foldlM_cons, hstep B start hs, h1]
        exact hout
      · rw [hframe i j (by omega), hf1 i j (by omega)]
      · by_cases hjs : j = start
        · subst hjs
          rw [hframe row j (by omega), hv1]
        · exact hvals j hj (by omega) (by omega)
  obtain ⟨out, hout, hor, hoc, hframe, hvals⟩ := inner
    (fun (result : MatrixXd) (wrt : Nat) => do
      let wrtDof ← deref dofs[wrt]?
      let screwAxisGradient := getScrewAxisGradient m (dofs.get ⟨row, hrow⟩) wrtDof
      let forceGradient ← forceJac.col wrt
      let multiple ← c.getForceMultiple (dofs.get ⟨row, hrow⟩)
      result.setCoeff row wrt
        (multiple * (screwAxisGradient.dot force
          + (getWorldScrewAxis m (dofs.get ⟨row, hrow⟩)).dot forceGradient)))
    (fun B wrt hw => by
      simp only [hget wrt hw, hderef, Result.ok_bind, hcols wrt hw,
        hmul _ (List.get_mem dofs row hrow)])
    dofs.length 0 A (by omega) hr hc
  refine ⟨out, ?_, hor, hoc, fun i j hij => hframe i j (by omega),
    fun j hj => hvals j hj (by omega) (by omega)⟩
  simp only [constraintForcesJacobianRow, hget row hrow, hderef, Result.ok_bind,
    List.range_eq_range']
  exact hout

/-- The outer loop of `getConstraintForcesJacobian`: every coefficient of the square matrix is
written. -/
theorem constraintForcesJacobianRows_eq (c : DifferentiableContactConstraint)
    (m : MathGeometry)
    (dofs : List dynamics.DegreeOfFreedom) (forceJac : math.Jacobian) (force : Vector6d)
    (Gd : dynamics.DegreeOfFreedom → Vector6d) (mul : dynamics.DegreeOfFreedom → ℚ)
    (hcols : ∀ (k : Nat) (hk : k < dofs.length), forceJac.col k = .ok (Gd (dofs.get ⟨k, hk⟩)))
    (hmul : ∀ dof ∈ dofs, c.getForceMultiple dof = .ok (mul dof)) :
    ∀ (len start : Nat) (A : MatrixXd), start + len ≤ dofs.length → dofs.length ≤ A.rows →
      dofs.length ≤ A.cols →
      ∃ out, (List.range' start len).foldlM
          (constraintForcesJacobianRow c m dofs dofs.length forceJac force) A = .ok out
        ∧ out.rows = A.rows ∧ out.cols = A.cols
        ∧ (∀ i j, ¬ (start ≤ i ∧ i < start + len) → out.get i j = A.get i j)
        ∧ ∀ (i : Nat) (hi : i < dofs.length) (j : Nat) (hj : j < dofs.length),
            start ≤ i → i < start + len →
            out.get i j
              = some (mul (dofs.get ⟨i, hi⟩)
                * ((getScrewAxisGradient m (dofs.get ⟨i, hi⟩) (dofs.get ⟨j, hj⟩)).dot force
                  + (getWorldScrewAxis m (dofs.get ⟨i, hi⟩)).dot (Gd (dofs.get ⟨j, hj⟩)))) := by
  intro len
  induction len with
  | zero =>
    intro start A _ _ _
    exact ⟨A, rfl, rfl, rfl, fun _ _ _ => rfl, fun i _ j _ h1 h2 => absurd h2 (by omega)⟩
  | succ len ih =>
    intro start A hlen hAr hAc
    have hs : start < dofs.length := by omega
    obtain ⟨A1, h1, hr1, hc1, hf1, hv1⟩ := constraintForcesJacobianRow_eq c m dofs forceJac force
      Gd mul hcols hmul start hs A (by omega) hAc
    obtain ⟨out, hout, hor, hoc, hkeeps, hvals⟩ := ih (start + 1) A1 (by omega)
      (by rw [hr1]; exact hAr) (by rw [hc1]; exact hAc)
    refine ⟨out, ?_, hor.trans hr1, hoc.trans hc1, fun i j hij => ?_,
      fun i hi j hj hi1 hi2 => ?_⟩
    · rw [List.range'_succ, List.foldlM_cons, h1]
      exact hout
    · rw [hkeeps i j (by omega), hf1 i j (by omega)]
    · by_cases his : i = start
      · subst his
        have hkeep : out.get i j = A1.get i j := hkeeps i j (by omega)
        rw [hkeep]
        exact hv1 j hj
      · exact hvals i hi j hj (by omega) (by omega)

end DifferentiableContactConstraint

namespace DifferentiableContactConstraint

/-- The matrix `getConstraintForcesJacobian` returns, in terms of the values of the callees. -/
theorem getConstraintForcesJacobian_aux (c : DifferentiableContactConstraint) (m : MathGeometry)
    (world : simulation.World) (p f : Vector3d)
    (fg pg : dynamics.DegreeOfFreedom → Vector3d) (mul : dynamics.DegreeOfFreedom → ℚ)
    (hp : c.getContactWorldPosition = .ok p) (hf : c.getContactWorldForceDirection = .ok f)
    (hfg : ∀ dof ∈ world.dofs, c.getContactForceGradient m dof = .ok (fg dof))
    (hpg : ∀ dof ∈ world.dofs, c.getContactPositionGradient m dof = .ok (pg dof))
    (hmul : ∀ dof ∈ world.dofs, c.getForceMultiple dof = .ok (mul dof)) :
    ∃ (F : Vector6d) (M : Matrix (Fin world.dofs.length) (Fin world.dofs.length) ℚ),
      c.getWorldForce = .ok F
        ∧ c.getConstraintForcesJacobian m world = .ok ⟨_, _, M⟩
        ∧ ∀ row wrt : Fin world.dofs.length,
            c.getContactWorldForceGradient m (world.dofs.get wrt)
                = .ok (((0 : Vector6d).setHead3
                    (p.cross (fg (world.dofs.get wrt)) + (pg (world.dofs.get wrt)).cross f)).setTail3
                    (fg (world.dofs.get wrt)))
              ∧ M row wrt
                = mul (world.dofs.get row)
                  * ((getScrewAxisGradient m (world.dofs.get row) (world.dofs.get wrt)).dot F
                    + (getWorldScrewAxis m (world.dofs.get row)).dot
                        (((0 : Vector6d).setHead3
                          (p.cross (fg (world.dofs.get wrt))
                            + (pg (world.dofs.get wrt)).cross f)).setTail3
                          (fg (world.dofs.get wrt))))
              ∧ c.getConstraintForceDerivative m (world.dofs.get row) (world.dofs.get wrt)
                = .ok (M row wrt) := by
  have hF : c.getWorldForce = .ok (((0 : Vector6d).setHead3 (p.cross f)).setTail3 f) := by
    simp only [getWorldForce, hp, hf, Result.ok_bind, Result.pure_eq]
  obtain ⟨forceJac, hFJ, -, hcols⟩ := getContactForceJacobian_aux c m world p f fg pg hp hf hfg hpg
  obtain ⟨out, hout, hor, hoc, -, hvals⟩ := constraintForcesJacobianRows_eq c m world.dofs
    forceJac (((0 : Vector6d).setHead3 (p.cross f)).setTail3 f)
    (fun d => ((0 : Vector6d).setHead3 (p.cross (fg d) + (pg d).cross f)).setTail3 (fg d)) mul
    hcols hmul world.dofs.length 0 (MatrixXd.Zero world.dofs.length world.dofs.length)
    (by omega) (by simp [MatrixXd.Zero]) (by simp [MatrixXd.Zero])
  obtain ⟨r, k, M⟩ := out
  simp only [MatrixXd.Zero] at hor hoc
  subst hor
  subst hoc
  refine ⟨_, M, hF, ?_, fun row wrt => ?_⟩
  · simp only [getConstraintForcesJacobian, hFJ, hF, Result.ok_bind,
      simulation.World.getNumDofs, simulation.World.getDofs, List.range_eq_range']
    exact hout
  · have hgrad := getContactWorldForceGradient_aux c m (world.dofs.get wrt) p f
      (fg (world.dofs.get wrt)) (pg (world.dofs.get wrt)) hp hf
      (hfg _ (List.get_mem _ _ _)) (hpg _ (List.get_mem _ _ _))
    have hval := hvals row.val row.isLt wrt.val wrt.isLt (by omega) (by omega)
    simp only [MatrixXd.get, row.isLt, wrt.isLt, and_self, dite_true, Option.some.injEq,
      Fin.eta] at hval
    refine ⟨hgrad, hval, ?_⟩
    simp only [getConstraintForceDerivative, hmul _ (List.get_mem _ _ _), hF, hgrad,
      Result.ok_bind, Result.pure_eq, hval]
    congr 1
    ring

theorem getContactWorldForceDirection_create_aux (skeletons : List String)
    (cc : ContactConstraint) (k : Int) (hk : 0 ≤ k ∧ k ≤ 2) :
    ∃ f, (create ⟨skeletons, some cc⟩ k).getContactWorldForceDirection = .ok f := by
  by_cases h0 : k = 0
  · subst h0
    exact ⟨_, getContactWorldForceDirection_normal_aux skeletons cc⟩
  · have hj : (k - 1).toNat < 2 := by omega
    have hkj : k = ((⟨(k - 1).toNat, hj⟩ : Fin 2).val : Int) + 1 := by
      simp only
      omega
    rw [hkj]
    exact ⟨_, getContactWorldForceDirection_tangent_aux skeletons cc ⟨(k - 1).toNat, hj⟩⟩

theorem getContactPositionGradient_create_aux (skeletons : List String)
    (cc : ContactConstraint) (k : Int) (m : MathGeometry) (dof : dynamics.DegreeOfFreedom) :
    ∃ v, (create ⟨skeletons, some cc⟩ k).getContactPositionGradient m dof = .ok v := by
  have hpos : (create ⟨skeletons, some cc⟩ k).getContactWorldPosition = .ok cc.contact.point :=
    rfl
  simp only [getContactPositionGradient, hpos, getSkeletonContactType_create_aux,
    Result.ok_bind, Result.pure_eq]
  split_ifs <;> exact ⟨_, rfl⟩

theorem getContactNormalGradient_create_aux (skeletons : List String)
    (cc : ContactConstraint) (k : Int) (m : MathGeometry) (dof : dynamics.DegreeOfFreedom) :
    ∃ v, (create ⟨skeletons, some cc⟩ k).getContactNormalGradient m dof = .ok v := by
  have hnormal : (create ⟨skeletons, some cc⟩ k).getContactWorldNormal = .ok cc.contact.normal :=
    rfl
  simp only [getContactNormalGradient, hnormal, getSkeletonContactType_create_aux,
    Result.ok_bind, Result.pure_eq]
  split_ifs <;> exact ⟨_, rfl⟩

theorem getContactForceGradient_create_aux (skeletons : List String)
    (cc : ContactConstraint) (k : Int) (hk : 0 ≤ k ∧ k ≤ 2) (m : MathGeometry)
    (dof : dynamics.DegreeOfFreedom) :
    ∃ v, (create ⟨skeletons, some cc⟩ k).getContactForceGradient m dof = .ok v := by
  have hnormal : (create ⟨skeletons, some cc⟩ k).getContactWorldNormal = .ok cc.contact.normal :=
    rfl
  have hcc : (create ⟨skeletons, some cc⟩ k).mContactConstraint = some cc := rfl
  have hidx : (create ⟨skeletons, some cc⟩ k).mIndex = k := rfl
  obtain ⟨g, hg⟩ := getContactNormalGradient_create_aux skeletons cc k m dof
  obtain ⟨type, ht⟩ : ∃ type, (create ⟨skeletons, some cc⟩ k).getSkeletonContactType
      dof.skeletonName = .ok type := ⟨_, getSkeletonContactType_create_aux skeletons cc k _⟩
  simp only [getContactForceGradient, ht, Result.ok_bind, Result.pure_eq, hnormal, hg, hcc,
    hidx, deref]
  by_cases hV : type = .VERTEX
  · simp only [if_pos hV]
    exact ⟨_, rfl⟩
  · by_cases hFa : type = .FACE
    · simp only [if_neg hV, if_pos hFa]
      by_cases hcond : k = 0 ∨ squaredNorm g ≤ 1 / 1000000000000
      · simp only [if_pos hcond]
        exact ⟨_, rfl⟩
      · have hcol : 0 ≤ k - 1 ∧ k - 1 < 2 := by
          have : k ≠ 0 := fun h => hcond (Or.inl h)
          omega
        simp only [if_neg hcond, tangentColumn, dif_pos hcol]
        exact ⟨_, rfl⟩
    · simp only [if_neg hV, if_neg hFa]
      split <;> exact ⟨_, rfl⟩

end DifferentiableContactConstraint

namespace DifferentiableContactConstraint

theorem getScrewAxisGradient_aux (m : MathGeometry)
    (screwDof rotateDof : dynamics.DegreeOfFreedom) :
    (screwDof.skeletonName = rotateDof.skeletonName →
        getScrewAxisGradient m screwDof rotateDof
          = m.ad (getWorldScrewAxis m rotateDof) (getWorldScrewAxis m screwDof))
      ∧ (screwDof.skeletonName ≠ rotateDof.skeletonName →
          getScrewAxisGradient m screwDof rotateDof = 0) := by
  constructor
  · intro h
    simp only [getScrewAxisGradient, h, ne_eq, not_true_eq_false, if_false]
  · intro h
    simp only [getScrewAxisGradient, h, ne_eq, not_false_eq_true, if_true]

theorem getConstraintForcesJacobian_create_aux (skeletons : List String)
    (cc : ContactConstraint) (k : Int) (hk : 0 ≤ k ∧ k ≤ 2) (m : MathGeometry)
    (world : simulation.World) :
    ∃ (f : Vector3d) (F : Vector6d)
      (M : Matrix (Fin world.getNumDofs) (Fin world.getNumDofs) ℚ),
      (create ⟨skeletons, some cc⟩ k).getContactWorldForceDirection = .ok f
        ∧ (create ⟨skeletons, some cc⟩ k).getWorldForce = .ok F
        ∧ (create ⟨skeletons, some cc⟩ k).getConstraintForcesJacobian m world = .ok ⟨_, _, M⟩
        ∧ ∀ row wrt : Fin world.getNumDofs, ∃ (multiple : ℚ) (f' p' : Vector3d),
            (create ⟨skeletons, some cc⟩ k).getForceMultiple (world.getDofs.get row)
                = .ok multiple
              ∧ (create ⟨skeletons, some cc⟩ k).getContactForceGradient m
                  (world.getDofs.get wrt) = .ok f'
              ∧ (create ⟨skeletons, some cc⟩ k).getContactPositionGradient m
                  (world.getDofs.get wrt) = .ok p'
              ∧ (create ⟨skeletons, some cc⟩ k).getContactWorldForceGradient m
                  (world.getDofs.get wrt)
                = .ok (((0 : Vector6d).setHead3
                    (cc.contact.point.cross f' + p'.cross f)).setTail3 f')
              ∧ M row wrt
                = multiple
                  * ((getScrewAxisGradient m (world.getDofs.get row)
                        (world.getDofs.get wrt)).dot F
                    + (getWorldScrewAxis m (world.getDofs.get row)).dot
                        (((0 : Vector6d).setHead3
                          (cc.contact.point.cross f' + p'.cross f)).setTail3 f'))
              ∧ (create ⟨skeletons, some cc⟩ k).getConstraintForceDerivative m
                  (world.getDofs.get row) (world.getDofs.get wrt)
                = .ok (M row wrt) := by
  obtain ⟨f, hf⟩ := getContactWorldForceDirection_create_aux skeletons cc k hk
  have hp : (create ⟨skeletons, some cc⟩ k).getContactWorldPosition = .ok cc.contact.point :=
    rfl
  have hfg := fun dof => getContactForceGradient_create_aux skeletons cc k hk m dof
  have hpg := fun dof => getContactPositionGradient_create_aux skeletons cc k m dof
  have hmul := fun dof => getForceMultiple_create_aux ⟨skeletons, some cc⟩ k dof
  obtain ⟨F, M, hF, hM, hall⟩ := getConstraintForcesJacobian_aux
    (create ⟨skeletons, some cc⟩ k) m world cc.contact.point f
    (fun dof => Classical.choose (hfg dof)) (fun dof => Classical.choose (hpg dof))
    (fun dof => Classical.choose (hmul dof)) hp hf
    (fun dof _ => Classical.choose_spec (hfg dof))
    (fun dof _ => Classical.choose_spec (hpg dof))
    (fun dof _ => Classical.choose_spec (hmul dof))
  refine ⟨f, F, M, hf, hF, hM, fun row wrt => ?_⟩
  obtain ⟨h1, h2, h3⟩ := hall row wrt
  exact ⟨_, _, _, Classical.choose_spec (hmul _), Classical.choose_spec (hfg _),
    Classical.choose_spec (hpg _), h1, h2, h3⟩

/-- The Jacobian of the constraint forces of a contact: for a constraint built from a contact
constraint with dimension index 0, 1 or 2,
`getConstraintForcesJacobian` returns the `numDOFs × numDOFs` matrix whose entry `(row, wrt)` is
`forceMultiple(dof_row) * (screwAxisGradient(dof_row, dof_wrt) . F
+ worldScrewAxis(dof_row) . dF(dof_wrt))`, with `F` the world force and
`dF(dof) = (p × f' + p' × f, f')` the value of `getContactWorldForceGradient`, built from the
contact point `p`, the force direction `f` and their gradients `p'`, `f'`; the entry is the
value of `getConstraintForceDerivative(dof_row, dof_wrt)`. The screw axis gradient is
`ad(rotateTwist, axisTwist)` for two DOFs of skeletons of the same name and zero otherwise. -/
theorem getConstraintForcesJacobian_eq (skeletons : List String)
    (cc : ContactConstraint) (k : Int) (hk : 0 ≤ k ∧ k ≤ 2) (m : MathGeometry)
    (world : simulation.World) :
    (∃ (f : Vector3d) (F : Vector6d)
      (M : Matrix (Fin world.getNumDofs) (Fin world.getNumDofs) ℚ),
      (create ⟨skeletons, some cc⟩ k).getContactWorldForceDirection = .ok f
        ∧ (create ⟨skeletons, some cc⟩ k).getWorldForce = .ok F
        ∧ (create ⟨skeletons, some cc⟩ k).getConstraintForcesJacobian m world = .ok ⟨_, _, M⟩
        ∧ ∀ row wrt : Fin world.getNumDofs, ∃ (multiple : ℚ) (f' p' : Vector3d),
            (create ⟨skeletons, some cc⟩ k).getForceMultiple (world.getDofs.get row)
                = .ok multiple
              ∧ (create ⟨skeletons, some cc⟩ k).getContactForceGradient m
                  (world.getDofs.get wrt) = .ok f'
              ∧ (create ⟨skeletons, some cc⟩ k).getContactPositionGradient m
                  (world.getDofs.get wrt) = .ok p'
              ∧ (create ⟨skeletons, some cc⟩ k).getContactWorldForceGradient m
                  (world.getDofs.get wrt)
                = .ok (((0 : Vector6d).setHead3
                    (cc.contact.point.cross f' + p'.cross f)).setTail3 f')
              ∧ M row wrt
                = multiple
                  * ((getScrewAxisGradient m (world.getDofs.get row)
                        (world.getDofs.get wrt)).dot F
                    + (getWorldScrewAxis m (world.getDofs.get row)).dot
                        (((0 : Vector6d).setHead3
                          (cc.contact.point.cross f' + p'.cross f)).setTail3 f'))
              ∧ (create ⟨skeletons, some cc⟩ k).getConstraintForceDerivative m
                  (world.getDofs.get row) (world.getDofs.get wrt)
                = .ok (M row wrt))
      ∧ ∀ screwDof rotateDof : dynamics.DegreeOfFreedom,
          (screwDof.skeletonName = rotateDof.skeletonName →
            getScrewAxisGradient m screwDof rotateDof
              = m.ad (getWorldScrewAxis m rotateDof) (getWorldScrewAxis m screwDof))
          ∧ (screwDof.skeletonName ≠ rotateDof.skeletonName →
            getScrewAxisGradient m screwDof rotateDof = 0) :=
  ⟨getConstraintForcesJacobian_create_aux skeletons cc k hk m world,
    getScrewAxisGradient_aux m⟩

/-- An instance: the contact of the arm with the ground, friction direction 1, in a world with
two hinges of the arm and one of the ground. -/
theorem getConstraintForcesJacobian_eq_witness :
    ∃ M : Matrix (Fin 3) (Fin 3) ℚ,
      (create (Scenario.groundConstraint .VERTEX_FACE) 1).getConstraintForcesJacobian
          Scenario.geometry Scenario.armGroundWorld = .ok ⟨3, 3, M⟩
        ∧ ∀ row wrt : Fin 3,
            (create (Scenario.groundConstraint .VERTEX_FACE) 1).getConstraintForceDerivative
                Scenario.geometry (Scenario.armGroundWorld.getDofs.get row)
                (Scenario.armGroundWorld.getDofs.get wrt)
              = .ok (M row wrt) := by
  obtain ⟨⟨f, F, M, -, -, hM, hall⟩, -⟩ := getConstraintForcesJacobian_eq ["arm", "ground"]
    (Scenario.groundContact .VERTEX_FACE) 1 (by decide) Scenario.geometry
    Scenario.armGroundWorld
  refine ⟨M, hM, fun row wrt => ?_⟩
  obtain ⟨_, _, _, -, -, -, -, -, h⟩ := hall row wrt
  exact h

end DifferentiableContactConstraint

namespace DifferentiableContactConstraint

/-- C31: evaluation at the failing input. The joint limit of the arm is not a contact
constraint, so the constructor leaves the contact constraint null and `getWorldForce` is zero.
`getContactWorldForceGradient` calls `getContactForceGradient`, which classifies the skeleton of
the DOF through the null contact constraint: it stops there, and so do
`getConstraintForceDerivative` and, in a world with the two hinges of the arm and the hinge of
the ground, `getConstraintForcesJacobian`, which returns no matrix. -/
theorem getConstraintForcesJacobian_jointLimit :
    Scenario.jointLimit.isContactConstraint = false
      ∧ (create Scenario.jointLimit 0).mContactConstraint = none
      ∧ (create Scenario.jointLimit 0).getWorldForce = .ok 0
      ∧ Scenario.armGroundWorld.getNumDofs = 3
      ∧ (create Scenario.jointLimit 0).getContactWorldForceGradient Scenario.geometry
          (Scenario.hingeDof "arm" 0 1) = .error .nullPointer
      ∧ (create Scenario.jointLimit 0).getConstraintForceDerivative Scenario.geometry
          (Scenario.hingeDof "arm" 0 1) (Scenario.hingeDof "arm" 0 2) = .error .nullPointer
      ∧ (create Scenario.jointLimit 0).getConstraintForcesJacobian Scenario.geometry
          Scenario.armGroundWorld = .error .nullPointer :=
  ⟨rfl, rfl, getWorldForce_noncontact_aux _ _, rfl, rfl, rfl, rfl⟩

end DifferentiableContactConstraint

/-! ## Inverse kinematics: the Jacobian of the selected coordinates -/

namespace dynamics.InverseKinematics

/-- C38: evaluation at the failing inputs. The entity depends on the coordinates 4, 7, 9 and
column `c` of its world Jacobian is the unit twist `e_c`. After `useDofs([9])` the DOF map has
one entry per dependency, `[-1, -1, 0]`, and `computeJacobian` writes column 1 of a matrix with
one column: it stops on the Eigen range precondition instead of returning the column `e_2` of
coordinate 9. After `useDofs([7, 9, 4])` the map is `[2, 0, 1]` and column 0 of the result is
`e_2`, the column of coordinate 9, where the column `e_1` of coordinate `dofs[0] = 7` is
claimed. With `useDofs([4, 7, 9])` the columns are those of the world Jacobian. -/
theorem computeJacobian_dofMap_misindexed :
    (Scenario.limbIK.useDofs [9]).getDofMap = [-1, -1, 0]
      ∧ (Scenario.limbIK.useDofs [9]).computeJacobian = .error .eigenAssertion
      ∧ (Scenario.limbIK.useDofs [7, 9, 4]).getDofMap = [2, 0, 1]
      ∧ (Scenario.limbIK.useDofs [7, 9, 4]).computedColumn 0
          = Scenario.limbEntity.worldJacobian.col 2
      ∧ Scenario.limbEntity.worldJacobian.col 2 ≠ Scenario.limbEntity.worldJacobian.col 1
      ∧ (∀ k, k < 3 → (Scenario.limbIK.useDofs [4, 7, 9]).computedColumn k
          = Scenario.limbEntity.worldJacobian.col k) := by
  refine ⟨by decide, rfl, by decide, ?_, ?_, ?_⟩
  · simp [computedColumn, computeJacobian, useDofs, Scenario.limbIK, Scenario.limbEntity,
      dofMapEntry, getDofs, getDofMap, hasOffset, getEntity, computeJacobianLoop,
      math.UninitJacobian.resize, math.UninitJacobian.setCol, math.UninitJacobian.read,
      math.Jacobian.col, List.range_succ]
    split
    · simp
    · rename_i h
      exfalso
      apply h
      intro r c
      fin_cases c <;> simp
  · intro h
    have h0 := congrFun (Except.ok.inj h) 2
    simp [Scenario.limbEntity] at h0
  · intro k hk
    simp [computedColumn, computeJacobian, useDofs, Scenario.limbIK, Scenario.limbEntity,
      dofMapEntry, getDofs, getDofMap, hasOffset, getEntity, computeJacobianLoop,
      math.UninitJacobian.resize, math.UninitJacobian.setCol, math.UninitJacobian.read,
      math.Jacobian.col, List.range_succ]
    split
    · simp only [Result.ok_bind, dif_pos hk]
      congr 1
      funext r
      interval_cases k <;> simp
    · rename_i h
      exfalso
      apply h
      intro r c
      fin_cases c <;> simp

end dynamics.InverseKinematics

/-! ## Inverse kinematics: the two branches of the damped least squares gradient -/

/-- Cramer's rule computes the inverse. -/
theorem eigenInverse_eq_inv {n : Nat} (A : Matrix (Fin n) (Fin n) ℚ) : eigenInverse A = A⁻¹ := by
  ext i j
  simp [eigenInverse, Matrix.inv_def, Ring.inverse_eq_inv']

/-- A Gram matrix plus a positive multiple of the identity is nonsingular. -/
theorem damped_gram_isUnit_det {m n : Nat} (J : Matrix (Fin m) (Fin n) ℚ) (damping : ℚ)
    (hd : damping ≠ 0) :
    IsUnit (damping ^ 2 • (1 : Matrix (Fin m) (Fin m) ℚ) + J * J.transpose).det := by
  rw [isUnit_iff_ne_zero]
  intro hdet
  obtain ⟨v, hv, hAv⟩ := Matrix.exists_mulVec_eq_zero_iff.mpr hdet
  have h0 : Matrix.dotProduct v
      ((damping ^ 2 • (1 : Matrix (Fin m) (Fin m) ℚ) + J * J.transpose).mulVec v) = 0 := by
    rw [hAv, Matrix.dotProduct_zero]
  rw [Matrix.add_mulVec, Matrix.dotProduct_add, Matrix.smul_mulVec_assoc, Matrix.one_mulVec,
    Matrix.dotProduct_smul, ← Matrix.mulVec_mulVec, Matrix.dotProduct_mulVec,
    ← Matrix.mulVec_transpose] at h0
  have h1 : 0 ≤ Matrix.dotProduct v v := Finset.sum_nonneg fun i _ => mul_self_nonneg (v i)
  have h2 : 0 ≤ Matrix.dotProduct (J.transpose.mulVec v) (J.transpose.mulVec v) :=
    Finset.sum_nonneg fun i _ => mul_self_nonneg _
  have h3 : 0 < damping ^ 2 := by positivity
  have h4 : Matrix.dotProduct v v = 0 := by
    rw [smul_eq_mul] at h0
    nlinarith
  exact hv (Matrix.dotProduct_self_eq_zero.mp h4)

namespace dynamics.InverseKinematics.JacobianDLS

theorem wideGradient_eq_tallGradient_aux {n : Nat} (damping : ℚ)
    (J : Matrix (Fin 6) (Fin n) ℚ) (error : Vector6d) (hd : damping ≠ 0) :
    wideGradient damping J error = tallGradient damping J error := by
  have hA := damped_gram_isUnit_det J damping hd
  have hB := damped_gram_isUnit_det J.transpose damping hd
  rw [Matrix.transpose_transpose] at hB
  have key : J.transpose * (damping ^ 2 • (1 : Matrix (Fin 6) (Fin 6) ℚ) + J * J.transpose)
      = (damping ^ 2 • (1 : Matrix (Fin n) (Fin n) ℚ) + J.transpose * J) * J.transpose := by
    simp only [Matrix.mul_add, Matrix.add_mul, Matrix.mul_smul, Matrix.smul_mul, Matrix.mul_one,
      Matrix.one_mul, Matrix.mul_assoc]
  have hmat : J.transpose * (damping ^ 2 • (1 : Matrix (Fin 6) (Fin 6) ℚ) + J * J.transpose)⁻¹
      = (damping ^ 2 • (1 : Matrix (Fin n) (Fin n) ℚ) + J.transpose * J)⁻¹ * J.transpose := by
    calc J.transpose * (damping ^ 2 • (1 : Matrix (Fin 6) (Fin 6) ℚ) + J * J.transpose)⁻¹
        = (damping ^ 2 • (1 : Matrix (Fin n) (Fin n) ℚ) + J.transpose * J)⁻¹
            * ((damping ^ 2 • (1 : Matrix (Fin n) (Fin n) ℚ) + J.transpose * J) * J.transpose)
            * (damping ^ 2 • (1 : Matrix (Fin 6) (Fin 6) ℚ) + J * J.transpose)⁻¹ := by
          rw [← Matrix.mul_assoc, Matrix.nonsing_inv_mul _ hB, Matrix.one_mul]
      _ = (damping ^ 2 • (1 : Matrix (Fin n) (Fin n) ℚ) + J.transpose * J)⁻¹ * J.transpose := by
          rw [← key, Matrix.mul_assoc, Matrix.mul_assoc, Matrix.mul_nonsing_inv _ hA,
            Matrix.mul_one]
  simp only [wideGradient, tallGradient, eigenInverse_eq_inv, hmat]

end dynamics.InverseKinematics.JacobianDLS

namespace dynamics.InverseKinematics.JacobianDLS

/-- C39: for a Jacobian with six rows and any number of columns, a non-zero damping coefficient
and any error, the two branches of `JacobianDLS::computeGradient` compute the same vector,
`J^T (damping^2 I_6 + J J^T)^(-1) e = (damping^2 I_n + J^T J)^(-1) J^T e`; so the gradient
before clamping is either expression, whichever way `rows <= cols` goes. -/
theorem wideGradient_eq_tallGradient {n : Nat} (damping : ℚ) (J : Matrix (Fin 6) (Fin n) ℚ)
    (error : Vector6d) (hd : damping ≠ 0) :
    wideGradient damping J error = tallGradient damping J error
      ∧ unclampedGradient damping ⟨n, J⟩ error = ⟨n, wideGradient damping J error⟩
      ∧ unclampedGradient damping ⟨n, J⟩ error = ⟨n, tallGradient damping J error⟩ := by
  have h := wideGradient_eq_tallGradient_aux damping J error hd
  refine ⟨h, ?_, ?_⟩
  · simp only [unclampedGradient]
    split
    · rfl
    · rw [h]
  · simp only [unclampedGradient]
    split
    · rw [h]
    · rfl

/-- C39 witness: the world Jacobian of the limb entity (three columns, the tall branch) with
damping 1. -/
theorem wideGradient_eq_tallGradient_witness :
    wideGradient 1 Scenario.limbEntity.worldJacobian.coeff ![1, 2, 3, 4, 5, 6]
        = tallGradient 1 Scenario.limbEntity.worldJacobian.coeff ![1, 2, 3, 4, 5, 6]
      ∧ unclampedGradient 1 Scenario.limbEntity.worldJacobian ![1, 2, 3, 4, 5, 6]
        = ⟨3, wideGradient 1 Scenario.limbEntity.worldJacobian.coeff ![1, 2, 3, 4, 5, 6]⟩ :=
  ⟨(wideGradient_eq_tallGradient 1 Scenario.limbEntity.worldJacobian.coeff ![1, 2, 3, 4, 5, 6]
      one_ne_zero).1,
    (wideGradient_eq_tallGradient 1 Scenario.limbEntity.worldJacobian.coeff ![1, 2, 3, 4, 5, 6]
      one_ne_zero).2.1⟩

end dynamics.InverseKinematics.JacobianDLS

/-! ## Inverse kinematics: the cache of the error method -/

namespace dynamics.InverseKinematics.ErrorMethod

/-- After `clearCache()` a configuration of the right size is never taken for the cached one,
unless both are empty: `computeError` applies it and evaluates the error. -/
theorem computeError_clearCache_aux (evaluate : InverseKinematics → Fin 6 → Double)
    (em : ErrorMethod) (ik : InverseKinematics) (q : List Double)
    (hq : q.length = ik.getDofs.length) (hne : q ≠ [] ∨ em.mLastConfig ≠ []) :
    computeError evaluate em.clearCache ik q
      = (evaluate (ik.setConfiguration q), ⟨q, evaluate (ik.setConfiguration q)⟩,
          ik.setConfiguration q) := by
  have hcond : ¬ (q.length = em.clearCache.mLastConfig.length
      ∧ isRepeat q em.clearCache.mLastConfig = true) := by
    rintro ⟨hlen, hrep⟩
    cases hc : em.mLastConfig with
    | nil =>
      have hem : em.clearCache = em := by simp [clearCache, hc]
      rw [hem, hc] at hlen
      rcases hne with h | h
      · exact h (List.length_eq_zero.mp hlen)
      · exact h hc
    | cons a rest =>
      have hem : em.clearCache.mLastConfig = Double.nan :: rest := by
        simp [clearCache, hc]
      rw [hem] at hlen hrep
      cases q with
      | nil => simp at hlen
      | cons b qs =>
        cases b <;> simp [isRepeat, Double.ne] at hrep
  unfold computeError
  rw [if_neg (not_not.mpr hq), if_neg hcond]

/-- C40: evaluation at the failing input. For a solver without a coordinate (`getDofs()` is
empty) and an error method fresh from its constructor, `clearCache()` changes nothing, and the
next `computeError` with the empty configuration, which has the right size, finds the sizes
equal and no differing coefficient: it returns the cached error, NaN in every coefficient,
and neither applies the configuration nor evaluates the error, whose value is zero. -/
theorem computeError_clearCache_empty :
    Scenario.fixedIK.getDofs = []
      ∧ create.clearCache = create
      ∧ computeError Scenario.readCoordinate create.clearCache Scenario.fixedIK []
        = (fun _ => Double.nan, create, Scenario.fixedIK)
      ∧ Scenario.readCoordinate (Scenario.fixedIK.setConfiguration []) = fun _ => Double.val 0 := by
  refine ⟨rfl, rfl, rfl, ?_⟩
  funext i
  simp [Scenario.readCoordinate, setConfiguration, Scenario.fixedIK, Scenario.limbIK,
    setPositions]

end dynamics.InverseKinematics.ErrorMethod

/-! ## The projection into the clamping constraints decouples per group -/

/-- A sum over `Fin n` of a function that vanishes outside the range of an injective map is the
sum along the map. -/
theorem sum_eq_sum_of_injective {n d : Nat} (f : Fin n → ℚ) (e : Fin d → Fin n)
    (he : Function.Injective e) (h0 : ∀ j : Fin n, (∀ r, e r ≠ j) → f j = 0) :
    ∑ j, f j = ∑ r, f (e r) := by
  have h1 : ∑ r, f (e r) = ∑ j ∈ Finset.univ.map ⟨e, he⟩, f j := by
    rw [Finset.sum_map]
    rfl
  rw [h1]
  symm
  apply Finset.sum_subset (Finset.subset_univ _)
  intro j _ hj
  apply h0 j
  intro r hr
  apply hj
  rw [Finset.mem_map]
  exact ⟨r, Finset.mem_univ _, hr⟩

/-- The matrix `Q = A^T (V + U E)` couples two clamping columns only when they carry the same
label, if the rows that two columns share force equal labels. -/
theorem gram_block_diagonal_aux {n c u : Nat} (A V : Matrix (Fin n) (Fin c) ℚ)
    (U : Matrix (Fin n) (Fin u) ℚ) (E : Matrix (Fin u) (Fin c) ℚ)
    (colG : Fin c → Nat) (ubG : Fin u → Nat)
    (h1 : ∀ i a b, A i a ≠ 0 → V i b ≠ 0 → colG a = colG b)
    (h2 : ∀ i a k, A i a ≠ 0 → U i k ≠ 0 → colG a = ubG k)
    (h3 : ∀ k b, E k b ≠ 0 → ubG k = colG b)
    (a b : Fin c) (hab : colG a ≠ colG b) :
    (A.transpose * (V + U * E)) a b = 0 := by
  simp only [Matrix.mul_apply, Matrix.transpose_apply, Matrix.add_apply]
  apply Finset.sum_eq_zero
  intro i _
  by_cases hA : A i a = 0
  · rw [hA, zero_mul]
  · have hV : V i b = 0 := by
      by_contra hV
      exact hab (h1 i a b hA hV)
    have hUE : ∑ k, U i k * E k b = 0 := by
      apply Finset.sum_eq_zero
      intro k _
      by_cases hU : U i k = 0
      · rw [hU, zero_mul]
      · have hE : E k b = 0 := by
          by_contra hE
          exact hab ((h2 i a k hA hU).trans (h3 k b hE))
        rw [hE, mul_zero]
    rw [hV, hUE, add_zero, mul_zero]

/-- The inverse of a matrix that couples only columns of equal label couples only columns of
equal label. -/
theorem inverse_block_diagonal_aux {c : Nat} (Q X : Matrix (Fin c) (Fin c) ℚ)
    (colG : Fin c → Nat) (hQ : ∀ a b, colG a ≠ colG b → Q a b = 0) (hXQ : X * Q = 1)
    (a b : Fin c) (hab : colG a ≠ colG b) : X a b = 0 := by
  have hQX : Q * X = 1 := Matrix.mul_eq_one_comm.mp hXQ
  have hmask : (Matrix.of fun a b => if colG a = colG b then X a b else 0) * Q = 1 := by
    ext a b
    simp only [Matrix.mul_apply, Matrix.of_apply]
    by_cases hg : colG a = colG b
    · have : ∑ k, (if colG a = colG k then X a k else 0) * Q k b = ∑ k, X a k * Q k b := by
        apply Finset.sum_congr rfl
        intro k _
        by_cases hk : colG a = colG k
        · rw [if_pos hk]
        · rw [if_neg hk, hQ k b (fun h => hk (hg.trans h.symm)), zero_mul, mul_zero]
      rw [this, ← Matrix.mul_apply, hXQ]
    · have hne : a ≠ b := fun h => hg (by rw [h])
      rw [Matrix.one_apply_ne hne]
      apply Finset.sum_eq_zero
      intro k _
      by_cases hk : colG a = colG k
      · rw [hQ k b (fun h => hg (hk.trans h)), mul_zero]
      · rw [if_neg hk, zero_mul]
  have hX : (Matrix.of fun a b => if colG a = colG b then X a b else 0) = X := by
    calc (Matrix.of fun a b => if colG a = colG b then X a b else 0)
        = (Matrix.of fun a b => if colG a = colG b then X a b else 0) * (Q * X) := by
          rw [hQX, Matrix.mul_one]
      _ = X := by rw [← Matrix.mul_assoc, hmask, Matrix.one_mul]
  have := congrFun (congrFun hX a) b
  simp only [Matrix.of_apply, if_neg hab] at this
  exact this.symm

/-- A matrix that couples only columns of equal label is nonsingular when the block of every
label is: the block of the label of column `a` is given along an injective map `e` onto the
columns of that label. -/
theorem block_diagonal_isUnit_det_aux {c : Nat} (Q : Matrix (Fin c) (Fin c) ℚ)
    (colG : Fin c → Nat) (hQ : ∀ a b, colG a ≠ colG b → Q a b = 0)
    (hblocks : ∀ a : Fin c, ∃ (d : Nat) (e : Fin d → Fin c), Function.Injective e
      ∧ (∀ r, colG (e r) = colG a) ∧ (∀ b, colG b = colG a → ∃ r, e r = b)
      ∧ IsUnit (Matrix.of fun r t => Q (e r) (e t)).det) :
    IsUnit Q.det := by
  rw [isUnit_iff_ne_zero]
  intro hdet
  obtain ⟨v, hv, hQv⟩ := Matrix.exists_mulVec_eq_zero_iff.mpr hdet
  apply hv
  funext a
  obtain ⟨d, e, he, hlab, hsurj, hunit⟩ := hblocks a
  have hblock : (Matrix.of fun r t => Q (e r) (e t)).mulVec (fun t => v (e t)) = 0 := by
    funext r
    have h := congrFun hQv (e r)
    simp only [Matrix.mulVec, Matrix.dotProduct, Pi.zero_apply] at h ⊢
    rw [← h]
    symm
    apply sum_eq_sum_of_injective (fun k => Q (e r) k * v k) e he
    intro k hk
    have : colG (e r) ≠ colG k := by
      intro hg
      obtain ⟨t, ht⟩ := hsurj k (by rw [← hg, hlab r])
      exact hk t ht
    simp only [hQ _ _ this, zero_mul]
  have hzero : (fun t => v (e t)) = 0 := by
    have := congrArg ((Matrix.of fun r t => Q (e r) (e t))⁻¹.mulVec) hblock
    rwa [Matrix.mulVec_mulVec, Matrix.nonsing_inv_mul _ hunit, Matrix.one_mulVec,
      Matrix.mulVec_zero] at this
  obtain ⟨r, hr⟩ := hsurj a rfl
  have := congrFun hzero r
  simp only [hr, Pi.zero_apply] at this
  exact this

/-- The block of one group: when the clamping columns `ι`, the upper-bound columns `κ` and the
rows `ρ` of a group carry the group's own matrices, the block of `Q` is the group's own `Q`,
and the rows `ι` of `P = (1/dt) X diag(b) A^T`, with `X` the inverse of `Q`, hold the group's
own projection in the columns `ρ` and vanish in every other column. -/
theorem group_projection_aux {n c u R cp up : Nat} (A V : Matrix (Fin n) (Fin c) ℚ)
    (U : Matrix (Fin n) (Fin u) ℚ) (E : Matrix (Fin u) (Fin c) ℚ) (b : Fin c → ℚ)
    (X : Matrix (Fin c) (Fin c) ℚ)
    (ι : Fin cp → Fin c) (κ : Fin up → Fin u) (ρ : Fin R → Fin n)
    (hι : Function.Injective ι) (hκ : Function.Injective κ) (hρ : Function.Injective ρ)
    (GA GV : Matrix (Fin R) (Fin cp) ℚ) (GU : Matrix (Fin R) (Fin up) ℚ)
    (GE : Matrix (Fin up) (Fin cp) ℚ) (gb : Fin cp → ℚ)
    (hA : ∀ r a, A (ρ r) (ι a) = GA r a) (hV : ∀ r a, V (ρ r) (ι a) = GV r a)
    (hU : ∀ r k, U (ρ r) (κ k) = GU r k) (hE : ∀ k a, E (κ k) (ι a) = GE k a)
    (hb : ∀ a, b (ι a) = gb a)
    (hA0 : ∀ i a, (∀ r, ρ r ≠ i) → A i (ι a) = 0)
    (hE0 : ∀ k a, (∀ t, κ t ≠ k) → E k (ι a) = 0)
    (hX0 : ∀ a k, (∀ t, ι t ≠ k) → X (ι a) k = 0)
    (hXQ : X * (A.transpose * (V + U * E)) = 1) (dt : ℚ) :
    (Matrix.of fun a t => (A.transpose * (V + U * E)) (ι a) (ι t))
        = GA.transpose * (GV + GU * GE)
      ∧ (∀ a r, ((1 / dt) • (X * (Matrix.diagonal b * A.transpose))) (ι a) (ρ r)
          = ((1 / dt) • ((GA.transpose * (GV + GU * GE))⁻¹
              * (Matrix.diagonal gb * GA.transpose))) a r)
      ∧ (∀ a i, (∀ r, ρ r ≠ i) →
          ((1 / dt) • (X * (Matrix.diagonal b * A.transpose))) (ι a) i = 0) := by
  have hQ : (Matrix.of fun a t => (A.transpose * (V + U * E)) (ι a) (ι t))
      = GA.transpose * (GV + GU * GE) := by
    ext a t
    simp only [Matrix.of_apply, Matrix.mul_apply, Matrix.transpose_apply, Matrix.add_apply]
    rw [sum_eq_sum_of_injective
      (fun i => A i (ι a) * (V i (ι t) + ∑ k, U i k * E k (ι t))) ρ hρ
      (fun i hi => by simp only [hA0 i a hi, zero_mul])]
    apply Finset.sum_congr rfl
    intro r _
    rw [hA, hV, sum_eq_sum_of_injective (fun k => U (ρ r) k * E k (ι t)) κ hκ
      (fun k hk => by simp only [hE0 k t hk, mul_zero])]
    congr 2
    apply Finset.sum_congr rfl
    intro k _
    rw [hU, hE]
  have hXp : (Matrix.of fun a t => X (ι a) (ι t))
      * (Matrix.of fun a t => (A.transpose * (V + U * E)) (ι a) (ι t)) = 1 := by
    ext a t
    rw [Matrix.mul_apply]
    simp only [Matrix.of_apply]
    rw [← sum_eq_sum_of_injective
      (fun k => X (ι a) k * (A.transpose * (V + U * E)) k (ι t)) ι hι
      (fun k hk => by simp only [hX0 a k hk, zero_mul]), ← Matrix.mul_apply, hXQ]
    by_cases hat : a = t
    · rw [hat, Matrix.one_apply_eq, Matrix.one_apply_eq]
    · rw [Matrix.one_apply_ne hat, Matrix.one_apply_ne (fun h => hat (hι h))]
  rw [hQ] at hXp
  have hinv : (GA.transpose * (GV + GU * GE))⁻¹ = Matrix.of fun a t => X (ι a) (ι t) :=
    Matrix.inv_eq_left_inv hXp
  have hD : ∀ k i, (Matrix.diagonal b * A.transpose) k i = b k * A i k := fun k i => by
    rw [Matrix.diagonal_mul, Matrix.transpose_apply]
  have hDg : ∀ k r, (Matrix.diagonal gb * GA.transpose) k r = gb k * GA r k := fun k r => by
    rw [Matrix.diagonal_mul, Matrix.transpose_apply]
  refine ⟨hQ, fun a r => ?_, fun a i hi => ?_⟩
  · rw [hinv, Matrix.smul_apply, Matrix.smul_apply, Matrix.mul_apply, Matrix.mul_apply]
    simp only [hD, hDg, Matrix.of_apply]
    congr 1
    rw [sum_eq_sum_of_injective (fun k => X (ι a) k * (b k * A (ρ r) k)) ι hι
      (fun k hk => by simp only [hX0 a k hk, zero_mul])]
    apply Finset.sum_congr rfl
    intro k _
    rw [hb, hA]
  · rw [Matrix.smul_apply, Matrix.mul_apply]
    simp only [hD]
    rw [sum_eq_sum_of_injective (fun k => X (ι a) k * (b k * A i k)) ι hι
      (fun k hk => by simp only [hX0 a k hk, zero_mul])]
    simp only [hA0 i _ hi, mul_zero, Finset.sum_const_zero, smul_zero]

theorem exists_split_of_lt_map_sum {α : Type} (w : α → Nat) :
    ∀ (l : List α) (i : Nat), i < (l.map w).sum →
      ∃ l1 a l2, l = l1 ++ a :: l2 ∧ (l1.map w).sum ≤ i ∧ i < (l1.map w).sum + w a := by
  intro l
  induction l with
  | nil => intro i h; simp at h
  | cons a l ih =>
    intro i h
    simp only [List.map_cons, List.sum_cons] at h
    by_cases hi : i < w a
    · exact ⟨[], a, l, rfl, by simp, by simpa using hi⟩
    · obtain ⟨l1, b, l2, hl, h1, h2⟩ := ih (i - w a) (by omega)
      refine ⟨a :: l1, b, l2, by rw [hl]; rfl, ?_, ?_⟩
      · simp only [List.map_cons, List.sum_cons]; omega
      · simp only [List.map_cons, List.sum_cons]; omega

theorem split_unique {α : Type} {l l1 l1' l2 l2' : List α} {a a' : α}
    (h : l = l1 ++ a :: l2) (h' : l = l1' ++ a' :: l2') (hlen : l1.length = l1'.length) :
    l1 = l1' ∧ a = a' ∧ l2 = l2' := by
  have := List.append_inj (h.symm.trans h') hlen
  refine ⟨this.1, ?_, ?_⟩
  · exact (List.cons.inj this.2).1
  · exact (List.cons.inj this.2).2

theorem blockIndex_of_split {α : Type} (w : α → Nat) :
    ∀ (l1 : List α) (a : α) (l2 : List α) (j : Nat), (l1.map w).sum ≤ j →
      j < (l1.map w).sum + w a → blockIndex ((l1 ++ a :: l2).map w) j = l1.length := by
  intro l1
  induction l1 with
  | nil =>
    intro a l2 j _ h2
    simp only [List.map_nil, List.sum_nil, Nat.zero_add] at h2
    simp [blockIndex, h2]
  | cons x l1 ih =>
    intro a l2 j h1 h2
    simp only [List.map_cons, List.sum_cons] at h1 h2
    have hx : ¬ j < w x := by omega
    have := ih a l2 (j - w x) (by omega) (by omega)
    simp only [List.cons_append, List.map_cons, blockIndex, if_neg hx, List.length_cons]
    exact congrArg (· + 1) this

/-- Two splits of a list whose blocks share an index are the same split. -/
theorem split_eq_of_shared_index {α : Type} (w : α → Nat) {l l1 l1' l2 l2' : List α} {a a' : α}
    (h : l = l1 ++ a :: l2) (h' : l = l1' ++ a' :: l2') (j : Nat)
    (h1 : (l1.map w).sum ≤ j) (h2 : j < (l1.map w).sum + w a)
    (h1' : (l1'.map w).sum ≤ j) (h2' : j < (l1'.map w).sum + w a') :
    l1 = l1' ∧ a = a' ∧ l2 = l2' := by
  apply split_unique h h'
  rw [← blockIndex_of_split w l1 a l2 j h1 h2, ← blockIndex_of_split w l1' a' l2' j h1' h2',
    ← h, ← h']

namespace BackpropSnapshot

theorem memberRow_of_split (s : BackpropSnapshot) (world : World) :
    ∀ (ns1 : List String) (name : String) (ns2 : List String) (r : Nat),
      r < world.memberDofs name →
      s.memberRow world (ns1 ++ name :: ns2) ((ns1.map world.memberDofs).sum + r)
        = s.skeletonOffset name + r := by
  intro ns1
  induction ns1 with
  | nil =>
    intro name ns2 r hr
    simp [memberRow, hr]
  | cons x ns1 ih =>
    intro name ns2 r hr
    have hx : ¬ (world.memberDofs x + (ns1.map world.memberDofs).sum + r < world.memberDofs x) := by
      omega
    simp only [List.cons_append, List.map_cons, List.sum_cons, memberRow, if_neg hx]
    rw [show world.memberDofs x + (ns1.map world.memberDofs).sum + r - world.memberDofs x
      = (ns1.map world.memberDofs).sum + r by omega]
    exact ih name ns2 r hr

/-- Every group-local row below the DOF total of the members lies in the section of one
member. -/
theorem memberRow_decompose (s : BackpropSnapshot) (world : World) (members : List String)
    (r' : Nat) (hr : r' < (members.map world.memberDofs).sum) :
    ∃ ns1 name ns2 r, members = ns1 ++ name :: ns2 ∧ r < world.memberDofs name
      ∧ r' = (ns1.map world.memberDofs).sum + r
      ∧ s.memberRow world members r' = s.skeletonOffset name + r := by
  obtain ⟨ns1, name, ns2, hl, h1, h2⟩ := exists_split_of_lt_map_sum world.memberDofs members r' hr
  refine ⟨ns1, name, ns2, r' - (ns1.map world.memberDofs).sum, hl, by omega, by omega, ?_⟩
  have := memberRow_of_split s world ns1 name ns2 (r' - (ns1.map world.memberDofs).sum)
    (by omega)
  rw [← hl, show (ns1.map world.memberDofs).sum + (r' - (ns1.map world.memberDofs).sum) = r'
    by omega] at this
  exact this

end BackpropSnapshot

namespace BackpropSnapshot

/-- The second loop of `assembleVector` for the bounce diagonals: the vector of each group is
written where the vectors of the earlier groups end, and the coefficients below the cursor are
left alone. -/
theorem collectVectors_bounce_get :
    ∀ (groups : List (SharedPtr ConstrainedGroupGradientMatrices)) (cursor : Nat)
      (collected out : UninitVectorXd),
      collectVectors .BOUNCE_DIAGONALS groups cursor collected = .ok out →
      out.size = collected.size
        ∧ (∀ i, i < cursor → out.get i = collected.get i)
        ∧ ∀ gs1 g gs2, groups = gs1 ++ g :: gs2 → ∀ k : Fin g.obj.mBounceDiagonals.size,
            out.get (cursor + (gs1.map fun g => g.obj.mBounceDiagonals.size).sum + k.val)
              = some (g.obj.mBounceDiagonals.coeff k) := by
  intro groups
  induction groups with
  | nil =>
    intro cursor collected out h
    simp only [collectVectors, Except.ok.injEq] at h
    subst h
    refine ⟨rfl, fun _ _ => rfl, ?_⟩
    intro gs1 g gs2 hl
    simp at hl
  | cons g0 rest ih =>
    intro cursor collected out h
    simp only [collectVectors, getVectorToAssemble, Result.ok_bind,
      Result.bind_eq_ok_iff] at h
    obtain ⟨c1, h1, h2⟩ := h
    have heta : g0.obj.mBounceDiagonals
        = ⟨g0.obj.mBounceDiagonals.size, g0.obj.mBounceDiagonals.coeff⟩ := rfl
    rw [heta] at h1
    obtain ⟨hs1, hv1, hf1⟩ := UninitVectorXd.setSegment_eq_ok h1
    obtain ⟨hso, hfo, hvo⟩ := ih _ c1 out h2
    refine ⟨hso.trans hs1, fun i hi => ?_, ?_⟩
    · rw [hfo i (by omega), hf1 i (by omega)]
    · intro gs1 g gs2 hl k
      cases gs1 with
      | nil =>
        simp only [List.nil_append, List.cons.injEq] at hl
        obtain ⟨rfl, -⟩ := hl
        simp only [List.map_nil, List.sum_nil, Nat.add_zero]
        rw [hfo _ (by have := k.isLt; omega)]
        exact hv1 k
      | cons x gs1 =>
        simp only [List.cons_append, List.cons.injEq] at hl
        obtain ⟨rfl, hl⟩ := hl
        have := hvo gs1 g gs2 hl k
        simp only [List.map_cons, List.sum_cons]
        rw [← this]
        congr 1
        omega

/-- The coefficients of the assembled bounce diagonals: the vector of each group sits where the
vectors of the earlier groups end. -/
theorem getBounceDiagonals_get (s : BackpropSnapshot) (v : VectorXd)
    (h : s.getBounceDiagonals = .ok v) :
    ∀ gs1 g gs2, s.mGradientMatrices = gs1 ++ g :: gs2 →
      ∀ k : Fin g.obj.mBounceDiagonals.size,
        v.get ((gs1.map fun g => g.obj.mBounceDiagonals.size).sum + k.val)
          = some (g.obj.mBounceDiagonals.coeff k) := by
  intro gs1 g gs2 hl k
  unfold getBounceDiagonals assembleVector at h
  split at h
  · rename_i g0 hg0
    rw [hg0] at hl
    have hlen := congrArg List.length hl
    simp only [List.length_cons, List.length_nil, List.length_append] at hlen
    have h1 : gs1 = [] := List.eq_nil_of_length_eq_zero (by omega)
    subst h1
    simp only [List.nil_append, List.cons.injEq] at hl
    obtain ⟨rfl, -⟩ := hl
    simp only [getVectorToAssemble, Except.ok.injEq] at h
    subst h
    simp only [List.map_nil, List.sum_nil, Nat.zero_add]
    simp [VectorXd.get]
  · simp only [Result.bind_eq_ok_iff] at h
    obtain ⟨size, -, collected, hc, hread⟩ := h
    obtain ⟨-, -, hvals⟩ := collectVectors_bounce_get _ 0 _ collected hc
    have hk := hvals gs1 g gs2 hl k
    rw [Nat.zero_add] at hk
    obtain ⟨n, f⟩ := v
    have hsize := UninitVectorXd.size_of_read hread
    have hlt : (gs1.map fun g => g.obj.mBounceDiagonals.size).sum + k.val < n := by
      rw [← hsize]
      by_contra hge
      have : collected.get ((gs1.map fun g => g.obj.mBounceDiagonals.size).sum + k.val)
          = none := by
        simp only [UninitVectorXd.get]
        rw [dif_neg hge]
      rw [this] at hk
      exact Option.noConfusion hk
    have := UninitVectorXd.get_of_read hread ⟨_, hlt⟩
    simp only at this
    rw [hk] at this
    simp only [VectorXd.get, dif_pos hlt]
    exact this.symm

end BackpropSnapshot

theorem nodup_split_unique {α : Type} {l ns1 ns1' ns2 ns2' : List α} {a : α}
    (hl : l.Nodup) (h : l = ns1 ++ a :: ns2) (h' : l = ns1' ++ a :: ns2') : ns1 = ns1' := by
  induction ns1 generalizing l ns1' with
  | nil =>
    cases ns1' with
    | nil => rfl
    | cons x ns1' =>
      exfalso
      rw [h'] at h
      simp only [List.cons_append, List.nil_append, List.cons.injEq] at h
      obtain ⟨rfl, -⟩ := h
      rw [h'] at hl
      simp at hl
  | cons y ns1 ih =>
    cases ns1' with
    | nil =>
      exfalso
      rw [h] at h'
      simp only [List.cons_append, List.nil_append, List.cons.injEq] at h'
      obtain ⟨rfl, -⟩ := h'
      rw [h] at hl
      simp at hl
    | cons x ns1' =>
      rw [h] at h'
      simp only [List.cons_append, List.cons.injEq] at h'
      obtain ⟨rfl, h2⟩ := h'
      rw [h] at hl
      simp only [List.cons_append, List.nodup_cons] at hl
      rw [ih hl.2 rfl h2]

namespace BackpropSnapshot

/-- The world row of a group-local row lies in the world segment of a member of the group. -/
theorem memberRow_segment (s : BackpropSnapshot) (world : World)
    (g : ConstrainedGroupGradientMatrices) (hg : GroupWellFormed world g) (r' : Nat)
    (hr : r' < (g.mSkeletons.map world.memberDofs).sum) :
    ∃ ns1 name ns2 skel r, g.mSkeletons = ns1 ++ name :: ns2
      ∧ world.getSkeleton name = some skel ∧ r < skel.numDofs
      ∧ r' = (ns1.map world.memberDofs).sum + r
      ∧ s.memberRow world g.mSkeletons r' = s.skeletonOffset skel.name + r := by
  obtain ⟨ns1, name, ns2, r, hl, hrn, hr', hrow⟩ := memberRow_decompose s world g.mSkeletons r' hr
  obtain ⟨skel, hskel⟩ := hg.known name (by rw [hl]; simp)
  have hd : world.memberDofs name = skel.numDofs := by simp [World.memberDofs, hskel]
  refine ⟨ns1, name, ns2, skel, r, hl, hskel, by omega, hr', ?_⟩
  rw [hrow, World.getSkeleton_name hskel]

theorem memberRow_lt (world0 world : World) (preP preV preT : VectorXd)
    (s : BackpropSnapshot) (hs : s = create world0 preP preV preT)
    (hsk : world.skeletons = world0.skeletons)
    (hn : (world0.skeletons.map Skeleton.name).Nodup)
    (g : ConstrainedGroupGradientMatrices) (hg : GroupWellFormed world g) (r' : Nat)
    (hr : r' < (g.mSkeletons.map world.memberDofs).sum) :
    s.memberRow world g.mSkeletons r' < s.mNumDOFs := by
  obtain ⟨ns1, name, ns2, skel, r, -, hskel, hrn, -, hrow⟩ := memberRow_segment s world g hg
    r' hr
  have hmem : skel ∈ world0.skeletons := hsk ▸ World.mem_of_getSkeleton hskel
  have := create_skeletonOffset_add_le world0 preP preV preT hn skel hmem
  rw [← hs] at this
  omega

theorem memberRow_injective (world0 world : World) (preP preV preT : VectorXd)
    (s : BackpropSnapshot) (hs : s = create world0 preP preV preT)
    (hsk : world.skeletons = world0.skeletons)
    (hn : (world0.skeletons.map Skeleton.name).Nodup)
    (g : ConstrainedGroupGradientMatrices) (hg : GroupWellFormed world g) (r1 r2 : Nat)
    (h1 : r1 < (g.mSkeletons.map world.memberDofs).sum)
    (h2 : r2 < (g.mSkeletons.map world.memberDofs).sum)
    (heq : s.memberRow world g.mSkeletons r1 = s.memberRow world g.mSkeletons r2) :
    r1 = r2 := by
  obtain ⟨ns1, name, ns2, skel, r, hl, hskel, hrn, hr1, hrow1⟩ := memberRow_segment s world g hg
    r1 h1
  obtain ⟨ns1', name', ns2', skel', t, hl', hskel', htn, hr2, hrow2⟩ := memberRow_segment s
    world g hg r2 h2
  rw [hrow1, hrow2] at heq
  have hname : skel.name = skel'.name := by
    by_contra hne
    have hmem : skel ∈ world0.skeletons := hsk ▸ World.mem_of_getSkeleton hskel
    have hmem' : skel' ∈ world0.skeletons := hsk ▸ World.mem_of_getSkeleton hskel'
    have := create_segments_disjoint world0 preP preV preT hn skel skel' hmem hmem' hne
    rw [← hs] at this
    omega
  have hnn : name = name' := by
    rw [← World.getSkeleton_name hskel, ← World.getSkeleton_name hskel', hname]
  subst hnn
  have hns : ns1 = ns1' := nodup_split_unique hg.nodup hl hl'
  subst hns
  rw [hname] at heq
  omega

/-- A world row in the segment of a member of the group is the world row of a group-local
row. -/
theorem memberRow_surjective (s : BackpropSnapshot) (world : World)
    (g : ConstrainedGroupGradientMatrices) (name : String) (hname : name ∈ g.mSkeletons)
    (skel : Skeleton) (hskel : world.getSkeleton name = some skel) (i : Nat)
    (h1 : s.skeletonOffset skel.name ≤ i) (h2 : i < s.skeletonOffset skel.name + skel.numDofs) :
    ∃ r', r' < (g.mSkeletons.map world.memberDofs).sum
      ∧ s.memberRow world g.mSkeletons r' = i := by
  obtain ⟨ns1, ns2, hl⟩ := List.append_of_mem hname
  have hd : world.memberDofs name = skel.numDofs := by simp [World.memberDofs, hskel]
  refine ⟨(ns1.map world.memberDofs).sum + (i - s.skeletonOffset skel.name), ?_, ?_⟩
  · rw [hl]
    simp only [List.map_append, List.map_cons, List.sum_append, List.sum_cons, hd]
    omega
  · rw [hl, memberRow_of_split s world ns1 name ns2 _ (by omega),
      ← World.getSkeleton_name hskel]
    omega

end BackpropSnapshot

namespace BackpropSnapshot

/-- The assembled matrix seen group by group: the columns of a group hold the rows of the
group's matrix at the world rows of the group, and vanish at every other row. -/
theorem assembleMatrix_layout_aux (world0 world : World) (preP preV preT : VectorXd)
    (s : BackpropSnapshot) (whichMatrix : MatrixToAssemble)
    (hs : s = create world0 preP preV preT)
    (hsk : world.skeletons = world0.skeletons)
    (hn : (world0.skeletons.map Skeleton.name).Nodup)
    (hg : ∀ g ∈ s.mGradientMatrices, GroupWellFormed world g.obj) :
    ∃ M : Matrix (Fin s.mNumDOFs) (Fin (s.numColsToAssemble whichMatrix)) ℚ,
      s.assembleMatrix world whichMatrix = .ok ⟨_, _, M⟩
      ∧ ∀ gs1 g gs2, s.mGradientMatrices = gs1 ++ g :: gs2 →
          (gs1.map fun g => (groupMatrixToAssemble g.obj whichMatrix).cols).sum
              + (groupMatrixToAssemble g.obj whichMatrix).cols
            ≤ s.numColsToAssemble whichMatrix
          ∧ (∀ r' c, r' < (g.obj.mSkeletons.map world.memberDofs).sum →
              c < (groupMatrixToAssemble g.obj whichMatrix).cols →
              (MatrixXd.mk _ _ M).get (s.memberRow world g.obj.mSkeletons r')
                  ((gs1.map fun g => (groupMatrixToAssemble g.obj whichMatrix).cols).sum + c)
                = (groupMatrixToAssemble g.obj whichMatrix).get r' c)
          ∧ (∀ i j, i < s.mNumDOFs →
              (gs1.map fun g => (groupMatrixToAssemble g.obj whichMatrix).cols).sum ≤ j →
              j < (gs1.map fun g => (groupMatrixToAssemble g.obj whichMatrix).cols).sum
                  + (groupMatrixToAssemble g.obj whichMatrix).cols →
              (∀ r', r' < (g.obj.mSkeletons.map world.memberDofs).sum →
                s.memberRow world g.obj.mSkeletons r' ≠ i) →
              (MatrixXd.mk _ _ M).get i j = some 0) := by
  obtain ⟨M, hM, hval, hzero⟩ := assembleMatrix_blocks_aux world0 world preP preV preT s
    whichMatrix hs hsk hn hg
  have hcols : (s.mGradientMatrices.map
      fun g => (groupMatrixToAssemble g.obj whichMatrix).cols).sum
      = s.numColsToAssemble whichMatrix := by
    subst hs
    exact create_numColsToAssemble world0 preP preV preT whichMatrix
      (fun g hgm => ⟨(hg g hgm).massedClampingCols, (hg g hgm).massedUpperBoundCols⟩)
  refine ⟨M, hM, fun gs1 g gs2 hl => ?_⟩
  have hgm : g ∈ s.mGradientMatrices := by rw [hl]; simp
  have hle : (gs1.map fun g => (groupMatrixToAssemble g.obj whichMatrix).cols).sum
      + (groupMatrixToAssemble g.obj whichMatrix).cols ≤ s.numColsToAssemble whichMatrix := by
    rw [← hcols, hl]
    simp only [List.map_append, List.map_cons, List.sum_append, List.sum_cons]
    omega
  refine ⟨hle, fun r' c hr hc => ?_, fun i j hi hj1 hj2 hnot => ?_⟩
  · obtain ⟨ns1, name, ns2, skel, r, hns, hskel, hrn, hr', hrow⟩ := memberRow_segment s world
      g.obj (hg g hgm) r' hr
    rw [hrow, hr']
    exact hval gs1 g gs2 hl ns1 name ns2 skel hns hskel r c hrn hc
  · apply hzero i j hi (by omega)
    intro gs1' g' gs2' hl' name hname skel hskel hboth
    obtain ⟨-, hgg, -⟩ := split_eq_of_shared_index
      (fun g : SharedPtr ConstrainedGroupGradientMatrices =>
        (groupMatrixToAssemble g.obj whichMatrix).cols) hl hl' j hj1 hj2 hboth.2.1 hboth.2.2
    subst hgg
    obtain ⟨r', hr', hrow⟩ := memberRow_surjective s world g.obj name hname skel hskel i
      hboth.1.1 hboth.1.2
    exact hnot r' hr' hrow

end BackpropSnapshot

namespace BackpropSnapshot

/-- Two groups with a world row in common have a member in common, hence are the same entry
of the list when membership is disjoint. -/
theorem memberRow_shared_aux (world0 world : World) (preP preV preT : VectorXd)
    (s : BackpropSnapshot) (hs : s = create world0 preP preV preT)
    (hsk : world.skeletons = world0.skeletons)
    (hn : (world0.skeletons.map Skeleton.name).Nodup)
    (hg : ∀ g ∈ s.mGradientMatrices, GroupWellFormed world g.obj)
    (hdisj : ∀ gs1 g gs2 gs1' g' gs2', s.mGradientMatrices = gs1 ++ g :: gs2 →
      s.mGradientMatrices = gs1' ++ g' :: gs2' → gs1.length ≠ gs1'.length →
      ∀ name ∈ g.obj.mSkeletons, name ∉ g'.obj.mSkeletons)
    {gs1 gs2 gs1' gs2' : List (SharedPtr ConstrainedGroupGradientMatrices)}
    {g g' : SharedPtr ConstrainedGroupGradientMatrices}
    (hl : s.mGradientMatrices = gs1 ++ g :: gs2) (hl' : s.mGradientMatrices = gs1' ++ g' :: gs2')
    (r1 r2 : Nat) (h1 : r1 < (g.obj.mSkeletons.map world.memberDofs).sum)
    (h2 : r2 < (g'.obj.mSkeletons.map world.memberDofs).sum)
    (heq : s.memberRow world g.obj.mSkeletons r1 = s.memberRow world g'.obj.mSkeletons r2) :
    gs1.length = gs1'.length := by
  have hgm : g ∈ s.mGradientMatrices := by rw [hl]; simp
  have hgm' : g' ∈ s.mGradientMatrices := by rw [hl']; simp
  obtain ⟨ns1, name, ns2, skel, r, hns, hskel, hrn, -, hrow1⟩ := memberRow_segment s world
    g.obj (hg g hgm) r1 h1
  obtain ⟨ns1', name', ns2', skel', t, hns', hskel', htn, -, hrow2⟩ := memberRow_segment s
    world g'.obj (hg g' hgm') r2 h2
  rw [hrow1, hrow2] at heq
  have hname : skel.name = skel'.name := by
    by_contra hne
    have hmem : skel ∈ world0.skeletons := hsk ▸ World.mem_of_getSkeleton hskel
    have hmem' : skel' ∈ world0.skeletons := hsk ▸ World.mem_of_getSkeleton hskel'
    have := create_segments_disjoint world0 preP preV preT hn skel skel' hmem hmem' hne
    rw [← hs] at this
    omega
  have hnn : name = name' := by
    rw [← World.getSkeleton_name hskel, ← World.getSkeleton_name hskel', hname]
  by_contra hlen
  exact hdisj gs1 g gs2 gs1' g' gs2' hl hl' hlen name (by rw [hns]; simp)
    (by rw [hnn, hns']; simp)

end BackpropSnapshot

namespace BackpropSnapshot

theorem sum_map_prefix_congr {α : Type} (w w' : α → Nat) {l l1 l2 : List α} {a : α}
    (hl : l = l1 ++ a :: l2) (hw : ∀ x ∈ l, w x = w' x) :
    (l1.map w).sum = (l1.map w').sum ∧ w a = w' a :=
  ⟨congrArg List.sum (List.map_congr_left fun x hx => hw x (by rw [hl]; simp [hx])),
    hw a (by rw [hl]; simp)⟩

/-- The layout of an assembled matrix with typed coefficients, the column blocks measured with
a width function that agrees with the column counts of the group matrices. -/
theorem assembleMatrix_typed_layout_aux (world0 world : World) (preP preV preT : VectorXd)
    (s : BackpropSnapshot) (whichMatrix : MatrixToAssemble)
    (hs : s = create world0 preP preV preT)
    (hsk : world.skeletons = world0.skeletons)
    (hn : (world0.skeletons.map Skeleton.name).Nodup)
    (hg : ∀ g ∈ s.mGradientMatrices, GroupWellFormed world g.obj)
    (w : SharedPtr ConstrainedGroupGradientMatrices → Nat)
    (hw : ∀ g ∈ s.mGradientMatrices, (groupMatrixToAssemble g.obj whichMatrix).cols = w g)
    (N : Nat) (K : Matrix (Fin s.mNumDOFs) (Fin N) ℚ)
    (hK : s.assembleMatrix world whichMatrix = .ok ⟨_, _, K⟩) :
    N = (s.mGradientMatrices.map w).sum
      ∧ ∀ gs1 g gs2, s.mGradientMatrices = gs1 ++ g :: gs2 →
          (∀ (r' c : Nat) (hi : s.memberRow world g.obj.mSkeletons r' < s.mNumDOFs)
              (hj : (gs1.map w).sum + c < N) (x : ℚ),
              r' < (g.obj.mSkeletons.map world.memberDofs).sum → c < w g →
              (groupMatrixToAssemble g.obj whichMatrix).get r' c = some x →
              K ⟨s.memberRow world g.obj.mSkeletons r', hi⟩ ⟨(gs1.map w).sum + c, hj⟩ = x)
          ∧ (∀ (i : Fin s.mNumDOFs) (j : Fin N), (gs1.map w).sum ≤ j.val →
              j.val < (gs1.map w).sum + w g →
              (∀ r', r' < (g.obj.mSkeletons.map world.memberDofs).sum →
                s.memberRow world g.obj.mSkeletons r' ≠ i.val) →
              K i j = 0)
          ∧ (∀ j : Nat, (gs1.map w).sum ≤ j → j < (gs1.map w).sum + w g → j < N) := by
  obtain ⟨M, hM, hlay⟩ := assembleMatrix_layout_aux world0 world preP preV preT s whichMatrix
    hs hsk hn hg
  have hEq : MatrixXd.mk _ _ M = MatrixXd.mk _ _ K := Except.ok.inj (hM.symm.trans hK)
  have hN : s.numColsToAssemble whichMatrix = N := congrArg MatrixXd.cols hEq
  have hcols : (s.mGradientMatrices.map
      fun g => (groupMatrixToAssemble g.obj whichMatrix).cols).sum
      = s.numColsToAssemble whichMatrix := by
    subst hs
    exact create_numColsToAssemble world0 preP preV preT whichMatrix
      (fun g hgm => ⟨(hg g hgm).massedClampingCols, (hg g hgm).massedUpperBoundCols⟩)
  refine ⟨?_, fun gs1 g gs2 hl => ?_⟩
  · rw [← hN, ← hcols]
    exact congrArg List.sum (List.map_congr_left hw)
  · obtain ⟨hco, hwg⟩ := sum_map_prefix_congr
      (fun g : SharedPtr ConstrainedGroupGradientMatrices =>
        (groupMatrixToAssemble g.obj whichMatrix).cols) w hl hw
    obtain ⟨hle, hval, hzero⟩ := hlay gs1 g gs2 hl
    rw [hEq] at hval hzero
    simp only [hco, hwg] at hval hzero hle
    refine ⟨fun r' c hi hj x hr hc hx => ?_, fun i j hj1 hj2 hnot => ?_,
      fun j _ hj2 => by omega⟩
    · have h1 := hval r' c hr hc
      rw [hx, MatrixXd.mget_of_lt _ (show s.memberRow world g.obj.mSkeletons r'
        < (MatrixXd.mk _ _ K).rows from hi) (show (gs1.map w).sum + c
        < (MatrixXd.mk _ _ K).cols from hj)] at h1
      exact Option.some.inj h1
    · have h1 := hzero i.val j.val i.isLt hj1 hj2 hnot
      rw [MatrixXd.get_mk] at h1
      exact Option.some.inj h1

/-- A non-zero coefficient of an assembled matrix lies in the columns of a group and in a world
row of that group. -/
theorem assembleMatrix_support_aux (world0 world : World) (preP preV preT : VectorXd)
    (s : BackpropSnapshot) (whichMatrix : MatrixToAssemble)
    (hs : s = create world0 preP preV preT)
    (hsk : world.skeletons = world0.skeletons)
    (hn : (world0.skeletons.map Skeleton.name).Nodup)
    (hg : ∀ g ∈ s.mGradientMatrices, GroupWellFormed world g.obj)
    (w : SharedPtr ConstrainedGroupGradientMatrices → Nat)
    (hw : ∀ g ∈ s.mGradientMatrices, (groupMatrixToAssemble g.obj whichMatrix).cols = w g)
    (N : Nat) (K : Matrix (Fin s.mNumDOFs) (Fin N) ℚ)
    (hK : s.assembleMatrix world whichMatrix = .ok ⟨_, _, K⟩)
    (i : Fin s.mNumDOFs) (j : Fin N) (hne : K i j ≠ 0) :
    ∃ gs1 g gs2 r', s.mGradientMatrices = gs1 ++ g :: gs2
      ∧ (gs1.map w).sum ≤ j.val ∧ j.val < (gs1.map w).sum + w g
      ∧ r' < (g.obj.mSkeletons.map world.memberDofs).sum
      ∧ s.memberRow world g.obj.mSkeletons r' = i.val := by
  obtain ⟨hN, hlay⟩ := assembleMatrix_typed_layout_aux world0 world preP preV preT s
    whichMatrix hs hsk hn hg w hw N K hK
  obtain ⟨gs1, g, gs2, hl, h1, h2⟩ := exists_split_of_lt_map_sum w s.mGradientMatrices j.val
    (by rw [← hN]; exact j.isLt)
  by_contra hno
  apply hne
  exact (hlay gs1 g gs2 hl).2.1 i j h1 h2
    (fun r' hr' heq => hno ⟨gs1, g, gs2, r', hl, h1, h2, hr', heq⟩)

end BackpropSnapshot

namespace BackpropSnapshot

/-- The layout of the assembled mapping matrix with typed coefficients. -/
theorem mappingMatrix_typed_layout_aux (s : BackpropSnapshot)
    (hshape : ∀ g ∈ s.mGradientMatrices,
      g.obj.mUpperBoundMappingMatrix.rows = g.obj.mUpperBoundConstraintMatrix.cols
        ∧ g.obj.mUpperBoundMappingMatrix.cols = g.obj.mClampingConstraintMatrix.cols)
    (u c : Nat) (E : Matrix (Fin u) (Fin c) ℚ)
    (hE : s.getUpperBoundMappingMatrix = .ok ⟨u, c, E⟩) :
    u = (s.mGradientMatrices.map fun g => g.obj.mUpperBoundConstraintMatrix.cols).sum
      ∧ c = (s.mGradientMatrices.map fun g => g.obj.mClampingConstraintMatrix.cols).sum
      ∧ (∀ gs1 g gs2, s.mGradientMatrices = gs1 ++ g :: gs2 →
          ∀ (k a : Nat)
            (hk : (gs1.map fun g => g.obj.mUpperBoundConstraintMatrix.cols).sum + k < u)
            (ha : (gs1.map fun g => g.obj.mClampingConstraintMatrix.cols).sum + a < c) (x : ℚ),
            k < g.obj.mUpperBoundConstraintMatrix.cols →
            a < g.obj.mClampingConstraintMatrix.cols →
            g.obj.mUpperBoundMappingMatrix.get k a = some x →
            E ⟨_, hk⟩ ⟨_, ha⟩ = x)
      ∧ ∀ (k : Fin u) (a : Fin c), E k a ≠ 0 →
          ∃ gs1 g gs2, s.mGradientMatrices = gs1 ++ g :: gs2
            ∧ ((gs1.map fun g => g.obj.mUpperBoundConstraintMatrix.cols).sum ≤ k.val
              ∧ k.val < (gs1.map fun g => g.obj.mUpperBoundConstraintMatrix.cols).sum
                  + g.obj.mUpperBoundConstraintMatrix.cols)
            ∧ ((gs1.map fun g => g.obj.mClampingConstraintMatrix.cols).sum ≤ a.val
              ∧ a.val < (gs1.map fun g => g.obj.mClampingConstraintMatrix.cols).sum
                  + g.obj.mClampingConstraintMatrix.cols) := by
  obtain ⟨E', hE', hval, hzero⟩ := getUpperBoundMappingMatrix_blocks_aux s hshape
  have hEq : MatrixXd.mk _ _ E' = MatrixXd.mk u c E := Except.ok.inj (hE'.symm.trans hE)
  have hu := congrArg MatrixXd.rows hEq
  have hc := congrArg MatrixXd.cols hEq
  simp only at hu hc
  rw [hEq] at hval hzero
  refine ⟨hu.symm, hc.symm, fun gs1 g gs2 hl k a hk ha x hk' ha' hx => ?_, fun k a hne => ?_⟩
  · have h1 := hval gs1 g gs2 hl k a hk' ha'
    rw [hx, MatrixXd.mget_of_lt _ (show _ < (MatrixXd.mk u c E).rows from hk)
      (show _ < (MatrixXd.mk u c E).cols from ha)] at h1
    exact Option.some.inj h1
  · by_contra hno
    apply hne
    have h1 := hzero k.val a.val (by rw [hu]; exact k.isLt) (by rw [hc]; exact a.isLt)
      (fun l1 g l2 hl hboth => hno ⟨l1, g, l2, hl, hboth.1, hboth.2⟩)
    rw [MatrixXd.get_mk] at h1
    exact Option.some.inj h1

/-- The layout of the assembled bounce diagonals with typed coefficients. -/
theorem bounceDiagonals_typed_layout_aux (s : BackpropSnapshot)
    (hbsize : ∀ g ∈ s.mGradientMatrices,
      g.obj.mBounceDiagonals.size = g.obj.mClampingConstraintMatrix.cols)
    (c : Nat) (b : Fin c → ℚ) (hb : s.getBounceDiagonals = .ok ⟨c, b⟩) :
    ∀ gs1 g gs2, s.mGradientMatrices = gs1 ++ g :: gs2 →
      ∀ (a : Nat) (ha : (gs1.map fun g => g.obj.mClampingConstraintMatrix.cols).sum + a < c)
        (x : ℚ), a < g.obj.mClampingConstraintMatrix.cols →
        g.obj.mBounceDiagonals.get a = some x → b ⟨_, ha⟩ = x := by
  intro gs1 g gs2 hl a ha x ha' hx
  obtain ⟨hco, hwg⟩ := sum_map_prefix_congr
    (fun g : SharedPtr ConstrainedGroupGradientMatrices => g.obj.mBounceDiagonals.size)
    (fun g => g.obj.mClampingConstraintMatrix.cols) hl hbsize
  have h1 := getBounceDiagonals_get s _ hb gs1 g gs2 hl ⟨a, by rw [hwg]; exact ha'⟩
  simp only [hco] at h1
  simp only [VectorXd.get, dif_pos ha, Option.some.injEq] at h1
  have hlt : a < g.obj.mBounceDiagonals.size := by rw [hwg]; exact ha'
  simp only [VectorXd.get, dif_pos hlt, Option.some.injEq] at hx
  rw [h1, hx]

end BackpropSnapshot

/-- The block of `Q = A^T (V + U E)` of one group: when the clamping columns `ι`, the
upper-bound columns `κ` and the rows `ρ` of a group carry the group's own matrices, the block is
the group's own `Q`. -/
theorem group_gram_aux {n c u R cp up : Nat} (A V : Matrix (Fin n) (Fin c) ℚ)
    (U : Matrix (Fin n) (Fin u) ℚ) (E : Matrix (Fin u) (Fin c) ℚ)
    (ι : Fin cp → Fin c) (κ : Fin up → Fin u) (ρ : Fin R → Fin n)
    (hκ : Function.Injective κ) (hρ : Function.Injective ρ)
    (GA GV : Matrix (Fin R) (Fin cp) ℚ) (GU : Matrix (Fin R) (Fin up) ℚ)
    (GE : Matrix (Fin up) (Fin cp) ℚ)
    (hA : ∀ r a, A (ρ r) (ι a) = GA r a) (hV : ∀ r a, V (ρ r) (ι a) = GV r a)
    (hU : ∀ r k, U (ρ r) (κ k) = GU r k) (hE : ∀ k a, E (κ k) (ι a) = GE k a)
    (hA0 : ∀ i a, (∀ r, ρ r ≠ i) → A i (ι a) = 0)
    (hE0 : ∀ k a, (∀ t, κ t ≠ k) → E k (ι a) = 0) :
    (Matrix.of fun a t => (A.transpose * (V + U * E)) (ι a) (ι t))
        = GA.transpose * (GV + GU * GE) := by
  ext a t
  simp only [Matrix.of_apply, Matrix.mul_apply, Matrix.transpose_apply, Matrix.add_apply]
  rw [sum_eq_sum_of_injective
    (fun i => A i (ι a) * (V i (ι t) + ∑ k, U i k * E k (ι t))) ρ hρ
    (fun i hi => by simp only [hA0 i a hi, zero_mul])]
  apply Finset.sum_congr rfl
  intro r _
  rw [hA, hV, sum_eq_sum_of_injective (fun k => U (ρ r) k * E k (ι t)) κ hκ
    (fun k hk => by simp only [hE0 k t hk, mul_zero])]
  congr 2
  apply Finset.sum_congr rfl
  intro k _
  rw [hU, hE]

namespace BackpropSnapshot

/-- The place of one group in the world matrices: its clamping columns, upper-bound columns and
DOF rows embed into those of the world, the world matrices carry the group's own matrices
there, and the group's clamping columns touch no other row and no other upper-bound column. -/
theorem group_embedding_aux (world0 world : World) (preP preV preT : VectorXd)
    (s : BackpropSnapshot) (hs : s = create world0 preP preV preT)
    (hsk : world.skeletons = world0.skeletons)
    (hn : (world0.skeletons.map Skeleton.name).Nodup)
    (hg : ∀ g ∈ s.mGradientMatrices, GroupWellFormed world g.obj)
    (hshape : ∀ g ∈ s.mGradientMatrices,
      g.obj.mUpperBoundMappingMatrix.rows = g.obj.mUpperBoundConstraintMatrix.cols
        ∧ g.obj.mUpperBoundMappingMatrix.cols = g.obj.mClampingConstraintMatrix.cols)
    (hbsize : ∀ g ∈ s.mGradientMatrices,
      g.obj.mBounceDiagonals.size = g.obj.mClampingConstraintMatrix.cols)
    (Ac Vc : Matrix (Fin s.mNumDOFs) (Fin s.mNumClamping) ℚ)
    (Vub : Matrix (Fin s.mNumDOFs) (Fin s.mNumUpperBound) ℚ)
    (E : Matrix (Fin s.mNumUpperBound) (Fin s.mNumClamping) ℚ)
    (bounce : Fin s.mNumClamping → ℚ)
    (hAc : s.getClampingConstraintMatrix world = .ok ⟨_, _, Ac⟩)
    (hVc : s.getMassedClampingConstraintMatrix world = .ok ⟨_, _, Vc⟩)
    (hVub : s.getMassedUpperBoundConstraintMatrix world = .ok ⟨_, _, Vub⟩)
    (hE : s.getUpperBoundMappingMatrix = .ok ⟨_, _, E⟩)
    (hb : s.getBounceDiagonals = .ok ⟨_, bounce⟩)
    {gs1 gs2 : List (SharedPtr ConstrainedGroupGradientMatrices)}
    {g : SharedPtr ConstrainedGroupGradientMatrices}
    (hl : s.mGradientMatrices = gs1 ++ g :: gs2)
    (R cp up : Nat) (hR : R = (g.obj.mSkeletons.map world.memberDofs).sum)
    (GA GV : Matrix (Fin R) (Fin cp) ℚ) (GU : Matrix (Fin R) (Fin up) ℚ)
    (GE : Matrix (Fin up) (Fin cp) ℚ) (gb : Fin cp → ℚ)
    (hGA : g.obj.mClampingConstraintMatrix = ⟨R, cp, GA⟩)
    (hGV : g.obj.mMassedClampingConstraintMatrix = ⟨R, cp, GV⟩)
    (hGU : g.obj.mMassedUpperBoundConstraintMatrix = ⟨R, up, GU⟩)
    (hGE : g.obj.mUpperBoundMappingMatrix = ⟨up, cp, GE⟩)
    (hgb : g.obj.mBounceDiagonals = ⟨cp, gb⟩) :
    ∃ (ι : Fin cp → Fin s.mNumClamping) (κ : Fin up → Fin s.mNumUpperBound)
      (ρ : Fin R → Fin s.mNumDOFs),
      (∀ a, (ι a).val
          = (gs1.map fun g => g.obj.mClampingConstraintMatrix.cols).sum + a.val)
        ∧ (∀ k, (κ k).val
          = (gs1.map fun g => g.obj.mUpperBoundConstraintMatrix.cols).sum + k.val)
        ∧ (∀ r, (ρ r).val = s.memberRow world g.obj.mSkeletons r.val)
        ∧ Function.Injective ι ∧ Function.Injective κ ∧ Function.Injective ρ
        ∧ (∀ r a, Ac (ρ r) (ι a) = GA r a) ∧ (∀ r a, Vc (ρ r) (ι a) = GV r a)
        ∧ (∀ r k, Vub (ρ r) (κ k) = GU r k) ∧ (∀ k a, E (κ k) (ι a) = GE k a)
        ∧ (∀ a, bounce (ι a) = gb a)
        ∧ (∀ i a, (∀ r, ρ r ≠ i) → Ac i (ι a) = 0)
        ∧ (∀ k a, (∀ t, κ t ≠ k) → E k (ι a) = 0)
        ∧ (∀ b : Fin s.mNumClamping,
            (gs1.map fun g => g.obj.mClampingConstraintMatrix.cols).sum ≤ b.val →
            b.val < (gs1.map fun g => g.obj.mClampingConstraintMatrix.cols).sum + cp →
            ∃ t, ι t = b) := by
  subst hR
  have hgm : g ∈ s.mGradientMatrices := by rw [hl]; simp
  have hwf := hg g hgm
  have hcp : g.obj.mClampingConstraintMatrix.cols = cp := by rw [hGA]
  have hup : g.obj.mUpperBoundConstraintMatrix.cols = up := by
    rw [← hwf.massedUpperBoundCols, hGU]
  have hAl := assembleMatrix_typed_layout_aux world0 world preP preV preT s .CLAMPING hs hsk hn
    hg (fun g => g.obj.mClampingConstraintMatrix.cols) (fun _ _ => rfl) _ Ac hAc
  have hVl := assembleMatrix_typed_layout_aux world0 world preP preV preT s .MASSED_CLAMPING hs
    hsk hn hg (fun g => g.obj.mClampingConstraintMatrix.cols)
    (fun g hg' => (hg g hg').massedClampingCols) _ Vc hVc
  have hUl := assembleMatrix_typed_layout_aux world0 world preP preV preT s .MASSED_UPPER_BOUND
    hs hsk hn hg (fun g => g.obj.mUpperBoundConstraintMatrix.cols)
    (fun g hg' => (hg g hg').massedUpperBoundCols) _ Vub hVub
  have hEl := mappingMatrix_typed_layout_aux s hshape _ _ E hE
  have hbl := bounceDiagonals_typed_layout_aux s hbsize _ bounce hb
  obtain ⟨hAval, hAzero, hAlt⟩ := hAl.2 gs1 g gs2 hl
  obtain ⟨hVval, -, -⟩ := hVl.2 gs1 g gs2 hl
  obtain ⟨hUval, -, hUlt⟩ := hUl.2 gs1 g gs2 hl
  simp only [hcp] at hAval hAzero hAlt hVval
  simp only [hup] at hUval hUlt
  have hrow : ∀ r : Fin (g.obj.mSkeletons.map world.memberDofs).sum,
      s.memberRow world g.obj.mSkeletons r.val < s.mNumDOFs :=
    fun r => memberRow_lt world0 world preP preV preT s hs hsk hn g.obj hwf r.val r.isLt
  refine ⟨fun a => ⟨_ + a.val, hAlt _ (Nat.le_add_right _ _) (by have := a.isLt; omega)⟩,
    fun k => ⟨_ + k.val, hUlt _ (Nat.le_add_right _ _) (by have := k.isLt; omega)⟩,
    fun r => ⟨_, hrow r⟩, fun _ => rfl, fun _ => rfl, fun _ => rfl, ?_, ?_, ?_, ?_, ?_, ?_, ?_,
    ?_, ?_, ?_, ?_⟩
  · intro a b hab
    have := congrArg Fin.val hab
    simp only at this
    exact Fin.ext (by omega)
  · intro a b hab
    have := congrArg Fin.val hab
    simp only at this
    exact Fin.ext (by omega)
  · intro a b hab
    have := congrArg Fin.val hab
    simp only at this
    exact Fin.ext (memberRow_injective world0 world preP preV preT s hs hsk hn g.obj hwf _ _
      a.isLt b.isLt this)
  · intro r a
    apply hAval r.val a.val _ _ _ r.isLt a.isLt
    show g.obj.mClampingConstraintMatrix.get _ _ = _
    rw [hGA]
    exact MatrixXd.get_mk _ r a
  · intro r a
    apply hVval r.val a.val _ _ _ r.isLt a.isLt
    show g.obj.mMassedClampingConstraintMatrix.get _ _ = _
    rw [hGV]
    exact MatrixXd.get_mk _ r a
  · intro r k
    apply hUval r.val k.val _ _ _ r.isLt k.isLt
    show g.obj.mMassedUpperBoundConstraintMatrix.get _ _ = _
    rw [hGU]
    exact MatrixXd.get_mk _ r k
  · intro k a
    apply hEl.2.2.1 gs1 g gs2 hl k.val a.val _ _ _ (by rw [hup]; exact k.isLt)
      (by rw [hcp]; exact a.isLt)
    rw [hGE]
    exact MatrixXd.get_mk _ k a
  · intro a
    apply hbl gs1 g gs2 hl a.val _ _ (by rw [hcp]; exact a.isLt)
    rw [hgb]
    simp [VectorXd.get]
  · intro i a hi
    apply hAzero i _ (Nat.le_add_right _ _) (by simp only; have := a.isLt; omega)
    intro r' hr' heq
    exact hi ⟨r', hr'⟩ (Fin.ext heq)
  · intro k a hk
    by_contra hne
    obtain ⟨gs1', g', gs2', hl', ⟨hk1, hk2⟩, ⟨ha1, ha2⟩⟩ := hEl.2.2.2 k _ hne
    simp only at ha1 ha2
    obtain ⟨h1, h2, -⟩ := split_eq_of_shared_index
      (fun g : SharedPtr ConstrainedGroupGradientMatrices =>
        g.obj.mClampingConstraintMatrix.cols) hl hl'
      ((gs1.map fun g => g.obj.mClampingConstraintMatrix.cols).sum + a.val)
      (Nat.le_add_right _ _) (by simp only [hcp]; have := a.isLt; omega) ha1 ha2
    subst h1
    subst h2
    rw [hup] at hk2
    exact hk ⟨k.val - (gs1.map fun g => g.obj.mUpperBoundConstraintMatrix.cols).sum,
      by omega⟩ (Fin.ext (by simp only; omega))
  · intro b hb1 hb2
    exact ⟨⟨b.val - (gs1.map fun g => g.obj.mClampingConstraintMatrix.cols).sum, by omega⟩,
      Fin.ext (by simp only; omega)⟩

end BackpropSnapshot

namespace BackpropSnapshot

/-- The world-level projection, group by group: the world `Q` couples no clamping columns of
two different groups, and when every group block is invertible the rows of the world
projection that belong to a group hold the group's own projection at the group's DOFs and
vanish at the DOFs of every skeleton outside the group. -/
theorem getProjectionIntoClampsMatrix_groups_aux (cod : CompleteOrthogonalDecomposition)
    (world0 world : World) (preP preV preT : VectorXd)
    (s : BackpropSnapshot) (hs : s = create world0 preP preV preT)
    (hsk : world.skeletons = world0.skeletons)
    (hn : (world0.skeletons.map Skeleton.name).Nodup)
    (hg : ∀ g ∈ s.mGradientMatrices, GroupWellFormed world g.obj)
    (hshape : ∀ g ∈ s.mGradientMatrices,
      g.obj.mUpperBoundMappingMatrix.rows = g.obj.mUpperBoundConstraintMatrix.cols
        ∧ g.obj.mUpperBoundMappingMatrix.cols = g.obj.mClampingConstraintMatrix.cols)
    (hbsize : ∀ g ∈ s.mGradientMatrices,
      g.obj.mBounceDiagonals.size = g.obj.mClampingConstraintMatrix.cols)
    (hdisj : ∀ gs1 g gs2 gs1' g' gs2', s.mGradientMatrices = gs1 ++ g :: gs2 →
      s.mGradientMatrices = gs1' ++ g' :: gs2' → gs1.length ≠ gs1'.length →
      ∀ name ∈ g.obj.mSkeletons, name ∉ g'.obj.mSkeletons)
    (Ac Vc : Matrix (Fin s.mNumDOFs) (Fin s.mNumClamping) ℚ)
    (Vub : Matrix (Fin s.mNumDOFs) (Fin s.mNumUpperBound) ℚ)
    (E : Matrix (Fin s.mNumUpperBound) (Fin s.mNumClamping) ℚ)
    (bounce : Fin s.mNumClamping → ℚ)
    (hAc : s.getClampingConstraintMatrix world = .ok ⟨_, _, Ac⟩)
    (hVc : s.getMassedClampingConstraintMatrix world = .ok ⟨_, _, Vc⟩)
    (hVub : s.getMassedUpperBoundConstraintMatrix world = .ok ⟨_, _, Vub⟩)
    (hE : s.getUpperBoundMappingMatrix = .ok ⟨_, _, E⟩)
    (hb : s.getBounceDiagonals = .ok ⟨_, bounce⟩) :
    (∀ gs1 g gs2 gs1' g' gs2', s.mGradientMatrices = gs1 ++ g :: gs2 →
        s.mGradientMatrices = gs1' ++ g' :: gs2' → gs1.length ≠ gs1'.length →
        ∀ a b : Fin s.mNumClamping,
          (gs1.map fun g => g.obj.mClampingConstraintMatrix.cols).sum ≤ a.val →
          a.val < (gs1.map fun g => g.obj.mClampingConstraintMatrix.cols).sum
            + g.obj.mClampingConstraintMatrix.cols →
          (gs1'.map fun g => g.obj.mClampingConstraintMatrix.cols).sum ≤ b.val →
          b.val < (gs1'.map fun g => g.obj.mClampingConstraintMatrix.cols).sum
            + g'.obj.mClampingConstraintMatrix.cols →
          (Ac.transpose * (Vc + Vub * E)) a b = 0)
      ∧ ((∀ g ∈ s.mGradientMatrices, ∃ (R cp up : Nat) (GA GV : Matrix (Fin R) (Fin cp) ℚ)
            (GU : Matrix (Fin R) (Fin up) ℚ) (GE : Matrix (Fin up) (Fin cp) ℚ)
            (gb : Fin cp → ℚ),
            R = (g.obj.mSkeletons.map world.memberDofs).sum
              ∧ g.obj.mClampingConstraintMatrix = ⟨R, cp, GA⟩
              ∧ g.obj.mMassedClampingConstraintMatrix = ⟨R, cp, GV⟩
              ∧ g.obj.mMassedUpperBoundConstraintMatrix = ⟨R, up, GU⟩
              ∧ g.obj.mUpperBoundMappingMatrix = ⟨up, cp, GE⟩
              ∧ g.obj.mBounceDiagonals = ⟨cp, gb⟩
              ∧ IsUnit (GA.transpose * (GV + GU * GE)).det) →
          (IsUnit (Ac.transpose * (Vc + Vub * E)).det →
            IsPseudoInverse (Ac.transpose * (Vc + Vub * E))
              (cod.pseudoInverse _ _ (Ac.transpose * (Vc + Vub * E)))) →
          IsUnit (Ac.transpose * (Vc + Vub * E)).det
            ∧ ∃ P : MatrixXd, s.getProjectionIntoClampsMatrix cod world false = .ok (P, world)
              ∧ ∀ gs1 g gs2, s.mGradientMatrices = gs1 ++ g :: gs2 →
                ∀ (R cp up : Nat) (GA GV : Matrix (Fin R) (Fin cp) ℚ)
                  (GU : Matrix (Fin R) (Fin up) ℚ) (GE : Matrix (Fin up) (Fin cp) ℚ)
                  (gb : Fin cp → ℚ),
                  R = (g.obj.mSkeletons.map world.memberDofs).sum →
                  g.obj.mClampingConstraintMatrix = ⟨R, cp, GA⟩ →
                  g.obj.mMassedClampingConstraintMatrix = ⟨R, cp, GV⟩ →
                  g.obj.mMassedUpperBoundConstraintMatrix = ⟨R, up, GU⟩ →
                  g.obj.mUpperBoundMappingMatrix = ⟨up, cp, GE⟩ →
                  g.obj.mBounceDiagonals = ⟨cp, gb⟩ →
                  (∀ (a : Fin cp) (r : Fin R),
                      P.get ((gs1.map fun g => g.obj.mClampingConstraintMatrix.cols).sum + a.val)
                          (s.memberRow world g.obj.mSkeletons r.val)
                        = some (((1 / s.mTimeStep) • ((GA.transpose * (GV + GU * GE))⁻¹
                            * (Matrix.diagonal gb * GA.transpose))) a r))
                    ∧ (∀ (a : Fin cp) (skel : Skeleton), skel ∈ world.skeletons →
                        skel.name ∉ g.obj.mSkeletons → ∀ d, d < skel.numDofs →
                        P.get ((gs1.map fun g => g.obj.mClampingConstraintMatrix.cols).sum
                            + a.val) (s.skeletonOffset skel.name + d) = some 0)) := by
  have hAl := assembleMatrix_typed_layout_aux world0 world preP preV preT s .CLAMPING hs hsk hn
    hg (fun g => g.obj.mClampingConstraintMatrix.cols) (fun _ _ => rfl) _ Ac hAc
  have hUl := assembleMatrix_typed_layout_aux world0 world preP preV preT s .MASSED_UPPER_BOUND
    hs hsk hn hg (fun g => g.obj.mUpperBoundConstraintMatrix.cols)
    (fun g hg' => (hg g hg').massedUpperBoundCols) _ Vub hVub
  have hEl := mappingMatrix_typed_layout_aux s hshape _ _ E hE
  -- the label of a clamping column and of an upper-bound column: the position of its group
  have hlab : ∀ gs1 g gs2, s.mGradientMatrices = gs1 ++ g :: gs2 → ∀ a : Nat,
      (gs1.map fun g => g.obj.mClampingConstraintMatrix.cols).sum ≤ a →
      a < (gs1.map fun g => g.obj.mClampingConstraintMatrix.cols).sum
        + g.obj.mClampingConstraintMatrix.cols →
      blockIndex (s.mGradientMatrices.map fun g => g.obj.mClampingConstraintMatrix.cols) a
        = gs1.length := by
    intro gs1 g gs2 hl a h1 h2
    have := blockIndex_of_split
      (fun g : SharedPtr ConstrainedGroupGradientMatrices =>
        g.obj.mClampingConstraintMatrix.cols) gs1 g gs2 a h1 h2
    rw [← hl] at this
    exact this
  have hlabU : ∀ gs1 g gs2, s.mGradientMatrices = gs1 ++ g :: gs2 → ∀ k : Nat,
      (gs1.map fun g => g.obj.mUpperBoundConstraintMatrix.cols).sum ≤ k →
      k < (gs1.map fun g => g.obj.mUpperBoundConstraintMatrix.cols).sum
        + g.obj.mUpperBoundConstraintMatrix.cols →
      blockIndex (s.mGradientMatrices.map fun g => g.obj.mUpperBoundConstraintMatrix.cols) k
        = gs1.length := by
    intro gs1 g gs2 hl k h1 h2
    have := blockIndex_of_split
      (fun g : SharedPtr ConstrainedGroupGradientMatrices =>
        g.obj.mUpperBoundConstraintMatrix.cols) gs1 g gs2 k h1 h2
    rw [← hl] at this
    exact this
  have hlabInv : ∀ gs1 g gs2, s.mGradientMatrices = gs1 ++ g :: gs2 →
      ∀ a : Fin s.mNumClamping,
      blockIndex (s.mGradientMatrices.map fun g => g.obj.mClampingConstraintMatrix.cols) a.val
        = gs1.length →
      (gs1.map fun g => g.obj.mClampingConstraintMatrix.cols).sum ≤ a.val
        ∧ a.val < (gs1.map fun g => g.obj.mClampingConstraintMatrix.cols).sum
          + g.obj.mClampingConstraintMatrix.cols := by
    intro gs1 g gs2 hl a ha
    obtain ⟨gs1', g', gs2', hl', h1, h2⟩ := exists_split_of_lt_map_sum
      (fun g : SharedPtr ConstrainedGroupGradientMatrices =>
        g.obj.mClampingConstraintMatrix.cols) s.mGradientMatrices a.val
      (by rw [← hAl.1]; exact a.isLt)
    have hlen : gs1.length = gs1'.length := by rw [← ha, hlab gs1' g' gs2' hl' a.val h1 h2]
    obtain ⟨e1, e2, -⟩ := split_unique hl hl' hlen
    subst e1
    subst e2
    exact ⟨h1, h2⟩
  have H1 : ∀ i a b, Ac i a ≠ 0 → Vc i b ≠ 0 →
      blockIndex (s.mGradientMatrices.map fun g => g.obj.mClampingConstraintMatrix.cols) a.val
        = blockIndex (s.mGradientMatrices.map fun g => g.obj.mClampingConstraintMatrix.cols)
            b.val := by
    intro i a b hA hV
    obtain ⟨gs1, g, gs2, r1, hl, ha1, ha2, hr1, hrow1⟩ := assembleMatrix_support_aux world0
      world preP preV preT s .CLAMPING hs hsk hn hg
      (fun g => g.obj.mClampingConstraintMatrix.cols) (fun _ _ => rfl) _ Ac hAc i a hA
    obtain ⟨gs1', g', gs2', r2, hl', hb1, hb2, hr2, hrow2⟩ := assembleMatrix_support_aux world0
      world preP preV preT s .MASSED_CLAMPING hs hsk hn hg
      (fun g => g.obj.mClampingConstraintMatrix.cols)
      (fun g hg' => (hg g hg').massedClampingCols) _ Vc hVc i b hV
    rw [hlab gs1 g gs2 hl a.val ha1 ha2, hlab gs1' g' gs2' hl' b.val hb1 hb2]
    exact memberRow_shared_aux world0 world preP preV preT s hs hsk hn hg hdisj hl hl' r1 r2
      hr1 hr2 (hrow1.trans hrow2.symm)
  have H2 : ∀ i a k, Ac i a ≠ 0 → Vub i k ≠ 0 →
      blockIndex (s.mGradientMatrices.map fun g => g.obj.mClampingConstraintMatrix.cols) a.val
        = blockIndex (s.mGradientMatrices.map fun g => g.obj.mUpperBoundConstraintMatrix.cols)
            k.val := by
    intro i a k hA hU
    obtain ⟨gs1, g, gs2, r1, hl, ha1, ha2, hr1, hrow1⟩ := assembleMatrix_support_aux world0
      world preP preV preT s .CLAMPING hs hsk hn hg
      (fun g => g.obj.mClampingConstraintMatrix.cols) (fun _ _ => rfl) _ Ac hAc i a hA
    obtain ⟨gs1', g', gs2', r2, hl', hb1, hb2, hr2, hrow2⟩ := assembleMatrix_support_aux world0
      world preP preV preT s .MASSED_UPPER_BOUND hs hsk hn hg
      (fun g => g.obj.mUpperBoundConstraintMatrix.cols)
      (fun g hg' => (hg g hg').massedUpperBoundCols) _ Vub hVub i k hU
    rw [hlab gs1 g gs2 hl a.val ha1 ha2, hlabU gs1' g' gs2' hl' k.val hb1 hb2]
    exact memberRow_shared_aux world0 world preP preV preT s hs hsk hn hg hdisj hl hl' r1 r2
      hr1 hr2 (hrow1.trans hrow2.symm)
  have H3 : ∀ k b, E k b ≠ 0 →
      blockIndex (s.mGradientMatrices.map fun g => g.obj.mUpperBoundConstraintMatrix.cols) k.val
        = blockIndex (s.mGradientMatrices.map fun g => g.obj.mClampingConstraintMatrix.cols)
            b.val := by
    intro k b hne
    obtain ⟨gs1, g, gs2, hl, ⟨hk1, hk2⟩, ⟨hb1, hb2⟩⟩ := hEl.2.2.2 k b hne
    rw [hlab gs1 g gs2 hl b.val hb1 hb2, hlabU gs1 g gs2 hl k.val hk1 hk2]
  have hQbd := gram_block_diagonal_aux Ac Vc Vub E
    (fun a => blockIndex
      (s.mGradientMatrices.map fun g => g.obj.mClampingConstraintMatrix.cols) a.val)
    (fun k => blockIndex
      (s.mGradientMatrices.map fun g => g.obj.mUpperBoundConstraintMatrix.cols) k.val)
    H1 H2 H3
  refine ⟨?_, ?_⟩
  · intro gs1 g gs2 gs1' g' gs2' hl hl' hlen a b ha1 ha2 hb1 hb2
    apply hQbd a b
    simp only
    rw [hlab gs1 g gs2 hl a.val ha1 ha2, hlab gs1' g' gs2' hl' b.val hb1 hb2]
    exact hlen
  · intro hinv hcod
    have hdet : IsUnit (Ac.transpose * (Vc + Vub * E)).det := by
      apply block_diagonal_isUnit_det_aux _ _ hQbd
      intro a
      obtain ⟨gs1, g, gs2, hl, h1, h2⟩ := exists_split_of_lt_map_sum
        (fun g : SharedPtr ConstrainedGroupGradientMatrices =>
          g.obj.mClampingConstraintMatrix.cols) s.mGradientMatrices a.val
        (by rw [← hAl.1]; exact a.isLt)
      obtain ⟨R, cp, up, GA, GV, GU, GE, gb, hR, hGA, hGV, hGU, hGE, hgb, hunit⟩ :=
        hinv g (by rw [hl]; simp)
      obtain ⟨ι, κ, ρ, hιv, -, -, hιi, hκi, hρi, hA, hV, hU, hE', -, hA0, hE0, hsurj⟩ :=
        group_embedding_aux world0 world preP preV preT s hs hsk hn hg hshape hbsize Ac Vc Vub
          E bounce hAc hVc hVub hE hb hl R cp up hR GA GV GU GE gb hGA hGV hGU hGE hgb
      have hcp : g.obj.mClampingConstraintMatrix.cols = cp := by rw [hGA]
      refine ⟨cp, ι, hιi, fun r => ?_, fun b hb' => ?_, ?_⟩
      · rw [hlab gs1 g gs2 hl a.val h1 h2, hlab gs1 g gs2 hl (ι r).val
          (by rw [hιv]; exact Nat.le_add_right _ _)
          (by rw [hιv, hcp]; have := r.isLt; omega)]
      · simp only at hb'
        rw [hlab gs1 g gs2 hl a.val h1 h2] at hb'
        obtain ⟨hb1, hb2⟩ := hlabInv gs1 g gs2 hl b hb'
        rw [hcp] at hb2
        exact hsurj b hb1 hb2
      · rw [group_gram_aux Ac Vc Vub E ι κ ρ hκi hρi GA GV GU GE hA hV hU hE' hA0 hE0]
        exact hunit
    refine ⟨hdet, ?_⟩
    have hXQ := (inverse_of_isPseudoInverse _ _ hdet (hcod hdet)).2
    have hXbd := inverse_block_diagonal_aux _ _ _ hQbd hXQ
    by_cases hc : s.mNumClamping = 0
    · refine ⟨_, (getProjectionIntoClampsMatrix_exact_aux cod s world Ac hAc).1 hc, ?_⟩
      intro gs1 g gs2 hl R cp up GA GV GU GE gb hR hGA hGV hGU hGE hgb
      obtain ⟨ι, -⟩ :=
        group_embedding_aux world0 world preP preV preT s hs hsk hn hg hshape hbsize Ac Vc Vub
          E bounce hAc hVc hVub hE hb hl R cp up hR GA GV GU GE gb hGA hGV hGU hGE hgb
      exact ⟨fun a _ => absurd (ι a).isLt (by omega),
        fun a _ _ _ _ _ => absurd (ι a).isLt (by omega)⟩
    · have hn0 : s.mNumDOFs ≠ 0 := by
        intro hn0
        have hQ0 : Ac.transpose * (Vc + Vub * E) = 0 := by
          ext a b
          rw [Matrix.mul_apply]
          exact Finset.sum_eq_zero (fun i _ => absurd i.isLt (by omega))
        haveI : Nonempty (Fin s.mNumClamping) := ⟨⟨0, Nat.pos_of_ne_zero hc⟩⟩
        rw [hQ0, Matrix.det_zero ‹_›] at hdet
        exact not_isUnit_zero hdet
      refine ⟨_, ((getProjectionIntoClampsMatrix_exact_aux cod s world Ac hAc).2
        (Nat.mul_ne_zero hn0 hc) Vc Vub E bounce hVc hVub hE hb).1, ?_⟩
      intro gs1 g gs2 hl R cp up GA GV GU GE gb hR hGA hGV hGU hGE hgb
      obtain ⟨ι, κ, ρ, hιv, -, hρv, hιi, hκi, hρi, hA, hV, hU, hE', hb', hA0, hE0, hsurj⟩ :=
        group_embedding_aux world0 world preP preV preT s hs hsk hn hg hshape hbsize Ac Vc Vub
          E bounce hAc hVc hVub hE hb hl R cp up hR GA GV GU GE gb hGA hGV hGU hGE hgb
      have hcp : g.obj.mClampingConstraintMatrix.cols = cp := by rw [hGA]
      have hgm : g ∈ s.mGradientMatrices := by rw [hl]; simp
      have hX0 : ∀ a k, (∀ t, ι t ≠ k) →
          cod.pseudoInverse _ _ (Ac.transpose * (Vc + Vub * E)) (ι a) k = 0 := by
        intro a k hk
        apply hXbd
        intro hEq
        rw [hlab gs1 g gs2 hl (ι a).val (by rw [hιv]; exact Nat.le_add_right _ _)
          (by rw [hιv, hcp]; have := a.isLt; omega)] at hEq
        obtain ⟨hk1, hk2⟩ := hlabInv gs1 g gs2 hl k hEq.symm
        rw [hcp] at hk2
        obtain ⟨t, ht⟩ := hsurj k hk1 hk2
        exact hk t ht
      obtain ⟨-, hval, hzero⟩ := group_projection_aux Ac Vc Vub E bounce _ ι κ ρ hιi hκi hρi
        GA GV GU GE gb hA hV hU hE' hb' hA0 hE0 hX0 hXQ s.mTimeStep
      refine ⟨fun a r => ?_, fun a skel hmem hout d hd => ?_⟩
      · rw [← hιv a, ← hρv r, MatrixXd.get_mk, hval a r]
      · have hmem0 : skel ∈ world0.skeletons := hsk ▸ hmem
        have hle := create_skeletonOffset_add_le world0 preP preV preT hn skel hmem0
        rw [← hs] at hle
        have hi : s.skeletonOffset skel.name + d < s.mNumDOFs := by omega
        have := hzero a ⟨_, hi⟩ (fun r hr => by
          have hrv := congrArg Fin.val hr
          rw [hρv] at hrv
          simp only at hrv
          obtain ⟨ns1, name, ns2, skel', t, hns, hskel', htn, -, hrow⟩ := memberRow_segment s
            world g.obj (hg g hgm) r.val (hR ▸ r.isLt)
          rw [hrow] at hrv
          have hname : skel.name ≠ skel'.name := by
            intro hEq
            apply hout
            rw [hEq, World.getSkeleton_name hskel', hns]
            simp
          have hmem' : skel' ∈ world0.skeletons := hsk ▸ World.mem_of_getSkeleton hskel'
          have := create_segments_disjoint world0 preP preV preT hn skel skel' hmem0 hmem' hname
          rw [← hs] at this
          omega)
        rw [← hιv a]
        exact (MatrixXd.get_mk _ (ι a) ⟨_, hi⟩).trans (congrArg some this)

end BackpropSnapshot

theorem pair_split {α : Type} {a b g : α} {l1 l2 : List α} (h : [a, b] = l1 ++ g :: l2) :
    (l1 = [] ∧ g = a ∧ l2 = [b]) ∨ (l1 = [a] ∧ g = b ∧ l2 = []) := by
  rcases l1 with _ | ⟨x, _ | ⟨y, l⟩⟩
  · simp only [List.nil_append, List.cons.injEq] at h
    exact Or.inl ⟨rfl, h.1.symm, h.2.symm⟩
  · simp only [List.cons_append, List.nil_append, List.cons.injEq] at h
    obtain ⟨h1, h2, h3⟩ := h
    exact Or.inr ⟨by rw [h1], h2.symm, h3.symm⟩
  · simp at h

namespace Scenario

theorem yard_shapes (mu1 mu2 : ℚ) : ∀ g ∈ (yardSnapshot mu1 mu2).mGradientMatrices,
    g.obj.mUpperBoundMappingMatrix.rows = g.obj.mUpperBoundConstraintMatrix.cols
      ∧ g.obj.mUpperBoundMappingMatrix.cols = g.obj.mClampingConstraintMatrix.cols
      ∧ g.obj.mBounceDiagonals.size = g.obj.mClampingConstraintMatrix.cols := by
  intro g hgm
  rw [yard_groups] at hgm
  simp only [List.mem_cons, List.mem_singleton, List.not_mem_nil, or_false] at hgm
  rcases hgm with rfl | rfl <;> exact ⟨rfl, rfl, rfl⟩

theorem yard_disjoint (mu1 mu2 : ℚ) :
    ∀ gs1 g gs2 gs1' g' gs2', (yardSnapshot mu1 mu2).mGradientMatrices = gs1 ++ g :: gs2 →
      (yardSnapshot mu1 mu2).mGradientMatrices = gs1' ++ g' :: gs2' →
      gs1.length ≠ gs1'.length → ∀ name ∈ g.obj.mSkeletons, name ∉ g'.obj.mSkeletons := by
  intro gs1 g gs2 gs1' g' gs2' hl hl' hlen name hname
  rw [yard_groups] at hl hl'
  rcases pair_split hl with ⟨h1, h2, -⟩ | ⟨h1, h2, -⟩ <;>
    rcases pair_split hl' with ⟨h1', h2', -⟩ | ⟨h1', h2', -⟩ <;>
    (subst h1; subst h2; subst h1'; subst h2')
  · exact absurd rfl hlen
  · simp only [contactGroup, sledGroup, List.mem_singleton] at hname ⊢
    subst hname
    decide
  · simp only [contactGroup, sledGroup, List.mem_singleton] at hname ⊢
    subst hname
    decide
  · exact absurd rfl hlen

end Scenario

namespace BackpropSnapshot

/-- C34: for a snapshot built by the constructor, with well-formed constraint groups of
pairwise disjoint skeleton membership, the matrix `Q = A_c^T (V_c + V_ub E)` built from the
world-assembled matrices has a zero coefficient wherever its row is a clamping column of one
group and its column a clamping column of another group. When moreover the own block
`A_{c,i}^T (V_{c,i} + V_{ub,i} E_i)` of every group is invertible, and the decomposition computes
the pseudo-inverse of an invertible `Q`, then `Q` is invertible and
`getProjectionIntoClampsMatrix` returns a matrix whose rows of the clamping columns of a group
hold `(1/dt) Q_i^(-1) diag(bounce_i) A_{c,i}^T` at the world rows of the DOFs of the group, and
zero at the DOFs of every skeleton that is not a member of the group. -/
theorem getProjectionIntoClampsMatrix_decouples (cod : CompleteOrthogonalDecomposition)
    (world0 world : World) (preP preV preT : VectorXd)
    (s : BackpropSnapshot) (hs : s = create world0 preP preV preT)
    (hsk : world.skeletons = world0.skeletons)
    (hn : (world0.skeletons.map Skeleton.name).Nodup)
    (hg : ∀ g ∈ s.mGradientMatrices, GroupWellFormed world g.obj)
    (hshape : ∀ g ∈ s.mGradientMatrices,
      g.obj.mUpperBoundMappingMatrix.rows = g.obj.mUpperBoundConstraintMatrix.cols
        ∧ g.obj.mUpperBoundMappingMatrix.cols = g.obj.mClampingConstraintMatrix.cols)
    (hbsize : ∀ g ∈ s.mGradientMatrices,
      g.obj.mBounceDiagonals.size = g.obj.mClampingConstraintMatrix.cols)
    (hdisj : ∀ gs1 g gs2 gs1' g' gs2', s.mGradientMatrices = gs1 ++ g :: gs2 →
      s.mGradientMatrices = gs1' ++ g' :: gs2' → gs1.length ≠ gs1'.length →
      ∀ name ∈ g.obj.mSkeletons, name ∉ g'.obj.mSkeletons)
    (Ac Vc : Matrix (Fin s.mNumDOFs) (Fin s.mNumClamping) ℚ)
    (Vub : Matrix (Fin s.mNumDOFs) (Fin s.mNumUpperBound) ℚ)
    (E : Matrix (Fin s.mNumUpperBound) (Fin s.mNumClamping) ℚ)
    (bounce : Fin s.mNumClamping → ℚ)
    (hAc : s.getClampingConstraintMatrix world = .ok ⟨_, _, Ac⟩)
    (hVc : s.getMassedClampingConstraintMatrix world = .ok ⟨_, _, Vc⟩)
    (hVub : s.getMassedUpperBoundConstraintMatrix world = .ok ⟨_, _, Vub⟩)
    (hE : s.getUpperBoundMappingMatrix = .ok ⟨_, _, E⟩)
    (hb : s.getBounceDiagonals = .ok ⟨_, bounce⟩) :
    (∀ gs1 g gs2 gs1' g' gs2', s.mGradientMatrices = gs1 ++ g :: gs2 →
        s.mGradientMatrices = gs1' ++ g' :: gs2' → gs1.length ≠ gs1'.length →
        ∀ a b : Fin s.mNumClamping,
          (gs1.map fun g => g.obj.mClampingConstraintMatrix.cols).sum ≤ a.val →
          a.val < (gs1.map fun g => g.obj.mClampingConstraintMatrix.cols).sum
            + g.obj.mClampingConstraintMatrix.cols →
          (gs1'.map fun g => g.obj.mClampingConstraintMatrix.cols).sum ≤ b.val →
          b.val < (gs1'.map fun g => g.obj.mClampingConstraintMatrix.cols).sum
            + g'.obj.mClampingConstraintMatrix.cols →
          (Ac.transpose * (Vc + Vub * E)) a b = 0)
      ∧ ((∀ g ∈ s.mGradientMatrices, ∃ (R cp up : Nat) (GA GV : Matrix (Fin R) (Fin cp) ℚ)
            (GU : Matrix (Fin R) (Fin up) ℚ) (GE : Matrix (Fin up) (Fin cp) ℚ)
            (gb : Fin cp → ℚ),
            R = (g.obj.mSkeletons.map world.memberDofs).sum
              ∧ g.obj.mClampingConstraintMatrix = ⟨R, cp, GA⟩
              ∧ g.obj.mMassedClampingConstraintMatrix = ⟨R, cp, GV⟩
              ∧ g.obj.mMassedUpperBoundConstraintMatrix = ⟨R, up, GU⟩
              ∧ g.obj.mUpperBoundMappingMatrix = ⟨up, cp, GE⟩
              ∧ g.obj.mBounceDiagonals = ⟨cp, gb⟩
              ∧ IsUnit (GA.transpose * (GV + GU * GE)).det) →
          (IsUnit (Ac.transpose * (Vc + Vub * E)).det →
            IsPseudoInverse (Ac.transpose * (Vc + Vub * E))
              (cod.pseudoInverse _ _ (Ac.transpose * (Vc + Vub * E)))) →
          IsUnit (Ac.transpose * (Vc + Vub * E)).det
            ∧ ∃ P : MatrixXd, s.getProjectionIntoClampsMatrix cod world false = .ok (P, world)
              ∧ ∀ gs1 g gs2, s.mGradientMatrices = gs1 ++ g :: gs2 →
                ∀ (R cp up : Nat) (GA GV : Matrix (Fin R) (Fin cp) ℚ)
                  (GU : Matrix (Fin R) (Fin up) ℚ) (GE : Matrix (Fin up) (Fin cp) ℚ)
                  (gb : Fin cp → ℚ),
                  R = (g.obj.mSkeletons.map world.memberDofs).sum →
                  g.obj.mClampingConstraintMatrix = ⟨R, cp, GA⟩ →
                  g.obj.mMassedClampingConstraintMatrix = ⟨R, cp, GV⟩ →
                  g.obj.mMassedUpperBoundConstraintMatrix = ⟨R, up, GU⟩ →
                  g.obj.mUpperBoundMappingMatrix = ⟨up, cp, GE⟩ →
                  g.obj.mBounceDiagonals = ⟨cp, gb⟩ →
                  (∀ (a : Fin cp) (r : Fin R),
                      P.get ((gs1.map fun g => g.obj.mClampingConstraintMatrix.cols).sum + a.val)
                          (s.memberRow world g.obj.mSkeletons r.val)
                        = some (((1 / s.mTimeStep) • ((GA.transpose * (GV + GU * GE))⁻¹
                            * (Matrix.diagonal gb * GA.transpose))) a r))
                    ∧ (∀ (a : Fin cp) (skel : Skeleton), skel ∈ world.skeletons →
                        skel.name ∉ g.obj.mSkeletons → ∀ d, d < skel.numDofs →
                        P.get ((gs1.map fun g => g.obj.mClampingConstraintMatrix.cols).sum
                            + a.val) (s.skeletonOffset skel.name + d) = some 0)) :=
  getProjectionIntoClampsMatrix_groups_aux cod world0 world preP preV preT s hs hsk hn hg hshape
    hbsize hdisj Ac Vc Vub E bounce hAc hVc hVub hE hb

/-- C34 witness: the box (one clamping column, friction coefficient `1/2`) followed by the sled
(two clamping columns, friction coefficient `1/3`), timestep 1: the world `Q` is invertible, and
the projection is `(0, 1)` on the DOFs of the box in the row of the box, the rows `(0, 1, 0)` and
`(0, 0, 1)` on the DOFs of the sled in the rows of the sled, and zero elsewhere. -/
theorem getProjectionIntoClampsMatrix_decouples_witness :
    ∃ P : MatrixXd,
      (Scenario.yardSnapshot (1 / 2) (1 / 3)).getProjectionIntoClampsMatrix Scenario.cramer
          (Scenario.yardWorld (1 / 2) (1 / 3)) false
        = .ok (P, Scenario.yardWorld (1 / 2) (1 / 3))
      ∧ P.get 0 0 = some 0 ∧ P.get 0 1 = some 1
      ∧ P.get 0 2 = some 0 ∧ P.get 0 3 = some 0 ∧ P.get 0 4 = some 0
      ∧ P.get 1 3 = some 1 ∧ P.get 2 4 = some 1
      ∧ P.get 1 0 = some 0 ∧ P.get 2 1 = some 0 := by
  obtain ⟨Ac, hAc⟩ : ∃ Ac : Matrix (Fin 5) (Fin 3) ℚ,
      (Scenario.yardSnapshot (1 / 2) (1 / 3)).getClampingConstraintMatrix
        (Scenario.yardWorld (1 / 2) (1 / 3)) = .ok ⟨5, 3, Ac⟩ := ⟨_, rfl⟩
  obtain ⟨Vc, hVc⟩ : ∃ Vc : Matrix (Fin 5) (Fin 3) ℚ,
      (Scenario.yardSnapshot (1 / 2) (1 / 3)).getMassedClampingConstraintMatrix
        (Scenario.yardWorld (1 / 2) (1 / 3)) = .ok ⟨5, 3, Vc⟩ := ⟨_, rfl⟩
  obtain ⟨Vub, hVub⟩ : ∃ Vub : Matrix (Fin 5) (Fin 2) ℚ,
      (Scenario.yardSnapshot (1 / 2) (1 / 3)).getMassedUpperBoundConstraintMatrix
        (Scenario.yardWorld (1 / 2) (1 / 3)) = .ok ⟨5, 2, Vub⟩ := ⟨_, rfl⟩
  obtain ⟨E, hE⟩ : ∃ E : Matrix (Fin 2) (Fin 3) ℚ,
      (Scenario.yardSnapshot (1 / 2) (1 / 3)).getUpperBoundMappingMatrix = .ok ⟨2, 3, E⟩ :=
    ⟨_, rfl⟩
  obtain ⟨bounce, hb⟩ : ∃ bounce : Fin 3 → ℚ,
      (Scenario.yardSnapshot (1 / 2) (1 / 3)).getBounceDiagonals = .ok ⟨3, bounce⟩ := ⟨_, rfl⟩
  have hbox : (!![0; 1] : Matrix (Fin 2) (Fin 1) ℚ).transpose
      * ((!![0; 1] : Matrix (Fin 2) (Fin 1) ℚ)
        + (!![1; 0] : Matrix (Fin 2) (Fin 1) ℚ) * (!![1 / 2] : Matrix (Fin 1) (Fin 1) ℚ))
      = 1 := by
    ext i j
    simp only [Matrix.mul_apply, Matrix.transpose_apply, Matrix.add_apply, Fin.sum_univ_two,
      Finset.univ_unique, Finset.sum_singleton]
    fin_cases i
    fin_cases j
    simp
  have hsled : (!![0, 0; 1, 0; 0, 1] : Matrix (Fin 3) (Fin 2) ℚ).transpose
      * ((!![0, 0; 1, 0; 0, 1] : Matrix (Fin 3) (Fin 2) ℚ)
        + (!![1; 0; 0] : Matrix (Fin 3) (Fin 1) ℚ) * (!![1 / 3, 0] : Matrix (Fin 1) (Fin 2) ℚ))
      = 1 := by
    ext i j
    simp only [Matrix.mul_apply, Matrix.transpose_apply, Matrix.add_apply, Fin.sum_univ_three,
      Finset.univ_unique, Finset.sum_singleton]
    fin_cases i <;> fin_cases j <;> simp [Matrix.vecHead, Matrix.vecTail]
  obtain ⟨-, P, hP, hgroups⟩ := (getProjectionIntoClampsMatrix_decouples Scenario.cramer
    (Scenario.yardWorld (1 / 2) (1 / 3)) (Scenario.yardWorld (1 / 2) (1 / 3))
    (VectorXd.Zero 5) (VectorXd.Zero 5) (VectorXd.Zero 5)
    (Scenario.yardSnapshot (1 / 2) (1 / 3)) rfl rfl (by decide)
    (Scenario.yard_wellFormed _ _)
    (fun g hgm => ⟨(Scenario.yard_shapes _ _ g hgm).1, (Scenario.yard_shapes _ _ g hgm).2.1⟩)
    (fun g hgm => (Scenario.yard_shapes _ _ g hgm).2.2)
    (Scenario.yard_disjoint _ _) Ac Vc Vub E bounce hAc hVc hVub hE hb).2
    (by
      intro g hgm
      rw [Scenario.yard_groups] at hgm
      simp only [List.mem_cons, List.mem_singleton, List.not_mem_nil, or_false] at hgm
      rcases hgm with rfl | rfl
      · exact ⟨2, 1, 1, !![0; 1], !![0; 1], !![1; 0], !![1 / 2], ![1], rfl, rfl, rfl, rfl, rfl,
          rfl, by rw [hbox, Matrix.det_one]; exact isUnit_one⟩
      · exact ⟨3, 2, 1, !![0, 0; 1, 0; 0, 1], !![0, 0; 1, 0; 0, 1], !![1; 0; 0], !![1 / 3, 0],
          ![1, 1], rfl, rfl, rfl, rfl, rfl, rfl, by rw [hsled, Matrix.det_one]; exact isUnit_one⟩)
    (Scenario.cramer_isPseudoInverse _)
  obtain ⟨hbv, hbz⟩ := hgroups [] ⟨0, Scenario.contactGroup (1 / 2) 1⟩
    [⟨1, Scenario.sledGroup (1 / 3)⟩] (Scenario.yard_groups _ _) 2 1 1 !![0; 1] !![0; 1]
    !![1; 0] !![1 / 2] ![1] rfl rfl rfl rfl rfl rfl
  obtain ⟨hsv, hsz⟩ := hgroups [⟨0, Scenario.contactGroup (1 / 2) 1⟩]
    ⟨1, Scenario.sledGroup (1 / 3)⟩ [] (Scenario.yard_groups _ _) 3 2 1 !![0, 0; 1, 0; 0, 1]
    !![0, 0; 1, 0; 0, 1] !![1; 0; 0] !![1 / 3, 0] ![1, 1] rfl rfl rfl rfl rfl rfl
  rw [hbox, inv_one, Matrix.one_mul] at hbv
  rw [hsled, inv_one, Matrix.one_mul] at hsv
  simp only [show (Scenario.yardSnapshot (1 / 2) (1 / 3)).mTimeStep = 1 from rfl, div_one,
    one_smul] at hbv hsv
  have hsledMem : Scenario.sledSkeleton (1 / 3) ∈ (Scenario.yardWorld (1 / 2) (1 / 3)).skeletons :=
    by simp [Scenario.yardWorld]
  have hboxMem : Scenario.boxSkeleton (1 / 2) 1 ∈ (Scenario.yardWorld (1 / 2) (1 / 3)).skeletons :=
    by simp [Scenario.yardWorld]
  refine ⟨P, hP, ?_, ?_, ?_, ?_, ?_, ?_, ?_, ?_, ?_⟩
  · refine (hbv 0 0).trans ?_
    simp [Matrix.vecHead, Matrix.vecTail]
  · refine (hbv 0 1).trans ?_
    simp [Matrix.vecHead, Matrix.vecTail]
  · exact hbz 0 _ hsledMem (by decide) 0 (by decide)
  · exact hbz 0 _ hsledMem (by decide) 1 (by decide)
  · exact hbz 0 _ hsledMem (by decide) 2 (by decide)
  · refine (hsv 0 1).trans ?_
    simp [Matrix.vecHead, Matrix.vecTail]
  · refine (hsv 1 2).trans ?_
    simp [Matrix.vecHead, Matrix.vecTail]
  · exact hsz 0 _ hboxMem (by decide) 0 (by decide)
  · exact hsz 1 _ hboxMem (by decide) 1 (by decide)

end BackpropSnapshot

/-! ## The force-velocity Jacobian without clamping constraint -/

namespace BackpropSnapshot

/-- C1: for a snapshot built by the constructor whose assembled clamping matrix has no column,
`getForceVelJacobian` returns `dt * Minv` and leaves the world as it was, where `dt` is the
timestep stored in the snapshot and `Minv` is the block-diagonal inverse mass matrix of the
world at the stored pre-step position and velocity: the diagonal block of each skeleton, which
starts where the blocks of the skeletons before it end, is the inverse mass matrix of that
skeleton at the pre-step state, and every coefficient outside these blocks is zero. -/
theorem getForceVelJacobian_no_clamping (cod : CompleteOrthogonalDecomposition)
    (world0 world : World) (preP preV preT : VectorXd) (s : BackpropSnapshot)
    (hs : s = create world0 preP preV preT)
    (hsk : world.skeletons = world0.skeletons)
    (A_c : MatrixXd)
    (hA : s.getClampingConstraintMatrix world = .ok A_c) (h0 : A_c.cols = 0) :
    ∃ Minv : Matrix (Fin s.mNumDOFs) (Fin s.mNumDOFs) ℚ,
      s.getForceVelJacobian cod world = .ok (⟨_, _, s.mTimeStep • Minv⟩, world)
      ∧ (∀ l1 a l2, world.skeletons = l1 ++ a :: l2 → ∀ r c : Fin a.numDofs,
          (MatrixXd.mk _ _ Minv).get ((l1.map Skeleton.numDofs).sum + r.val)
              ((l1.map Skeleton.numDofs).sum + c.val)
            = some (a.invMassMatrix (s.atPreStep world).state r c))
      ∧ (∀ i j, i < s.mNumDOFs → j < s.mNumDOFs →
          (∀ l1 a l2, world.skeletons = l1 ++ a :: l2 →
            ¬ (((l1.map Skeleton.numDofs).sum ≤ i
                  ∧ i < (l1.map Skeleton.numDofs).sum + a.numDofs)
              ∧ ((l1.map Skeleton.numDofs).sum ≤ j
                  ∧ j < (l1.map Skeleton.numDofs).sum + a.numDofs))) →
          (MatrixXd.mk _ _ Minv).get i j = some 0) := by
  have hsum : s.mNumDOFs = (world.skeletons.map Skeleton.numDofs).sum := by
    rw [hs, create_mNumDOFs, hsk]
  obtain ⟨K, hK, hKr, hKc, hval, hframe⟩ := assembleDiagonalBlocks_get (s.atPreStep world)
    .INV_MASS world.skeletons 0 (MatrixXd.Zero s.mNumDOFs s.mNumDOFs)
    (by simp only [MatrixXd.Zero]; omega) (by simp only [MatrixXd.Zero]; omega)
  have hKr1 : K.rows = s.mNumDOFs := hKr
  have hKc1 : K.cols = s.mNumDOFs := hKc
  obtain ⟨J, hJ⟩ := MatrixXd.exists_mk K hKr1 hKc1
  subst hJ
  have hMinv : s.getInvMassMatrix world false = .ok (⟨_, _, J⟩, world) := by
    unfold getInvMassMatrix
    rw [assembleBlockDiagonalMatrix_false, hK]
    rfl
  refine ⟨J, getForceVelJacobian_of_size_eq_zero cod s world A_c J hA
    (by simp [MatrixXd.size, h0]) hMinv, ?_, ?_⟩
  · intro l1 a l2 hl r c
    have := hval l1 a l2 hl r.val c.val r.isLt c.isLt
    simp only [Nat.zero_add] at this
    rw [this]
    exact MatrixXd.get_mk _ r c
  · intro i j hi hj hij
    refine (hframe i j ?_).trans (MatrixXd.get_Zero hi hj)
    intro l1 a l2 hl
    simpa using hij l1 a l2 hl

/-- C1 witness: the pendulum (one DOF, unit inertia) followed by the free body of mass 2 (three
DOFs), timestep `1/2`, no constraint group: the routine returns `(1/2) * Minv` with
`Minv = diag(1, 1/2, 1/2, 1/2)`. -/
theorem getForceVelJacobian_no_clamping_witness :
    ∃ Minv : Matrix (Fin 4) (Fin 4) ℚ,
      Scenario.duoSnapshot.getForceVelJacobian Scenario.cramer Scenario.duoWorld
        = .ok (⟨4, 4, (1 / 2 : ℚ) • Minv⟩, Scenario.duoWorld)
      ∧ (MatrixXd.mk 4 4 Minv).get 0 0 = some 1
      ∧ (MatrixXd.mk 4 4 Minv).get 1 1 = some (1 / 2)
      ∧ (MatrixXd.mk 4 4 Minv).get 3 3 = some (1 / 2)
      ∧ (MatrixXd.mk 4 4 Minv).get 1 2 = some 0
      ∧ (MatrixXd.mk 4 4 Minv).get 0 1 = some 0
      ∧ (MatrixXd.mk 4 4 Minv).get 3 0 = some 0 := by
  obtain ⟨Minv, hM, hval, hzero⟩ := getForceVelJacobian_no_clamping Scenario.cramer
    Scenario.duoWorld Scenario.duoWorld (VectorXd.Zero 4) (VectorXd.Zero 4) (VectorXd.Zero 4)
    Scenario.duoSnapshot rfl rfl ⟨4, 0, 0⟩ rfl rfl
  have hsplit : ∀ l1 a l2, Scenario.duoWorld.skeletons = l1 ++ a :: l2 →
      (l1 = [] ∧ a = Scenario.pendulumSkeleton ∧ l2 = [Scenario.bodySkeleton 2 true])
        ∨ (l1 = [Scenario.pendulumSkeleton] ∧ a = Scenario.bodySkeleton 2 true ∧ l2 = []) :=
    fun l1 a l2 hl => pair_split hl
  refine ⟨Minv, hM, ?_, ?_, ?_, ?_, ?_, ?_⟩
  · refine (hval [] Scenario.pendulumSkeleton [Scenario.bodySkeleton 2 true] rfl
      ⟨0, by decide⟩ ⟨0, by decide⟩).trans ?_
    simp [Scenario.pendulumSkeleton]
  · refine (hval [Scenario.pendulumSkeleton] (Scenario.bodySkeleton 2 true) [] rfl
      ⟨0, by decide⟩ ⟨0, by decide⟩).trans ?_
    simp [Scenario.bodySkeleton]
  · refine (hval [Scenario.pendulumSkeleton] (Scenario.bodySkeleton 2 true) [] rfl
      ⟨2, by decide⟩ ⟨2, by decide⟩).trans ?_
    simp [Scenario.bodySkeleton]
  · refine (hval [Scenario.pendulumSkeleton] (Scenario.bodySkeleton 2 true) [] rfl
      ⟨0, by decide⟩ ⟨1, by decide⟩).trans ?_
    simp [Scenario.bodySkeleton]
  · apply hzero 0 1 (by decide) (by decide)
    intro l1 a l2 hl
    rcases hsplit l1 a l2 hl with ⟨h1, h2, -⟩ | ⟨h1, h2, -⟩ <;> subst h1 <;> subst h2 <;>
      simp [Scenario.pendulumSkeleton, Scenario.bodySkeleton]
  · apply hzero 3 0 (by decide) (by decide)
    intro l1 a l2 hl
    rcases hsplit l1 a l2 hl with ⟨h1, h2, -⟩ | ⟨h1, h2, -⟩ <;> subst h1 <;> subst h2 <;>
      simp [Scenario.pendulumSkeleton, Scenario.bodySkeleton]

end BackpropSnapshot

/-! ## The penetration-correction flag in the finite-difference routines -/

namespace Scenario

theorem drift_eq_driftWithPush (w : World)
    (h : w.state.penetrationCorrectionEnabled = false) : drift w = driftWithPush w := by
  unfold driftWithPush
  rw [h]
  rfl

theorem driftWithPush_keeps_settings : StepKeepsSolverSettings driftWithPush := by
  intro w
  unfold driftWithPush
  split <;> exact ⟨rfl, rfl, rfl⟩

theorem pendulum_velVel_push_entry :
    ∃ r, pendulumSnapshot.finiteDifferenceVelVelJacobian driftWithPush pendulumWorld = .ok r
      ∧ r.1.get 0 0 = some 2 := by
  refine ⟨_, rfl, ?_⟩
  simp [UninitMatrixXd.get, UninitMatrixXd.alloc, pendulumSnapshot, BackpropSnapshot.create,
    pendulumWorld, World.step, drift, driftWithPush, World.getVelocities,
    World.setVelocities, World.setForces, World.setPositions, World.setGradientEnabled,
    RestorableSnapshot.restore, RestorableSnapshot.create, VectorXd.div, VectorXd.add, VectorXd.Zero,
    VectorXd.smul, restState, World.getPositions, World.getForces,
    BackpropSnapshot.constructorStep, pendulumSkeleton, World.getTimeStep]

theorem pendulum_forceVel_drift_entry :
    ∃ r, pendulumSnapshot.finiteDifferenceForceVelJacobian drift pendulumWorld = .ok r
      ∧ r.1.get 0 0 = some 0 := by
  refine ⟨_, rfl, ?_⟩
  simp [UninitMatrixXd.get, UninitMatrixXd.alloc, pendulumSnapshot, BackpropSnapshot.create,
    pendulumWorld, World.step, drift, World.getVelocities, World.setVelocities,
    World.setForces, World.setPositions, World.setGradientEnabled, RestorableSnapshot.restore,
    RestorableSnapshot.create, VectorXd.div, VectorXd.add, VectorXd.Zero, restState, World.getPositions,
    World.getForces, BackpropSnapshot.constructorStep, pendulumSkeleton, World.getTimeStep]

theorem pendulum_forceVel_push_entry :
    ∃ r, pendulumSnapshot.finiteDifferenceForceVelJacobian driftWithPush pendulumWorld = .ok r
      ∧ r.1.get 0 0 = some 1 := by
  refine ⟨_, rfl, ?_⟩
  simp [UninitMatrixXd.get, UninitMatrixXd.alloc, pendulumSnapshot, BackpropSnapshot.create,
    pendulumWorld, World.step, drift, driftWithPush, World.getVelocities,
    World.setVelocities, World.setForces, World.setPositions, World.setGradientEnabled,
    RestorableSnapshot.restore, RestorableSnapshot.create, VectorXd.div, VectorXd.add, VectorXd.Zero,
    VectorXd.smul, restState, World.getPositions, World.getForces,
    BackpropSnapshot.constructorStep, pendulumSkeleton, World.getTimeStep]

theorem pendulum_posPos_drift_entry :
    ∃ r, pendulumSnapshot.finiteDifferencePosPosJacobian drift pendulumWorld 2 = .ok r
      ∧ r.1.get 0 0 = some 1 := by
  refine ⟨_, rfl, ?_⟩
  simp [UninitMatrixXd.get, UninitMatrixXd.alloc, pendulumSnapshot, BackpropSnapshot.create,
    pendulumWorld, World.step, World.steps, drift, World.getVelocities, World.setVelocities,
    World.setForces, World.setPositions, World.setGradientEnabled, RestorableSnapshot.restore,
    RestorableSnapshot.create, VectorXd.div, VectorXd.add, VectorXd.Zero, restState, World.getPositions,
    World.getForces, BackpropSnapshot.constructorStep, pendulumSkeleton, World.getTimeStep,
    World.setTimeStep]

theorem pendulum_posPos_push_entry :
    ∃ r, pendulumSnapshot.finiteDifferencePosPosJacobian driftWithPush pendulumWorld 2 = .ok r
      ∧ r.1.get 0 0 = some 4 := by
  refine ⟨_, rfl, ?_⟩
  simp [UninitMatrixXd.get, UninitMatrixXd.alloc, pendulumSnapshot, BackpropSnapshot.create,
    pendulumWorld, World.step, World.steps, drift, driftWithPush, World.getVelocities,
    World.setVelocities, World.setForces, World.setPositions, World.setGradientEnabled,
    RestorableSnapshot.restore, RestorableSnapshot.create, VectorXd.div, VectorXd.add, VectorXd.Zero,
    VectorXd.smul, restState, World.getPositions, World.getForces,
    BackpropSnapshot.constructorStep, pendulumSkeleton, World.getTimeStep, World.setTimeStep]
  norm_num

theorem pendulum_velPos_drift_entry :
    ∃ r, pendulumSnapshot.finiteDifferenceVelPosJacobian drift pendulumWorld 2 = .ok r
      ∧ r.1.get 0 0 = some (1 / 2) := by
  refine ⟨_, rfl, ?_⟩
  simp [UninitMatrixXd.get, UninitMatrixXd.alloc, pendulumSnapshot, BackpropSnapshot.create,
    pendulumWorld, World.step, World.steps, drift, World.getVelocities, World.setVelocities,
    World.setForces, World.setPositions, World.setGradientEnabled, RestorableSnapshot.restore,
    RestorableSnapshot.create, VectorXd.div, VectorXd.add, VectorXd.Zero, restState, World.getPositions,
    World.getForces, BackpropSnapshot.constructorStep, pendulumSkeleton, World.getTimeStep,
    World.setTimeStep]
  norm_num

theorem pendulum_velPos_push_entry :
    ∃ r, pendulumSnapshot.finiteDifferenceVelPosJacobian driftWithPush pendulumWorld 2 = .ok r
      ∧ r.1.get 0 0 = some 2 := by
  refine ⟨_, rfl, ?_⟩
  simp [UninitMatrixXd.get, UninitMatrixXd.alloc, pendulumSnapshot, BackpropSnapshot.create,
    pendulumWorld, World.step, World.steps, drift, driftWithPush, World.getVelocities,
    World.setVelocities, World.setForces, World.setPositions, World.setGradientEnabled,
    RestorableSnapshot.restore, RestorableSnapshot.create, VectorXd.div, VectorXd.add, VectorXd.Zero,
    VectorXd.smul, restState, World.getPositions, World.getForces,
    BackpropSnapshot.constructorStep, pendulumSkeleton, World.getTimeStep, World.setTimeStep]
  norm_num

end Scenario

namespace BackpropSnapshot

/-- C24: evaluation at the failing input. The pendulum world has penetration correction enabled
before the call. Free motion and the step that pushes when penetration correction is enabled
keep the solver settings and agree on every world whose penetration-correction flag is
disabled, so a routine all of whose forward steps run with the flag disabled gives the same
result with both. The velocity-velocity, force-velocity, position-position and
velocity-position routines return the coefficients 1, 0, 1 and 1/2 with free motion and 2, 1, 4
and 2 with the pushing step: their forward steps ran with penetration correction enabled. The
position-velocity routine, which disables the flag, behaves the same with either step. -/
theorem finiteDifference_penetration_enabled :
    StepKeepsSolverSettings Scenario.drift
    ∧ StepKeepsSolverSettings Scenario.driftWithPush
    ∧ (∀ w : World, w.state.penetrationCorrectionEnabled = false →
        Scenario.drift w = Scenario.driftWithPush w)
    ∧ Scenario.pendulumWorld.state.penetrationCorrectionEnabled = true
    ∧ (∃ r1 r2,
        Scenario.pendulumSnapshot.finiteDifferenceVelVelJacobian Scenario.drift
          Scenario.pendulumWorld = .ok r1
        ∧ Scenario.pendulumSnapshot.finiteDifferenceVelVelJacobian Scenario.driftWithPush
          Scenario.pendulumWorld = .ok r2
        ∧ r1.1.get 0 0 = some 1 ∧ r2.1.get 0 0 = some 2)
    ∧ (∃ r1 r2,
        Scenario.pendulumSnapshot.finiteDifferenceForceVelJacobian Scenario.drift
          Scenario.pendulumWorld = .ok r1
        ∧ Scenario.pendulumSnapshot.finiteDifferenceForceVelJacobian Scenario.driftWithPush
          Scenario.pendulumWorld = .ok r2
        ∧ r1.1.get 0 0 = some 0 ∧ r2.1.get 0 0 = some 1)
    ∧ (∃ r1 r2,
        Scenario.pendulumSnapshot.finiteDifferencePosPosJacobian Scenario.drift
          Scenario.pendulumWorld 2 = .ok r1
        ∧ Scenario.pendulumSnapshot.finiteDifferencePosPosJacobian Scenario.driftWithPush
          Scenario.pendulumWorld 2 = .ok r2
        ∧ r1.1.get 0 0 = some 1 ∧ r2.1.get 0 0 = some 4)
    ∧ (∃ r1 r2,
        Scenario.pendulumSnapshot.finiteDifferenceVelPosJacobian Scenario.drift
          Scenario.pendulumWorld 2 = .ok r1
        ∧ Scenario.pendulumSnapshot.finiteDifferenceVelPosJacobian Scenario.driftWithPush
          Scenario.pendulumWorld 2 = .ok r2
        ∧ r1.1.get 0 0 = some (1 / 2) ∧ r2.1.get 0 0 = some 2)
    ∧ Scenario.pendulumSnapshot.finiteDifferencePosVelJacobian Scenario.drift Scenario.cramer
        Scenario.pendulumWorld
      = Scenario.pendulumSnapshot.finiteDifferencePosVelJacobian Scenario.driftWithPush
        Scenario.cramer Scenario.pendulumWorld := by
  obtain ⟨a1, ha1, ea1⟩ := Scenario.pendulum_velVel_drift_entry
  obtain ⟨a2, ha2, ea2⟩ := Scenario.pendulum_velVel_push_entry
  obtain ⟨b1, hb1, eb1⟩ := Scenario.pendulum_forceVel_drift_entry
  obtain ⟨b2, hb2, eb2⟩ := Scenario.pendulum_forceVel_push_entry
  obtain ⟨c1, hc1, ec1⟩ := Scenario.pendulum_posPos_drift_entry
  obtain ⟨c2, hc2, ec2⟩ := Scenario.pendulum_posPos_push_entry
  obtain ⟨d1, hd1, ed1⟩ := Scenario.pendulum_velPos_drift_entry
  obtain ⟨d2, hd2, ed2⟩ := Scenario.pendulum_velPos_push_entry
  exact ⟨Scenario.drift_keeps_settings, Scenario.driftWithPush_keeps_settings,
    Scenario.drift_eq_driftWithPush, rfl, ⟨a1, a2, ha1, ha2, ea1, ea2⟩,
    ⟨b1, b2, hb1, hb2, eb1, eb2⟩, ⟨c1, c2, hc1, hc2, ec1, ec2⟩, ⟨d1, d2, hd1, hd2, ed1, ed2⟩,
    finiteDifferencePosVelJacobian_congr Scenario.drift_keeps_settings
      (fun w _ h => Scenario.drift_eq_driftWithPush w h) Scenario.cramer
      Scenario.pendulumSnapshot Scenario.pendulumWorld⟩

end BackpropSnapshot

/-! ## The position and velocity losses of a world without constraint groups -/

/-- A coefficient of the transpose of `J` applied to a vector, when the column of `J` vanishes
outside a diagonal block that holds the matrix `M`. -/
theorem transpose_mulVec_segment {n d : Nat} (J : Matrix (Fin n) (Fin n) ℚ)
    (M : Matrix (Fin d) (Fin d) ℚ) (o : Nat) (hle : o + d ≤ n) (k : Fin d) (x : Fin n → ℚ)
    (hblock : ∀ r : Fin d, J ⟨o + r.val, by have := r.isLt; omega⟩
      ⟨o + k.val, by have := k.isLt; omega⟩ = M r k)
    (hzero : ∀ j : Fin n, ¬ (o ≤ j.val ∧ j.val < o + d) →
      J j ⟨o + k.val, by have := k.isLt; omega⟩ = 0) :
    (J.transpose.mulVec x) ⟨o + k.val, by have := k.isLt; omega⟩
      = (M.transpose.mulVec (fun b => x ⟨o + b.val, by have := b.isLt; omega⟩)) k := by
  simp only [Matrix.mulVec, Matrix.dotProduct, Matrix.transpose_apply]
  rw [sum_eq_sum_segment _ o d hle (fun j hj => by rw [hzero j hj]; ring)]
  apply Finset.sum_congr rfl
  intro b _
  rw [hblock b]

namespace BackpropSnapshot

/-- The transpose of an assembled block-diagonal matrix acts on the segment of each skeleton
through the transpose of that skeleton's own matrix. -/
theorem blockDiagonal_transpose_mulVec_aux (world0 world : World) (preP preV preT : VectorXd)
    (s : BackpropSnapshot) (whichMatrix : BlockDiagonalMatrixToAssemble)
    (hs : s = create world0 preP preV preT)
    (hsk : world.skeletons = world0.skeletons)
    (hnames : (world0.skeletons.map Skeleton.name).Nodup) :
    ∃ J : Matrix (Fin s.mNumDOFs) (Fin s.mNumDOFs) ℚ,
      s.assembleBlockDiagonalMatrix world whichMatrix false = .ok (⟨_, _, J⟩, world)
      ∧ ∀ a ∈ world.skeletons, ∀ (M : Matrix (Fin a.numDofs) (Fin a.numDofs) ℚ),
          skeletonMatrixToAssemble a (s.atPreStep world).state whichMatrix
            = ⟨a.numDofs, a.numDofs, M⟩ →
          ∀ (x : Fin s.mNumDOFs → ℚ) (k : Fin a.numDofs)
            (hle : s.skeletonOffset a.name + a.numDofs ≤ s.mNumDOFs),
            (J.transpose.mulVec x) ⟨s.skeletonOffset a.name + k.val, by
                have := k.isLt; omega⟩
              = (M.transpose.mulVec (fun b : Fin a.numDofs =>
                  x ⟨s.skeletonOffset a.name + b.val, by have := b.isLt; omega⟩)) k := by
  obtain ⟨J, hJ, hblocks, hzero⟩ := assembleBlockDiagonalMatrix_blocks_aux world0 world preP preV
    preT s whichMatrix false hs hsk hnames
  refine ⟨J, hJ, ?_⟩
  intro a ha M hM x k hle
  have ha0 : a ∈ world0.skeletons := hsk ▸ ha
  apply transpose_mulVec_segment J M (s.skeletonOffset a.name) hle k x
  · intro r
    have hb := hblocks a ha r.val k.val r.isLt k.isLt
    rw [MatrixXd.mget_of_lt _ (show s.skeletonOffset a.name + r.val < s.mNumDOFs by
        have := r.isLt; omega)
      (show s.skeletonOffset a.name + k.val < s.mNumDOFs by have := k.isLt; omega)] at hb
    simp only [Bool.false_eq_true, if_false, hM] at hb
    exact Option.some.inj (hb.trans (MatrixXd.get_mk M r k))
  · intro j hj
    have hz := hzero j.val (s.skeletonOffset a.name + k.val) j.isLt
      (by have := k.isLt; omega) (fun a' ha' hboth => by
        by_cases hname : a'.name = a.name
        · have haa : a' = a := List.inj_on_of_nodup_map hnames (hsk ▸ ha') ha0 hname
          subst haa
          exact hj hboth.1
        · have := k.isLt
          rcases create_segments_disjoint world0 preP preV preT hnames a' a (hsk ▸ ha') ha0
            hname with h | h
          · rw [← hs] at h; omega
          · rw [← hs] at h; omega)
    rw [MatrixXd.mget_of_lt _ j.isLt (show s.skeletonOffset a.name + k.val < s.mNumDOFs by
      have := k.isLt; omega)] at hz
    exact Option.some.inj hz

/-- In a world without constraint group the three output vectors of `backprop` have one entry
per DOF. -/
theorem backprop_no_group_sizes_aux (world0 world : World) (preP preV preT : VectorXd)
    (s : BackpropSnapshot) (this next : LossGradient) (Lv Lp : Fin s.mNumDOFs → ℚ)
    (hs : s = create world0 preP preV preT)
    (hsk : world.skeletons = world0.skeletons)
    (hnames : (world0.skeletons.map Skeleton.name).Nodup)
    (hfree : s.mGradientMatrices = [])
    (hv : next.lossWrtVelocity.read = .ok ⟨_, Lv⟩)
    (hp : next.lossWrtPosition.read = .ok ⟨_, Lp⟩) :
    ∃ out : LossGradient, s.backprop world this next = .ok (out, world)
      ∧ out.lossWrtTorque.size = s.mNumDOFs ∧ out.lossWrtPosition.size = s.mNumDOFs
      ∧ out.lossWrtVelocity.size = s.mNumDOFs := by
  have hbound : ∀ sk ∈ (s.atPreStep world).skeletons,
      s.skeletonOffset sk.name + sk.numDofs ≤ s.mNumDOFs := by
    intro sk hsk'
    have hmem : sk ∈ world0.skeletons := hsk ▸ hsk'
    rw [hs]
    exact create_skeletonOffset_add_le world0 preP preV preT hnames sk hmem
  obtain ⟨out, hout, ho⟩ := backpropFreeSkeletons_ok s (s.atPreStep world) next []
    s.mNumDOFs hv hp (UninitVectorXd.size_of_read hv) (UninitVectorXd.size_of_read hp)
    (s.atPreStep world).skeletons hbound
    { lossWrtPosition := UninitVectorXd.alloc s.mNumDOFs
      lossWrtVelocity := UninitVectorXd.alloc s.mNumDOFs
      lossWrtTorque := UninitVectorXd.alloc s.mNumDOFs } rfl rfl rfl
  refine ⟨out, ?_, ho⟩
  rw [backprop_eq_passes_aux]
  unfold backpropPasses
  rw [hfree]
  simp only [backpropGroups, Result.ok_bind]
  rw [hout]
  rfl

/-- The velocity loss of a world without constraint group, in terms of the analytic
Jacobians. -/
theorem backprop_velocity_loss_aux (cod : CompleteOrthogonalDecomposition)
    (world0 world : World) (preP preV preT : VectorXd) (s : BackpropSnapshot)
    (this next : LossGradient) (Lv Lp : Fin s.mNumDOFs → ℚ)
    (hs : s = create world0 preP preV preT)
    (hsk : world.skeletons = world0.skeletons)
    (hnames : (world0.skeletons.map Skeleton.name).Nodup)
    (hfree : s.mGradientMatrices = [])
    (hmobile : ∀ sk ∈ world.skeletons, sk.mobile = true)
    (hsymm : ∀ sk ∈ world.skeletons, (sk.invMassMatrix (s.atPreStep world).state).IsSymm)
    (hv : next.lossWrtVelocity.read = .ok ⟨_, Lv⟩)
    (hp : next.lossWrtPosition.read = .ok ⟨_, Lp⟩) :
    ∃ (FV VV PC VP : Matrix (Fin s.mNumDOFs) (Fin s.mNumDOFs) ℚ) (out : LossGradient),
      s.getForceVelJacobian cod world = .ok (⟨_, _, FV⟩, world)
      ∧ s.getVelVelJacobian cod world = .ok (⟨_, _, VV⟩, world)
      ∧ s.getPosCJacobian world = .ok (⟨_, _, PC⟩, world)
      ∧ s.getVelPosJacobian cod world = .ok ⟨_, _, VP⟩
      ∧ VP = s.mTimeStep • (1 : Matrix (Fin s.mNumDOFs) (Fin s.mNumDOFs) ℚ)
      ∧ s.backprop world this next = .ok (out, world)
      ∧ out.lossWrtPosition.read
          = .ok ⟨_, Lp - PC.transpose.mulVec (FV.transpose.mulVec Lv)⟩
      ∧ out.lossWrtVelocity.read
          = .ok ⟨_, VV.transpose.mulVec Lv
              + VP.transpose.mulVec (Lp - PC.transpose.mulVec (FV.transpose.mulVec Lv))⟩ := by
  obtain ⟨FV, out, hFV, hout, htorque⟩ := backprop_torque_aux cod world0 world preP preV preT s
    this next Lv Lp hs hsk hnames hfree hmobile hsymm hv hp
  obtain ⟨PC, hPC, hPCcol⟩ := blockDiagonal_transpose_mulVec_aux world0 world preP preV preT s
    .POS_C hs hsk hnames
  obtain ⟨VC, hVC, hVCcol⟩ := blockDiagonal_transpose_mulVec_aux world0 world preP preV preT s
    .VEL_C hs hsk hnames
  have hclamp : s.mNumClamping = 0 := by
    subst hs
    exact create_mNumClamping_of_no_group world0 preP preV preT hfree
  have hA : s.getClampingConstraintMatrix world
      = .ok ⟨s.mNumDOFs, s.mNumClamping, 0⟩ :=
    assembleMatrix_of_no_group s world .CLAMPING hfree
  have hVV := (getVelVelJacobian_eq_aux cod s world 0 FV VC hA hFV hVC).1
    (by rw [hclamp, Nat.mul_zero])
  have hbounce : s.mNumBouncing = 0 := by
    subst hs
    have h := create_numColsToAssemble world0 preP preV preT .BOUNCING
      (by rw [hfree]; intro g hg; cases hg)
    rw [hfree] at h
    exact h.symm
  have hVP : s.getVelPosJacobian cod world
      = .ok ⟨_, _, s.mTimeStep • (1 : Matrix (Fin s.mNumDOFs) (Fin s.mNumDOFs) ℚ)⟩ := by
    unfold getVelPosJacobian
    rw [getPosPosJacobian_no_bounce_aux cod s world ⟨s.mNumDOFs, s.mNumBouncing, 0⟩
      (assembleMatrix_of_no_group s world .BOUNCING hfree)
      (by simp [MatrixXd.size, hbounce])]
    rfl
  obtain ⟨out1, hout1, -, hsizeP, hsizeV⟩ := backprop_no_group_sizes_aux world0 world preP preV
    preT s this next Lv Lp hs hsk hnames hfree hv hp
  have hoo1 : out1 = out := by
    rw [hout] at hout1
    simp only [Except.ok.injEq, Prod.mk.injEq] at hout1
    exact hout1.1.symm
  subst hoo1
  -- the coefficients of the two losses on the segment of the skeleton that holds index `i`
  have hcoef : ∀ i : Fin s.mNumDOFs,
      out1.lossWrtPosition.get i.val
          = some ((Lp - PC.transpose.mulVec (FV.transpose.mulVec Lv)) i)
        ∧ out1.lossWrtVelocity.get i.val
          = some ((Lv - VC.transpose.mulVec (FV.transpose.mulVec Lv)
              + s.mTimeStep • (Lp - PC.transpose.mulVec (FV.transpose.mulVec Lv))) i) := by
    intro i
    obtain ⟨a, ha0, hlo, hhi⟩ := create_segments_cover world0 preP preV preT hnames i.val
      (by rw [← hs]; exact i.isLt)
    rw [← hs] at hlo hhi
    have ha : a ∈ world.skeletons := hsk ▸ ha0
    have hle : s.skeletonOffset a.name + a.numDofs ≤ s.mNumDOFs := by
      rw [hs]
      exact create_skeletonOffset_add_le world0 preP preV preT hnames a ha0
    obtain ⟨out', hout', nextVel, nextPos, torque, pos, vel, hnv, hnp, -, hpos, hvel, hget⟩ :=
      backprop_free_mobile_skeleton_aux world0 world preP preV preT s this next a hs hsk hnames
        ha (by rw [hfree]; intro g hg; cases hg) (hmobile a ha) (by rw [hout]; rfl)
    have hoo : out' = out1 := by
      rw [hout] at hout'
      simp only [Except.ok.injEq, Prod.mk.injEq] at hout'
      exact hout'.1.symm
    subst hoo
    have hk : i.val - s.skeletonOffset a.name < a.numDofs := by omega
    have hidx : (⟨s.skeletonOffset a.name + (i.val - s.skeletonOffset a.name), by omega⟩ :
        Fin s.mNumDOFs) = i := Fin.ext (by simp only; omega)
    have hik : s.skeletonOffset a.name + (i.val - s.skeletonOffset a.name) = i.val := by omega
    have hnextVel : nextVel = fun b : Fin a.numDofs =>
        Lv ⟨s.skeletonOffset a.name + b.val, by have := b.isLt; omega⟩ := by
      funext b
      have h2 := UninitVectorXd.get_of_read hv
        ⟨s.skeletonOffset a.name + b.val, by have := b.isLt; omega⟩
      rw [hnv b] at h2
      exact Option.some.inj h2
    have hnextPos : nextPos = fun b : Fin a.numDofs =>
        Lp ⟨s.skeletonOffset a.name + b.val, by have := b.isLt; omega⟩ := by
      funext b
      have h2 := UninitVectorXd.get_of_read hp
        ⟨s.skeletonOffset a.name + b.val, by have := b.isLt; omega⟩
      rw [hnp b] at h2
      exact Option.some.inj h2
    have htq : torque = fun b : Fin a.numDofs =>
        (FV.transpose.mulVec Lv) ⟨s.skeletonOffset a.name + b.val, by
          have := b.isLt; omega⟩ := by
      funext b
      have h2 := UninitVectorXd.get_of_read htorque
        ⟨s.skeletonOffset a.name + b.val, by have := b.isLt; omega⟩
      rw [(hget b).1] at h2
      exact Option.some.inj h2
    have hP := hPCcol a ha (a.posCJacobian (s.atPreStep world).state) rfl
      (FV.transpose.mulVec Lv) ⟨i.val - s.skeletonOffset a.name, hk⟩ hle
    have hV := hVCcol a ha (a.velCJacobian (s.atPreStep world).state) rfl
      (FV.transpose.mulVec Lv) ⟨i.val - s.skeletonOffset a.name, hk⟩ hle
    rw [hidx, ← htq] at hP hV
    have hposk : pos ⟨i.val - s.skeletonOffset a.name, hk⟩
        = (Lp - PC.transpose.mulVec (FV.transpose.mulVec Lv)) i := by
      rw [hpos, Pi.sub_apply, Pi.sub_apply, hP, hnextPos]
      simp only [hidx]
    have hg := hget ⟨i.val - s.skeletonOffset a.name, hk⟩
    simp only [hik] at hg
    refine ⟨hg.2.1.trans (congrArg some hposk), hg.2.2.trans (congrArg some ?_)⟩
    rw [hvel, Pi.add_apply, Pi.add_apply, Pi.sub_apply, Pi.sub_apply, Pi.smul_apply,
      Pi.smul_apply, hV, hposk, hnextVel]
    simp only [hidx]
  have hVVt : (1 - FV * VC).transpose.mulVec Lv
      = Lv - VC.transpose.mulVec (FV.transpose.mulVec Lv) := by
    rw [Matrix.transpose_sub, Matrix.transpose_one, Matrix.transpose_mul, Matrix.sub_mulVec,
      Matrix.one_mulVec, Matrix.mulVec_mulVec]
  have hVPt : ∀ x : Fin s.mNumDOFs → ℚ,
      (s.mTimeStep • (1 : Matrix (Fin s.mNumDOFs) (Fin s.mNumDOFs) ℚ)).transpose.mulVec x
        = s.mTimeStep • x := by
    intro x
    rw [Matrix.transpose_smul, Matrix.transpose_one, Matrix.smul_mulVec_assoc,
      Matrix.one_mulVec]
  refine ⟨FV, 1 - FV * VC, PC, s.mTimeStep • 1, out1, hFV, hVV, hPC, hVP, rfl, hout,
    UninitVectorXd.read_of_get hsizeP (fun i => (hcoef i).1), ?_⟩
  rw [hVVt, hVPt]
  exact UninitVectorXd.read_of_get hsizeV (fun i => (hcoef i).2)

end BackpropSnapshot

namespace BackpropSnapshot

/-- C21 (amended): for a snapshot built by the constructor from a world with pairwise distinct
skeleton names, without constraint group, all of whose skeletons are mobile and have a symmetric
inverse mass matrix at the pre-step state, and for every next-timestep loss `(Lp, Lv)` given on
all DOFs: `backprop` returns, the position loss it returns for this timestep is
`Lp' = Lp - posCJacobian^T * (forceVelJacobian^T * Lv)`, and the velocity loss it returns is
`velVelJacobian^T * Lv + velPosJacobian^T * Lp'`, with the analytic Jacobians that the accessors
of the snapshot return (`velPosJacobian = dt * I`): the position term carries the position loss
of this timestep, not `Lp`. The velocity loss is therefore
`(velVelJacobian - dt * forceVelJacobian * posCJacobian)^T * Lv + dt * Lp`, so that basis vectors
injected as `Lv` with `Lp = 0` give the rows of `velVelJacobian - dt * forceVelJacobian *
posCJacobian`. -/
theorem backprop_velocity_loss (cod : CompleteOrthogonalDecomposition)
    (world0 world : World) (preP preV preT : VectorXd) (s : BackpropSnapshot)
    (this next : LossGradient) (Lv Lp : Fin s.mNumDOFs → ℚ)
    (hs : s = create world0 preP preV preT)
    (hsk : world.skeletons = world0.skeletons)
    (hnames : (world0.skeletons.map Skeleton.name).Nodup)
    (hfree : s.mGradientMatrices = [])
    (hmobile : ∀ sk ∈ world.skeletons, sk.mobile = true)
    (hsymm : ∀ sk ∈ world.skeletons, (sk.invMassMatrix (s.atPreStep world).state).IsSymm)
    (hv : next.lossWrtVelocity.read = .ok ⟨_, Lv⟩)
    (hp : next.lossWrtPosition.read = .ok ⟨_, Lp⟩) :
    ∃ (FV VV PC VP : Matrix (Fin s.mNumDOFs) (Fin s.mNumDOFs) ℚ) (out : LossGradient),
      s.getForceVelJacobian cod world = .ok (⟨_, _, FV⟩, world)
      ∧ s.getVelVelJacobian cod world = .ok (⟨_, _, VV⟩, world)
      ∧ s.getPosCJacobian world = .ok (⟨_, _, PC⟩, world)
      ∧ s.getVelPosJacobian cod world = .ok ⟨_, _, VP⟩
      ∧ VP = s.mTimeStep • (1 : Matrix (Fin s.mNumDOFs) (Fin s.mNumDOFs) ℚ)
      ∧ s.backprop world this next = .ok (out, world)
      ∧ out.lossWrtPosition.read
          = .ok ⟨_, Lp - PC.transpose.mulVec (FV.transpose.mulVec Lv)⟩
      ∧ out.lossWrtVelocity.read
          = .ok ⟨_, VV.transpose.mulVec Lv
              + VP.transpose.mulVec (Lp - PC.transpose.mulVec (FV.transpose.mulVec Lv))⟩
      ∧ VV.transpose.mulVec Lv
            + VP.transpose.mulVec (Lp - PC.transpose.mulVec (FV.transpose.mulVec Lv))
          = (VV - s.mTimeStep • (FV * PC)).transpose.mulVec Lv + s.mTimeStep • Lp := by
  obtain ⟨FV, VV, PC, VP, out, h1, h2, h3, h4, h5, h6, h7, h8⟩ := backprop_velocity_loss_aux cod
    world0 world preP preV preT s this next Lv Lp hs hsk hnames hfree hmobile hsymm hv hp
  refine ⟨FV, VV, PC, VP, out, h1, h2, h3, h4, h5, h6, h7, h8, ?_⟩
  rw [h5, Matrix.transpose_smul, Matrix.transpose_one, Matrix.smul_mulVec_assoc,
    Matrix.one_mulVec, Matrix.transpose_sub, Matrix.transpose_smul, Matrix.transpose_mul,
    Matrix.sub_mulVec, Matrix.smul_mulVec_assoc, Matrix.mulVec_mulVec, smul_sub]
  abel

/-- C21, witness: the pendulum next to the free body, with the next velocity loss
`(5, 6, 7, 8)` and the next position loss `(1, 2, 3, 4)`. -/
theorem backprop_velocity_loss_witness :
    ∃ (FV VV PC VP : Matrix (Fin 4) (Fin 4) ℚ) (out : LossGradient),
      Scenario.duoSnapshot.getForceVelJacobian Scenario.cramer Scenario.duoWorld
        = .ok (⟨4, 4, FV⟩, Scenario.duoWorld)
      ∧ Scenario.duoSnapshot.getVelVelJacobian Scenario.cramer Scenario.duoWorld
        = .ok (⟨4, 4, VV⟩, Scenario.duoWorld)
      ∧ Scenario.duoSnapshot.getPosCJacobian Scenario.duoWorld
        = .ok (⟨4, 4, PC⟩, Scenario.duoWorld)
      ∧ Scenario.duoSnapshot.getVelPosJacobian Scenario.cramer Scenario.duoWorld
        = .ok ⟨4, 4, VP⟩
      ∧ VP = (1 / 2 : ℚ) • (1 : Matrix (Fin 4) (Fin 4) ℚ)
      ∧ Scenario.duoSnapshot.backprop Scenario.duoWorld Scenario.duoLoss Scenario.duoLoss
        = .ok (out, Scenario.duoWorld)
      ∧ out.lossWrtPosition.read
          = .ok ⟨4, ![1, 2, 3, 4] - PC.transpose.mulVec (FV.transpose.mulVec ![5, 6, 7, 8])⟩
      ∧ out.lossWrtVelocity.read
          = .ok ⟨4, VV.transpose.mulVec ![5, 6, 7, 8]
              + VP.transpose.mulVec
                (![1, 2, 3, 4] - PC.transpose.mulVec (FV.transpose.mulVec ![5, 6, 7, 8]))⟩
      ∧ VV.transpose.mulVec ![5, 6, 7, 8]
            + VP.transpose.mulVec
              (![1, 2, 3, 4] - PC.transpose.mulVec (FV.transpose.mulVec ![5, 6, 7, 8]))
          = (VV - (1 / 2 : ℚ) • (FV * PC)).transpose.mulVec ![5, 6, 7, 8]
            + (1 / 2 : ℚ) • ![1, 2, 3, 4] :=
  backprop_velocity_loss Scenario.cramer Scenario.duoWorld Scenario.duoWorld
    (VectorXd.Zero 4) (VectorXd.Zero 4) (VectorXd.Zero 4) Scenario.duoSnapshot Scenario.duoLoss
    Scenario.duoLoss ![5, 6, 7, 8] ![1, 2, 3, 4] rfl rfl (by decide) rfl Scenario.duo_mobile
    Scenario.duo_symm (UninitVectorXd.read_ofVector _) (UninitVectorXd.read_ofVector _)

end BackpropSnapshot
